import Mathlib

/-!
# Reaction compiler of MCell: a shallow embedding of `create_reactions.c`

The C structures `species`, `product` and `pathway` become Lean structures, the
singly linked lists chained through `next` become `List`s, and a call of
`mcell_error` (which terminates the program) becomes `Except.error`.

Orientations are C `short`s that the functions below widen to `int` before they
negate them or take `abs`; no operation on them can overflow, so they are
modelled as `Int`.
-/

namespace MCell

/-! ## Data model -/

/-- Species flag `ON_GRID` of `mcell_structs.h`. -/
def ON_GRID : Nat := 0x02

/-- Species flag `IS_SURFACE` of `mcell_structs.h`: set for surface classes. -/
def IS_SURFACE : Nat := 0x04

/-- Modelled from the spec: the pathway flag `PATHW_TRANSP`, whose declaration is
not among the headers; the four pathway flags are distinct single bits. -/
def PATHW_TRANSP : Nat := 0x0001

/-- Modelled from the spec: the pathway flag `PATHW_REFLEC` (see `PATHW_TRANSP`). -/
def PATHW_REFLEC : Nat := 0x0002

/-- Modelled from the spec: the pathway flag `PATHW_ABSORP` (see `PATHW_TRANSP`). -/
def PATHW_ABSORP : Nat := 0x0004

/-- Modelled from the spec: the pathway flag `PATHW_CLAMP_CONC` (see `PATHW_TRANSP`). -/
def PATHW_CLAMP_CONC : Nat := 0x0008

/-- The fields of `struct species` that the reaction compiler reads: the unique id,
the name held by the symbol table entry (`sym->name`) and the flag word.  Two
species pointers are equal exactly when they point to the same record. -/
structure species where
  species_id : Nat
  name : String
  flags : Nat
deriving DecidableEq, Repr

/-- One node of the product list of a pathway (`struct product` without `next`). -/
structure product where
  prod : species
  orientation : Int
  is_complex : Nat
deriving DecidableEq, Repr

/-- The fields of `struct pathway` used by normalisation, splitting and the
duplicate check.  A `NULL` reactant or a `NULL` signature is `none`; the array
`is_complex[3]` is spelled out slot by slot. -/
structure pathway where
  reactant1 : Option species
  reactant2 : Option species
  reactant3 : Option species
  orientation1 : Int
  orientation2 : Int
  orientation3 : Int
  is_complex0 : Nat
  is_complex1 : Nat
  is_complex2 : Nat
  flags : Nat
  product_head : List product
  prod_signature : Option String
deriving DecidableEq, Repr

/-- The fields of `struct rxn` that `split_reaction` touches: the reactant count
(a `u_int`), the pathway count and the pathway list.  The list of reactions chained through
`next` is a `List rxn`.  The pointer `sym` to the symbol table entry of the
reaction is a number, 0 when nothing is said. -/
structure rxn where
  n_reactants : Nat
  n_pathways : Int
  pathway_head : List pathway
  sym : Nat := 0
deriving DecidableEq, Repr

/-- Character-wise comparison behind `strcmp`: the first differing character
decides, and a string that ends first is the smaller one. -/
def strcmp_chars : List Char → List Char → Int
  | [], [] => 0
  | [], _ :: _ => -1
  | _ :: _, [] => 1
  | a :: as, b :: bs =>
    if a.toNat < b.toNat then -1
    else if b.toNat < a.toNat then 1
    else strcmp_chars as bs

/-- The C library `strcmp` on two names, up to the magnitude of the result:
negative, zero or positive as the first name is below, equal to or above the
second.  Every caller only tests the sign. -/
def strcmp (a b : String) : Int := strcmp_chars a.data b.data

/-- The C library `abs` on an orientation already widened to `int`. -/
def c_abs (x : Int) : Int := if x < 0 then -x else x

/-! ## Orientation-class equivalence -/

/-- The function `equivalent_geometry_for_two_reactants` of `create_reactions.c`;
it returns the C truth values 1 and 0. -/
def equivalent_geometry_for_two_reactants (o1a o1b o2a o2b : Int) : Int :=
  if o1a = o1b ∧ o2a = o2b then 1
  else if o1a = -o1b ∧ o2a = -o2b then 1
  else if c_abs o1a ≠ c_abs o1b ∧ (c_abs o2a ≠ c_abs o2b ∨ (o2a = 0 ∧ o2b = 0)) then 1
  else if c_abs o2a ≠ c_abs o2b ∧ (c_abs o1a ≠ c_abs o1b ∨ (o1a = 0 ∧ o1b = 0)) then 1
  else 0

/-- The orientation relationship of two players, as the RULE comment above
`check_reaction_for_duplicate_pathways` words it. -/
inductive OrientRel where
  | parallel
  | antiparallel
  | independent
deriving DecidableEq, Repr

/-- Specification-side classification of a pair of orientations: parallel when
both are equal and nonzero, antiparallel when they are nonzero and one is the
negation of the other, independent otherwise (different absolute values, or
both zero). -/
def orientRel (a b : Int) : OrientRel :=
  if a = b ∧ a ≠ 0 then OrientRel.parallel
  else if a = -b ∧ a ≠ 0 then OrientRel.antiparallel
  else OrientRel.independent

/-- The value `SHRT_MIN` that seeds the four comparison flags of
`equivalent_geometry`. -/
def SHRT_MIN : Int := -32768

/-- The result of `memcmp(p1->is_complex, p2->is_complex, 3)` as a truth value:
nonzero exactly when some slot differs. -/
def memcmp_is_complex (p1 p2 : pathway) : Int :=
  if p1.is_complex0 = p2.is_complex0 ∧ p1.is_complex1 = p2.is_complex1 ∧
      p1.is_complex2 = p2.is_complex2 then 0 else 1

/-- The branch of `equivalent_geometry` for three reactants of which the first
two are the same species in both pathways ("special case: two identical
reactants"), on the six orientations. -/
def equivalent_geometry_identical (o11 o12 o13 o21 o22 o23 : Int) : Int :=
  /- Case 1: two molecules and surface are in the same orientation class -/
  if c_abs o11 = c_abs o12 ∧ c_abs o11 = c_abs o13 then
    let mols_parallel_1 : Int := if o11 = o12 then 1 else 0
    let mol_surf_parallel_1 : Int :=
      if mols_parallel_1 ≠ 0 then (if o11 = -o13 ∨ o12 = -o13 then 0 else 1) else 0
    let mols_parallel_2 : Int :=
      if c_abs o21 = c_abs o22 ∧ c_abs o21 = c_abs o23 then (if o21 = o22 then 1 else 0)
      else SHRT_MIN + 2
    let mol_surf_parallel_2 : Int :=
      if c_abs o21 = c_abs o22 ∧ c_abs o21 = c_abs o23 then
        (if o21 = o22 then (if o21 = -o23 ∨ o22 = -o23 then 0 else 1) else 0)
      else SHRT_MIN + 4
    if mols_parallel_1 = mols_parallel_2 ∧ mol_surf_parallel_1 = mol_surf_parallel_2 then 1
    else 0
  /- Case 2: one molecule and surface are in the same orientation class -/
  else if c_abs o11 = c_abs o13 ∨ c_abs o12 = c_abs o13 then
    let mol_surf_parallel_1 : Int := if o11 = o13 ∨ o12 = o13 then 1 else 0
    let mol_surf_parallel_2 : Int :=
      if c_abs o21 ≠ c_abs o23 ∨ c_abs o22 ≠ c_abs o23 then
        (if c_abs o21 = c_abs o23 ∨ c_abs o22 = c_abs o23 then
          (if o21 = o23 ∨ o22 = o23 then 1 else 0)
         else SHRT_MIN + 4)
      else SHRT_MIN + 4
    if mol_surf_parallel_1 = mol_surf_parallel_2 then 1 else 0
  /- Case 3: two molecules but not surface are in the same orientation class -/
  else if c_abs o11 = c_abs o12 ∧ c_abs o11 ≠ c_abs o13 then
    let mols_parallel_1 : Int := if o11 = o12 then 1 else 0
    let mols_parallel_2 : Int :=
      if c_abs o21 = c_abs o22 ∧ c_abs o21 ≠ c_abs o23 then (if o21 = o22 then 1 else 0)
      else SHRT_MIN + 2
    if mols_parallel_1 = mols_parallel_2 then 1 else 0
  /- Case 4: all molecules and surface are in different orientation classes -/
  else if c_abs o11 ≠ c_abs o13 ∧ c_abs o12 ≠ c_abs o13 ∧ c_abs o11 ≠ c_abs o12 then
    if c_abs o21 ≠ c_abs o23 ∧ c_abs o22 ≠ c_abs o23 ∧ c_abs o21 ≠ c_abs o22 then 1 else 0
  else 0

/-- The function `equivalent_geometry` of `create_reactions.c`. -/
def equivalent_geometry (p1 p2 : pathway) (n : Int) : Int :=
  if memcmp_is_complex p1 p2 ≠ 0 then 0
  else if n < 2 then 1
  else if n < 3 then
    equivalent_geometry_for_two_reactants p1.orientation1 p1.orientation2
      p2.orientation1 p2.orientation2
  else if n < 4 then
    if p1.reactant1 = p1.reactant2 ∧ p2.reactant1 = p2.reactant2 then
      equivalent_geometry_identical p1.orientation1 p1.orientation2 p1.orientation3
        p2.orientation1 p2.orientation2 p2.orientation3
    else if equivalent_geometry_for_two_reactants p1.orientation1 p1.orientation2
          p2.orientation1 p2.orientation2 ≠ 0
        ∧ equivalent_geometry_for_two_reactants p1.orientation2 p1.orientation3
          p2.orientation2 p2.orientation3 ≠ 0
        ∧ equivalent_geometry_for_two_reactants p1.orientation1 p1.orientation3
          p2.orientation1 p2.orientation3 ≠ 0 then 1
    else 0
  else 0

/-! ## Product signature -/

/-- The function `sort_product_list_compare` of `create_reactions.c`. -/
def sort_product_list_compare (list_item new_item : product) : Int :=
  let cmp : Int := (list_item.is_complex : Int) - (new_item.is_complex : Int)
  if cmp ≠ 0 then cmp
  else
    let cmp : Int := strcmp list_item.prod.name new_item.prod.name
    if cmp = 0 then
      if list_item.orientation > new_item.orientation then -1
      else if list_item.orientation < new_item.orientation then 1
      else 0
    else cmp

/-- The scan loop of `sort_product_list`, started with `iter` at the head of the
argument: `while (iter->next != NULL && compare(iter, current) < 0) iter = iter->next;`
followed by the insertion of `current` right after `iter`.  The sorted list is
never empty when the loop starts. -/
def sort_product_list_scan (current : product) : List product → List product
  | [] => [current]
  | iter :: rest =>
    if rest ≠ [] ∧ sort_product_list_compare iter current < 0 then
      iter :: sort_product_list_scan current rest
    else iter :: current :: rest

/-- One round of the `for` loop of `sort_product_list`: place `current` into the
partial result `result`. -/
def sort_product_list_insert (result : List product) (current : product) : List product :=
  match result with
  | [] => [current]
  | head :: _ =>
    if sort_product_list_compare head current ≥ 0 then current :: result
    else sort_product_list_scan current result

/-- The function `sort_product_list` of `create_reactions.c`. -/
def sort_product_list (product_head : List product) : List product :=
  product_head.foldl sort_product_list_insert []

/-- The `while` loop of `create_prod_signature`: append `+name` for every node
after the first. -/
def create_prod_signature_concat (prod_signature : String) : List product → String
  | [] => prod_signature
  | nxt :: rest => create_prod_signature_concat (prod_signature ++ "+" ++ nxt.prod.name) rest

/-- The function `create_prod_signature` of `create_reactions.c` on a non-empty
product list: the signature and the sorted list left in `*product_head`.  (The C
function dereferences the head, so it is only called on a non-empty list; the
empty list yields no signature here.) -/
def create_prod_signature (product_head : List product) : Option String × List product :=
  match sort_product_list product_head with
  | [] => (none, [])
  | current :: rest =>
    (some (create_prod_signature_concat current.prod.name rest), current :: rest)

/-- The function `create_product_signature` of `create_reactions.c`: the pathway
with `prod_signature` set (and its product list sorted), or with a `NULL`
signature when it has no product. -/
def create_product_signature (path : pathway) : pathway :=
  match path.product_head with
  | [] => { path with prod_signature := none }
  | _ :: _ =>
    { path with
      prod_signature := (create_prod_signature path.product_head).1
      product_head := (create_prod_signature path.product_head).2 }

/-! ## Pathway normalisation -/

/-- The "put surface last" swaps in the pathway loop of `finalize_reaction`
(for `n_reactants > 1`).  Only species and orientations are exchanged.  A `NULL`
reactant that the C code would dereference gives `none`. -/
def finalize_reaction_surface_last (path : pathway) (n_reactants : Nat) : Option pathway := do
  let r1 ← path.reactant1
  let path1 : pathway :=
    if r1.flags &&& IS_SURFACE ≠ 0 then
      { path with
        reactant1 := path.reactant2, reactant2 := path.reactant1
        orientation1 := path.orientation2, orientation2 := path.orientation1 }
    else path
  if n_reactants > 2 then do
    let r2 ← path1.reactant2
    if r2.flags &&& IS_SURFACE ≠ 0 then
      pure { path1 with
        reactant3 := path1.reactant2, reactant2 := path1.reactant3
        orientation3 := path1.orientation2, orientation2 := path1.orientation3 }
    else pure path1
  else pure path1

/-- First half of `alphabetize_pathway` ("Alphabetize if we have two molecules"). -/
def alphabetize_pathway_two (path : pathway) : Option pathway := do
  let r2 ← path.reactant2
  if r2.flags &&& IS_SURFACE = 0 then do
    let r1 ← path.reactant1
    if strcmp r1.name r2.name > 0 then
      pure { path with
        reactant1 := path.reactant2, reactant2 := path.reactant1
        orientation1 := path.orientation2, orientation2 := path.orientation1
        is_complex0 := path.is_complex1, is_complex1 := path.is_complex0 }
    else if strcmp r1.name r2.name = 0 then
      if path.orientation1 < path.orientation2 then
        pure { path with
          orientation1 := path.orientation2, orientation2 := path.orientation1
          is_complex0 := path.is_complex1, is_complex1 := path.is_complex0 }
      else pure path
    else pure path
  else pure path

/-- Second half of `alphabetize_pathway` ("Alphabetize if we have three
molecules"); the `is_complex` slots are not touched here. -/
def alphabetize_pathway_three (path : pathway) : Option pathway := do
  let r3 ← path.reactant3
  if r3.flags &&& IS_SURFACE = 0 then do
    let r1 ← path.reactant1
    if strcmp r1.name r3.name > 0 then
      pure { path with
        reactant1 := path.reactant3, orientation1 := path.orientation3
        reactant2 := path.reactant1, orientation2 := path.orientation1
        reactant3 := path.reactant2, orientation3 := path.orientation2 }
    else do
      let r2 ← path.reactant2
      if strcmp r2.name r3.name > 0 then
        pure { path with
          reactant2 := path.reactant3, reactant3 := path.reactant2
          orientation2 := path.orientation3, orientation3 := path.orientation2 }
      else pure path
  else pure path

/-- The function `alphabetize_pathway` of `create_reactions.c`. -/
def alphabetize_pathway (path : pathway) (n_reactants : Nat) : Option pathway := do
  let path1 ← alphabetize_pathway_two path
  if n_reactants = 3 then alphabetize_pathway_three path1 else pure path1

/-- Normalisation of one pathway: the body of the pathway loop of
`finalize_reaction` without the duplicate-special check, that is the surface-last
swaps followed by `alphabetize_pathway`, both only when `n_reactants > 1`. -/
def normalize_pathway (path : pathway) (n_reactants : Nat) : Option pathway :=
  if n_reactants > 1 then do
    let path1 ← finalize_reaction_surface_last path n_reactants
    alphabetize_pathway path1 n_reactants
  else pure path

/-! ## Splitting a reaction into geometry classes -/

/-- The function `create_sibling_reaction` of `create_reactions.c`: a fresh
reaction that inherits `sym` and `n_reactants` and holds no pathway. -/
def create_sibling_reaction (rx : rxn) : rxn :=
  { n_reactants := rx.n_reactants, n_pathways := 0, pathway_head := [], sym := rx.sym }

/-- The `for` loop over the reactions built so far in `split_reaction`, fused with
the attachment that follows it: the first reaction whose head pathway is not
`TRANSP`, `REFLEC` or `ABSORP` and is geometry-equivalent to `to_place` gets
`to_place` as its new head pathway.  The result is `none` when the loop runs off
the end (`curr_rxn_ptr == NULL`).  Every reaction of the list holds at least one
pathway, so the first `match` arm is never taken. -/
def split_reaction_place (to_place : pathway) : List rxn → Option (List rxn)
  | [] => none
  | curr :: rest =>
    match curr.pathway_head with
    | [] => (split_reaction_place to_place rest).map (fun l => curr :: l)
    | head :: _ =>
      if head.flags &&& (PATHW_TRANSP ||| PATHW_REFLEC ||| PATHW_ABSORP) ≠ 0 then
        (split_reaction_place to_place rest).map (fun l => curr :: l)
      else if equivalent_geometry to_place head (curr.n_reactants : Int) ≠ 0 then
        some ({ curr with
                pathway_head := to_place :: curr.pathway_head
                n_pathways := curr.n_pathways + 1 } :: rest)
      else (split_reaction_place to_place rest).map (fun l => curr :: l)

/-- The `while (to_place != NULL)` loop of `split_reaction`; `rxns` is the list of
reactions from `head` to `end`. -/
def split_reaction_loop (rx : rxn) : List pathway → List rxn → List rxn
  | [], rxns => rxns
  | to_place :: rest, rxns =>
    if to_place.flags &&&
        (PATHW_TRANSP ||| PATHW_REFLEC ||| PATHW_ABSORP ||| PATHW_CLAMP_CONC) ≠ 0 then
      split_reaction_loop rx rest
        (rxns ++ [{ create_sibling_reaction rx with
                    pathway_head := [to_place]
                    n_pathways := (create_sibling_reaction rx).n_pathways + 1 }])
    else
      match split_reaction_place to_place rxns with
      | some rxns1 => split_reaction_loop rx rest rxns1
      | none =>
        split_reaction_loop rx rest
          (rxns ++ [{ create_sibling_reaction rx with
                      pathway_head := to_place :: (create_sibling_reaction rx).pathway_head
                      n_pathways := (create_sibling_reaction rx).n_pathways + 1 }])

/-- The function `split_reaction` of `create_reactions.c`.  It dereferences the
first pathway, so a reaction without pathways gives `none`. -/
def split_reaction (rx : rxn) : Option (List rxn) :=
  match rx.pathway_head with
  | [] => none
  | first :: to_place =>
    some (split_reaction_loop rx to_place
      [{ rx with pathway_head := [first], n_pathways := 1 }])

/-- A pathway is special when it carries `TRANSP`, `REFLEC`, `ABSORP` or
`CLAMP_CONC`. -/
def is_special (p : pathway) : Bool :=
  p.flags &&& (PATHW_TRANSP ||| PATHW_REFLEC ||| PATHW_ABSORP ||| PATHW_CLAMP_CONC) ≠ 0

/-! ## Duplicate check -/

/-- The error raised through `mcell_error` by the duplicate check
("Exact duplicates of reaction ... are not allowed"). -/
inductive rxn_error where
  | duplicate_reaction
deriving DecidableEq, Repr

deriving instance DecidableEq for Except

/-- First loop of `check_reaction_for_duplicate_pathways`: unlink every pathway
with a `NULL` signature and push it on `null_result`.  The result is the remaining
list and the final `null_result`. -/
def extract_null_signature : List pathway → List pathway → List pathway × List pathway
  | [], null_result => ([], null_result)
  | current :: rest, null_result =>
    if current.prod_signature = none then
      extract_null_signature rest (current :: null_result)
    else
      ((current :: (extract_null_signature rest null_result).1),
        (extract_null_signature rest null_result).2)

/-- The signature string of a pathway that has one (`p->prod_signature`). -/
def signature_of (p : pathway) : String :=
  match p.prod_signature with
  | some s => s
  | none => ""

/-- The inner `while` loop of the signature sort, started with `iter` at the head
of the argument: advance while `iter->next` has a signature below that of
`current`, then link `current` after `iter`. -/
def pathway_sort_scan (current : pathway) : List pathway → List pathway
  | [] => [current]
  | iter :: rest =>
    match rest with
    | [] => [iter, current]
    | nxt :: _ =>
      if strcmp (signature_of nxt) (signature_of current) < 0 then
        iter :: pathway_sort_scan current rest
      else iter :: current :: rest

/-- One round of the signature sort: insert `current` in sorted order into
`result`. -/
def pathway_sort_insert (result : List pathway) (current : pathway) : List pathway :=
  match result with
  | [] => [current]
  | head :: _ =>
    if strcmp (signature_of head) (signature_of current) ≥ 0 then current :: result
    else pathway_sort_scan current result

/-- The number of non-`NULL` reactants counted by the duplicate check. -/
def count_reactants (p : pathway) : Nat :=
  (if p.reactant1.isSome then 1 else 0) + (if p.reactant2.isSome then 1 else 0) +
    (if p.reactant3.isSome then 1 else 0)

/-- Store the products' orientations from index `i` on. -/
def store_orientations : List Int → Nat → List product → List Int
  | a, _, [] => a
  | a, i, pr :: rest => store_orientations (a.set i pr.orientation) (i + 1) rest

/-- The array `orient_players` that the duplicate check fills for one pathway: an
array of `num_players` cells in which slot 0, 1, 2 receives the orientation of
reactant 1, 2, 3 when that reactant is not `NULL`, and the cells from
`num_reactants` on receive the orientations of the products in list order.  A
cell that the C code leaves unwritten reads 0 here; there is none when the
reactants fill the leading slots and the pathway has as many products as the
player count asks for, which holds for two pathways of equal signature. -/
def orient_players (p : pathway) (num_reactants num_players : Nat) : List Int :=
  let a0 : List Int := List.replicate num_players 0
  let a1 := if p.reactant1.isSome then a0.set 0 p.orientation1 else a0
  let a2 := if p.reactant2.isSome then a1.set 1 p.orientation2 else a1
  let a3 := if p.reactant3.isSome then a2.set 2 p.orientation3 else a2
  store_orientations a3 num_reactants (p.product_head.take (num_players - num_reactants))

/-- The pair loop of the duplicate check: `pathways_equivalent` stays 1 exactly
when every pair `(i, j)` with `j` from `num_reactants` (for a reactant `i`) or
from `i + 1` (for a product `i`) up to `num_players - 1` passes
`equivalent_geometry_for_two_reactants`. -/
def pathways_equivalent (o1 o2 : List Int) (num_reactants num_players : Nat) : Bool :=
  (List.range num_players).all fun i =>
    ((List.range num_players).filter fun j =>
        decide ((if i < num_reactants then num_reactants else i + 1) ≤ j)).all fun j =>
      decide (equivalent_geometry_for_two_reactants (o1.getD i 0) (o1.getD j 0)
        (o2.getD i 0) (o2.getD j 0) ≠ 0)

/-- The test made on two adjacent pathways `current` and `current->next` of the
sorted list: equal signatures and equivalent player orientations.  The player
count is taken from `current`. -/
def duplicate_pathways (current nxt : pathway) : Bool :=
  decide (strcmp (signature_of current) (signature_of nxt) = 0) &&
    pathways_equivalent
      (orient_players current (count_reactants current)
        (count_reactants current + current.product_head.length))
      (orient_players nxt (count_reactants current)
        (count_reactants current + current.product_head.length))
      (count_reactants current) (count_reactants current + current.product_head.length)

/-- The walk down the sorted list comparing adjacent nodes; `true` when some
adjacent pair is a duplicate, in which case `mcell_error` is called. -/
def adjacent_duplicate : List pathway → Bool
  | [] => false
  | [_] => false
  | current :: nxt :: rest =>
    duplicate_pathways current nxt || adjacent_duplicate (nxt :: rest)

/-- The function `check_reaction_for_duplicate_pathways` of `create_reactions.c`:
the new value of `*head`, or the duplicate-reaction error. -/
def check_reaction_for_duplicate_pathways (head : List pathway) :
    Except rxn_error (List pathway) :=
  let remaining := (extract_null_signature head []).1
  let null_result := (extract_null_signature head []).2
  if null_result.length ≥ 2 then Except.error rxn_error.duplicate_reaction
  else
    let result := remaining.foldl pathway_sort_insert []
    if adjacent_duplicate result then Except.error rxn_error.duplicate_reaction
    else
      match null_result, result with
      | [], _ => Except.ok result
      | _ :: _, [] => Except.ok null_result
      | n :: _, _ :: _ => Except.ok (result ++ [n])

/-! ## Sample data -/

/-- A volume molecule species. -/
def sample_molecule (id : Nat) (name : String) : species :=
  { species_id := id, name := name, flags := 0 }

/-- A surface class species. -/
def sample_surface (id : Nat) (name : String) : species :=
  { species_id := id, name := name, flags := IS_SURFACE }

/-- A product without orientation that is not a complex. -/
def sample_product (id : Nat) (name : String) : product :=
  { prod := sample_molecule id name, orientation := 0, is_complex := 0 }

/-- The pathway `A + B -> ...` with the given orientations and flags, before its
products are attached. -/
def sample_pathway2 (o1 o2 : Int) (flags : Nat) : pathway :=
  { reactant1 := some (sample_molecule 1 "A"), reactant2 := some (sample_molecule 2 "B")
    reactant3 := none
    orientation1 := o1, orientation2 := o2, orientation3 := 0
    is_complex0 := 0, is_complex1 := 0, is_complex2 := 0
    flags := flags, product_head := [], prod_signature := none }

/-- The pathway `A @ S -> ...` of a molecule at a surface class. -/
def sample_surface_pathway (o1 o2 : Int) (flags : Nat) : pathway :=
  { reactant1 := some (sample_molecule 1 "A"), reactant2 := some (sample_surface 9 "S")
    reactant3 := none
    orientation1 := o1, orientation2 := o2, orientation3 := 0
    is_complex0 := 0, is_complex1 := 0, is_complex2 := 0
    flags := flags, product_head := [], prod_signature := none }

/-- The unimolecular pathway `A -> C` with the given orientations of `A` and `C`,
after `create_product_signature`. -/
def sample_pathway1 (o1 oc : Int) : pathway :=
  { reactant1 := some (sample_molecule 1 "A"), reactant2 := none, reactant3 := none
    orientation1 := o1, orientation2 := 0, orientation3 := 0
    is_complex0 := 0, is_complex1 := 0, is_complex2 := 0
    flags := 0
    product_head := [{ prod := sample_molecule 3 "C", orientation := oc, is_complex := 0 }]
    prod_signature := some "C" }

/-- A pathway with three reactants given by species and orientation. -/
def sample_pathway3 (a b c : species) (o1 o2 o3 : Int) : pathway :=
  { reactant1 := some a, reactant2 := some b, reactant3 := some c
    orientation1 := o1, orientation2 := o2, orientation3 := o3
    is_complex0 := 0, is_complex1 := 0, is_complex2 := 0
    flags := 0, product_head := [], prod_signature := none }

/-- A pathway with two reactants given by species and orientation. -/
def sample_surface_pair (a b : species) (o1 o2 : Int) : pathway :=
  { reactant1 := some a, reactant2 := some b, reactant3 := none
    orientation1 := o1, orientation2 := o2, orientation3 := 0
    is_complex0 := 0, is_complex1 := 0, is_complex2 := 0
    flags := 0, product_head := [], prod_signature := none }

/-- The pathway `A -> (products)` before `create_product_signature`. -/
def sample_unsigned_pathway (products : List product) : pathway :=
  { reactant1 := some (sample_molecule 1 "A"), reactant2 := none, reactant3 := none
    orientation1 := 0, orientation2 := 0, orientation3 := 0
    is_complex0 := 0, is_complex1 := 0, is_complex2 := 0
    flags := 0, product_head := products, prod_signature := none }

/-- The pathway `A -> X` for a product species `X`, after
`create_product_signature`. -/
def sample_pathway_to (id : Nat) (name : String) : pathway :=
  { reactant1 := some (sample_molecule 1 "A"), reactant2 := none, reactant3 := none
    orientation1 := 0, orientation2 := 0, orientation3 := 0
    is_complex0 := 0, is_complex1 := 0, is_complex2 := 0
    flags := 0
    product_head := [sample_product id name]
    prod_signature := some name }

/-! ## Notions used to state the properties -/

/-- The reactant slots that a reaction with `n` reactants uses, each with its
orientation. -/
def reactant_slots (p : pathway) (n : Nat) : List (Option species × Int) :=
  [(p.reactant1, p.orientation1), (p.reactant2, p.orientation2),
    (p.reactant3, p.orientation3)].take n

/-- Whether a reactant slot holds a surface class (a species with `IS_SURFACE`). -/
def is_surface_slot (x : Option species × Int) : Bool :=
  match x.1 with
  | some s => decide (s.flags &&& IS_SURFACE ≠ 0)
  | none => false

/-- Ordering of two pathways by signature, as the signature sort tests it. -/
def signature_le (x y : pathway) : Prop := strcmp (signature_of x) (signature_of y) ≤ 0

/-- The order the product sort is stated to follow: `is_complex` descending, then
species name ascending, then orientation descending. -/
def product_precedes_claimed (x y : product) : Prop :=
  y.is_complex < x.is_complex ∨
    (x.is_complex = y.is_complex ∧
      (strcmp x.prod.name y.prod.name < 0 ∨
        (strcmp x.prod.name y.prod.name = 0 ∧ y.orientation ≤ x.orientation)))

instance product_precedes_claimed_decidable : DecidableRel product_precedes_claimed :=
  fun x y =>
    inferInstanceAs (Decidable (y.is_complex < x.is_complex ∨
      (x.is_complex = y.is_complex ∧
        (strcmp x.prod.name y.prod.name < 0 ∨
          (strcmp x.prod.name y.prod.name = 0 ∧ y.orientation ≤ x.orientation)))))

/-- The order that `sort_product_list_compare` encodes: `is_complex` ascending,
then species name ascending, then orientation descending. -/
def product_precedes (x y : product) : Prop :=
  x.is_complex < y.is_complex ∨
    (x.is_complex = y.is_complex ∧
      (strcmp x.prod.name y.prod.name < 0 ∨
        (strcmp x.prod.name y.prod.name = 0 ∧ y.orientation ≤ x.orientation)))

instance product_precedes_decidable : DecidableRel product_precedes :=
  fun x y =>
    inferInstanceAs (Decidable (x.is_complex < y.is_complex ∨
      (x.is_complex = y.is_complex ∧
        (strcmp x.prod.name y.prod.name < 0 ∨
          (strcmp x.prod.name y.prod.name = 0 ∧ y.orientation ≤ x.orientation)))))


/-! ## Duplicate special reactions (`create_reactions.c`) -/

/-- The error raised through `mcell_error` by `check_duplicate_special_reactions`
("Exact duplicates of special reaction ... are not allowed"). -/
inductive special_rxn_error where
  | duplicate_special
deriving DecidableEq, Repr

/-- The function `check_duplicate_special_reactions` of `create_reactions.c`, on
the pathway list that starts at `path`: `path->next` is the second element.  The
three tests are made in the order `TRANSP`, `REFLEC`, `ABSORP`, and the first
`mcell_error` ends the run. -/
def check_duplicate_special_reactions : List pathway → Except special_rxn_error Unit
  | path :: nxt :: _ =>
    if (path.flags &&& PATHW_TRANSP ≠ 0 ∧ nxt.flags &&& PATHW_TRANSP ≠ 0) ∧
        (path.orientation2 = nxt.orientation2 ∨ path.orientation2 = 0 ∨
          nxt.orientation2 = 0) then
      Except.error special_rxn_error.duplicate_special
    else if (path.flags &&& PATHW_REFLEC ≠ 0 ∧ nxt.flags &&& PATHW_REFLEC ≠ 0) ∧
        (path.orientation2 = nxt.orientation2 ∨ path.orientation2 = 0 ∨
          nxt.orientation2 = 0) then
      Except.error special_rxn_error.duplicate_special
    else if (path.flags &&& PATHW_ABSORP ≠ 0 ∧ nxt.flags &&& PATHW_ABSORP ≠ 0) ∧
        (path.orientation2 = nxt.orientation2 ∨ path.orientation2 = 0 ∨
          nxt.orientation2 = 0) then
      Except.error special_rxn_error.duplicate_special
    else Except.ok ()
  | _ => Except.ok ()

/-! ## Run-time selection (`react_cond.c`)

A C `double` is modelled as the rational number it stands for.  In the selection
functions arithmetic is exact: their comparisons, sums and products are those of
the rationals.  In `update_probs` the result of every addition and subtraction is
rounded to a double (`round_double`). -/

/-- Modelled from the spec: the sentinel `RX_NO_RX`, whose declaration is not among
the headers; the spec gives its value as -1. -/
def RX_NO_RX : Int := -1

/-- Modelled from the spec: the bound `RX_SPECIAL` of the special tags stored in
`n_pathways` (transparent, reflective, absorbing region border), all negative and
below `RX_NO_RX`; its declaration is not among the headers. -/
def RX_SPECIAL : Int := -3

/-- The constant `GIGANTIC` of `mcell_structs.h` (1e140). -/
def GIGANTIC : ℚ := 10 ^ 140

/-- Modelled from the spec: the molecule flag `COMPLEX_MEMBER`, a single bit whose
declaration is not among the headers. -/
def COMPLEX_MEMBER : Nat := 0x0004

/-- One node of the `prob_t` list of a reaction: the time from which the pathway
`path` has the probability `value` (the list is chained through `next`). -/
structure t_func where
  time : ℚ
  value : ℚ
  path : Int
deriving DecidableEq, Repr

/-- The fields of `struct rxn` that the selectors and `update_probs` read and
write.  `rates` is `none` for a `NULL` array, and a `NULL` entry of the array is
`none`; a non-`NULL` entry is the handle of a cooperative rate table. -/
structure rxn_probs where
  n_pathways : Int
  cum_probs : List ℚ
  max_fixed_p : ℚ
  min_noreaction_p : ℚ
  pb_factor : ℚ
  rates : Option (List (Option Nat))
  n_skipped : ℚ
  prob_t : List t_func
deriving DecidableEq, Repr

/-- The fields of `struct abstract_molecule` that the selectors read: the flag
word and whether `cmplx` is not `NULL`. -/
structure abstract_molecule where
  flags : Nat
  cmplx : Bool
deriving DecidableEq, Repr

/-- Modelled from the spec: the random number generator of `rng.h`, which is not
among the sources, as the stream of doubles it will deliver and the number of
doubles drawn so far. -/
structure rng_state where
  seq : Nat → ℚ
  pos : Nat

/-- Modelled from the spec: `rng_dbl` returns the next double of the stream and
advances the generator by one draw. -/
def rng_dbl (rng : rng_state) : ℚ × rng_state :=
  (rng.seq rng.pos, { rng with pos := rng.pos + 1 })

/-- What a selector leaves behind: the returned `int`, the reaction (whose
`n_skipped` may have grown) and the generator. -/
structure selection where
  outcome : Int
  rx : rxn_probs
  rng : rng_state

/-- The read `A[i]` of a `double` array.  A read outside the array, undefined in
C, gives 0 here. -/
def array_get (A : List ℚ) (i : Int) : ℚ :=
  if i < 0 then 0 else A.getD i.toNat 0

/-- The `while` loop of `binary_search_double`, run for at most `fuel` rounds; it
returns the final `min_idx` and `max_idx`.  `mid_idx` is only computed when
`max_idx - min_idx > 1`, where C and Lean division agree. -/
def binary_search_double_loop (A : List ℚ) (match_val mult : ℚ) :
    Nat → Int → Int → Int × Int
  | 0, min_idx, max_idx => (min_idx, max_idx)
  | fuel + 1, min_idx, max_idx =>
    if max_idx - min_idx > 1 then
      if match_val > array_get A ((max_idx + min_idx) / 2) * mult then
        binary_search_double_loop A match_val mult fuel ((max_idx + min_idx) / 2) max_idx
      else
        binary_search_double_loop A match_val mult fuel min_idx ((max_idx + min_idx) / 2)
    else (min_idx, max_idx)

/-- The function `binary_search_double` of `react_cond.c`.  The loop gets
`max_idx` rounds, more than it can use since the interval shrinks each round.
The last comparison is against `A[min_idx]`, as in the source. -/
def binary_search_double (A : List ℚ) (match_val : ℚ) (max_idx : Int) (mult : ℚ) : Int :=
  if match_val >
      array_get A (binary_search_double_loop A match_val mult max_idx.toNat 0 max_idx).1 then
    (binary_search_double_loop A match_val mult max_idx.toNat 0 max_idx).2
  else (binary_search_double_loop A match_val mult max_idx.toNat 0 max_idx).1

/-- The loop of `get_varying_cum_probs` from pathway `i` on, with `accum` the last
value stored: a fixed pathway copies `cum_probs[i]`, a cooperative one adds the
looked-up rate to `accum`.  The rate lookup `macro_lookup_rate` belongs to
`macromolecule.c`, which is not among the sources, and is a parameter. -/
def get_varying_cum_probs_loop (macro_lookup_rate : Nat → abstract_molecule → ℚ → ℚ)
    (rx : rxn_probs) (rates : List (Option Nat)) (v : abstract_molecule) :
    Nat → Nat → ℚ → List ℚ
  | 0, _, _ => []
  | n + 1, i, accum =>
    match rates.getD i none with
    | none =>
      array_get rx.cum_probs i ::
        get_varying_cum_probs_loop macro_lookup_rate rx rates v n (i + 1)
          (array_get rx.cum_probs i)
    | some r =>
      (accum + macro_lookup_rate r v rx.pb_factor) ::
        get_varying_cum_probs_loop macro_lookup_rate rx rates v n (i + 1)
          (accum + macro_lookup_rate r v rx.pb_factor)

/-- The function `get_varying_cum_probs` of `react_cond.c`: `none` when it returns
0, and the filled array `var_cum_probs` when it returns 1. -/
def get_varying_cum_probs (macro_lookup_rate : Nat → abstract_molecule → ℚ → ℚ)
    (rx : rxn_probs) (v : abstract_molecule) : Option (List ℚ) :=
  match rx.rates with
  | none => none
  | some rates =>
    if v.cmplx = false then none
    else some (get_varying_cum_probs_loop macro_lookup_rate rx rates v
      rx.n_pathways.toNat 0 0)

/-- The end of `test_bimolecular`, from `int M;` on.  `varying` is the array
`varying_cum_probs` when `have_varying` is set.  `p` is the scaled draw, `rx` the
reaction after the update of `n_skipped`, `rng` the generator after the draw. -/
def test_bimolecular_pick (macro_lookup_rate : Nat → abstract_molecule → ℚ → ℚ)
    (rx : rxn_probs) (local_prob_factor max_fixed_p p : ℚ)
    (subunit : Option abstract_molecule) (varying : Option (List ℚ))
    (rng : rng_state) : selection :=
  let novarying : selection :=
    if local_prob_factor > 0 then
      { outcome := binary_search_double rx.cum_probs p (rx.n_pathways - 1) local_prob_factor
        rx := rx, rng := rng }
    else
      { outcome := binary_search_double rx.cum_probs p (rx.n_pathways - 1) 1
        rx := rx, rng := rng }
  match subunit with
  | none => novarying
  | some s =>
    if p < max_fixed_p then novarying
    else
      match (match varying with
             | some w => some w
             | none => get_varying_cum_probs macro_lookup_rate rx s) with
      | none => novarying
      | some w =>
        if local_prob_factor > 0 then
          if p > array_get w (rx.n_pathways - 1) * local_prob_factor then
            { outcome := RX_NO_RX, rx := rx, rng := rng }
          else
            { outcome := binary_search_double w p (rx.n_pathways - 1) local_prob_factor
              rx := rx, rng := rng }
        else
          if p > array_get w (rx.n_pathways - 1) then
            { outcome := RX_NO_RX, rx := rx, rng := rng }
          else
            { outcome := binary_search_double w p (rx.n_pathways - 1) 1
              rx := rx, rng := rng }

/-- The function `test_bimolecular` of `react_cond.c`.  A `NULL` molecule is
`none`. -/
def test_bimolecular (macro_lookup_rate : Nat → abstract_molecule → ℚ → ℚ)
    (rx : rxn_probs) (scaling local_prob_factor : ℚ)
    (a1 a2 : Option abstract_molecule) (rng : rng_state) : selection :=
  let min_noreaction_p : ℚ :=
    if local_prob_factor > 0 then rx.min_noreaction_p * local_prob_factor
    else rx.min_noreaction_p
  let max_fixed_p : ℚ :=
    if local_prob_factor > 0 then rx.max_fixed_p * local_prob_factor else rx.max_fixed_p
  let subunit : Option abstract_molecule :=
    match rx.rates, a1, a2 with
    | some _, some m1, some m2 =>
      if m1.flags &&& COMPLEX_MEMBER ≠ 0 then some m1
      else if m2.flags &&& COMPLEX_MEMBER ≠ 0 then some m2
      else none
    | _, _, _ => none
  if min_noreaction_p < scaling then
    if (rng_dbl rng).1 * scaling ≥ min_noreaction_p then
      { outcome := RX_NO_RX, rx := rx, rng := (rng_dbl rng).2 }
    else
      test_bimolecular_pick macro_lookup_rate rx local_prob_factor max_fixed_p
        ((rng_dbl rng).1 * scaling) subunit none (rng_dbl rng).2
  else
    let varying : Option (List ℚ) :=
      match subunit with
      | none => none
      | some s => get_varying_cum_probs macro_lookup_rate rx s
    let max_p0 : ℚ :=
      match varying with
      | some w => array_get w (rx.n_pathways - 1)
      | none => array_get rx.cum_probs (rx.n_pathways - 1)
    let max_p : ℚ := if local_prob_factor > 0 then max_p0 * local_prob_factor else max_p0
    if max_p ≥ scaling then
      test_bimolecular_pick macro_lookup_rate
        { rx with
          n_skipped :=
            if scaling = 0 then rx.n_skipped + GIGANTIC
            else rx.n_skipped + (max_p / scaling - 1) }
        local_prob_factor max_fixed_p ((rng_dbl rng).1 * max_p) subunit varying
        (rng_dbl rng).2
    else
      if (rng_dbl rng).1 * scaling ≥ max_p then
        { outcome := RX_NO_RX, rx := rx, rng := (rng_dbl rng).2 }
      else
        test_bimolecular_pick macro_lookup_rate rx local_prob_factor max_fixed_p
          ((rng_dbl rng).1 * scaling) subunit varying (rng_dbl rng).2

/-- The end of `test_intersect`, from `int M` on: the test of `p` against the last
cumulative probability, then a further call of `rng_dbl` for `match` and the
binary search on `match`. -/
def test_intersect_pick (rx : rxn_probs) (p : ℚ) (rng : rng_state) : selection :=
  if p > array_get rx.cum_probs (rx.n_pathways - 1) then
    { outcome := RX_NO_RX, rx := rx, rng := rng }
  else
    { outcome :=
        binary_search_double rx.cum_probs
          ((rng_dbl rng).1 * array_get rx.cum_probs (rx.n_pathways - 1))
          (rx.n_pathways - 1) 1
      rx := rx, rng := (rng_dbl rng).2 }

/-- The function `test_intersect` of `react_cond.c`. -/
def test_intersect (rx : rxn_probs) (scaling : ℚ) (rng : rng_state) : selection :=
  if rx.n_pathways ≤ RX_SPECIAL then { outcome := rx.n_pathways, rx := rx, rng := rng }
  else if array_get rx.cum_probs (rx.n_pathways - 1) > scaling then
    test_intersect_pick
      { rx with
        n_skipped :=
          if scaling ≤ 0 then rx.n_skipped + GIGANTIC
          else rx.n_skipped + (array_get rx.cum_probs (rx.n_pathways - 1) / scaling - 1) }
      ((rng_dbl rng).1 * array_get rx.cum_probs (rx.n_pathways - 1)) (rng_dbl rng).2
  else if (rng_dbl rng).1 * scaling > array_get rx.cum_probs (rx.n_pathways - 1) then
    { outcome := RX_NO_RX, rx := rx, rng := (rng_dbl rng).2 }
  else test_intersect_pick rx ((rng_dbl rng).1 * scaling) (rng_dbl rng).2

/-! ## Time-varying probabilities (`update_probs` of `react_cond.c`) -/

/-- Modelled from the spec: the notification levels of the configuration, whose
declaration is not among the headers; `update_probs` only tests for
`NOTIFY_FULL`. -/
inductive notify_level where
  | NOTIFY_NONE
  | NOTIFY_BRIEF
  | NOTIFY_FULL
deriving DecidableEq, Repr

/-- Modelled from the spec: the warning policies of the configuration (ignore,
warn, treat as error), whose declaration is not among the headers. -/
inductive warn_level where
  | WARN_COPE
  | WARN_WARN
  | WARN_ERROR
deriving DecidableEq, Repr

/-- The fields of `world->notify` that `update_probs` reads. -/
structure notifications where
  time_varying_reactions : notify_level
  reaction_prob_notify : ℚ
  high_reaction_prob : warn_level
  reaction_prob_warn : ℚ
deriving DecidableEq, Repr

/-- The fields of `struct volume` that `update_probs` reads and writes. -/
structure volume where
  notify : notifications
  chkpt_seq_num : Nat
  reaction_prob_limit_flag : Int
deriving DecidableEq, Repr

/-- Rounding of a rational to the nearest integer, with a tie going to the even
neighbour: the rounding direction of IEEE 754 arithmetic in its default mode. -/
def round_half_even (x : ℚ) : Int :=
  if x - ⌊x⌋ < 1 / 2 then ⌊x⌋
  else if x - ⌊x⌋ > 1 / 2 then ⌊x⌋ + 1
  else if ⌊x⌋ % 2 = 0 then ⌊x⌋
  else ⌊x⌋ + 1

/-- The spacing of the values of type `double` (IEEE 754 binary64: 53 significant
binary digits, least exponent -1074) around `q`. -/
def double_ulp (q : ℚ) : ℚ :=
  2 ^ max (Int.log 2 |q| - 52) (-1074)

/-- The `double` that an arithmetic operation of C returns when its exact result
is `q`, on a platform that evaluates an expression of type `double` in double
precision: the nearest value of the type, ties to even.  A `double` is held as
the rational it stands for; an overflow to infinity (beyond `2 ^ 1024`) is not
modelled. -/
def round_double (q : ℚ) : ℚ :=
  (round_half_even (q / double_ulp q) : ℚ) * double_ulp q

/-- The statement `for (k = j; k < n_pathways; k++) cum_probs[k] += dprob;` on the
cells from index `k` on.  Here and in the functions below `round` is the rounding
of the result of every operation on doubles: `round_double` for the program, the
identity for arithmetic without rounding error. -/
def add_dprob (round : ℚ → ℚ) (j n_pathways : Int) (dprob : ℚ) :
    Nat → List ℚ → List ℚ
  | _, [] => []
  | k, x :: xs =>
    (if j ≤ (k : Int) ∧ (k : Int) < n_pathways then round (x + dprob) else x) ::
      add_dprob round j n_pathways dprob (k + 1) xs

/-- The variables that the loop of `update_probs` carries from one entry to the
next. -/
structure update_state where
  rx : rxn_probs
  world : volume
  new_prob : ℚ
  did_something : Int
deriving DecidableEq, Repr

/-- The last statement of the loop body of `update_probs`: latch
`reaction_prob_limit_flag` when `new_prob` exceeds 1. -/
def update_probs_limit (st : update_state) : update_state :=
  if st.new_prob > 1 ∧ st.world.reaction_prob_limit_flag = 0 then
    { st with world := { st.world with reaction_prob_limit_flag := 1 } }
  else st

/-- The value that the loop body of `update_probs` gives to `dprob` for the entry
`tv`: `tv->value - rx->cum_probs[0]` for pathway 0, and
`tv->value - (rx->cum_probs[j] - rx->cum_probs[j - 1])` for a pathway `j` above,
the inner difference and the outer one each rounded. -/
def update_probs_dprob (round : ℚ → ℚ) (tv : t_func) (rx : rxn_probs) : ℚ :=
  if tv.path = 0 then round (tv.value - array_get rx.cum_probs 0)
  else round (tv.value -
    round (array_get rx.cum_probs tv.path - array_get rx.cum_probs (tv.path - 1)))

/-- The body of the loop of `update_probs` for the entry `tv` at time `t`; `next`
is `tv->next`.  The log output is left out; the `continue` that suppresses it
(checkpoint sequence above 1 and a next entry that is also due) skips the latch
of `reaction_prob_limit_flag` as well. -/
def update_probs_entry (round : ℚ → ℚ) (t : ℚ) (tv : t_func) (next : Option t_func)
    (st : update_state) : update_state :=
  let dprob : ℚ := update_probs_dprob round tv st.rx
  let cum : List ℚ := add_dprob round tv.path st.rx.n_pathways dprob 0 st.rx.cum_probs
  let st1 : update_state :=
    { st with
      rx := { st.rx with
              cum_probs := cum
              max_fixed_p := round (st.rx.max_fixed_p + dprob)
              min_noreaction_p := round (st.rx.min_noreaction_p + dprob) }
      did_something := st.did_something + 1 }
  if st.world.notify.time_varying_reactions = notify_level.NOTIFY_FULL ∧
      array_get cum tv.path ≥ st.world.notify.reaction_prob_notify then
    let st2 : update_state :=
      { st1 with
        new_prob :=
          if tv.path = 0 then array_get cum 0
          else round (array_get cum tv.path - array_get cum (tv.path - 1)) }
    match next with
    | some nx =>
      if st.world.chkpt_seq_num > 1 ∧ nx.time < t then st2 else update_probs_limit st2
    | none => update_probs_limit st2
  else update_probs_limit st1

/-- The loop `for (tv = rx->prob_t; tv != NULL && tv->time < t; tv = tv->next)` of
`update_probs`: the final state and the value of `tv` at the exit. -/
def update_probs_loop (round : ℚ → ℚ) (t : ℚ) :
    List t_func → update_state → update_state × List t_func
  | [], st => (st, [])
  | tv :: rest, st =>
    if tv.time < t then
      update_probs_loop round t rest (update_probs_entry round t tv rest.head? st)
    else (st, tv :: rest)

/-- What `update_probs` leaves behind: the reaction, the world, and whether the
run was ended by `mcell_die` (total probability above the warning threshold under
the policy `WARN_ERROR`). -/
structure update_result where
  rx : rxn_probs
  world : volume
  died : Bool
deriving DecidableEq, Repr

/-- The function `update_probs` of `react_cond.c`, with the rounding `round` of
its additions and subtractions of doubles. -/
def update_probs (round : ℚ → ℚ) (world : volume) (rx : rxn_probs) (t : ℚ) :
    update_result :=
  let st : update_state :=
    (update_probs_loop round t rx.prob_t
      { rx := rx, world := world, new_prob := 0, did_something := 0 }).1
  let tv : List t_func :=
    (update_probs_loop round t rx.prob_t
      { rx := rx, world := world, new_prob := 0, did_something := 0 }).2
  if st.did_something = 0 then
    { rx := { st.rx with prob_t := tv }, world := st.world, died := false }
  else if array_get st.rx.cum_probs (st.rx.n_pathways - 1) >
        st.world.notify.reaction_prob_warn ∧
      st.world.notify.high_reaction_prob = warn_level.WARN_ERROR then
    { rx := { st.rx with prob_t := tv }, world := st.world, died := true }
  else { rx := { st.rx with prob_t := tv }, world := st.world, died := false }

/-! ## Further notions used to state the properties -/

/-- The reactant slots that a reaction with `n` reactants uses, each with its
orientation and its `is_complex` entry. -/
def reactant_triples (p : pathway) (n : Nat) : List (Option species × Int × Nat) :=
  [(p.reactant1, p.orientation1, p.is_complex0), (p.reactant2, p.orientation2, p.is_complex1),
    (p.reactant3, p.orientation3, p.is_complex2)].take n

/-- Two reactant slots are in name order: the name of the first is not above the
name of the second. -/
def slot_name_le (x y : Option species × Int) : Prop :=
  match x.1, y.1 with
  | some a, some b => strcmp a.name b.name ≤ 0
  | _, _ => True

/-- Two reactant slots are in key order (name ascending, then orientation
descending): the name of the first is below that of the second, or the names are
equal and the orientation of the first is not below that of the second. -/
def slot_key_le (x y : Option species × Int) : Prop :=
  match x.1, y.1 with
  | some a, some b =>
    strcmp a.name b.name < 0 ∨ (strcmp a.name b.name = 0 ∧ y.2 ≤ x.2)
  | _, _ => True

/-- The per-timestep probability of pathway `k` held in a cumulative array:
`cum_probs[k] - cum_probs[k - 1]`, or `cum_probs[0]` for `k = 0`. -/
def pathway_prob (cum_probs : List ℚ) (k : Int) : ℚ :=
  if k = 0 then array_get cum_probs 0
  else array_get cum_probs k - array_get cum_probs (k - 1)

/-- A generator whose first draws are the given doubles, followed by zeros. -/
def sample_rng (draws : List ℚ) : rng_state :=
  { seq := fun i => draws.getD i 0, pos := 0 }

/-- A reaction with the given cumulative probabilities, no cooperative rates and
`max_fixed_p = min_noreaction_p = cum_probs[last]`. -/
def sample_rxn_probs (cum_probs : List ℚ) (prob_t : List t_func) : rxn_probs :=
  { n_pathways := cum_probs.length
    cum_probs := cum_probs
    max_fixed_p := array_get cum_probs ((cum_probs.length : Int) - 1)
    min_noreaction_p := array_get cum_probs ((cum_probs.length : Int) - 1)
    pb_factor := 1
    rates := none
    n_skipped := 0
    prob_t := prob_t }

/-- A configuration that notifies nothing and never ends the run. -/
def sample_volume : volume :=
  { notify :=
      { time_varying_reactions := notify_level.NOTIFY_NONE
        reaction_prob_notify := 0
        high_reaction_prob := warn_level.WARN_COPE
        reaction_prob_warn := 1 }
    chkpt_seq_num := 1
    reaction_prob_limit_flag := 0 }

/-- The double nearest to the decimal 0.1. -/
def double_0_1 : ℚ := 3602879701896397 / 36028797018963968

/-- The double nearest to the decimal 0.3. -/
def double_0_3 : ℚ := 5404319552844595 / 18014398509481984

/-- The double nearest to the decimal 0.7. -/
def double_0_7 : ℚ := 3152519739159347 / 4503599627370496

/-- A rate lookup for reactions that have no cooperative rate. -/
def sample_lookup : Nat → abstract_molecule → ℚ → ℚ := fun _ _ _ => 0

/-! ## Assembly of a reaction set (`finalize_reaction`, `load_rate_file`,
`set_product_geometries` of `create_reactions.c`)

An array obtained from `malloc` is a list of cells.  A cell of `players` or of
`geometries` is `none` until the code writes it (its content is indeterminate in
C); a written cell of `players` holds `some none` for `NULL` and `some (some s)`
for a species.  A write outside an array, undefined in C, is dropped.  Failure of
an allocation is not modelled. -/

/-- Modelled from the spec: the tag `RX_TRANSP` stored in `n_pathways` for a
transparent surface; its declaration is not among the headers.  The three tags
are negative and not above `RX_SPECIAL`. -/
def RX_TRANSP : Int := -3

/-- Modelled from the spec: the tag `RX_REFLEC` (see `RX_TRANSP`). -/
def RX_REFLEC : Int := -4

/-- Modelled from the spec: the tag `RX_ABSORB_REGION_BORDER` (see `RX_TRANSP`). -/
def RX_ABSORB_REGION_BORDER : Int := -5

/-- Modelled from the spec: the record `struct ccn_clamp_data` of a concentration
clamp, whose declaration is not among the headers: the fields that
`finalize_reaction` fills from the pathway.  The remaining fields are set to
`NULL` or 0 and the record is chained through `next`. -/
structure ccn_clamp_data where
  surf_class : Option species
  mol : Option species
  concentration : ℚ
  orient : Int
deriving DecidableEq, Repr

/-- The fields of `MCELL_STATE` that `finalize_reaction` and `load_rate_file` read
and write: the policy `notify->neg_reaction`, the time step `time_unit` and the
list `clamp_list`. -/
structure mcell_state where
  neg_reaction : warn_level
  time_unit : ℚ
  clamp_list : List ccn_clamp_data
deriving DecidableEq, Repr

/-- A pathway together with the rate fields of `struct pathway` that the assembly
reads and writes: the rate `km` and the name `km_filename` of the rate file
(`none` for `NULL`). -/
structure pathway_km where
  path : pathway
  km : ℚ
  km_filename : Option String
deriving DecidableEq, Repr

/-- The fields of `struct rxn` that the assembly fills.  `product_idx` and
`cum_probs` hold 0 in a cell that has not been written. -/
structure rxn_build where
  n_reactants : Nat
  n_pathways : Int
  pathway_head : List pathway_km
  product_idx : List Nat
  cum_probs : List ℚ
  players : List (Option (Option species))
  geometries : List (Option Int)
  prob_t : List t_func
deriving DecidableEq, Repr

/-! ### `load_rate_file` -/

/-- The list `rx->prob_t` while `load_rate_file` runs, cut behind the node `tp2`:
`front` holds the nodes from the head of the list up to and including `tp2` and
is empty while `tp2` is `NULL`; `back` holds the nodes that follow. -/
structure rate_cursor where
  front : List t_func
  back : List t_func
deriving DecidableEq, Repr

/-- The linking of the new node `tp` (lines 1918 to 1939 of `load_rate_file`).
The node is created with `next = NULL`.  In the last case the assignment
`tp->next = tp2->next` is the body of `if (tp->time < tp2->time)`, so a node that
is not out of sequence keeps `next = NULL` and `tp2->next = tp` cuts off the
nodes that followed `tp2`. -/
def load_rate_file_insert (c : rate_cursor) (tp : t_func) : rate_cursor :=
  if c.front = [] ∧ c.back = [] then { front := [tp], back := [] }
  else
    match c.front.getLast? with
    | none => { front := [tp], back := c.back }
    | some tp2 =>
      { front := c.front ++ [tp], back := if tp.time < tp2.time then c.back else [] }

/-- The `while (fgets(...))` loop of `load_rate_file` on the lines of the file.
The scanning of a line with `strchr` and `strtod` belongs to the C library and is
not modelled: a line is given as what the scan yields, `none` for a line that is
skipped and `some (t, rate)` for a line with two numbers.  The two numbers are
finite: a rate token for which `strtod` returns a NaN or an infinity (`nan`,
`inf`, an overflow), which the test `rate < 0.0` lets through in the first case
under every policy, has no counterpart among the lines given here, and nothing is
stated for such a file.  The result is the returned `int` and the list as it is
at the return. -/
def load_rate_file_lines (state : mcell_state) (path : Int) :
    List (Option (ℚ × ℚ)) → rate_cursor → Int × rate_cursor
  | [], c => (0, c)
  | none :: rest, c => load_rate_file_lines state path rest c
  | some (t, rate) :: rest, c =>
    if rate < 0 ∧ state.neg_reaction = warn_level.WARN_ERROR then (1, c)
    else
      load_rate_file_lines state path rest
        (load_rate_file_insert c
          { time := t / state.time_unit
            value := if rate < 0 ∧ state.neg_reaction = warn_level.WARN_WARN then 0 else rate
            path := path })

/-- The function `load_rate_file` of `create_reactions.c`.  The file is `none`
when `fopen` fails.  The result is the returned `int` (1 on error) and the
reaction. -/
def load_rate_file (state : mcell_state) (rx : rxn_build)
    (file : Option (List (Option (ℚ × ℚ)))) (path : Int) : Int × rxn_build :=
  match file with
  | none => (1, rx)
  | some lines =>
    let r : Int × rate_cursor :=
      load_rate_file_lines state path lines { front := [], back := rx.prob_t }
    (r.1, { rx with prob_t := r.2.front ++ r.2.back })

/-! ### The first loop of `finalize_reaction` -/

/-- The loop `for (prod = path->product_head; ...)` of `finalize_reaction` that
counts the products which are not recycled: the result is the final value of
`rx->product_idx[n_pathway]`, which starts at 0. -/
def finalize_reaction_count (path : pathway) : List product → Nat → Nat → Nat → Nat → Nat
  | [], _, _, _, count => count
  | prod :: rest, recycled1, recycled2, recycled3, count =>
    if recycled1 = 0 ∧ some prod.prod = path.reactant1 then
      finalize_reaction_count path rest 1 recycled2 recycled3 count
    else if recycled2 = 0 ∧ some prod.prod = path.reactant2 then
      finalize_reaction_count path rest recycled1 1 recycled3 count
    else if recycled3 = 0 ∧ some prod.prod = path.reactant3 then
      finalize_reaction_count path rest recycled1 recycled2 1 count
    else finalize_reaction_count path rest recycled1 recycled2 recycled3 (count + 1)

/-- The variables that the first loop of `finalize_reaction` carries from one
pathway to the next.  `region_border` collects the species whose flag word gets
`CAN_REGION_BORDER`: a species is a value here and is not updated in place. -/
structure assembly where
  rx : rxn_build
  state : mcell_state
  n_prob_t_rxns : Nat
  region_border : List species
deriving DecidableEq, Repr

/-- The flag word of `path->reactant1`; 0 for a `NULL` reactant, whose
dereference is undefined in C. -/
def reactant1_flags (path : pathway) : Nat :=
  match path.reactant1 with
  | some s => s.flags
  | none => 0

/-- Whether `path->reactant2` is not `NULL` and is a surface class. -/
def reactant2_is_surface (path : pathway) : Bool :=
  match path.reactant2 with
  | some s => decide (s.flags &&& IS_SURFACE ≠ 0)
  | none => false

/-- The statement `path->reactant1->flags |= CAN_REGION_BORDER`, recorded in the
list `region_border`. -/
def set_can_region_border (path : pathway) (a : assembly) : assembly :=
  match path.reactant1 with
  | some s => { a with region_border := s :: a.region_border }
  | none => a

/-- The chain of tests at the start of the body of the first loop of
`finalize_reaction`: the concentration clamp, the transparent and reflective
surfaces, and the absorbing region border.  The result is the state and the
value of `path->km` after the chain. -/
def finalize_reaction_special (p : pathway_km) (a : assembly) : assembly × ℚ :=
  if reactant2_is_surface p.path = true ∧ p.km ≥ 0 ∧ p.path.product_head = [] ∧
      p.path.flags &&& PATHW_CLAMP_CONC ≠ 0 then
    if p.km > 0 then
      ({ a with
          state := { a.state with
            clamp_list :=
              { surf_class := p.path.reactant2
                mol := p.path.reactant1
                concentration := p.km
                orient :=
                  if p.path.orientation1 * p.path.orientation2 = 0 then 0
                  else if p.path.orientation1 = p.path.orientation2 then 1 else -1 } ::
                a.state.clamp_list } },
        GIGANTIC)
    else (a, GIGANTIC)
  else if p.path.flags &&& PATHW_TRANSP ≠ 0 then
    if reactant2_is_surface p.path = true ∧ reactant1_flags p.path &&& ON_GRID ≠ 0 then
      (set_can_region_border p.path { a with rx := { a.rx with n_pathways := RX_TRANSP } }, p.km)
    else ({ a with rx := { a.rx with n_pathways := RX_TRANSP } }, p.km)
  else if p.path.flags &&& PATHW_REFLEC ≠ 0 then
    if reactant2_is_surface p.path = true ∧ reactant1_flags p.path &&& ON_GRID ≠ 0 then
      (set_can_region_border p.path { a with rx := { a.rx with n_pathways := RX_REFLEC } }, p.km)
    else ({ a with rx := { a.rx with n_pathways := RX_REFLEC } }, p.km)
  else if reactant2_is_surface p.path = true ∧ reactant1_flags p.path &&& ON_GRID ≠ 0 ∧
      p.path.product_head = [] ∧ p.path.flags &&& PATHW_ABSORP ≠ 0 then
    (set_can_region_border p.path
      { a with rx := { a.rx with n_pathways := RX_ABSORB_REGION_BORDER } }, p.km)
  else if (match p.path.reactant1 with
      | some s => strcmp s.name "ALL_SURFACE_MOLECULES"
      | none => 1) = 0 then
    if reactant2_is_surface p.path = true ∧ p.path.product_head = [] ∧
        p.path.flags &&& PATHW_ABSORP ≠ 0 then
      (set_can_region_border p.path
        { a with rx := { a.rx with n_pathways := RX_ABSORB_REGION_BORDER } }, p.km)
    else (a, p.km)
  else (a, p.km)

/-- The body of the first loop of `finalize_reaction` for the pathway `p` with
index `n_pathway`: the chain of tests, the cell of `cum_probs` (the rate, or 0
for a rate file) and the count of the products that are not recycled.  The
result is the state and the pathway with its `km` after the body. -/
def finalize_reaction_pathway (n_pathway : Nat) (p : pathway_km) (a : assembly) :
    assembly × pathway_km :=
  let a1 : assembly := (finalize_reaction_special p a).1
  let km : ℚ := (finalize_reaction_special p a).2
  ({ a1 with
      rx := { a1.rx with
        product_idx :=
          a1.rx.product_idx.set n_pathway
            (finalize_reaction_count p.path p.path.product_head 0 0 0 0)
        cum_probs :=
          a1.rx.cum_probs.set n_pathway
            (match p.km_filename with
             | none => km
             | some _ => 0) }
      n_prob_t_rxns :=
        match p.km_filename with
        | none => a1.n_prob_t_rxns
        | some _ => a1.n_prob_t_rxns + 1 },
    { p with km := km })

/-- The first loop of `finalize_reaction` over the pathways from index
`n_pathway` on; the pathways are returned with their `km` after the loop. -/
def finalize_reaction_pathways : Nat → List pathway_km → assembly → assembly × List pathway_km
  | _, [], a => (a, [])
  | n_pathway, p :: rest, a =>
    let r : assembly × pathway_km := finalize_reaction_pathway n_pathway p a
    let rs : assembly × List pathway_km := finalize_reaction_pathways (n_pathway + 1) rest r.1
    (rs.1, r.2 :: rs.2)

/-! ### Layout of `players` -/

/-- The loop `for (n_pathway = 0; n_pathway < kk; n_pathway++)` of
`finalize_reaction` that turns the counts in `product_idx` into offsets, run for
the rounds that are left; the result is `product_idx` and `num_players`. -/
def finalize_reaction_index (n_reactants : Nat) :
    Nat → Nat → List Nat → Nat → List Nat × Nat
  | 0, _, product_idx, num_players => (product_idx, num_players)
  | rounds + 1, n_pathway, product_idx, num_players =>
    finalize_reaction_index n_reactants rounds (n_pathway + 1)
      (product_idx.set n_pathway num_players)
      (num_players + (product_idx.getD n_pathway 0 + n_reactants))

/-- The layout step of `finalize_reaction`: `kk` is `n_pathways`, or 1 for a
special tag; the offsets are stored in `product_idx`, `product_idx[kk]` gets
`num_players`, and `players` and `geometries` are allocated with `num_players`
cells. -/
def finalize_reaction_layout (rx : rxn_build) : rxn_build :=
  let kk : Int := if rx.n_pathways ≤ RX_SPECIAL then 1 else rx.n_pathways
  let r : List Nat × Nat :=
    finalize_reaction_index rx.n_reactants kk.toNat 0 rx.product_idx rx.n_reactants
  { rx with
    product_idx := if kk < 0 then r.1 else r.1.set kk.toNat r.2
    players := List.replicate r.2 none
    geometries := List.replicate r.2 none }

/-! ### Rate files -/

/-- The loop of `finalize_reaction` that calls `load_rate_file` for every pathway
with a rate file, from index `n_pathway` on; `none` when a call returns 1.
`files` gives the content of a file by its name. -/
def finalize_reaction_load (state : mcell_state)
    (files : String → Option (List (Option (ℚ × ℚ)))) :
    Nat → List pathway_km → rxn_build → Option rxn_build
  | _, [], rx => some rx
  | n_pathway, p :: rest, rx =>
    match p.km_filename with
    | none => finalize_reaction_load state files (n_pathway + 1) rest rx
    | some fname =>
      if (load_rate_file state rx (files fname) n_pathway).1 ≠ 0 then none
      else
        finalize_reaction_load state files (n_pathway + 1) rest
          (load_rate_file state rx (files fname) n_pathway).2

/-- The loop `while (rx->prob_t != NULL && rx->prob_t->time <= 0.0)` of
`finalize_reaction`: an entry at the head of the list that is due at time 0 is
stored in `cum_probs` and taken off the list. -/
def finalize_reaction_fold : List t_func → List ℚ → List t_func × List ℚ
  | [], cum_probs => ([], cum_probs)
  | tp :: rest, cum_probs =>
    if tp.time ≤ 0 then
      finalize_reaction_fold rest
        (if tp.path < 0 then cum_probs else cum_probs.set tp.path.toNat tp.value)
    else (tp :: rest, cum_probs)

/-- The step of `finalize_reaction` that loads the time-varying rates: nothing
when no pathway has a rate file; else the files are loaded, the list is sorted
and the entries due at time 0 are folded into `cum_probs`.  The sort
`ae_list_sort` belongs to `util.c`, which is not among the sources, and is a
parameter.  `none` when `finalize_reaction` returns `MCELL_FAIL`. -/
def finalize_reaction_rates (files : String → Option (List (Option (ℚ × ℚ))))
    (ae_list_sort : List t_func → List t_func) (a : assembly) : Option assembly :=
  if a.n_prob_t_rxns > 0 then
    match finalize_reaction_load a.state files 0 a.rx.pathway_head a.rx with
    | none => none
    | some rx =>
      some { a with
        rx := { rx with
          prob_t := (finalize_reaction_fold (ae_list_sort rx.prob_t) rx.cum_probs).1
          cum_probs := (finalize_reaction_fold (ae_list_sort rx.prob_t) rx.cum_probs).2 } }
  else some a

/-! ### Reactants and products -/

/-- The step of `finalize_reaction` that stores the reactants of the first
pathway and their orientations in the first cells of `players` and
`geometries`.  Nothing is stored for an empty pathway list, whose head is `NULL`. -/
def finalize_reaction_reactants (rx : rxn_build) : rxn_build :=
  match rx.pathway_head with
  | [] => rx
  | p :: _ =>
    if rx.n_reactants > 1 then
      if rx.n_reactants > 2 then
        { rx with
          players := ((rx.players.set 0 (some p.path.reactant1)).set 1
            (some p.path.reactant2)).set 2 (some p.path.reactant3)
          geometries := ((rx.geometries.set 0 (some p.path.orientation1)).set 1
            (some p.path.orientation2)).set 2 (some p.path.orientation3) }
      else
        { rx with
          players := (rx.players.set 0 (some p.path.reactant1)).set 1 (some p.path.reactant2)
          geometries := (rx.geometries.set 0 (some p.path.orientation1)).set 1
            (some p.path.orientation2) }
    else
      { rx with
        players := rx.players.set 0 (some p.path.reactant1)
        geometries := rx.geometries.set 0 (some p.path.orientation1) }

/-- The variables of `set_product_geometries` inside one pathway, with the two
arrays it writes. -/
structure geometry_state where
  recycled1 : Nat
  recycled2 : Nat
  recycled3 : Nat
  k : Nat
  num_surf_products_per_pathway : Nat
  max_num_surf_products : Nat
  players : List (Option (Option species))
  geometries : List (Option Int)
deriving DecidableEq, Repr

/-- The choice of the cell `kk` of a product in `set_product_geometries`: the
cell of the first reactant that is the product's species and has not been
recycled yet, or the next new cell `k`.  `base` is `rx->product_idx[n_pathway]`. -/
def set_product_geometries_slot (base : Nat) (path : pathway) (prod : product)
    (st : geometry_state) : Nat × geometry_state :=
  if st.recycled1 = 0 ∧ some prod.prod = path.reactant1 then
    (base + 0, { st with recycled1 := 1 })
  else if st.recycled2 = 0 ∧ some prod.prod = path.reactant2 then
    (base + 1, { st with recycled2 := 1 })
  else if st.recycled3 = 0 ∧ some prod.prod = path.reactant3 then
    (base + 2, { st with recycled3 := 1 })
  else (st.k, { st with k := st.k + 1 })

/-- What the scan of the earlier products leaves: the code `geom` and the three
flags. -/
structure scan_result where
  geom : Int
  recycled1 : Nat
  recycled2 : Nat
  recycled3 : Nat
deriving DecidableEq, Repr

/-- The loop `for (prod2 = path->product_head; prod2 != prod && prod2 != NULL &&
geom == 0; ...)` of `set_product_geometries` over the products before `prod`. -/
def set_product_geometries_scan (n_reactants : Nat) (path : pathway) (prod : product) :
    List product → Int → Int → Nat → Nat → Nat → scan_result
  | [], geom, _, recycled1, recycled2, recycled3 =>
    { geom := geom, recycled1 := recycled1, recycled2 := recycled2, recycled3 := recycled3 }
  | prod2 :: rest, geom, k2, recycled1, recycled2, recycled3 =>
    if geom ≠ 0 then
      { geom := geom, recycled1 := recycled1, recycled2 := recycled2, recycled3 := recycled3 }
    else
      let geom1 : Int :=
        if (prod2.orientation + prod.orientation) * (prod2.orientation - prod.orientation) = 0 ∧
            prod.orientation * prod2.orientation ≠ 0 then
          (if prod2.orientation = prod.orientation then 1 else -1)
        else 0
      if recycled1 = 1 then
        if some prod2.prod = path.reactant1 then
          set_product_geometries_scan n_reactants path prod rest
            (geom1 * ((n_reactants : Int) + 1)) k2 2 recycled2 recycled3
        else
          set_product_geometries_scan n_reactants path prod rest geom1 k2
            recycled1 recycled2 recycled3
      else if recycled2 = 1 then
        if some prod2.prod = path.reactant2 then
          set_product_geometries_scan n_reactants path prod rest
            (geom1 * ((n_reactants : Int) + 2)) k2 recycled1 2 recycled3
        else
          set_product_geometries_scan n_reactants path prod rest geom1 k2
            recycled1 recycled2 recycled3
      else if recycled3 = 1 then
        if some prod2.prod = path.reactant3 then
          set_product_geometries_scan n_reactants path prod rest
            (geom1 * ((n_reactants : Int) + 3)) k2 recycled1 recycled2 2
        else
          set_product_geometries_scan n_reactants path prod rest geom1 k2
            recycled1 recycled2 recycled3
      else
        set_product_geometries_scan n_reactants path prod rest (geom1 * k2) (k2 + 1)
          recycled1 recycled2 recycled3

/-- The geometry code that `set_product_geometries` stores for the product `prod`,
with the flags after the computation: the class of a reactant, or the result of
the scan of the products `earlier`, which precede `prod` in the list. -/
def set_product_geometries_code (n_reactants : Nat) (path : pathway) (earlier : List product)
    (prod : product) (st : geometry_state) : Int × geometry_state :=
  if (prod.orientation + path.orientation1) * (prod.orientation - path.orientation1) = 0 ∧
      prod.orientation * path.orientation1 ≠ 0 then
    (if prod.orientation = path.orientation1 then 1 else -1, st)
  else if n_reactants > 1 ∧
      (prod.orientation + path.orientation2) * (prod.orientation - path.orientation2) = 0 ∧
      prod.orientation * path.orientation2 ≠ 0 then
    (if prod.orientation = path.orientation2 then 2 else -2, st)
  else if n_reactants > 2 ∧
      (prod.orientation + path.orientation3) * (prod.orientation - path.orientation3) = 0 ∧
      prod.orientation * path.orientation3 ≠ 0 then
    (if prod.orientation = path.orientation3 then 3 else -3, st)
  else
    let r : scan_result :=
      set_product_geometries_scan n_reactants path prod earlier 0
        (2 * (n_reactants : Int) + 1) st.recycled1 st.recycled2 st.recycled3
    (r.geom,
      { st with recycled1 := r.recycled1, recycled2 := r.recycled2, recycled3 := r.recycled3 })

/-- The body of the loop of `set_product_geometries` over the products, for the
product `prod` that follows the products `earlier`: the cell is chosen, the
species is stored in `players`, the code in `geometries`, and the count of
surface products is kept. -/
def set_product_geometries_product (n_reactants base : Nat) (path : pathway)
    (earlier : List product) (prod : product) (st : geometry_state) : geometry_state :=
  let kk : Nat := (set_product_geometries_slot base path prod st).1
  let st1 : geometry_state := (set_product_geometries_slot base path prod st).2
  let num : Nat :=
    if prod.prod.flags &&& ON_GRID ≠ 0 then st.num_surf_products_per_pathway + 1
    else st.num_surf_products_per_pathway
  let geom : Int := (set_product_geometries_code n_reactants path earlier prod st1).1
  let st2 : geometry_state := (set_product_geometries_code n_reactants path earlier prod st1).2
  { st2 with
    players := st1.players.set kk (some (some prod.prod))
    geometries := st1.geometries.set kk (some geom)
    num_surf_products_per_pathway := num
    max_num_surf_products :=
      if num > st.max_num_surf_products then num else st.max_num_surf_products }

/-- The loop of `set_product_geometries` over the products of one pathway;
`earlier` are the products already passed. -/
def set_product_geometries_products (n_reactants base : Nat) (path : pathway) :
    List product → List product → geometry_state → geometry_state
  | _, [], st => st
  | earlier, prod :: rest, st =>
    set_product_geometries_products n_reactants base path (earlier ++ [prod]) rest
      (set_product_geometries_product n_reactants base path earlier prod st)

/-- The body of the loop of `set_product_geometries` over the pathways, for one
pathway whose cells start at `base`: the flags are reset, the products are
passed, and the cell of a reactant that was not recycled gets `NULL`. -/
def set_product_geometries_pathway (n_reactants base : Nat) (path : pathway)
    (max_num_surf_products : Nat) (players : List (Option (Option species)))
    (geometries : List (Option Int)) : geometry_state :=
  let st : geometry_state :=
    set_product_geometries_products n_reactants base path [] path.product_head
      { recycled1 := 0, recycled2 := 0, recycled3 := 0
        k := base + n_reactants
        num_surf_products_per_pathway := 0
        max_num_surf_products := max_num_surf_products
        players := players, geometries := geometries }
  let p1 : List (Option (Option species)) :=
    if st.recycled1 = 0 then st.players.set base (some none) else st.players
  let p2 : List (Option (Option species)) :=
    if st.recycled2 = 0 ∧ n_reactants > 1 then p1.set (base + 1) (some none) else p1
  let p3 : List (Option (Option species)) :=
    if st.recycled3 = 0 ∧ n_reactants > 2 then p2.set (base + 2) (some none) else p2
  { st with players := p3 }

/-- The loop of `set_product_geometries` over the pathways from index `n_pathway`
on; the result is `max_num_surf_products` and the two arrays. -/
def set_product_geometries_loop (n_reactants : Nat) (product_idx : List Nat) :
    Nat → List pathway_km → Nat → List (Option (Option species)) → List (Option Int) →
      Nat × List (Option (Option species)) × List (Option Int)
  | _, [], max_num_surf_products, players, geometries =>
    (max_num_surf_products, players, geometries)
  | n_pathway, p :: rest, max_num_surf_products, players, geometries =>
    let st : geometry_state :=
      set_product_geometries_pathway n_reactants (product_idx.getD n_pathway 0) p.path
        max_num_surf_products players geometries
    set_product_geometries_loop n_reactants product_idx (n_pathway + 1) rest
      st.max_num_surf_products st.players st.geometries

/-- The function `set_product_geometries` of `create_reactions.c`: the returned
`max_num_surf_products` and the reaction.  The function uses a variable `path`
that it does not declare; it is taken to be the pathway list of the reaction,
`rx->pathway_head`, the value that the variable of this name has in
`finalize_reaction` at the call. -/
def set_product_geometries (rx : rxn_build) : Nat × rxn_build :=
  let r : Nat × List (Option (Option species)) × List (Option Int) :=
    set_product_geometries_loop rx.n_reactants rx.product_idx 0 rx.pathway_head 0
      rx.players rx.geometries
  (r.1, { rx with players := r.2.1, geometries := r.2.2 })

/-- The body of the loop `while (rx != NULL)` of `finalize_reaction` for one
reaction set, from the allocation of `product_idx` and `cum_probs` to the call of
`set_product_geometries`; the reaction set has passed
`check_reaction_for_duplicate_pathways`.  The rest of the body scales the
probabilities with functions that are not among the sources.  `none` when
`finalize_reaction` returns `MCELL_FAIL`. -/
def finalize_reaction_rx (files : String → Option (List (Option (ℚ × ℚ))))
    (ae_list_sort : List t_func → List t_func) (state : mcell_state) (rx : rxn_build) :
    Option assembly :=
  let r : assembly × List pathway_km :=
    finalize_reaction_pathways 0 rx.pathway_head
      { rx := { rx with
                product_idx := List.replicate (rx.n_pathways + 1).toNat 0
                cum_probs := List.replicate rx.n_pathways.toNat 0 }
        state := state, n_prob_t_rxns := 0, region_border := [] }
  match finalize_reaction_rates files ae_list_sort
      { r.1 with rx := finalize_reaction_layout { r.1.rx with pathway_head := r.2 } } with
  | none => none
  | some a => some { a with rx := (set_product_geometries (finalize_reaction_reactants a.rx)).2 }

/-! ## Notions used to state the properties of the assembly -/

/-- The state of `players` inside one pathway of `set_product_geometries`,
relative to the array `start` at the entry of the pathway whose cells begin at
`base`: the length is kept, `k` is behind the reactant cells, the cells before
`base` and from `k` on are as at the entry, and the cell of a reactant holds the
reactant when its flag is set and is as at the entry otherwise. -/
def recycled_cells (n_reactants base : Nat) (path : pathway)
    (start : List (Option (Option species))) (st : geometry_state) : Prop :=
  st.players.length = start.length ∧
  base + n_reactants ≤ st.k ∧
  (∀ j : Nat, j < base ∨ st.k ≤ j → st.players[j]? = start[j]?) ∧
  (st.players[base]? =
    if st.recycled1 = 0 then start[base]? else some (some path.reactant1)) ∧
  (1 < n_reactants → st.players[base + 1]? =
    if st.recycled2 = 0 then start[base + 1]? else some (some path.reactant2)) ∧
  (2 < n_reactants → st.players[base + 2]? =
    if st.recycled3 = 0 then start[base + 2]? else some (some path.reactant3))

/-- The number of the three flags `recycled1`, `recycled2`, `recycled3` that are
set. -/
def recycled_count (st : geometry_state) : Nat :=
  (if st.recycled1 = 0 then 0 else 1) + (if st.recycled2 = 0 then 0 else 1) +
    (if st.recycled3 = 0 then 0 else 1)

/-- The number of products of a pathway that `finalize_reaction` counts as not
recycled. -/
def new_products (path : pathway) : Nat :=
  finalize_reaction_count path path.product_head 0 0 0 0

/-- What `set_product_geometries` leaves for one pathway whose cells begin at
`base`, in terms of the flags `st` at the end of the pathway: the cell of a
reactant holds the reactant when its flag is set and `NULL` otherwise; every
product is counted as new or sets a flag; the flag of reactant 1 is set exactly
when a product is reactant 1, and so is the flag of a later reactant that differs
from the reactants before it; the flag of a `NULL` reactant is not set. -/
def recycled_block (n_reactants base : Nat) (path : pathway)
    (players : List (Option (Option species))) (st : geometry_state) : Prop :=
  players[base]? = some (some (if st.recycled1 = 0 then none else path.reactant1)) ∧
  (1 < n_reactants →
    players[base + 1]? = some (some (if st.recycled2 = 0 then none else path.reactant2))) ∧
  (2 < n_reactants →
    players[base + 2]? = some (some (if st.recycled3 = 0 then none else path.reactant3))) ∧
  new_products path + recycled_count st = path.product_head.length ∧
  (st.recycled1 = 0 ↔ ∀ p ∈ path.product_head, some p.prod ≠ path.reactant1) ∧
  (path.reactant2 ≠ path.reactant1 →
    (st.recycled2 = 0 ↔ ∀ p ∈ path.product_head, some p.prod ≠ path.reactant2)) ∧
  (path.reactant3 ≠ path.reactant1 → path.reactant3 ≠ path.reactant2 →
    (st.recycled3 = 0 ↔ ∀ p ∈ path.product_head, some p.prod ≠ path.reactant3)) ∧
  (path.reactant2 = none → st.recycled2 = 0) ∧
  (path.reactant3 = none → st.recycled3 = 0)

/-- Whether a cell of `players` holds a species. -/
def is_populated (cell : Option (Option (Option species))) : Bool :=
  match cell with
  | some (some (some _)) => true
  | _ => false

/-- The number of reactant cells of the pathway whose cells begin at `base` that
hold a species: the number of products recycled into reactant cells. -/
def recycled_slots (players : List (Option (Option species))) (base n_reactants : Nat) : Nat :=
  ((List.range n_reactants).filter (fun i => is_populated players[base + i]?)).length

/-- The geometry code `g` that is expected for the product `prod` of a pathway
with `n_reactants` reactants, behind the products `earlier`: 1 or -1 for the
class of reactant 1, else 2 or -2 for the class of reactant 2, else 3 or -3 for
the class of reactant 3, and 0 exactly when the orientation of the product is 0
or its class is that of no such reactant and of no earlier product. -/
def product_code (n_reactants : Nat) (path : pathway) (earlier : List product)
    (prod : product) (g : Int) : Prop :=
  ((c_abs prod.orientation = c_abs path.orientation1 ∧ path.orientation1 ≠ 0) →
    g = if prod.orientation = path.orientation1 then 1 else -1) ∧
  (¬ (c_abs prod.orientation = c_abs path.orientation1 ∧ path.orientation1 ≠ 0) →
    (n_reactants > 1 ∧ c_abs prod.orientation = c_abs path.orientation2 ∧
      path.orientation2 ≠ 0) →
    g = if prod.orientation = path.orientation2 then 2 else -2) ∧
  (¬ (c_abs prod.orientation = c_abs path.orientation1 ∧ path.orientation1 ≠ 0) →
    ¬ (n_reactants > 1 ∧ c_abs prod.orientation = c_abs path.orientation2 ∧
      path.orientation2 ≠ 0) →
    (n_reactants > 2 ∧ c_abs prod.orientation = c_abs path.orientation3 ∧
      path.orientation3 ≠ 0) →
    g = if prod.orientation = path.orientation3 then 3 else -3) ∧
  (g = 0 ↔
    (prod.orientation = 0 ∨
      (¬ (c_abs prod.orientation = c_abs path.orientation1 ∧ path.orientation1 ≠ 0) ∧
        ¬ (n_reactants > 1 ∧ c_abs prod.orientation = c_abs path.orientation2 ∧
          path.orientation2 ≠ 0) ∧
        ¬ (n_reactants > 2 ∧ c_abs prod.orientation = c_abs path.orientation3 ∧
          path.orientation3 ≠ 0) ∧
        ∀ p2 ∈ earlier, c_abs p2.orientation ≠ c_abs prod.orientation)))

/-- The cell `c` of the pathway whose cells begin at `base` is taken by a product
in the state `st` of `set_product_geometries`: it lies from `base` on and before
`k`, and if it is the cell of a reactant, the flag of this reactant is set. -/
def product_cell (n_reactants base : Nat) (st : geometry_state) (c : Nat) : Prop :=
  base ≤ c ∧ c < st.k ∧ (c = base → st.recycled1 ≠ 0) ∧
  (c = base + 1 → 1 < n_reactants → st.recycled2 ≠ 0) ∧
  (c = base + 2 → 2 < n_reactants → st.recycled3 ≠ 0)

/-- The state of `geometries` and of the cells of the products inside one pathway
of `set_product_geometries`, relative to the array `start` at the entry of the
pathway whose cells begin at `base`, when the products `done` have been passed:
the length is kept, the cells before `base` and from `k` on are as at the entry,
and every product passed has a cell of its own that holds its species in
`players` and a code in `geometries` as `product_code` describes. -/
def coded_cells (n_reactants base : Nat) (path : pathway) (start : List (Option Int))
    (done : List product) (st : geometry_state) : Prop :=
  st.geometries.length = start.length ∧
  (∀ j : Nat, j < base ∨ st.k ≤ j → st.geometries[j]? = start[j]?) ∧
  ∀ (i : Nat) (prod : product), done[i]? = some prod →
    ∃ (c : Nat) (g : Int), product_cell n_reactants base st c ∧
      st.players[c]? = some (some (some prod.prod)) ∧
      st.geometries[c]? = some (some g) ∧
      product_code n_reactants path (done.take i) prod g

/-! ## Sample data for the assembly -/

/-- A state that warns about negative rates, with the time unit 1 and an empty
clamp list. -/
def sample_state : mcell_state :=
  { neg_reaction := warn_level.WARN_WARN, time_unit := 1, clamp_list := [] }

/-- A directory without rate files: every `fopen` fails. -/
def sample_files : String → Option (List (Option (ℚ × ℚ))) := fun _ => none

/-- A pathway with the constant rate `km`. -/
def sample_pathway_km (path : pathway) (km : ℚ) : pathway_km :=
  { path := path, km := km, km_filename := none }

/-- A reaction set as `finalize_reaction` finds it, with nothing allocated. -/
def sample_rxn_build (n_reactants : Nat) (paths : List pathway_km) : rxn_build :=
  { n_reactants := n_reactants, n_pathways := paths.length, pathway_head := paths
    product_idx := [], cum_probs := [], players := [], geometries := [], prob_t := [] }

/-- The variables of the first loop of `finalize_reaction` at its start. -/
def sample_assembly (rx : rxn_build) : assembly :=
  { rx := rx, state := sample_state, n_prob_t_rxns := 0, region_border := [] }

/-- A product with the orientation `o`. -/
def sample_oriented (id : Nat) (name : String) (o : Int) : product :=
  { prod := sample_molecule id name, orientation := o, is_complex := 0 }

/-- A reaction set of one pathway with the constant rate 1 and no flags. -/
def sample_reaction (n_reactants : Nat) (r1 : species) (o1 : Int) (r2 : Option species) (o2 : Int)
    (products : List product) : rxn_build :=
  sample_rxn_build n_reactants
    [sample_pathway_km
      { reactant1 := some r1, reactant2 := r2, reactant3 := none
        orientation1 := o1, orientation2 := o2, orientation3 := 0
        is_complex0 := 0, is_complex1 := 0, is_complex2 := 0
        flags := 0, product_head := products, prod_signature := none } 1]

/-! ## Reading a reaction (`extract_surface`, `extract_products`,
`grid_space_available_for_surface_products` of `create_reactions.c`)

An `int *` argument is an address, a natural number, into a memory of `int`
cells; the address 0 is `NULL`.  A statement such as `num_reactants++`, where
`num_reactants` is the pointer, moves the local pointer and leaves the memory as it
is. -/

/-- Modelled from the spec: the species flags `NOT_FREE`, surface or grid; the
declaration is not among the headers. -/
def NOT_FREE : Nat := ON_GRID ||| IS_SURFACE

/-- Modelled from the spec: the type `MCELL_STATUS` of the result of the
`extract_` functions, success or failure; its declaration is not among the
headers. -/
inductive MCELL_STATUS where
  | MCELL_SUCCESS
  | MCELL_FAIL
deriving DecidableEq, Repr

/-- Modelled from the spec: one node of a list of `struct species_opt_orient`,
whose declaration is not among the headers: the species behind
`mol_type->value` (`none` for a `NULL` `mol_type`), whether an orientation was
given, and the orientation. -/
structure species_opt_orient where
  mol_type : Option species
  orient_set : Int
  orient : Int
deriving DecidableEq, Repr

/-- What `extract_surface` leaves behind: the status, the pathway, the memory of
the counters, and its three pointer variables at the return. -/
structure extract_surface_result where
  status : MCELL_STATUS
  path : pathway
  memory : Nat → Int
  num_reactants : Nat
  num_surfaces : Nat
  oriented_count : Nat

/-- The function `extract_surface` of `create_reactions.c`.  The three statements
`oriented_count++`, `num_reactants++` and `num_surfaces++` are applied to the
pointers. -/
def extract_surface (path : pathway) (surf_class : species_opt_orient) (memory : Nat → Int)
    (num_reactants num_surfaces oriented_count : Nat) : extract_surface_result :=
  let orient : Int := if surf_class.orient_set ≠ 0 then surf_class.orient else 0
  let oriented_count1 : Nat :=
    if surf_class.orient_set ≠ 0 then oriented_count + 1 else oriented_count
  if memory num_reactants = 0 then
    { status := MCELL_STATUS.MCELL_FAIL, path := path, memory := memory
      num_reactants := num_reactants, num_surfaces := num_surfaces
      oriented_count := oriented_count1 }
  else if memory num_reactants = 1 then
    { status := MCELL_STATUS.MCELL_SUCCESS
      path := { path with reactant2 := surf_class.mol_type, orientation2 := orient }
      memory := memory
      num_reactants := num_reactants + 1, num_surfaces := num_surfaces + 1
      oriented_count := oriented_count1 }
  else if memory num_reactants = 2 then
    { status := MCELL_STATUS.MCELL_SUCCESS
      path := { path with reactant3 := surf_class.mol_type, orientation3 := orient }
      memory := memory
      num_reactants := num_reactants + 1, num_surfaces := num_surfaces + 1
      oriented_count := oriented_count1 }
  else
    { status := MCELL_STATUS.MCELL_FAIL, path := path, memory := memory
      num_reactants := num_reactants, num_surfaces := num_surfaces
      oriented_count := oriented_count1 }

/-- What `extract_products` leaves behind: the status, the pathway, and its
pointer variable `num_surf_products` at the return.  The function writes no cell
of the memory. -/
structure extract_products_result where
  status : MCELL_STATUS
  path : pathway
  num_surf_products : Nat
deriving DecidableEq, Repr

/-- The function `extract_products` of `create_reactions.c`, on the list of the
products.  The test `all_3d == 0` compares the pointer, and `num_surf_products++`
moves the pointer.  The field `is_complex` of a new product is not set by the
function and is 0 here; failure of the allocation is not modelled. -/
def extract_products (memory : Nat → Int) (bidirectional all_3d : Nat) :
    List species_opt_orient → pathway → Nat → extract_products_result
  | [], path, num_surf_products =>
    { status := MCELL_STATUS.MCELL_SUCCESS, path := path
      num_surf_products := num_surf_products }
  | current_product :: rest, path, num_surf_products =>
    match current_product.mol_type with
    | none => extract_products memory bidirectional all_3d rest path num_surf_products
    | some s =>
      let prodp : product :=
        { prod := s
          orientation := if memory all_3d ≠ 0 then 0 else current_product.orient
          is_complex := 0 }
      if memory bidirectional = 0 ∧ s.flags &&& IS_SURFACE ≠ 0 then
        { status := MCELL_STATUS.MCELL_FAIL, path := path
          num_surf_products := num_surf_products }
      else
        let path1 : pathway := { path with product_head := prodp :: path.product_head }
        let num_surf_products1 : Nat :=
          if s.flags &&& ON_GRID ≠ 0 then num_surf_products + 1 else num_surf_products
        if s.flags &&& IS_SURFACE = 0 then
          if all_3d = 0 ∧ current_product.orient_set = 0 then
            { status := MCELL_STATUS.MCELL_FAIL, path := path1
              num_surf_products := num_surf_products1 }
          else if s.flags &&& NOT_FREE ≠ 0 then
            { status := MCELL_STATUS.MCELL_FAIL, path := path1
              num_surf_products := num_surf_products1 }
          else if current_product.orient_set ≠ 0 then
            { status := MCELL_STATUS.MCELL_FAIL, path := path1
              num_surf_products := num_surf_products1 }
          else extract_products memory bidirectional all_3d rest path1 num_surf_products1
        else extract_products memory bidirectional all_3d rest path1 num_surf_products1

/-- The function `grid_space_available_for_surface_products` of
`create_reactions.c`. -/
def grid_space_available_for_surface_products (vacancy_search_dist2 : ℚ)
    (num_grid_mols num_vol_mols num_surf_products : Int) : MCELL_STATUS :=
  if vacancy_search_dist2 = 0 ∧ num_surf_products > num_grid_mols then
    if num_grid_mols = 0 ∧ num_vol_mols = 1 ∧ num_surf_products = 1 then
      MCELL_STATUS.MCELL_SUCCESS
    else MCELL_STATUS.MCELL_FAIL
  else MCELL_STATUS.MCELL_SUCCESS

/-! ## Selection among several reactions (`test_many_intersect`,
`test_many_bimolecular`, `test_many_unimol`, `timeof_unimolecular` of
`react_cond.c`)

The array `rx` of `n` reactions is a list, and `n` is its length.  A division by a
scaling factor 0, which gives an infinity or a NaN in C, gives 0 here. -/

/-- What a selector over an array of reactions leaves behind: the returned `int`,
the reactions (whose `n_skipped` may have grown), the cell `*chosen_pathway` and
the generator. -/
structure many_selection where
  outcome : Int
  rx : List rxn_probs
  chosen_pathway : Int
  rng : rng_state

/-- The loop `for (i = 1; i < n; i++)` of `test_many_intersect` that fills `rxp`
behind the cell with the value `prev`. -/
def test_many_intersect_rxp (scaling : ℚ) : List rxn_probs → ℚ → List ℚ
  | [], _ => []
  | r :: rest, prev =>
    (prev + r.max_fixed_p / scaling) ::
      test_many_intersect_rxp scaling rest (prev + r.max_fixed_p / scaling)

/-- The array `rxp` of `test_many_intersect`. -/
def test_many_intersect_array (rx : List rxn_probs) (scaling : ℚ) : List ℚ :=
  match rx with
  | [] => []
  | r :: rest =>
    (r.max_fixed_p / scaling) :: test_many_intersect_rxp scaling rest (r.max_fixed_p / scaling)

/-- The end of `test_many_intersect`, from the comment "Pick the reaction that
happens" on, for the draw `p`: `none` when `rx[i]` is outside the array. -/
def test_many_intersect_pick (rx : List rxn_probs) (rxp : List ℚ) (scaling p : ℚ)
    (rng : rng_state) : Option many_selection :=
  let i : Int := binary_search_double rxp p ((rx.length : Int) - 1) 1
  match (if i < 0 then none else rx[i.toNat]?) with
  | none => none
  | some my_rx =>
    some
      { outcome := i
        rx := rx
        chosen_pathway :=
          binary_search_double my_rx.cum_probs
            ((if i > 0 then p - array_get rxp (i - 1) else p) * scaling)
            (my_rx.n_pathways - 1) 1
        rng := rng }

/-- The function `test_many_intersect` of `react_cond.c`; `chosen_pathway` is the
content of `*chosen_pathway` at the call.  `none` for an empty array, of which the
function reads `rx[0]`. -/
def test_many_intersect (rx : List rxn_probs) (scaling : ℚ) (chosen_pathway : Int)
    (rng : rng_state) : Option many_selection :=
  match rx with
  | [] => none
  | [r] =>
    some
      { outcome := (test_intersect r scaling rng).outcome
        rx := [(test_intersect r scaling rng).rx]
        chosen_pathway := chosen_pathway
        rng := (test_intersect r scaling rng).rng }
  | r0 :: r1 :: rest =>
    let rxp : List ℚ := test_many_intersect_array (r0 :: r1 :: rest) scaling
    let last : ℚ := array_get rxp (((r0 :: r1 :: rest).length : Int) - 1)
    if last > 1 then
      test_many_intersect_pick
        ((r0 :: r1 :: rest).map (fun r =>
          { r with
            n_skipped :=
              r.n_skipped + (last - 1) * array_get r.cum_probs (r.n_pathways - 1) / last }))
        rxp scaling ((rng_dbl rng).1 * last) (rng_dbl rng).2
    else if (rng_dbl rng).1 > last then
      some
        { outcome := RX_NO_RX, rx := r0 :: r1 :: rest, chosen_pathway := chosen_pathway
          rng := (rng_dbl rng).2 }
    else
      test_many_intersect_pick (r0 :: r1 :: rest) rxp scaling (rng_dbl rng).1 (rng_dbl rng).2

/-- The loops of `test_many_bimolecular` that fill the first `n` cells of `rxp`,
from the reaction with index `i` on, behind the cell with the value `prev`. -/
def test_many_bimolecular_rxp (scaling : List ℚ) (local_prob_factor : ℚ)
    (all_neighbors_flag : Int) : List rxn_probs → Nat → ℚ → List ℚ
  | [], _, _ => []
  | r :: rest, i, prev =>
    (if all_neighbors_flag ≠ 0 ∧ local_prob_factor > 0 then
        prev + r.max_fixed_p * local_prob_factor / array_get scaling (i : Int)
      else prev + r.max_fixed_p / array_get scaling (i : Int)) ::
      test_many_bimolecular_rxp scaling local_prob_factor all_neighbors_flag rest (i + 1)
        (if all_neighbors_flag ≠ 0 ∧ local_prob_factor > 0 then
          prev + r.max_fixed_p * local_prob_factor / array_get scaling (i : Int)
        else prev + r.max_fixed_p / array_get scaling (i : Int))

/-- The first `n` cells of the array `rxp` of `test_many_bimolecular`. -/
def test_many_bimolecular_array (rx : List rxn_probs) (scaling : List ℚ)
    (local_prob_factor : ℚ) (all_neighbors_flag : Int) : List ℚ :=
  match rx with
  | [] => []
  | r :: rest =>
    (if all_neighbors_flag ≠ 0 ∧ local_prob_factor > 0 then
        r.max_fixed_p * local_prob_factor / array_get scaling 0
      else r.max_fixed_p / array_get scaling 0) ::
      test_many_bimolecular_rxp scaling local_prob_factor all_neighbors_flag rest 1
        (if all_neighbors_flag ≠ 0 ∧ local_prob_factor > 0 then
          r.max_fixed_p * local_prob_factor / array_get scaling 0
        else r.max_fixed_p / array_get scaling 0)

/-- The end of the branch of `test_many_bimolecular` without cooperative rates,
from the comment "Pick the reaction that happens" on, for the draw `p`: `none`
when `rx[i]` is outside the array. -/
def test_many_bimolecular_pick (rx : List rxn_probs) (rxp scaling : List ℚ)
    (local_prob_factor : ℚ) (all_neighbors_flag : Int) (p : ℚ) (rng : rng_state) :
    Option many_selection :=
  let i : Int := binary_search_double rxp p ((rx.length : Int) - 1) 1
  match (if i < 0 then none else rx[i.toNat]?) with
  | none => none
  | some my_rx =>
    some
      { outcome := i
        rx := rx
        chosen_pathway :=
          if all_neighbors_flag ≠ 0 ∧ local_prob_factor > 0 then
            binary_search_double my_rx.cum_probs
              ((if i > 0 then p - array_get rxp (i - 1) else p) * array_get scaling (i : Int))
              (my_rx.n_pathways - 1) local_prob_factor
          else
            binary_search_double my_rx.cum_probs
              ((if i > 0 then p - array_get rxp (i - 1) else p) * array_get scaling (i : Int))
              (my_rx.n_pathways - 1) 1
        rng := rng }

/-- The function `test_many_bimolecular` of `react_cond.c` for reactions without
cooperative rates; `chosen_pathway` is the content of `*chosen_pathway` at the
call.  The result is `none` where the call is not modelled: an empty array; the
call of `mcell_internal_error`; and the branch `has_coop_rate`, which indexes the
arrays `rx` and `scaling` from `n` to `2n - 1` and does not play a part in the
properties below.  The argument `complex_limits` is read in that branch only and
is left out. -/
def test_many_bimolecular (macro_lookup_rate : Nat → abstract_molecule → ℚ → ℚ)
    (rx : List rxn_probs) (scaling : List ℚ) (local_prob_factor : ℚ) (chosen_pathway : Int)
    (complexes : List (Option abstract_molecule)) (rng : rng_state)
    (all_neighbors_flag : Int) : Option many_selection :=
  if all_neighbors_flag ≠ 0 ∧ local_prob_factor ≤ 0 then none
  else
    match rx with
    | [] => none
    | [r] =>
      if all_neighbors_flag ≠ 0 then
        some
          { outcome :=
              (test_bimolecular macro_lookup_rate r (array_get scaling 0) local_prob_factor
                (complexes.getD 0 none) none rng).outcome
            rx :=
              [(test_bimolecular macro_lookup_rate r (array_get scaling 0) local_prob_factor
                (complexes.getD 0 none) none rng).rx]
            chosen_pathway := chosen_pathway
            rng :=
              (test_bimolecular macro_lookup_rate r (array_get scaling 0) local_prob_factor
                (complexes.getD 0 none) none rng).rng }
      else
        some
          { outcome :=
              (test_bimolecular macro_lookup_rate r 0 (array_get scaling 0)
                (complexes.getD 0 none) none rng).outcome
            rx :=
              [(test_bimolecular macro_lookup_rate r 0 (array_get scaling 0)
                (complexes.getD 0 none) none rng).rx]
            chosen_pathway := chosen_pathway
            rng :=
              (test_bimolecular macro_lookup_rate r 0 (array_get scaling 0)
                (complexes.getD 0 none) none rng).rng }
    | r0 :: r1 :: rest =>
      if (r0 :: r1 :: rest).any (fun r => r.rates.isSome) then none
      else
        let rxp : List ℚ :=
          test_many_bimolecular_array (r0 :: r1 :: rest) scaling local_prob_factor
            all_neighbors_flag
        let last : ℚ := array_get rxp (((r0 :: r1 :: rest).length : Int) - 1)
        if last > 1 then
          test_many_bimolecular_pick
            ((r0 :: r1 :: rest).map (fun r =>
              { r with
                n_skipped :=
                  if all_neighbors_flag ≠ 0 ∧ local_prob_factor > 0 then
                    r.n_skipped +
                      (last - 1) *
                        (array_get r.cum_probs (r.n_pathways - 1) * local_prob_factor) / last
                  else
                    r.n_skipped +
                      (last - 1) * array_get r.cum_probs (r.n_pathways - 1) / last }))
            rxp scaling local_prob_factor all_neighbors_flag ((rng_dbl rng).1 * last)
            (rng_dbl rng).2
        else if (rng_dbl rng).1 > last then
          some
            { outcome := RX_NO_RX, rx := r0 :: r1 :: rest, chosen_pathway := chosen_pathway
              rng := (rng_dbl rng).2 }
        else
          test_many_bimolecular_pick (r0 :: r1 :: rest) rxp scaling local_prob_factor
            all_neighbors_flag (rng_dbl rng).1 (rng_dbl rng).2

/-- The constant `EPS_C` of `mcell_structs.h` (1e-12). -/
def EPS_C : ℚ := 1 / 10 ^ 12

/-- The loop `for (path_idx = rx->n_pathways; path_idx-- != 0;)` of
`timeof_unimolecular`, with `path_idx` the value before the test: the rates of
the cooperative pathways are added from the last pathway down, pathway 0
included, until a pathway without a rate table is met. -/
def timeof_unimolecular_loop (macro_lookup_rate : Nat → abstract_molecule → ℚ → ℚ)
    (rx : rxn_probs) (rates : List (Option Nat)) (a : abstract_molecule) : Nat → ℚ → ℚ
  | 0, k_tot => k_tot
  | path_idx + 1, k_tot =>
    match rates.getD path_idx none with
    | none => k_tot
    | some r =>
      timeof_unimolecular_loop macro_lookup_rate rx rates a path_idx
        (k_tot + macro_lookup_rate r a rx.pb_factor)

/-- The value of `k_tot` in `timeof_unimolecular` when the loop is over.  A
negative `n_pathways`, with which the loop reads outside `rates`, is taken as 0. -/
def timeof_unimolecular_k_tot (macro_lookup_rate : Nat → abstract_molecule → ℚ → ℚ)
    (rx : rxn_probs) (a : abstract_molecule) : ℚ :=
  match rx.rates with
  | none => rx.max_fixed_p
  | some rates =>
    timeof_unimolecular_loop macro_lookup_rate rx rates a rx.n_pathways.toNat rx.max_fixed_p

/-- The function `timeof_unimolecular` of `react_cond.c`: the number of time
steps, `none` for `FOREVER`, and the generator.  The functions `distinguishable`
of `util.c` and `log` of the C library are not among the sources and are
parameters. -/
def timeof_unimolecular (macro_lookup_rate : Nat → abstract_molecule → ℚ → ℚ)
    (distinguishable : ℚ → ℚ → ℚ → Int) (log : ℚ → ℚ)
    (rx : rxn_probs) (a : abstract_molecule) (rng : rng_state) : Option ℚ × rng_state :=
  if timeof_unimolecular_k_tot macro_lookup_rate rx a ≤ 0 ∨
      distinguishable (rng_dbl rng).1 0 EPS_C = 0 then
    (none, (rng_dbl rng).2)
  else
    (some (-(log (rng_dbl rng).1) / timeof_unimolecular_k_tot macro_lookup_rate rx a),
      (rng_dbl rng).2)

/-- The loop `for (path_idx = rx[i]->n_pathways; --path_idx != 0;)` of
`test_many_unimol`, with `path_idx` the value before the test: the rates of the
cooperative pathways are added from the last pathway down to pathway 1, until a
pathway without a rate table is met.  With `n_pathways = 0` the loop reads
outside `rates`; nothing is added here. -/
def test_many_unimol_loop (macro_lookup_rate : Nat → abstract_molecule → ℚ → ℚ)
    (rx : rxn_probs) (rates : List (Option Nat)) (a : abstract_molecule) : Nat → ℚ → ℚ
  | 0, rxp => rxp
  | 1, rxp => rxp
  | path_idx + 2, rxp =>
    match rates.getD (path_idx + 1) none with
    | none => rxp
    | some r =>
      test_many_unimol_loop macro_lookup_rate rx rates a (path_idx + 1)
        (rxp + macro_lookup_rate r a rx.pb_factor)

/-- The cell `rxp[i]` of `test_many_unimol` after the rates of the reaction
`rx[i]` are added to its first value `rxp`. -/
def test_many_unimol_cell (macro_lookup_rate : Nat → abstract_molecule → ℚ → ℚ)
    (rx : rxn_probs) (a : abstract_molecule) (rxp : ℚ) : ℚ :=
  match rx.rates with
  | none => rxp
  | some rates => test_many_unimol_loop macro_lookup_rate rx rates a rx.n_pathways.toNat rxp

/-- The loop `for (i = 1; i < n; i++)` of `test_many_unimol` that fills `rxp`
behind the cell with the value `prev`. -/
def test_many_unimol_rxp (macro_lookup_rate : Nat → abstract_molecule → ℚ → ℚ)
    (a : abstract_molecule) : List rxn_probs → ℚ → List ℚ
  | [], _ => []
  | r :: rest, prev =>
    test_many_unimol_cell macro_lookup_rate r a (prev + r.max_fixed_p) ::
      test_many_unimol_rxp macro_lookup_rate a rest
        (test_many_unimol_cell macro_lookup_rate r a (prev + r.max_fixed_p))

/-- The array `rxp` of `test_many_unimol`. -/
def test_many_unimol_array (macro_lookup_rate : Nat → abstract_molecule → ℚ → ℚ)
    (rx : List rxn_probs) (a : abstract_molecule) : List ℚ :=
  match rx with
  | [] => []
  | r :: rest =>
    test_many_unimol_cell macro_lookup_rate r a r.max_fixed_p ::
      test_many_unimol_rxp macro_lookup_rate a rest
        (test_many_unimol_cell macro_lookup_rate r a r.max_fixed_p)

/-- The function `test_many_unimol` of `react_cond.c`: the reaction returned,
`none` for `NULL` (and for an index outside the array), and the generator. -/
def test_many_unimol (macro_lookup_rate : Nat → abstract_molecule → ℚ → ℚ)
    (rx : List rxn_probs) (a : abstract_molecule) (rng : rng_state) :
    Option rxn_probs × rng_state :=
  match rx with
  | [] => (none, rng)
  | [r] => (some r, rng)
  | r0 :: r1 :: rest =>
    let rxp : List ℚ := test_many_unimol_array macro_lookup_rate (r0 :: r1 :: rest) a
    let p : ℚ := (rng_dbl rng).1 * array_get rxp (((r0 :: r1 :: rest).length : Int) - 1)
    let i : Int := binary_search_double rxp p (((r0 :: r1 :: rest).length : Int) - 1) 1
    (if i < 0 then none else (r0 :: r1 :: rest)[i.toNat]?, (rng_dbl rng).2)

/-! ## Notions used to state the properties of the selectors and of the geometry
classes -/

/-- The weight that `test_many_unimol` gives the reaction with index `i`:
`rxp[i] - rxp[i-1]`, or `rxp[0]`. -/
def test_many_unimol_weight (macro_lookup_rate : Nat → abstract_molecule → ℚ → ℚ)
    (rx : List rxn_probs) (a : abstract_molecule) (i : Int) : ℚ :=
  pathway_prob (test_many_unimol_array macro_lookup_rate rx a) i

/-- The share of the failed reactions that the spec gives the reaction with index
`i` of `test_many_intersect`: `(rxp[n-1] - 1) * (rxp[i] - rxp[i-1]) / rxp[n-1]`. -/
def skipped_share (rxp : List ℚ) (i : Int) : ℚ :=
  (array_get rxp ((rxp.length : Int) - 1) - 1) * pathway_prob rxp i /
    array_get rxp ((rxp.length : Int) - 1)

/-- The class into which the branch of `equivalent_geometry` for two identical
reactants puts a pathway, as a code: the case (1 to 4, in the tens) and the
comparison flags of that case (in the units). -/
def identical_class (o1 o2 o3 : Int) : Int :=
  if c_abs o1 = c_abs o2 ∧ c_abs o1 = c_abs o3 then
    (if o1 = o2 then (if o1 = -o3 ∨ o2 = -o3 then 12 else 13) else 10)
  else if c_abs o1 = c_abs o3 ∨ c_abs o2 = c_abs o3 then
    (if o1 = o3 ∨ o2 = o3 then 21 else 20)
  else if c_abs o1 = c_abs o2 ∧ c_abs o1 ≠ c_abs o3 then
    (if o1 = o2 then 31 else 30)
  else 40

/-! ## Sample data for the selectors -/

/-- A memory whose cells hold the given values from the address 1 on; the other
cells hold 0. -/
def sample_memory (cells : List Int) : Nat → Int :=
  fun address => if address = 0 then 0 else cells.getD (address - 1) 0

/-- A reaction with one cooperative pathway and no fixed pathway. -/
def sample_cooperative : rxn_probs :=
  { n_pathways := 1, cum_probs := [0], max_fixed_p := 0, min_noreaction_p := 0
    pb_factor := 1, rates := some [some 7], n_skipped := 0, prob_t := [] }

/-- A molecule that belongs to a complex. -/
def sample_subunit : abstract_molecule := { flags := COMPLEX_MEMBER, cmplx := true }

/-! # Theorems -/

/-! ## The order given by `strcmp` -/

/-- The character-wise comparison only returns -1, 0 or 1. -/
theorem strcmp_chars_range (a b : List Char) :
    strcmp_chars a b = -1 ∨ strcmp_chars a b = 0 ∨ strcmp_chars a b = 1 := by
  induction a generalizing b with
  | nil => cases b <;> simp [strcmp_chars]
  | cons x xs ih =>
    cases b with
    | nil => simp [strcmp_chars]
    | cons y ys =>
      simp only [strcmp_chars]
      split_ifs
      · simp
      · simp
      · exact ih ys

/-- The character-wise comparison returns 0 exactly on equal lists. -/
theorem strcmp_chars_eq_zero (a b : List Char) : strcmp_chars a b = 0 ↔ a = b := by
  induction a generalizing b with
  | nil => cases b <;> simp [strcmp_chars]
  | cons x xs ih =>
    cases b with
    | nil => simp [strcmp_chars]
    | cons y ys =>
      simp only [strcmp_chars]
      split_ifs with h1 h2
      · have : x ≠ y := by rintro rfl; omega
        simp [this]
      · have : x ≠ y := by rintro rfl; omega
        simp [this]
      · have hxy : x = y := by
          apply Char.ext
          apply UInt32.ext
          have : x.toNat = y.toNat := by omega
          exact this
        simp [hxy, ih ys]

/-- Exchanging the arguments negates the character-wise comparison. -/
theorem strcmp_chars_swap (a b : List Char) : strcmp_chars b a = - strcmp_chars a b := by
  induction a generalizing b with
  | nil => cases b <;> simp [strcmp_chars]
  | cons x xs ih =>
    cases b with
    | nil => simp [strcmp_chars]
    | cons y ys =>
      simp only [strcmp_chars]
      split_ifs <;> first | omega | rfl | exact ih ys

/-- The strict order of the character-wise comparison is transitive. -/
theorem strcmp_chars_lt_trans (a b c : List Char) (h1 : strcmp_chars a b < 0)
    (h2 : strcmp_chars b c < 0) : strcmp_chars a c < 0 := by
  induction a generalizing b c with
  | nil =>
    cases c with
    | nil => cases b <;> simp [strcmp_chars] at h1 h2
    | cons z zs => simp [strcmp_chars]
  | cons x xs ih =>
    cases b with
    | nil => simp [strcmp_chars] at h1
    | cons y ys =>
      cases c with
      | nil => simp [strcmp_chars] at h2
      | cons z zs =>
        simp only [strcmp_chars] at h1 h2 ⊢
        split_ifs at h1 h2 ⊢ <;> first | omega | exact ih ys zs h1 h2

/-- The model of `strcmp` only returns -1, 0 or 1. -/
theorem strcmp_range (a b : String) : strcmp a b = -1 ∨ strcmp a b = 0 ∨ strcmp a b = 1 :=
  strcmp_chars_range a.data b.data

/-- The model of `strcmp` returns 0 exactly on equal strings. -/
theorem strcmp_eq_zero (a b : String) : strcmp a b = 0 ↔ a = b := by
  unfold strcmp
  rw [strcmp_chars_eq_zero]
  constructor
  · intro h
    cases a; cases b; simp_all
  · intro h; rw [h]

/-- Exchanging the arguments of `strcmp` negates the result. -/
theorem strcmp_swap (a b : String) : strcmp b a = - strcmp a b :=
  strcmp_chars_swap a.data b.data

/-- The strict order given by `strcmp` is transitive. -/
theorem strcmp_lt_trans (a b c : String) (h1 : strcmp a b < 0) (h2 : strcmp b c < 0) :
    strcmp a c < 0 :=
  strcmp_chars_lt_trans a.data b.data c.data h1 h2

/-- A string compares equal to itself. -/
theorem strcmp_self (a : String) : strcmp a a = 0 := (strcmp_eq_zero a a).2 rfl

/-- The order given by `strcmp` is transitive. -/
theorem strcmp_le_trans (a b c : String) (h1 : strcmp a b ≤ 0) (h2 : strcmp b c ≤ 0) :
    strcmp a c ≤ 0 := by
  by_cases e1 : strcmp a b = 0
  · rw [(strcmp_eq_zero a b).1 e1]; exact h2
  · by_cases e2 : strcmp b c = 0
    · rw [← (strcmp_eq_zero b c).1 e2]; exact h1
    · have := strcmp_lt_trans a b c (by omega) (by omega)
      omega

/-- Strings that compare equal compare alike with any third string. -/
theorem strcmp_eq_congr (a b c : String) (h : strcmp a b = 0) : strcmp a c = strcmp b c := by
  rw [(strcmp_eq_zero a b).1 h]

/-- The order facts on three names that the case analyses below rely on. -/
theorem strcmp_three (a b c : String) :
    (strcmp a b = -1 ∨ strcmp a b = 0 ∨ strcmp a b = 1) ∧
    (strcmp a c = -1 ∨ strcmp a c = 0 ∨ strcmp a c = 1) ∧
    (strcmp b c = -1 ∨ strcmp b c = 0 ∨ strcmp b c = 1) ∧
    strcmp b a = - strcmp a b ∧ strcmp c a = - strcmp a c ∧ strcmp c b = - strcmp b c ∧
    (strcmp a b < 0 → strcmp b c < 0 → strcmp a c < 0) ∧
    (strcmp a b > 0 → strcmp b c > 0 → strcmp a c > 0) ∧
    (strcmp a c < 0 → strcmp b c > 0 → strcmp a b < 0) ∧
    (strcmp a c > 0 → strcmp b c < 0 → strcmp a b > 0) ∧
    (strcmp a b > 0 → strcmp a c < 0 → strcmp b c < 0) ∧
    (strcmp a b < 0 → strcmp a c > 0 → strcmp b c > 0) ∧
    (strcmp a b = 0 → strcmp a c = strcmp b c) ∧
    (strcmp b c = 0 → strcmp a b = strcmp a c) ∧
    (strcmp a c = 0 → strcmp a b = - strcmp b c) := by
  have hba := strcmp_swap a b
  have hca := strcmp_swap a c
  have hcb := strcmp_swap b c
  refine ⟨strcmp_range a b, strcmp_range a c, strcmp_range b c, hba, hca, hcb,
    ?_, ?_, ?_, ?_, ?_, ?_, ?_, ?_, ?_⟩
  · exact strcmp_lt_trans a b c
  · intro h1 h2
    have := strcmp_lt_trans c b a (by omega) (by omega)
    omega
  · intro h1 h2
    exact strcmp_lt_trans a c b h1 (by omega)
  · intro h1 h2
    have := strcmp_lt_trans b c a h2 (by omega)
    omega
  · intro h1 h2
    exact strcmp_lt_trans b a c (by omega) h2
  · intro h1 h2
    have := strcmp_lt_trans c a b (by omega) h1
    omega
  · exact strcmp_eq_congr a b c
  · intro h
    have := strcmp_eq_congr b c a h
    omega
  · intro h
    have := strcmp_eq_congr a c b h
    omega


/-! ## Orientation-class equivalence -/

/-- C1: `equivalent_geometry_for_two_reactants` accepts the pair `(0, 0)` against
the pair `(1, 1)`, although the first pair is independent (both zero) and the
second one is parallel: the two pairs do not have the same orientation
relationship, yet the function returns 1.  It likewise accepts `(0, 0)` against
the antiparallel pair `(1, -1)`. -/
theorem equivalent_geometry_for_two_reactants_zero_vs_parallel :
    equivalent_geometry_for_two_reactants 0 0 1 1 = 1 ∧
      orientRel 0 0 = OrientRel.independent ∧ orientRel 1 1 = OrientRel.parallel ∧
      equivalent_geometry_for_two_reactants 0 0 1 (-1) = 1 ∧
      orientRel 1 (-1) = OrientRel.antiparallel := by
  decide

/-- Whenever two pairs of orientations have the same orientation relationship,
`equivalent_geometry_for_two_reactants` returns 1. -/
theorem equivalent_geometry_for_two_reactants_of_same_rel (o1a o1b o2a o2b : Int)
    (h : orientRel o1a o1b = orientRel o2a o2b) :
    equivalent_geometry_for_two_reactants o1a o1b o2a o2b = 1 := by
  have key : ∀ x y : Int, c_abs x = c_abs y ↔ (x = y ∨ x = -y) := by
    intro x y
    unfold c_abs
    split_ifs <;> omega
  unfold orientRel at h
  unfold equivalent_geometry_for_two_reactants
  simp only [ne_eq, key]
  split_ifs at h ⊢ <;> first | rfl | (exfalso; omega)

/-- The result of `equivalent_geometry_for_two_reactants` is 0 or 1. -/
theorem equivalent_geometry_for_two_reactants_bool (o1a o1b o2a o2b : Int) :
    equivalent_geometry_for_two_reactants o1a o1b o2a o2b = 0 ∨
      equivalent_geometry_for_two_reactants o1a o1b o2a o2b = 1 := by
  unfold equivalent_geometry_for_two_reactants
  split_ifs <;> simp

/-- C2: `equivalent_geometry` returns 0 for every `n` when the `is_complex` slots
of the two pathways differ; when they agree it returns 1 for `n = 1`, the value of
`equivalent_geometry_for_two_reactants` on the first two orientations for `n = 2`,
and, for `n = 3` unless reactants 1 and 2 coincide in both pathways, 1 exactly
when the pair predicate holds on the pairings (1,2), (2,3) and (1,3), and 0
otherwise. -/
theorem equivalent_geometry_cases (p1 p2 : pathway) :
    ((p1.is_complex0 ≠ p2.is_complex0 ∨ p1.is_complex1 ≠ p2.is_complex1 ∨
        p1.is_complex2 ≠ p2.is_complex2) → ∀ n : Int, equivalent_geometry p1 p2 n = 0) ∧
    ((p1.is_complex0 = p2.is_complex0 ∧ p1.is_complex1 = p2.is_complex1 ∧
        p1.is_complex2 = p2.is_complex2) →
      equivalent_geometry p1 p2 1 = 1 ∧
      equivalent_geometry p1 p2 2 =
        equivalent_geometry_for_two_reactants p1.orientation1 p1.orientation2
          p2.orientation1 p2.orientation2 ∧
      (¬ (p1.reactant1 = p1.reactant2 ∧ p2.reactant1 = p2.reactant2) →
        (equivalent_geometry p1 p2 3 = 1 ↔
          (equivalent_geometry_for_two_reactants p1.orientation1 p1.orientation2
              p2.orientation1 p2.orientation2 ≠ 0 ∧
            equivalent_geometry_for_two_reactants p1.orientation2 p1.orientation3
              p2.orientation2 p2.orientation3 ≠ 0 ∧
            equivalent_geometry_for_two_reactants p1.orientation1 p1.orientation3
              p2.orientation1 p2.orientation3 ≠ 0)) ∧
        (equivalent_geometry p1 p2 3 = 0 ∨ equivalent_geometry p1 p2 3 = 1))) := by
  constructor
  · intro hdiff n
    have hm : memcmp_is_complex p1 p2 ≠ 0 := by
      unfold memcmp_is_complex
      rw [if_neg]
      · decide
      · intro h
        rcases hdiff with h0 | h1 | h2
        · exact h0 h.1
        · exact h1 h.2.1
        · exact h2 h.2.2
    unfold equivalent_geometry
    rw [if_pos hm]
  · intro hsame
    have hm : ¬ memcmp_is_complex p1 p2 ≠ 0 := by
      unfold memcmp_is_complex
      rw [if_pos hsame]
      decide
    refine ⟨?_, ?_, ?_⟩
    · unfold equivalent_geometry
      rw [if_neg hm, if_pos (by decide)]
    · unfold equivalent_geometry
      rw [if_neg hm, if_neg (by decide), if_pos (by decide)]
    · intro hid
      have h3 : equivalent_geometry p1 p2 3 =
          if equivalent_geometry_for_two_reactants p1.orientation1 p1.orientation2
                p2.orientation1 p2.orientation2 ≠ 0
              ∧ equivalent_geometry_for_two_reactants p1.orientation2 p1.orientation3
                p2.orientation2 p2.orientation3 ≠ 0
              ∧ equivalent_geometry_for_two_reactants p1.orientation1 p1.orientation3
                p2.orientation1 p2.orientation3 ≠ 0 then 1 else 0 := by
        unfold equivalent_geometry
        rw [if_neg hm, if_neg (by decide), if_neg (by decide), if_pos (by decide), if_neg hid]
      rw [h3]
      constructor
      · constructor
        · intro h
          by_contra hc
          rw [if_neg hc] at h
          exact absurd h (by decide)
        · intro h
          rw [if_pos h]
      · by_cases hc :
            equivalent_geometry_for_two_reactants p1.orientation1 p1.orientation2
                p2.orientation1 p2.orientation2 ≠ 0
              ∧ equivalent_geometry_for_two_reactants p1.orientation2 p1.orientation3
                p2.orientation2 p2.orientation3 ≠ 0
              ∧ equivalent_geometry_for_two_reactants p1.orientation1 p1.orientation3
                p2.orientation1 p2.orientation3 ≠ 0
        · right; rw [if_pos hc]
        · left; rw [if_neg hc]

/-- Witness for C2 on the pathways `A' + B' + C'` and `A, + B, + C,` (all
parallel against all parallel). -/
theorem equivalent_geometry_cases_witness :
    equivalent_geometry
        (sample_pathway3 (sample_molecule 1 "A") (sample_molecule 2 "B")
          (sample_molecule 3 "C") 1 1 1)
        (sample_pathway3 (sample_molecule 1 "A") (sample_molecule 2 "B")
          (sample_molecule 3 "C") (-1) (-1) (-1)) 3 = 1 :=
  ((((equivalent_geometry_cases
        (sample_pathway3 (sample_molecule 1 "A") (sample_molecule 2 "B")
          (sample_molecule 3 "C") 1 1 1)
        (sample_pathway3 (sample_molecule 1 "A") (sample_molecule 2 "B")
          (sample_molecule 3 "C") (-1) (-1) (-1))).2
      (by decide)).2.2 (by decide)).1).2 (by decide)

/-! ## Splitting -/

/-- C3: on the pathways `A' + B'`, `A + B` (no orientation) and `A' + B,` of a
two-reactant reaction, `split_reaction` returns one reaction set holding all
three, none of them special, although the first and the last are not
geometry-equivalent: each newcomer was only compared with the current head
pathway of the set. -/
theorem split_reaction_set_not_pairwise_equivalent :
    split_reaction
        { n_reactants := 2, n_pathways := 0
          pathway_head := [sample_pathway2 1 1 0, sample_pathway2 0 0 0,
            sample_pathway2 1 (-1) 0] } =
      some [{ n_reactants := 2, n_pathways := 3
              pathway_head := [sample_pathway2 1 (-1) 0, sample_pathway2 0 0 0,
                sample_pathway2 1 1 0] }] ∧
    is_special (sample_pathway2 1 1 0) = false ∧
    is_special (sample_pathway2 0 0 0) = false ∧
    is_special (sample_pathway2 1 (-1) 0) = false ∧
    equivalent_geometry (sample_pathway2 1 (-1) 0) (sample_pathway2 1 1 0) 2 = 0 := by
  decide

/-- C4: a `CLAMP_CONC` pathway `A' @ S'` followed by an ordinary pathway with the
same reactant geometry does not stay alone: `split_reaction` attaches the
ordinary pathway to the set of the clamp pathway, which ends with
`n_pathways = 2`. -/
theorem split_reaction_clamp_conc_shares_set :
    is_special (sample_surface_pathway 1 1 PATHW_CLAMP_CONC) = true ∧
    split_reaction
        { n_reactants := 2, n_pathways := 0
          pathway_head := [sample_surface_pathway 1 1 PATHW_CLAMP_CONC,
            sample_surface_pathway 1 1 0] } =
      some [{ n_reactants := 2, n_pathways := 2
              pathway_head := [sample_surface_pathway 1 1 0,
                sample_surface_pathway 1 1 PATHW_CLAMP_CONC] }] := by
  decide

/-! ## Duplicate check -/

/-- C5: of the three pathways `A' -> C'`, `A' -> C,`, `A' -> C'` (equal
signature `C`), the first and the third are duplicates under the pair
predicate, yet the check succeeds: after the sort they are separated by the
second one and only adjacent pathways are compared. -/
theorem check_reaction_for_duplicate_pathways_misses_non_adjacent :
    duplicate_pathways (sample_pathway1 1 1) (sample_pathway1 1 1) = true ∧
    check_reaction_for_duplicate_pathways
        [sample_pathway1 1 1, sample_pathway1 1 (-1), sample_pathway1 1 1] =
      Except.ok [sample_pathway1 1 1, sample_pathway1 1 (-1), sample_pathway1 1 1] := by
  decide

/-! ## Product signature -/

/-- C8: the product lists `A, C, B` and `A, B, C` are permutations of each other,
but `create_product_signature` gives the first the signature `A+C+B` and the
second the signature `A+B+C`. -/
theorem create_product_signature_depends_on_order :
    List.Perm [sample_product 1 "A", sample_product 3 "C", sample_product 2 "B"]
      [sample_product 1 "A", sample_product 2 "B", sample_product 3 "C"] ∧
    (create_product_signature (sample_unsigned_pathway
        [sample_product 1 "A", sample_product 3 "C", sample_product 2 "B"])).prod_signature =
      some "A+C+B" ∧
    (create_product_signature (sample_unsigned_pathway
        [sample_product 1 "A", sample_product 2 "B", sample_product 3 "C"])).prod_signature =
      some "A+B+C" := by
  refine ⟨?_, by decide, by decide⟩
  exact (List.Perm.swap _ _ _).cons _

/-! ## Duplicate check: pathways without products -/

/-- The extraction loop splits the list into the pathways with a signature, in
order, and the pathways without one, pushed in reverse order. -/
theorem extract_null_signature_eq (l acc : List pathway) :
    extract_null_signature l acc =
      (l.filter (fun p => decide (p.prod_signature ≠ none)),
        (l.filter (fun p => decide (p.prod_signature = none))).reverse ++ acc) := by
  induction l generalizing acc with
  | nil => simp [extract_null_signature]
  | cons x xs ih =>
    unfold extract_null_signature
    by_cases h : x.prod_signature = none
    · simp [h, ih]
    · simp [h, ih]

/-- The scan loop of the signature sort inserts `c` and loses nothing. -/
theorem pathway_sort_scan_perm (c : pathway) (l : List pathway) :
    (pathway_sort_scan c l).Perm (c :: l) := by
  induction l with
  | nil => simp [pathway_sort_scan]
  | cons iter rest ih =>
    cases rest with
    | nil =>
      simp only [pathway_sort_scan]
      exact List.Perm.swap _ _ _
    | cons nxt rest1 =>
      simp only [pathway_sort_scan]
      split_ifs
      · exact (List.Perm.cons iter ih).trans (List.Perm.swap _ _ _)
      · exact List.Perm.swap _ _ _

/-- One round of the signature sort inserts `c` and loses nothing. -/
theorem pathway_sort_insert_perm (c : pathway) (l : List pathway) :
    (pathway_sort_insert l c).Perm (c :: l) := by
  cases l with
  | nil => simp [pathway_sort_insert]
  | cons h t =>
    simp only [pathway_sort_insert]
    split_ifs
    · exact List.Perm.refl _
    · exact pathway_sort_scan_perm c (h :: t)

/-- The scan loop of the signature sort keeps a sorted list sorted when the new
pathway is not below its head. -/
theorem pathway_sort_scan_sorted (c : pathway) (iter : pathway) (rest : List pathway)
    (hs : List.Pairwise signature_le (iter :: rest)) (hc : signature_le iter c) :
    List.Pairwise signature_le (pathway_sort_scan c (iter :: rest)) := by
  induction rest generalizing iter with
  | nil =>
    simp only [pathway_sort_scan]
    simp [hc]
  | cons nxt rest1 ih =>
    simp only [pathway_sort_scan]
    rw [List.pairwise_cons] at hs
    obtain ⟨hhead, htail⟩ := hs
    split_ifs with hlt
    · rw [List.pairwise_cons]
      refine ⟨?_, ih nxt htail (by unfold signature_le; omega)⟩
      intro a ha
      have hm := (pathway_sort_scan_perm c (nxt :: rest1)).mem_iff.1 ha
      rcases List.mem_cons.1 hm with rfl | hm1
      · exact hc
      · exact hhead a hm1
    · have hcn : signature_le c nxt := by
        unfold signature_le
        have := strcmp_swap (signature_of nxt) (signature_of c)
        omega
      rw [List.pairwise_cons]
      refine ⟨?_, ?_⟩
      · intro a ha
        rcases List.mem_cons.1 ha with rfl | ha1
        · exact hc
        · exact hhead a ha1
      · rw [List.pairwise_cons]
        refine ⟨?_, htail⟩
        intro a ha
        rcases List.mem_cons.1 ha with rfl | ha1
        · exact hcn
        · exact strcmp_le_trans _ _ _ hcn ((List.pairwise_cons.1 htail).1 a ha1)

/-- One round of the signature sort keeps a sorted list sorted. -/
theorem pathway_sort_insert_sorted (c : pathway) (l : List pathway)
    (hs : List.Pairwise signature_le l) :
    List.Pairwise signature_le (pathway_sort_insert l c) := by
  cases l with
  | nil => simp [pathway_sort_insert]
  | cons h t =>
    simp only [pathway_sort_insert]
    split_ifs with hge
    · have hch : signature_le c h := by
        unfold signature_le
        have := strcmp_swap (signature_of h) (signature_of c)
        omega
      rw [List.pairwise_cons]
      refine ⟨?_, hs⟩
      intro a ha
      rcases List.mem_cons.1 ha with rfl | ha1
      · exact hch
      · exact strcmp_le_trans _ _ _ hch ((List.pairwise_cons.1 hs).1 a ha1)
    · exact pathway_sort_scan_sorted c h t hs (by unfold signature_le; omega)

/-- The signature sort returns a sorted permutation of its input. -/
theorem pathway_sort_foldl (l acc : List pathway) (hs : List.Pairwise signature_le acc) :
    List.Pairwise signature_le (l.foldl pathway_sort_insert acc) ∧
      (l.foldl pathway_sort_insert acc).Perm (acc ++ l) := by
  induction l generalizing acc with
  | nil => simp [hs]
  | cons x xs ih =>
    simp only [List.foldl_cons]
    obtain ⟨h1, h2⟩ := ih (pathway_sort_insert acc x) (pathway_sort_insert_sorted x acc hs)
    refine ⟨h1, h2.trans ?_⟩
    have := pathway_sort_insert_perm x acc
    exact (List.Perm.append_right xs this).trans (by simpa using (List.perm_middle).symm)

/-- No adjacent pair is reported as a duplicate when all signatures are pairwise
distinct. -/
theorem adjacent_duplicate_false (l : List pathway)
    (h : List.Pairwise (fun x y => signature_of x ≠ signature_of y) l) :
    adjacent_duplicate l = false := by
  induction l with
  | nil => rfl
  | cons x t ih =>
    cases t with
    | nil => rfl
    | cons y rest =>
      rw [List.pairwise_cons] at h
      have hxy : signature_of x ≠ signature_of y := h.1 y (List.mem_cons_self _ _)
      have hne : ¬ strcmp (signature_of x) (signature_of y) = 0 := by
        rw [strcmp_eq_zero]; exact hxy
      simp [adjacent_duplicate, duplicate_pathways, hne, ih h.2]

/-- C6: when two or more pathways of the list have a `NULL` signature the check
fails with the duplicate-reaction error; when exactly one, `pnull`, has a `NULL`
signature and the others have pairwise distinct signatures, the check succeeds
and returns the others, sorted strictly ascending by signature, followed by
`pnull` as the last element. -/
theorem check_reaction_for_duplicate_pathways_null_signature (head : List pathway) :
    (2 ≤ (head.filter (fun p => decide (p.prod_signature = none))).length →
        check_reaction_for_duplicate_pathways head =
          Except.error rxn_error.duplicate_reaction) ∧
    (∀ pnull : pathway,
        head.filter (fun p => decide (p.prod_signature = none)) = [pnull] →
        List.Pairwise (fun x y => x.prod_signature ≠ y.prod_signature)
          (head.filter (fun p => decide (p.prod_signature ≠ none))) →
        ∃ sorted : List pathway,
          check_reaction_for_duplicate_pathways head = Except.ok (sorted ++ [pnull]) ∧
          sorted.Perm (head.filter (fun p => decide (p.prod_signature ≠ none))) ∧
          List.Pairwise (fun x y => strcmp (signature_of x) (signature_of y) < 0) sorted) := by
  constructor
  · intro h2
    unfold check_reaction_for_duplicate_pathways
    simp only [extract_null_signature_eq, List.append_nil, List.length_reverse]
    rw [if_pos h2]
  · intro pnull hnull hdist
    obtain ⟨hsorted, hperm⟩ :=
      pathway_sort_foldl (head.filter (fun p => decide (p.prod_signature ≠ none))) []
        List.Pairwise.nil
    rw [List.nil_append] at hperm
    have hne : List.Pairwise (fun x y => signature_of x ≠ signature_of y)
        (head.filter (fun p => decide (p.prod_signature ≠ none))) := by
      refine List.Pairwise.imp_of_mem ?_ hdist
      intro a b ha hb hab
      have ha1 : a.prod_signature ≠ none := by simpa using (List.mem_filter.1 ha).2
      have hb1 : b.prod_signature ≠ none := by simpa using (List.mem_filter.1 hb).2
      unfold signature_of
      cases hsa : a.prod_signature with
      | none => exact absurd hsa ha1
      | some sa =>
        cases hsb : b.prod_signature with
        | none => exact absurd hsb hb1
        | some sb =>
          intro heq
          apply hab
          rw [hsa, hsb]
          simpa using heq
    have hne2 : List.Pairwise (fun x y => signature_of x ≠ signature_of y)
        ((head.filter (fun p => decide (p.prod_signature ≠ none))).foldl
          pathway_sort_insert []) :=
      (hperm.pairwise_iff (fun {x y} (h : signature_of x ≠ signature_of y) => h.symm)).2 hne
    have hadj := adjacent_duplicate_false _ hne2
    have hlt : List.Pairwise (fun x y => strcmp (signature_of x) (signature_of y) < 0)
        ((head.filter (fun p => decide (p.prod_signature ≠ none))).foldl
          pathway_sort_insert []) := by
      refine (hsorted.and hne2).imp ?_
      intro a b hab
      have h0 : ¬ strcmp (signature_of a) (signature_of b) = 0 := by
        rw [strcmp_eq_zero]; exact hab.2
      have h1 : strcmp (signature_of a) (signature_of b) ≤ 0 := hab.1
      omega
    refine ⟨_, ?_, hperm, hlt⟩
    unfold check_reaction_for_duplicate_pathways
    simp only [extract_null_signature_eq, List.append_nil, hnull, List.reverse_singleton,
      List.length_singleton]
    rw [if_neg (by decide), hadj]
    cases hres : (head.filter (fun p => decide (p.prod_signature ≠ none))).foldl
        pathway_sort_insert [] with
    | nil => simp
    | cons r rs => simp

/-- Witness for C6: two pathways without products are rejected, and the list
`A -> C`, `A -> (nothing)`, `A -> B` is accepted with the pathway without
products last. -/
theorem check_reaction_for_duplicate_pathways_null_signature_witness :
    check_reaction_for_duplicate_pathways
        [sample_unsigned_pathway [], sample_pathway_to 3 "C", sample_unsigned_pathway []] =
      Except.error rxn_error.duplicate_reaction ∧
    ∃ sorted : List pathway,
      check_reaction_for_duplicate_pathways
          [sample_pathway_to 3 "C", sample_unsigned_pathway [], sample_pathway_to 2 "B"] =
        Except.ok (sorted ++ [sample_unsigned_pathway []]) ∧
      sorted.Perm
        ([sample_pathway_to 3 "C", sample_unsigned_pathway [], sample_pathway_to 2 "B"].filter
          (fun p => decide (p.prod_signature ≠ none))) ∧
      List.Pairwise (fun x y => strcmp (signature_of x) (signature_of y) < 0) sorted :=
  ⟨(check_reaction_for_duplicate_pathways_null_signature
      [sample_unsigned_pathway [], sample_pathway_to 3 "C", sample_unsigned_pathway []]).1
      (by decide),
    (check_reaction_for_duplicate_pathways_null_signature
      [sample_pathway_to 3 "C", sample_unsigned_pathway [], sample_pathway_to 2 "B"]).2
      (sample_unsigned_pathway []) (by decide) (by decide)⟩

/-! ## Order of the sorted product list -/

/-- A negative result of `sort_product_list_compare` means the first product
precedes the second under the key of the comparison. -/
theorem sort_product_list_compare_neg (x y : product)
    (h : sort_product_list_compare x y < 0) : product_precedes x y := by
  unfold sort_product_list_compare at h
  dsimp only at h
  unfold product_precedes
  rcases strcmp_range x.prod.name y.prod.name with hs | hs | hs <;>
    simp only [hs] at h ⊢ <;> split_ifs at h with k1 k2 k3 <;>
    simp only [ne_eq, Decidable.not_not, true_and] at * <;> omega

/-- A non-negative result of `sort_product_list_compare` means the second
product precedes the first under the key of the comparison. -/
theorem sort_product_list_compare_nonneg (x y : product)
    (h : sort_product_list_compare x y ≥ 0) : product_precedes y x := by
  unfold sort_product_list_compare at h
  dsimp only at h
  unfold product_precedes
  have hsw := strcmp_swap x.prod.name y.prod.name
  rcases strcmp_range x.prod.name y.prod.name with hs | hs | hs <;>
    rw [hs] at hsw <;> simp only [hs, hsw] at h ⊢ <;> split_ifs at h with k1 k2 k3 <;>
    simp only [ne_eq, Decidable.not_not, true_and] at * <;> omega

/-- C7 (counterexample): on the two products `A` with `is_complex = 1` and `A`
with `is_complex = 0`, `sort_product_list` puts the one with `is_complex = 0`
first, so the adjacent pair of the result is not in the stated order
(`is_complex` descending).  On the three products `A`, `C`, `B` (all with
`is_complex = 0` and no orientation) the result is `A`, `C`, `B`, whose adjacent
pair `(C, B)` is ordered neither under the stated key nor under the key with
`is_complex` ascending. -/
theorem sort_product_list_not_claimed_order :
    sort_product_list
        [{ prod := sample_molecule 1 "A", orientation := 0, is_complex := 1 },
          { prod := sample_molecule 1 "A", orientation := 0, is_complex := 0 }] =
      [{ prod := sample_molecule 1 "A", orientation := 0, is_complex := 0 },
        { prod := sample_molecule 1 "A", orientation := 0, is_complex := 1 }] ∧
    ¬ product_precedes_claimed
        { prod := sample_molecule 1 "A", orientation := 0, is_complex := 0 }
        { prod := sample_molecule 1 "A", orientation := 0, is_complex := 1 } ∧
    sort_product_list [sample_product 1 "A", sample_product 3 "C", sample_product 2 "B"] =
      [sample_product 1 "A", sample_product 3 "C", sample_product 2 "B"] ∧
    ¬ product_precedes_claimed (sample_product 3 "C") (sample_product 2 "B") ∧
    ¬ product_precedes (sample_product 3 "C") (sample_product 2 "B") := by
  decide

/-- C7 (amended): for every product list of at most two products, each adjacent
pair `(x, y)` of the list returned by `sort_product_list` is ordered under the key
(`is_complex` ascending, then species name ascending, then orientation
descending). -/
theorem sort_product_list_ordered_upto_two (l : List product) (h : l.length ≤ 2) :
    List.Chain' product_precedes (sort_product_list l) := by
  match l, h with
  | [], _ => simp [sort_product_list]
  | [a], _ => simp [sort_product_list, sort_product_list_insert]
  | [a, b], _ =>
    by_cases hc : sort_product_list_compare a b ≥ 0
    · have := sort_product_list_compare_nonneg a b hc
      simp [sort_product_list, sort_product_list_insert, hc, this]
    · have := sort_product_list_compare_neg a b (by omega)
      simp [sort_product_list, sort_product_list_insert, sort_product_list_scan, hc, this]
  | _ :: _ :: _ :: _, h => simp at h

/-- Witness for C7 (amended) on the list `B, A`. -/
theorem sort_product_list_ordered_upto_two_witness :
    List.Chain' product_precedes
      (sort_product_list
        [{ prod := sample_molecule 2 "B", orientation := 0, is_complex := 0 },
          { prod := sample_molecule 1 "A", orientation := 0, is_complex := 0 }]) :=
  sort_product_list_ordered_upto_two _ (by decide)

/-! ## Normalisation -/

/-- Two molecules: normalisation succeeds and is stable. -/
theorem normalize_two_molecules (r1 r2 : species) (p3 : Option species)
    (o1 o2 o3 : Int) (c0 c1 c2 fl : Nat) (ph : List product) (ps : Option String)
    (s1 : r1.flags &&& IS_SURFACE = 0) (s2 : r2.flags &&& IS_SURFACE = 0) :
    ∃ q, normalize_pathway
          { reactant1 := some r1, reactant2 := some r2, reactant3 := p3
            orientation1 := o1, orientation2 := o2, orientation3 := o3
            is_complex0 := c0, is_complex1 := c1, is_complex2 := c2
            flags := fl, product_head := ph, prod_signature := ps } 2 = some q ∧
      normalize_pathway q 2 = some q := by
  have e21 := strcmp_swap r1.name r2.name
  rcases strcmp_range r1.name r2.name with h12 | h12 | h12 <;> rw [h12] at e21 <;>
    by_cases a : o1 < o2 <;> by_cases a1 : o2 < o1 <;>
    first
    | (exfalso; omega)
    | simp [normalize_pathway, finalize_reaction_surface_last, alphabetize_pathway,
        alphabetize_pathway_two, s1, s2, h12, e21, a, a1]

/-- Molecule and surface class, in this order: normalisation succeeds, is stable,
and leaves the surface class in slot 2. -/
theorem normalize_two_surface2 (r1 r2 : species) (p3 : Option species)
    (o1 o2 o3 : Int) (c0 c1 c2 fl : Nat) (ph : List product) (ps : Option String)
    (s1 : r1.flags &&& IS_SURFACE = 0) (s2 : ¬ r2.flags &&& IS_SURFACE = 0) :
    ∃ q, normalize_pathway
          { reactant1 := some r1, reactant2 := some r2, reactant3 := p3
            orientation1 := o1, orientation2 := o2, orientation3 := o3
            is_complex0 := c0, is_complex1 := c1, is_complex2 := c2
            flags := fl, product_head := ph, prod_signature := ps } 2 = some q ∧
      normalize_pathway q 2 = some q ∧ q.reactant2 = some r2 ∧ q.orientation2 = o2 := by
  simp [normalize_pathway, finalize_reaction_surface_last, alphabetize_pathway,
    alphabetize_pathway_two, s1, s2]

/-- Surface class and molecule, in this order: normalisation succeeds, is stable,
and moves the surface class with its orientation to slot 2. -/
theorem normalize_two_surface1 (r1 r2 : species) (p3 : Option species)
    (o1 o2 o3 : Int) (c0 c1 c2 fl : Nat) (ph : List product) (ps : Option String)
    (s1 : ¬ r1.flags &&& IS_SURFACE = 0) (s2 : r2.flags &&& IS_SURFACE = 0) :
    ∃ q, normalize_pathway
          { reactant1 := some r1, reactant2 := some r2, reactant3 := p3
            orientation1 := o1, orientation2 := o2, orientation3 := o3
            is_complex0 := c0, is_complex1 := c1, is_complex2 := c2
            flags := fl, product_head := ph, prod_signature := ps } 2 = some q ∧
      normalize_pathway q 2 = some q ∧ q.reactant2 = some r1 ∧ q.orientation2 = o1 := by
  simp [normalize_pathway, finalize_reaction_surface_last, alphabetize_pathway,
    alphabetize_pathway_two, s1, s2]

set_option maxHeartbeats 1600000 in
/-- Three molecules: normalisation succeeds and is stable unless reactant 3 shares
its name with one of reactants 1 and 2 of smaller orientation while the other one
has a greater name. -/
theorem normalize_three_molecules (r1 r2 r3 : species)
    (o1 o2 o3 : Int) (c0 c1 c2 fl : Nat) (ph : List product) (ps : Option String)
    (s1 : r1.flags &&& IS_SURFACE = 0) (s2 : r2.flags &&& IS_SURFACE = 0)
    (s3 : r3.flags &&& IS_SURFACE = 0)
    (hname :
      ¬ (strcmp r1.name r3.name = 0 ∧ strcmp r2.name r3.name > 0 ∧ o1 < o3) ∧
      ¬ (strcmp r2.name r3.name = 0 ∧ strcmp r1.name r3.name > 0 ∧ o2 < o3)) :
    ∃ q, normalize_pathway
          { reactant1 := some r1, reactant2 := some r2, reactant3 := some r3
            orientation1 := o1, orientation2 := o2, orientation3 := o3
            is_complex0 := c0, is_complex1 := c1, is_complex2 := c2
            flags := fl, product_head := ph, prod_signature := ps } 3 = some q ∧
      normalize_pathway q 3 = some q := by
  obtain ⟨h12, h13, h23, e21, e31, e32, t1, t2, t3, t4, t5, t6, q1, q2, q3⟩ :=
    strcmp_three r1.name r2.name r3.name
  rcases h12 with h12 | h12 | h12 <;> rcases h13 with h13 | h13 | h13 <;>
    rcases h23 with h23 | h23 | h23 <;>
    rw [h12] at e21 <;> rw [h13] at e31 <;> rw [h23] at e32 <;>
    first
    | (exfalso; omega)
    | (simp only [normalize_pathway, gt_iff_lt, Nat.one_lt_ofNat, reduceIte,
        finalize_reaction_surface_last, Nat.lt_add_one, ne_eq, ite_not, Option.pure_def,
        Option.bind_eq_bind, Option.some_bind, alphabetize_pathway,
        alphabetize_pathway_two, alphabetize_pathway_three, Int.reduceNeg,
        Left.neg_pos_iff, Int.reduceLT, neg_eq_zero, one_ne_zero, lt_self_iff_false,
        zero_lt_one, Option.some.injEq, exists_eq_left', ite_self, neg_neg, neg_zero,
        not_true_eq_false, not_false_eq_true, and_self,
        s1, s2, s3, h12, h13, h23, e21, e31, e32]
       done)
    | (simp [h12, h13, h23] at hname
       clear t1 t2 t3 t4 t5 t6 q1 q2 q3
       by_cases a : o1 < o2 <;> by_cases a1 : o2 < o1 <;> try (exfalso; omega)
       all_goals by_cases b : o1 < o3 <;> by_cases b1 : o3 < o1 <;> try (exfalso; omega)
       all_goals by_cases c : o2 < o3 <;> by_cases c1 : o3 < o2 <;>
         first
         | (exfalso; omega)
         | (simp only [normalize_pathway, gt_iff_lt, Nat.one_lt_ofNat, reduceIte,
              finalize_reaction_surface_last, Nat.lt_add_one, ne_eq, ite_not, Option.pure_def,
              Option.bind_eq_bind, Option.some_bind, alphabetize_pathway,
              alphabetize_pathway_two, alphabetize_pathway_three, Int.reduceNeg,
              Left.neg_pos_iff, Int.reduceLT, neg_eq_zero, one_ne_zero, lt_self_iff_false,
              zero_lt_one, Option.some.injEq, exists_eq_left', ite_self, neg_neg, neg_zero,
              not_true_eq_false, not_false_eq_true, and_self,
              s1, s2, s3, h12, h13, h23, e21, e31, e32, a, a1, b, b1, c, c1])
)

/-- Three reactants with the surface class in slot 3: normalisation succeeds, is
stable, and leaves the surface class in slot 3. -/
theorem normalize_three_surface3 (r1 r2 r3 : species)
    (o1 o2 o3 : Int) (c0 c1 c2 fl : Nat) (ph : List product) (ps : Option String)
    (s1 : r1.flags &&& IS_SURFACE = 0) (s2 : r2.flags &&& IS_SURFACE = 0)
    (s3 : ¬ r3.flags &&& IS_SURFACE = 0) :
    ∃ q, normalize_pathway
          { reactant1 := some r1, reactant2 := some r2, reactant3 := some r3
            orientation1 := o1, orientation2 := o2, orientation3 := o3
            is_complex0 := c0, is_complex1 := c1, is_complex2 := c2
            flags := fl, product_head := ph, prod_signature := ps } 3 = some q ∧
      normalize_pathway q 3 = some q ∧ q.reactant3 = some r3 ∧ q.orientation3 = o3 := by
  have e21 := strcmp_swap r1.name r2.name
  rcases strcmp_range r1.name r2.name with h12 | h12 | h12 <;> rw [h12] at e21 <;>
    by_cases a : o1 < o2 <;> by_cases a1 : o2 < o1 <;>
    first
    | (exfalso; omega)
    | simp [normalize_pathway, finalize_reaction_surface_last, alphabetize_pathway,
        alphabetize_pathway_two, alphabetize_pathway_three, s1, s2, s3, h12, e21, a, a1]

/-- Three reactants with the surface class in slot 2: normalisation succeeds, is
stable, and moves the surface class with its orientation to slot 3. -/
theorem normalize_three_surface2 (r1 r2 r3 : species)
    (o1 o2 o3 : Int) (c0 c1 c2 fl : Nat) (ph : List product) (ps : Option String)
    (s1 : r1.flags &&& IS_SURFACE = 0) (s2 : ¬ r2.flags &&& IS_SURFACE = 0)
    (s3 : r3.flags &&& IS_SURFACE = 0) :
    ∃ q, normalize_pathway
          { reactant1 := some r1, reactant2 := some r2, reactant3 := some r3
            orientation1 := o1, orientation2 := o2, orientation3 := o3
            is_complex0 := c0, is_complex1 := c1, is_complex2 := c2
            flags := fl, product_head := ph, prod_signature := ps } 3 = some q ∧
      normalize_pathway q 3 = some q ∧ q.reactant3 = some r2 ∧ q.orientation3 = o2 := by
  have e31 := strcmp_swap r1.name r3.name
  rcases strcmp_range r1.name r3.name with h13 | h13 | h13 <;> rw [h13] at e31 <;>
    by_cases b : o1 < o3 <;> by_cases b1 : o3 < o1 <;>
    first
    | (exfalso; omega)
    | simp [normalize_pathway, finalize_reaction_surface_last, alphabetize_pathway,
        alphabetize_pathway_two, alphabetize_pathway_three, s1, s2, s3, h13, e31, b, b1]

/-- Three reactants with the surface class in slot 1: normalisation succeeds, is
stable, and moves the surface class with its orientation to slot 3. -/
theorem normalize_three_surface1 (r1 r2 r3 : species)
    (o1 o2 o3 : Int) (c0 c1 c2 fl : Nat) (ph : List product) (ps : Option String)
    (s1 : ¬ r1.flags &&& IS_SURFACE = 0) (s2 : r2.flags &&& IS_SURFACE = 0)
    (s3 : r3.flags &&& IS_SURFACE = 0) :
    ∃ q, normalize_pathway
          { reactant1 := some r1, reactant2 := some r2, reactant3 := some r3
            orientation1 := o1, orientation2 := o2, orientation3 := o3
            is_complex0 := c0, is_complex1 := c1, is_complex2 := c2
            flags := fl, product_head := ph, prod_signature := ps } 3 = some q ∧
      normalize_pathway q 3 = some q ∧ q.reactant3 = some r1 ∧ q.orientation3 = o1 := by
  have e32 := strcmp_swap r2.name r3.name
  rcases strcmp_range r2.name r3.name with h23 | h23 | h23 <;> rw [h23] at e32 <;>
    by_cases c : o2 < o3 <;> by_cases c1 : o3 < o2 <;>
    first
    | (exfalso; omega)
    | simp [normalize_pathway, finalize_reaction_surface_last, alphabetize_pathway,
        alphabetize_pathway_two, alphabetize_pathway_three, s1, s2, s3, h23, e32, c, c1]

/-- C9 (counterexample): normalising `A + B + A'` (orientations 0, 0, 1) gives
`A + A' + B` with orientations (0, 1, 0), and normalising that pathway again
gives the orientations (1, 0, 0): the second normalisation is not a no-op.
Likewise a pathway whose two reactants are both surface classes, `S' + T`, is
turned into `T + S'` and back by each normalisation. -/
theorem normalize_pathway_not_idempotent :
    normalize_pathway
        (sample_pathway3 (sample_molecule 1 "A") (sample_molecule 2 "B")
          (sample_molecule 1 "A") 0 0 1) 3 =
      some (sample_pathway3 (sample_molecule 1 "A") (sample_molecule 1 "A")
          (sample_molecule 2 "B") 0 1 0) ∧
    normalize_pathway
        (sample_pathway3 (sample_molecule 1 "A") (sample_molecule 1 "A")
          (sample_molecule 2 "B") 0 1 0) 3 =
      some (sample_pathway3 (sample_molecule 1 "A") (sample_molecule 1 "A")
          (sample_molecule 2 "B") 1 0 0) ∧
    sample_pathway3 (sample_molecule 1 "A") (sample_molecule 1 "A")
        (sample_molecule 2 "B") 0 1 0 ≠
      sample_pathway3 (sample_molecule 1 "A") (sample_molecule 1 "A")
        (sample_molecule 2 "B") 1 0 0 ∧
    normalize_pathway (sample_surface_pair (sample_surface 8 "S") (sample_surface 9 "T") 1 0) 2 =
      some (sample_surface_pair (sample_surface 9 "T") (sample_surface 8 "S") 0 1) ∧
    normalize_pathway (sample_surface_pair (sample_surface 9 "T") (sample_surface 8 "S") 0 1) 2 =
      some (sample_surface_pair (sample_surface 8 "S") (sample_surface 9 "T") 1 0) ∧
    sample_surface_pair (sample_surface 9 "T") (sample_surface 8 "S") 0 1 ≠
      sample_surface_pair (sample_surface 8 "S") (sample_surface 9 "T") 1 0 := by
  decide

/-- C9 (amended): for every pathway with `n = 2` or `n = 3` reactants, all present
and at most one of them a surface class, normalisation succeeds and normalising
its result again returns that result unchanged (reactants, orientations,
`is_complex` slots and all other fields), provided that, when `n = 3` and no
reactant is a surface class, it is not the case that one of reactants 1 and 2 has
the name of reactant 3 and a smaller orientation than reactant 3 while the other
one has a name above that of reactant 3. -/
theorem normalize_pathway_idempotent (p : pathway) (n : Nat) (r1 r2 r3 : species)
    (hn : n = 2 ∨ n = 3)
    (h1 : p.reactant1 = some r1) (h2 : p.reactant2 = some r2)
    (h3 : n = 3 → p.reactant3 = some r3)
    (hsurf : ((reactant_slots p n).filter is_surface_slot).length ≤ 1)
    (hname : n = 3 → (reactant_slots p n).filter is_surface_slot = [] →
      ¬ (strcmp r1.name r3.name = 0 ∧ strcmp r2.name r3.name > 0 ∧
          p.orientation1 < p.orientation3) ∧
      ¬ (strcmp r2.name r3.name = 0 ∧ strcmp r1.name r3.name > 0 ∧
          p.orientation2 < p.orientation3)) :
    ∃ q, normalize_pathway p n = some q ∧ normalize_pathway q n = some q := by
  obtain ⟨p1, p2, p3, o1, o2, o3, c0, c1, c2, fl, ph, ps⟩ := p
  simp only at h1 h2
  subst h1 h2
  rcases hn with rfl | rfl
  · by_cases s1 : r1.flags &&& IS_SURFACE = 0 <;> by_cases s2 : r2.flags &&& IS_SURFACE = 0 <;>
      simp [reactant_slots, is_surface_slot, List.filter, s1, s2] at hsurf
    · exact normalize_two_molecules r1 r2 p3 o1 o2 o3 c0 c1 c2 fl ph ps s1 s2
    · obtain ⟨q, hq1, hq2, _⟩ := normalize_two_surface2 r1 r2 p3 o1 o2 o3 c0 c1 c2 fl ph ps s1 s2
      exact ⟨q, hq1, hq2⟩
    · obtain ⟨q, hq1, hq2, _⟩ := normalize_two_surface1 r1 r2 p3 o1 o2 o3 c0 c1 c2 fl ph ps s1 s2
      exact ⟨q, hq1, hq2⟩
  · have h3a := h3 rfl
    have hnamea := hname rfl
    clear h3 hname
    simp only at h3a hnamea
    subst h3a
    by_cases s1 : r1.flags &&& IS_SURFACE = 0 <;> by_cases s2 : r2.flags &&& IS_SURFACE = 0 <;>
      by_cases s3 : r3.flags &&& IS_SURFACE = 0 <;>
      simp [reactant_slots, is_surface_slot, List.filter, s1, s2, s3] at hsurf hnamea
    · exact normalize_three_molecules r1 r2 r3 o1 o2 o3 c0 c1 c2 fl ph ps s1 s2 s3
        ⟨by intro h; have := hnamea.1 h.1 h.2.1; omega,
          by intro h; have := hnamea.2 h.1 h.2.1; omega⟩
    · obtain ⟨q, hq1, hq2, _⟩ := normalize_three_surface3 r1 r2 r3 o1 o2 o3 c0 c1 c2 fl ph ps s1 s2 s3
      exact ⟨q, hq1, hq2⟩
    · obtain ⟨q, hq1, hq2, _⟩ := normalize_three_surface2 r1 r2 r3 o1 o2 o3 c0 c1 c2 fl ph ps s1 s2 s3
      exact ⟨q, hq1, hq2⟩
    · obtain ⟨q, hq1, hq2, _⟩ := normalize_three_surface1 r1 r2 r3 o1 o2 o3 c0 c1 c2 fl ph ps s1 s2 s3
      exact ⟨q, hq1, hq2⟩

/-- Witness for C9 (amended) on the pathway `C + B + A` without orientations. -/
theorem normalize_pathway_idempotent_witness :
    ∃ q, normalize_pathway
          (sample_pathway3 (sample_molecule 3 "C") (sample_molecule 2 "B")
            (sample_molecule 1 "A") 0 0 0) 3 = some q ∧
      normalize_pathway q 3 = some q :=
  normalize_pathway_idempotent
    (sample_pathway3 (sample_molecule 3 "C") (sample_molecule 2 "B")
      (sample_molecule 1 "A") 0 0 0) 3
    (sample_molecule 3 "C") (sample_molecule 2 "B") (sample_molecule 1 "A")
    (Or.inr rfl) rfl rfl (fun _ => rfl) (by decide) (by decide)

/-- C10: for every pathway with `n = 2` or `n = 3` reactants, all present, of
which exactly one is a surface class, normalisation succeeds and the last of the
`n` reactant slots of the result holds that surface class with its own
orientation. -/
theorem normalize_pathway_surface_last (p : pathway) (n : Nat) (s : species) (o : Int)
    (hn : n = 2 ∨ n = 3)
    (hall : ∀ x ∈ reactant_slots p n, x.1.isSome = true)
    (hone : (reactant_slots p n).filter is_surface_slot = [(some s, o)]) :
    ∃ q, normalize_pathway p n = some q ∧
      (reactant_slots q n).getLast? = some (some s, o) := by
  obtain ⟨p1, p2, p3, o1, o2, o3, c0, c1, c2, fl, ph, ps⟩ := p
  rcases hn with rfl | rfl
  · simp [reactant_slots] at hall
    obtain ⟨r1, rfl⟩ := Option.isSome_iff_exists.1 hall.1
    obtain ⟨r2, rfl⟩ := Option.isSome_iff_exists.1 hall.2
    by_cases s1 : r1.flags &&& IS_SURFACE = 0 <;> by_cases s2 : r2.flags &&& IS_SURFACE = 0 <;>
      simp [reactant_slots, is_surface_slot, List.filter, s1, s2] at hone
    · obtain ⟨rfl, rfl⟩ := hone
      obtain ⟨q, hq1, _, hq3, hq4⟩ :=
        normalize_two_surface2 r1 r2 p3 o1 o2 o3 c0 c1 c2 fl ph ps s1 s2
      exact ⟨q, hq1, by simp [reactant_slots, hq3, hq4]⟩
    · obtain ⟨rfl, rfl⟩ := hone
      obtain ⟨q, hq1, _, hq3, hq4⟩ :=
        normalize_two_surface1 r1 r2 p3 o1 o2 o3 c0 c1 c2 fl ph ps s1 s2
      exact ⟨q, hq1, by simp [reactant_slots, hq3, hq4]⟩
  · simp [reactant_slots] at hall
    obtain ⟨r1, rfl⟩ := Option.isSome_iff_exists.1 hall.1
    obtain ⟨r2, rfl⟩ := Option.isSome_iff_exists.1 hall.2.1
    obtain ⟨r3, rfl⟩ := Option.isSome_iff_exists.1 hall.2.2
    by_cases s1 : r1.flags &&& IS_SURFACE = 0 <;> by_cases s2 : r2.flags &&& IS_SURFACE = 0 <;>
      by_cases s3 : r3.flags &&& IS_SURFACE = 0 <;>
      simp [reactant_slots, is_surface_slot, List.filter, s1, s2, s3] at hone
    · obtain ⟨rfl, rfl⟩ := hone
      obtain ⟨q, hq1, _, hq3, hq4⟩ :=
        normalize_three_surface3 r1 r2 r3 o1 o2 o3 c0 c1 c2 fl ph ps s1 s2 s3
      exact ⟨q, hq1, by simp [reactant_slots, hq3, hq4]⟩
    · obtain ⟨rfl, rfl⟩ := hone
      obtain ⟨q, hq1, _, hq3, hq4⟩ :=
        normalize_three_surface2 r1 r2 r3 o1 o2 o3 c0 c1 c2 fl ph ps s1 s2 s3
      exact ⟨q, hq1, by simp [reactant_slots, hq3, hq4]⟩
    · obtain ⟨rfl, rfl⟩ := hone
      obtain ⟨q, hq1, _, hq3, hq4⟩ :=
        normalize_three_surface1 r1 r2 r3 o1 o2 o3 c0 c1 c2 fl ph ps s1 s2 s3
      exact ⟨q, hq1, by simp [reactant_slots, hq3, hq4]⟩

/-- Witness for C10 on the pathway `S + B + A` whose first reactant is the
surface class `S` with orientation 1. -/
theorem normalize_pathway_surface_last_witness :
    ∃ q, normalize_pathway
          (sample_pathway3 (sample_surface 9 "S") (sample_molecule 2 "B")
            (sample_molecule 1 "A") 1 0 0) 3 = some q ∧
      (reactant_slots q 3).getLast? = some (some (sample_surface 9 "S"), 1) :=
  normalize_pathway_surface_last
    (sample_pathway3 (sample_surface 9 "S") (sample_molecule 2 "B")
      (sample_molecule 1 "A") 1 0 0) 3 (sample_surface 9 "S") 1
    (Or.inr rfl) (by decide) (by decide)

/-! ## Order of the reactants after normalisation -/

/-- Two reactants: normalisation succeeds and leaves the reactants that are not
surface classes in name order and in key order. -/
theorem normalize_two_order (r1 r2 : species) (p3 : Option species)
    (o1 o2 o3 : Int) (c0 c1 c2 fl : Nat) (ph : List product) (ps : Option String) :
    ∃ q, normalize_pathway
          { reactant1 := some r1, reactant2 := some r2, reactant3 := p3
            orientation1 := o1, orientation2 := o2, orientation3 := o3
            is_complex0 := c0, is_complex1 := c1, is_complex2 := c2
            flags := fl, product_head := ph, prod_signature := ps } 2 = some q ∧
      List.Chain' slot_name_le ((reactant_slots q 2).filter (fun x => !is_surface_slot x)) ∧
      List.Chain' slot_key_le ((reactant_slots q 2).filter (fun x => !is_surface_slot x)) := by
  have e21 := strcmp_swap r1.name r2.name
  have h12 := strcmp_range r1.name r2.name
  by_cases s1 : r1.flags &&& IS_SURFACE = 0 <;> by_cases s2 : r2.flags &&& IS_SURFACE = 0 <;>
    simp [normalize_pathway, finalize_reaction_surface_last, alphabetize_pathway,
      alphabetize_pathway_two, s1, s2] <;>
    (try split_ifs) <;>
    simp [reactant_slots, is_surface_slot, slot_key_le, slot_name_le, List.filter, s1, s2, e21] <;>
    omega

set_option maxHeartbeats 3200000 in
/-- Three molecules: normalisation succeeds and leaves the reactants in name
order; they are in key order as well when the name of reactant 3 differs from the
names of reactants 1 and 2. -/
theorem normalize_three_name_order (r1 r2 r3 : species)
    (o1 o2 o3 : Int) (c0 c1 c2 fl : Nat) (ph : List product) (ps : Option String)
    (s1 : r1.flags &&& IS_SURFACE = 0) (s2 : r2.flags &&& IS_SURFACE = 0)
    (s3 : r3.flags &&& IS_SURFACE = 0) :
    ∃ q, normalize_pathway
          { reactant1 := some r1, reactant2 := some r2, reactant3 := some r3
            orientation1 := o1, orientation2 := o2, orientation3 := o3
            is_complex0 := c0, is_complex1 := c1, is_complex2 := c2
            flags := fl, product_head := ph, prod_signature := ps } 3 = some q ∧
      List.Chain' slot_name_le ((reactant_slots q 3).filter (fun x => !is_surface_slot x)) ∧
      (strcmp r1.name r3.name ≠ 0 → strcmp r2.name r3.name ≠ 0 →
        List.Chain' slot_key_le ((reactant_slots q 3).filter (fun x => !is_surface_slot x))) := by
  obtain ⟨h12, h13, h23, e21, e31, e32, t1, t2, t3, t4, t5, t6, q1, q2, q3⟩ :=
    strcmp_three r1.name r2.name r3.name
  rcases h12 with h12 | h12 | h12 <;> rcases h13 with h13 | h13 | h13 <;>
    rcases h23 with h23 | h23 | h23 <;>
    rw [h12] at e21 <;> rw [h13] at e31 <;> rw [h23] at e32 <;>
    first
    | (exfalso; omega)
    | (clear t1 t2 t3 t4 t5 t6 q1 q2 q3
       simp [normalize_pathway, finalize_reaction_surface_last, alphabetize_pathway,
         alphabetize_pathway_two, alphabetize_pathway_three, s1, s2, s3, h12, h13, h23,
         e21, e31, e32]
       try split_ifs
       all_goals
         simp [reactant_slots, is_surface_slot, slot_name_le, slot_key_le, List.filter,
           s1, s2, s3, h12, h13, h23, e21, e31, e32]
       all_goals omega)

set_option maxHeartbeats 3200000 in
/-- Three reactants of which at least one is a surface class: normalisation
succeeds and leaves the reactants that are not surface classes in name order and
in key order. -/
theorem normalize_three_surface_order (r1 r2 r3 : species)
    (o1 o2 o3 : Int) (c0 c1 c2 fl : Nat) (ph : List product) (ps : Option String)
    (hs : ¬ (r1.flags &&& IS_SURFACE = 0 ∧ r2.flags &&& IS_SURFACE = 0 ∧
      r3.flags &&& IS_SURFACE = 0)) :
    ∃ q, normalize_pathway
          { reactant1 := some r1, reactant2 := some r2, reactant3 := some r3
            orientation1 := o1, orientation2 := o2, orientation3 := o3
            is_complex0 := c0, is_complex1 := c1, is_complex2 := c2
            flags := fl, product_head := ph, prod_signature := ps } 3 = some q ∧
      List.Chain' slot_name_le ((reactant_slots q 3).filter (fun x => !is_surface_slot x)) ∧
      List.Chain' slot_key_le ((reactant_slots q 3).filter (fun x => !is_surface_slot x)) := by
  obtain ⟨h12, h13, h23, e21, e31, e32, t1, t2, t3, t4, t5, t6, q1, q2, q3⟩ :=
    strcmp_three r1.name r2.name r3.name
  clear t1 t2 t3 t4 t5 t6 q1 q2 q3
  by_cases s1 : r1.flags &&& IS_SURFACE = 0 <;> by_cases s2 : r2.flags &&& IS_SURFACE = 0 <;>
    by_cases s3 : r3.flags &&& IS_SURFACE = 0 <;>
    first
    | (exfalso; exact hs ⟨s1, s2, s3⟩)
    | (simp [normalize_pathway, finalize_reaction_surface_last, alphabetize_pathway,
        alphabetize_pathway_two, alphabetize_pathway_three, s1, s2, s3]
       try split_ifs
       all_goals
         simp [reactant_slots, is_surface_slot, slot_key_le, slot_name_le, List.filter,
           s1, s2, s3, e21, e31, e32]
       all_goals omega)

/-- C11 (counterexample): the pathway `A + B + A'` of three molecules, with
orientations (0, 0, 1), is normalised to `A + A' + B` with orientations
(0, 1, 0); its first two reactants have the same name and the orientations 0
and 1, which is not the key order (orientation descending on a name tie). -/
theorem normalize_pathway_not_key_sorted :
    normalize_pathway
        (sample_pathway3 (sample_molecule 1 "A") (sample_molecule 2 "B")
          (sample_molecule 1 "A") 0 0 1) 3 =
      some (sample_pathway3 (sample_molecule 1 "A") (sample_molecule 1 "A")
          (sample_molecule 2 "B") 0 1 0) ∧
    (reactant_slots
        (sample_pathway3 (sample_molecule 1 "A") (sample_molecule 1 "A")
          (sample_molecule 2 "B") 0 1 0) 3).filter (fun x => !is_surface_slot x) =
      [(some (sample_molecule 1 "A"), 0), (some (sample_molecule 1 "A"), 1),
        (some (sample_molecule 2 "B"), 0)] ∧
    ¬ slot_key_le (some (sample_molecule 1 "A"), 0) (some (sample_molecule 1 "A"), 1) := by
  refine ⟨by decide, by decide, ?_⟩
  unfold slot_key_le
  simp only
  decide

/-- C11 (amended): for every pathway with `n = 2` or `n = 3` reactants, all
present, normalisation succeeds and every adjacent pair of reactant slots of the
result that hold no surface class has names in nondecreasing order; when `n = 2`,
or one of the reactants is a surface class, or the name of reactant 3 differs from
the names of reactants 1 and 2, every such pair is in key order as well (names
nondecreasing and, on equal names, orientations nonincreasing). -/
theorem normalize_pathway_order (p : pathway) (n : Nat)
    (hn : n = 2 ∨ n = 3)
    (hall : ∀ x ∈ reactant_slots p n, x.1.isSome = true) :
    ∃ q, normalize_pathway p n = some q ∧
      List.Chain' slot_name_le ((reactant_slots q n).filter (fun x => !is_surface_slot x)) ∧
      ((n = 2 ∨ (∃ x ∈ reactant_slots p n, is_surface_slot x = true) ∨
          (∀ a c, p.reactant3 = some c → (p.reactant1 = some a ∨ p.reactant2 = some a) →
            a.name ≠ c.name)) →
        List.Chain' slot_key_le ((reactant_slots q n).filter (fun x => !is_surface_slot x))) := by
  obtain ⟨p1, p2, p3, o1, o2, o3, c0, c1, c2, fl, ph, ps⟩ := p
  rcases hn with rfl | rfl
  · simp [reactant_slots] at hall
    obtain ⟨r1, rfl⟩ := Option.isSome_iff_exists.1 hall.1
    obtain ⟨r2, rfl⟩ := Option.isSome_iff_exists.1 hall.2
    obtain ⟨q, hq1, hq2, hq3⟩ := normalize_two_order r1 r2 p3 o1 o2 o3 c0 c1 c2 fl ph ps
    exact ⟨q, hq1, hq2, fun _ => hq3⟩
  · simp [reactant_slots] at hall
    obtain ⟨r1, rfl⟩ := Option.isSome_iff_exists.1 hall.1
    obtain ⟨r2, rfl⟩ := Option.isSome_iff_exists.1 hall.2.1
    obtain ⟨r3, rfl⟩ := Option.isSome_iff_exists.1 hall.2.2
    by_cases hs : r1.flags &&& IS_SURFACE = 0 ∧ r2.flags &&& IS_SURFACE = 0 ∧
        r3.flags &&& IS_SURFACE = 0
    · obtain ⟨q, hq1, hq2, hq3⟩ :=
        normalize_three_name_order r1 r2 r3 o1 o2 o3 c0 c1 c2 fl ph ps hs.1 hs.2.1 hs.2.2
      refine ⟨q, hq1, hq2, ?_⟩
      rintro (h | h | h)
      · omega
      · simp [reactant_slots, is_surface_slot, hs.1, hs.2.1, hs.2.2] at h
      · apply hq3
        · intro e
          exact h r1 r3 rfl (Or.inl rfl) ((strcmp_eq_zero _ _).1 e)
        · intro e
          exact h r2 r3 rfl (Or.inr rfl) ((strcmp_eq_zero _ _).1 e)
    · obtain ⟨q, hq1, hq2, hq3⟩ :=
        normalize_three_surface_order r1 r2 r3 o1 o2 o3 c0 c1 c2 fl ph ps hs
      exact ⟨q, hq1, hq2, fun _ => hq3⟩

/-- Witness for C11 (amended) on the pathway `C + B' + A` of three molecules. -/
theorem normalize_pathway_order_witness :
    ∃ q, normalize_pathway
          (sample_pathway3 (sample_molecule 3 "C") (sample_molecule 2 "B")
            (sample_molecule 1 "A") 0 1 0) 3 = some q ∧
      List.Chain' slot_name_le ((reactant_slots q 3).filter (fun x => !is_surface_slot x)) ∧
      ((3 = 2 ∨ (∃ x ∈ reactant_slots (sample_pathway3 (sample_molecule 3 "C")
            (sample_molecule 2 "B") (sample_molecule 1 "A") 0 1 0) 3, is_surface_slot x = true) ∨
          (∀ a c, (sample_pathway3 (sample_molecule 3 "C") (sample_molecule 2 "B")
              (sample_molecule 1 "A") 0 1 0).reactant3 = some c →
            ((sample_pathway3 (sample_molecule 3 "C") (sample_molecule 2 "B")
              (sample_molecule 1 "A") 0 1 0).reactant1 = some a ∨
             (sample_pathway3 (sample_molecule 3 "C") (sample_molecule 2 "B")
              (sample_molecule 1 "A") 0 1 0).reactant2 = some a) →
            a.name ≠ c.name)) →
        List.Chain' slot_key_le ((reactant_slots q 3).filter (fun x => !is_surface_slot x))) :=
  normalize_pathway_order
    (sample_pathway3 (sample_molecule 3 "C") (sample_molecule 2 "B")
      (sample_molecule 1 "A") 0 1 0) 3 (Or.inr rfl) (by decide)

/-- C12: the pathway `B + C + A` of three molecules whose first `is_complex` slot
is 1 is normalised to `A + B + C` with the first `is_complex` slot still 1: the
triple (`B`, 0, 1) of the input is not among the triples of the result, where `B`
has the bit 0 and `A` has the bit 1.  Likewise the surface-last swap turns
`S + A` with `is_complex` (0, 1) into `A + S` with `is_complex` (0, 1). -/
theorem normalize_pathway_is_complex_stays :
    normalize_pathway
        { sample_pathway3 (sample_molecule 2 "B") (sample_molecule 3 "C")
            (sample_molecule 1 "A") 0 0 0 with is_complex0 := 1 } 3 =
      some { sample_pathway3 (sample_molecule 1 "A") (sample_molecule 2 "B")
            (sample_molecule 3 "C") 0 0 0 with is_complex0 := 1 } ∧
    (some (sample_molecule 2 "B"), (0 : Int), 1) ∈
      reactant_triples
        { sample_pathway3 (sample_molecule 2 "B") (sample_molecule 3 "C")
            (sample_molecule 1 "A") 0 0 0 with is_complex0 := 1 } 3 ∧
    (some (sample_molecule 2 "B"), (0 : Int), 1) ∉
      reactant_triples
        { sample_pathway3 (sample_molecule 1 "A") (sample_molecule 2 "B")
            (sample_molecule 3 "C") 0 0 0 with is_complex0 := 1 } 3 ∧
    normalize_pathway
        { sample_surface_pair (sample_surface 9 "S") (sample_molecule 1 "A") 0 0 with
          is_complex1 := 1 } 2 =
      some { sample_surface_pair (sample_molecule 1 "A") (sample_surface 9 "S") 0 0 with
          is_complex1 := 1 } := by
  decide

/-! ## Duplicate special reactions -/

/-- C13: on a pathway list that starts at `path`, `check_duplicate_special_reactions`
raises the duplicate-special error exactly when `path` has a successor, both carry
`PATHW_TRANSP`, or both `PATHW_REFLEC`, or both `PATHW_ABSORP`, and their
`orientation2` are equal or one of them is 0; in every other case it returns
normally. -/
theorem check_duplicate_special_reactions_iff (path : pathway) (rest : List pathway) :
    (check_duplicate_special_reactions (path :: rest) =
        Except.error special_rxn_error.duplicate_special ↔
      ∃ nxt tl, rest = nxt :: tl ∧
        ((path.flags &&& PATHW_TRANSP ≠ 0 ∧ nxt.flags &&& PATHW_TRANSP ≠ 0) ∨
          (path.flags &&& PATHW_REFLEC ≠ 0 ∧ nxt.flags &&& PATHW_REFLEC ≠ 0) ∨
          (path.flags &&& PATHW_ABSORP ≠ 0 ∧ nxt.flags &&& PATHW_ABSORP ≠ 0)) ∧
        (path.orientation2 = nxt.orientation2 ∨ path.orientation2 = 0 ∨
          nxt.orientation2 = 0)) ∧
    (check_duplicate_special_reactions (path :: rest) =
        Except.error special_rxn_error.duplicate_special ∨
      check_duplicate_special_reactions (path :: rest) = Except.ok ()) := by
  cases rest with
  | nil => simp [check_duplicate_special_reactions]
  | cons nxt tl =>
    simp only [check_duplicate_special_reactions]
    constructor
    · constructor
      · intro h
        refine ⟨nxt, tl, rfl, ?_⟩
        split_ifs at h with h1 h2 h3
        · exact ⟨Or.inl h1.1, h1.2⟩
        · exact ⟨Or.inr (Or.inl h2.1), h2.2⟩
        · exact ⟨Or.inr (Or.inr h3.1), h3.2⟩
      · rintro ⟨n1, t1, he, hf, ho⟩
        obtain ⟨rfl, rfl⟩ := List.cons.inj he
        split_ifs with h1 h2 h3
        · rfl
        · rfl
        · rfl
        · exfalso
          rcases hf with hf | hf | hf
          · exact h1 ⟨hf, ho⟩
          · exact h2 ⟨hf, ho⟩
          · exact h3 ⟨hf, ho⟩
    · split_ifs <;> simp

/-- Witness for C13: two adjacent `PATHW_TRANSP` pathways with the same
`orientation2` are rejected. -/
theorem check_duplicate_special_reactions_iff_witness :
    check_duplicate_special_reactions
        [sample_surface_pathway 1 1 PATHW_TRANSP, sample_surface_pathway 1 1 PATHW_TRANSP] =
      Except.error special_rxn_error.duplicate_special :=
  (check_duplicate_special_reactions_iff (sample_surface_pathway 1 1 PATHW_TRANSP)
    [sample_surface_pathway 1 1 PATHW_TRANSP]).1.2
    ⟨sample_surface_pathway 1 1 PATHW_TRANSP, [], rfl, by decide, by decide⟩

/-! ## Binary search -/

/-- The loop of `binary_search_double` keeps `min_idx ≤ max_idx` inside the
starting interval, ends with the two at most one apart when it has a round for
every cell of the interval, and keeps the two facts the search relies on. -/
theorem binary_search_double_loop_spec (A : List ℚ) (m mult : ℚ) (fuel : Nat) :
    ∀ lo hi : Int, 0 ≤ lo → lo ≤ hi → hi - lo ≤ fuel →
      lo ≤ (binary_search_double_loop A m mult fuel lo hi).1 ∧
      (binary_search_double_loop A m mult fuel lo hi).1 ≤
        (binary_search_double_loop A m mult fuel lo hi).2 ∧
      (binary_search_double_loop A m mult fuel lo hi).2 ≤ hi ∧
      (binary_search_double_loop A m mult fuel lo hi).2 -
        (binary_search_double_loop A m mult fuel lo hi).1 ≤ 1 ∧
      ((lo = 0 ∨ m > array_get A lo * mult) →
        ((binary_search_double_loop A m mult fuel lo hi).1 = 0 ∨
          m > array_get A (binary_search_double_loop A m mult fuel lo hi).1 * mult)) ∧
      (m ≤ array_get A hi * mult →
        m ≤ array_get A (binary_search_double_loop A m mult fuel lo hi).2 * mult) := by
  induction fuel with
  | zero =>
    intro lo hi h0 h1 hf
    simp only [binary_search_double_loop]
    refine ⟨le_refl _, h1, le_refl _, ?_, fun h => h, fun h => h⟩
    simp only [CharP.cast_eq_zero] at hf
    omega
  | succ n ih =>
    intro lo hi h0 h1 hf
    simp only [binary_search_double_loop]
    by_cases hw : hi - lo > 1
    · rw [if_pos hw]
      have hmid1 : lo < (hi + lo) / 2 := by omega
      have hmid2 : (hi + lo) / 2 < hi := by omega
      push_cast at hf
      by_cases hc : m > array_get A ((hi + lo) / 2) * mult
      · rw [if_pos hc]
        obtain ⟨a1, a2, a3, a4, a5, a6⟩ := ih ((hi + lo) / 2) hi (by omega) (by omega) (by omega)
        exact ⟨by omega, a2, a3, a4, fun _ => a5 (Or.inr hc), a6⟩
      · rw [if_neg hc]
        obtain ⟨a1, a2, a3, a4, a5, a6⟩ := ih lo ((hi + lo) / 2) h0 (by omega) (by omega)
        exact ⟨a1, a2, by omega, a4, a5, fun _ => a6 (not_lt.1 hc)⟩
    · rw [if_neg hw]
      exact ⟨le_refl _, h1, le_refl _, by omega, fun h => h, fun h => h⟩

/-- The index returned by `binary_search_double` lies in `[0, max_idx]`. -/
theorem binary_search_double_range (A : List ℚ) (m mult : ℚ) (max_idx : Int)
    (hM : 0 ≤ max_idx) :
    0 ≤ binary_search_double A m max_idx mult ∧
      binary_search_double A m max_idx mult ≤ max_idx := by
  obtain ⟨a1, a2, a3, _, _, _⟩ :=
    binary_search_double_loop_spec A m mult max_idx.toNat 0 max_idx (le_refl _) hM
      (by rw [Int.toNat_of_nonneg hM]; omega)
  unfold binary_search_double
  split_ifs <;> omega

/-- With the multiplier 1, `binary_search_double` on a nondecreasing array returns
the smallest index whose cell is not below `match`, provided the last cell is not
below `match`. -/
theorem binary_search_double_one (A : List ℚ) (m : ℚ) (max_idx : Int)
    (hM : 0 ≤ max_idx)
    (hmono : ∀ i j : Int, 0 ≤ i → i ≤ j → j ≤ max_idx → array_get A i ≤ array_get A j)
    (hlast : m ≤ array_get A max_idx) :
    0 ≤ binary_search_double A m max_idx 1 ∧
      binary_search_double A m max_idx 1 ≤ max_idx ∧
      m ≤ array_get A (binary_search_double A m max_idx 1) ∧
      ∀ i : Int, 0 ≤ i → i < binary_search_double A m max_idx 1 → array_get A i < m := by
  obtain ⟨a1, a2, a3, a4, a5, a6⟩ :=
    binary_search_double_loop_spec A m 1 max_idx.toNat 0 max_idx (le_refl _) hM
      (by rw [Int.toNat_of_nonneg hM]; omega)
  have a5 := a5 (Or.inl rfl)
  have a6 := a6 (by simpa using hlast)
  simp only [mul_one] at a5 a6
  unfold binary_search_double
  by_cases hc : m > array_get A (binary_search_double_loop A m 1 max_idx.toNat 0 max_idx).1
  · rw [if_pos hc]
    refine ⟨by omega, a3, a6, ?_⟩
    intro i hi0 hi
    have hne : (binary_search_double_loop A m 1 max_idx.toNat 0 max_idx).1 ≠
        (binary_search_double_loop A m 1 max_idx.toNat 0 max_idx).2 := by
      intro he
      rw [he] at hc
      exact absurd a6 (not_le.2 hc)
    have := hmono i (binary_search_double_loop A m 1 max_idx.toNat 0 max_idx).1 hi0
      (by omega) (by omega)
    exact lt_of_le_of_lt this hc
  · rw [if_neg hc]
    rcases a5 with h0 | h0
    · refine ⟨a1, by omega, not_lt.1 hc, ?_⟩
      intro i hi0 hi
      omega
    · exact absurd h0 hc


/-- C14: for the nondecreasing array `[0.5, 1.0]`, `max_idx = 1`, `mult = 0.5` and
`match = 0.3`, where `A[0] * mult = 0.25 < match ≤ A[1] * mult = 0.5`,
`binary_search_double` returns 0 and not 1: the comparison after the loop is
`match > A[min_idx]`, without the multiplier. -/
theorem binary_search_double_ignores_mult :
    binary_search_double [1 / 2, 1] (3 / 10) 1 (1 / 2) = 0 ∧
    array_get [1 / 2, 1] 0 * (1 / 2) < 3 / 10 ∧
    (3 / 10 : ℚ) ≤ array_get [1 / 2, 1] 1 * (1 / 2) ∧
    array_get [1 / 2, 1] 0 ≤ array_get [1 / 2, 1] 1 := by
  norm_num [binary_search_double, binary_search_double_loop, array_get]

/-! ## Selection of a pathway in `test_bimolecular` -/

/-- Without cooperative rates and without a local probability factor,
`test_bimolecular` has no subunit and always searches `cum_probs` with the
multiplier 1. -/
theorem test_bimolecular_fixed (lookup : Nat → abstract_molecule → ℚ → ℚ)
    (rx : rxn_probs) (scaling local_prob_factor : ℚ) (a1 a2 : Option abstract_molecule)
    (rng : rng_state) (hrates : rx.rates = none) (hlocal : local_prob_factor ≤ 0) :
    test_bimolecular lookup rx scaling local_prob_factor a1 a2 rng =
      if rx.min_noreaction_p < scaling then
        if (rng_dbl rng).1 * scaling ≥ rx.min_noreaction_p then
          { outcome := RX_NO_RX, rx := rx, rng := (rng_dbl rng).2 }
        else
          { outcome :=
              binary_search_double rx.cum_probs ((rng_dbl rng).1 * scaling)
                (rx.n_pathways - 1) 1
            rx := rx, rng := (rng_dbl rng).2 }
      else if array_get rx.cum_probs (rx.n_pathways - 1) ≥ scaling then
        { outcome :=
            binary_search_double rx.cum_probs
              ((rng_dbl rng).1 * array_get rx.cum_probs (rx.n_pathways - 1))
              (rx.n_pathways - 1) 1
          rx := { rx with
                  n_skipped :=
                    if scaling = 0 then rx.n_skipped + GIGANTIC
                    else rx.n_skipped +
                      (array_get rx.cum_probs (rx.n_pathways - 1) / scaling - 1) }
          rng := (rng_dbl rng).2 }
      else if (rng_dbl rng).1 * scaling ≥ array_get rx.cum_probs (rx.n_pathways - 1) then
        { outcome := RX_NO_RX, rx := rx, rng := (rng_dbl rng).2 }
      else
        { outcome :=
            binary_search_double rx.cum_probs ((rng_dbl rng).1 * scaling)
              (rx.n_pathways - 1) 1
          rx := rx, rng := (rng_dbl rng).2 } := by
  have hl : ¬ local_prob_factor > 0 := not_lt.2 hlocal
  unfold test_bimolecular
  simp only [hrates, hl, if_false, test_bimolecular_pick]


/-- C15: for a reaction without cooperative rates and with at least one pathway,
`local_prob_factor ≤ 0`, and `scaling` not above `min_noreaction_p` nor above
`cum_probs[n_pathways - 1]`, `test_bimolecular` does not return `RX_NO_RX` for any
draw, returns an index in `[0, n_pathways - 1]`, and adds
`cum_probs[n_pathways - 1] / scaling - 1` to `n_skipped`, or `GIGANTIC` when
`scaling = 0`. -/
theorem test_bimolecular_underscaled (lookup : Nat → abstract_molecule → ℚ → ℚ)
    (rx : rxn_probs) (scaling local_prob_factor : ℚ) (a1 a2 : Option abstract_molecule)
    (rng : rng_state) (hrates : rx.rates = none) (hlocal : local_prob_factor ≤ 0)
    (hn : 1 ≤ rx.n_pathways) (hmin : scaling ≤ rx.min_noreaction_p)
    (hmax : scaling ≤ array_get rx.cum_probs (rx.n_pathways - 1)) :
    (test_bimolecular lookup rx scaling local_prob_factor a1 a2 rng).outcome ≠ RX_NO_RX ∧
    0 ≤ (test_bimolecular lookup rx scaling local_prob_factor a1 a2 rng).outcome ∧
    (test_bimolecular lookup rx scaling local_prob_factor a1 a2 rng).outcome ≤
      rx.n_pathways - 1 ∧
    (test_bimolecular lookup rx scaling local_prob_factor a1 a2 rng).rx.n_skipped =
      rx.n_skipped +
        (if scaling = 0 then GIGANTIC
         else array_get rx.cum_probs (rx.n_pathways - 1) / scaling - 1) := by
  rw [test_bimolecular_fixed lookup rx scaling local_prob_factor a1 a2 rng hrates hlocal]
  rw [if_neg (not_lt.2 hmin), if_pos hmax]
  obtain ⟨b1, b2⟩ := binary_search_double_range rx.cum_probs
    ((rng_dbl rng).1 * array_get rx.cum_probs (rx.n_pathways - 1)) 1 (rx.n_pathways - 1)
    (by omega)
  refine ⟨?_, b1, b2, ?_⟩
  · show binary_search_double _ _ _ _ ≠ RX_NO_RX
    unfold RX_NO_RX
    omega
  · show (if scaling = 0 then _ else _) = _
    split_ifs <;> rfl

/-- Witness for C15 on `cum_probs = [0.6, 1.4]` and `scaling = 1`: a pathway is
returned and `n_skipped` grows from 0 to 0.4. -/
theorem test_bimolecular_underscaled_witness :
    (test_bimolecular sample_lookup (sample_rxn_probs [3 / 5, 7 / 5] []) 1 0 none none
        (sample_rng [1 / 2])).outcome ≠ RX_NO_RX ∧
    (test_bimolecular sample_lookup (sample_rxn_probs [3 / 5, 7 / 5] []) 1 0 none none
        (sample_rng [1 / 2])).rx.n_skipped = 2 / 5 := by
  have h := test_bimolecular_underscaled sample_lookup (sample_rxn_probs [3 / 5, 7 / 5] [])
    1 0 none none (sample_rng [1 / 2]) rfl (le_refl _) (by decide)
    (by norm_num [sample_rxn_probs, array_get])
    (by norm_num [sample_rxn_probs, array_get])
  refine ⟨h.1, ?_⟩
  rw [h.2.2.2]
  norm_num [sample_rxn_probs, array_get]

/-- C16: for a reaction without cooperative rates, with at least one pathway, with
nondecreasing `cum_probs` and `min_noreaction_p = cum_probs[n_pathways - 1] <
scaling`, and for `local_prob_factor ≤ 0`, let `p = U * scaling` for the draw `U`:
`test_bimolecular` returns `RX_NO_RX` exactly when `p ≥ min_noreaction_p`;
otherwise it returns the smallest index `k` in `[0, n_pathways - 1]` with
`cum_probs[k] ≥ p`; `n_skipped` is unchanged; and for a single pathway with
`scaling = 1` pathway 0 is returned exactly when `U < cum_probs[0]`. -/
theorem test_bimolecular_scaled (lookup : Nat → abstract_molecule → ℚ → ℚ)
    (rx : rxn_probs) (scaling local_prob_factor : ℚ) (a1 a2 : Option abstract_molecule)
    (rng : rng_state) (hrates : rx.rates = none) (hlocal : local_prob_factor ≤ 0)
    (hn : 1 ≤ rx.n_pathways)
    (hmono : ∀ i j : Int, 0 ≤ i → i ≤ j → j ≤ rx.n_pathways - 1 →
      array_get rx.cum_probs i ≤ array_get rx.cum_probs j)
    (hmin : rx.min_noreaction_p = array_get rx.cum_probs (rx.n_pathways - 1))
    (hlt : rx.min_noreaction_p < scaling) :
    ((test_bimolecular lookup rx scaling local_prob_factor a1 a2 rng).outcome = RX_NO_RX ↔
      (rng_dbl rng).1 * scaling ≥ rx.min_noreaction_p) ∧
    ((rng_dbl rng).1 * scaling < rx.min_noreaction_p →
      0 ≤ (test_bimolecular lookup rx scaling local_prob_factor a1 a2 rng).outcome ∧
      (test_bimolecular lookup rx scaling local_prob_factor a1 a2 rng).outcome ≤
        rx.n_pathways - 1 ∧
      (rng_dbl rng).1 * scaling ≤
        array_get rx.cum_probs
          (test_bimolecular lookup rx scaling local_prob_factor a1 a2 rng).outcome ∧
      ∀ i : Int, 0 ≤ i →
        i < (test_bimolecular lookup rx scaling local_prob_factor a1 a2 rng).outcome →
        array_get rx.cum_probs i < (rng_dbl rng).1 * scaling) ∧
    (test_bimolecular lookup rx scaling local_prob_factor a1 a2 rng).rx.n_skipped =
      rx.n_skipped ∧
    (rx.n_pathways = 1 → scaling = 1 →
      ((test_bimolecular lookup rx scaling local_prob_factor a1 a2 rng).outcome = 0 ↔
        (rng_dbl rng).1 < array_get rx.cum_probs 0)) := by
  rw [test_bimolecular_fixed lookup rx scaling local_prob_factor a1 a2 rng hrates hlocal]
  rw [if_pos hlt]
  by_cases hp : (rng_dbl rng).1 * scaling ≥ rx.min_noreaction_p
  · rw [if_pos hp]
    refine ⟨⟨fun _ => hp, fun _ => rfl⟩, fun h => absurd hp (not_le.2 h), rfl, ?_⟩
    intro h1 hs
    rw [h1] at hmin
    rw [hs, mul_one, hmin] at hp
    simp only [sub_self] at hp
    constructor
    · intro h
      have h2 : RX_NO_RX = 0 := h
      unfold RX_NO_RX at h2
      omega
    · intro h
      exact absurd hp (not_le.2 h)
  · rw [if_neg hp]
    have hp1 : (rng_dbl rng).1 * scaling < rx.min_noreaction_p := not_le.1 hp
    obtain ⟨b1, b2, b3, b4⟩ := binary_search_double_one rx.cum_probs
      ((rng_dbl rng).1 * scaling) (rx.n_pathways - 1) (by omega) hmono
      (by rw [← hmin]; exact le_of_lt hp1)
    refine ⟨⟨?_, fun h => absurd h hp⟩, fun _ => ⟨b1, b2, b3, b4⟩, rfl, ?_⟩
    · intro h
      exfalso
      have h1 : binary_search_double rx.cum_probs ((rng_dbl rng).1 * scaling)
          (rx.n_pathways - 1) 1 = RX_NO_RX := h
      unfold RX_NO_RX at h1
      omega
    · intro h1 hs
      rw [h1] at hmin b1 b2
      rw [hs, mul_one, hmin] at hp1
      simp only [sub_self] at hp1 b1 b2
      constructor
      · intro _
        exact hp1
      · intro _
        show binary_search_double _ _ _ _ = 0
        rw [h1]
        simp only [sub_self]
        omega

/-- Witness for C16 on the single pathway with `cum_probs = [0.5]`, `scaling = 1`
and the draw 0.25: pathway 0 is returned and `n_skipped` stays 0. -/
theorem test_bimolecular_scaled_witness :
    (test_bimolecular sample_lookup (sample_rxn_probs [1 / 2] []) 1 0 none none
        (sample_rng [1 / 4])).outcome = 0 ∧
    (test_bimolecular sample_lookup (sample_rxn_probs [1 / 2] []) 1 0 none none
        (sample_rng [1 / 4])).rx.n_skipped = 0 := by
  have h := test_bimolecular_scaled sample_lookup (sample_rxn_probs [1 / 2] [])
    1 0 none none (sample_rng [1 / 4]) rfl (le_refl _) (by decide)
    (by
      intro i j hi hij hj
      have hj0 : j ≤ 0 := hj
      have e1 : i = 0 := by omega
      have e2 : j = 0 := by omega
      rw [e1, e2])
    (by norm_num [sample_rxn_probs, array_get])
    (by norm_num [sample_rxn_probs, array_get])
  refine ⟨(h.2.2.2 rfl rfl).2 ?_, h.2.2.1⟩
  norm_num [sample_rxn_probs, sample_rng, rng_dbl, array_get]

/-! ## Selection of a pathway in `test_intersect` -/

/-- C17: on the single pathway with `cum_probs = [0.5]`, `scaling = 1` and a
generator that delivers 0.25 and then 0.5, `test_intersect` returns pathway 0 and
leaves the generator two draws further, whereas one draw advances it by one: the
first draw is tested against the last cumulative probability and a second draw
feeds the binary search. -/
theorem test_intersect_draws_twice :
    (test_intersect (sample_rxn_probs [1 / 2] []) 1 (sample_rng [1 / 4, 1 / 2])).outcome = 0 ∧
    (test_intersect (sample_rxn_probs [1 / 2] []) 1 (sample_rng [1 / 4, 1 / 2])).rng.pos = 2 ∧
    (rng_dbl (sample_rng [1 / 4, 1 / 2])).2.pos = 1 := by
  norm_num [test_intersect, test_intersect_pick, sample_rxn_probs, sample_rng, rng_dbl,
    RX_SPECIAL, array_get, binary_search_double, binary_search_double_loop]

/-- C18 (counterexample): three calls on which `test_intersect` and
`test_bimolecular` (with `local_prob_factor = 0` and no molecules) differ.  On
`cum_probs = [0.25, 0.5]`, `scaling = 1` and the draws 0.125, 1, `test_intersect`
returns pathway 1 and `test_bimolecular` pathway 0.  On `cum_probs = [0.5]`,
`scaling = 1` and the draw 0.5, `test_intersect` returns pathway 0 and
`test_bimolecular` returns `RX_NO_RX`.  On `cum_probs = [0]` and `scaling = 0`,
`test_intersect` leaves `n_skipped` at 0 and `test_bimolecular` adds `GIGANTIC`. -/
theorem test_intersect_differs_from_test_bimolecular :
    (test_intersect (sample_rxn_probs [1 / 4, 1 / 2] []) 1 (sample_rng [1 / 8, 1])).outcome = 1 ∧
    (test_bimolecular sample_lookup (sample_rxn_probs [1 / 4, 1 / 2] []) 1 0 none none
        (sample_rng [1 / 8, 1])).outcome = 0 ∧
    (test_intersect (sample_rxn_probs [1 / 2] []) 1 (sample_rng [1 / 2, 1])).outcome = 0 ∧
    (test_bimolecular sample_lookup (sample_rxn_probs [1 / 2] []) 1 0 none none
        (sample_rng [1 / 2, 1])).outcome = RX_NO_RX ∧
    (test_intersect (sample_rxn_probs [0] []) 0 (sample_rng [1 / 2, 1])).rx.n_skipped = 0 ∧
    (test_bimolecular sample_lookup (sample_rxn_probs [0] []) 0 0 none none
        (sample_rng [1 / 2, 1])).rx.n_skipped = GIGANTIC := by
  refine ⟨?_, ?_, ?_, ?_, ?_, ?_⟩
  · norm_num [test_intersect, test_intersect_pick, sample_rxn_probs, sample_rng, rng_dbl,
      RX_SPECIAL, array_get, binary_search_double, binary_search_double_loop]
  · rw [test_bimolecular_fixed _ _ _ _ _ _ _ rfl (le_refl _)]
    norm_num [sample_rxn_probs, sample_rng, rng_dbl, array_get, binary_search_double,
      binary_search_double_loop]
  · norm_num [test_intersect, test_intersect_pick, sample_rxn_probs, sample_rng, rng_dbl,
      RX_SPECIAL, array_get, binary_search_double, binary_search_double_loop]
  · rw [test_bimolecular_fixed _ _ _ _ _ _ _ rfl (le_refl _)]
    norm_num [sample_rxn_probs, sample_rng, rng_dbl, array_get, binary_search_double,
      binary_search_double_loop]
  · norm_num [test_intersect, test_intersect_pick, sample_rxn_probs, sample_rng, rng_dbl,
      RX_SPECIAL, array_get, binary_search_double, binary_search_double_loop]
  · rw [test_bimolecular_fixed _ _ _ _ _ _ _ rfl (le_refl _)]
    norm_num [sample_rxn_probs, sample_rng, rng_dbl, array_get, binary_search_double,
      binary_search_double_loop]

/-- C18 (amended): for a reaction with at least one pathway, no cooperative rates
and `min_noreaction_p = cum_probs[n_pathways - 1]`, for `scaling > 0` and a first
draw `U ≤ 1`, `test_intersect` makes the same update of `n_skipped` as
`test_bimolecular` (with `local_prob_factor = 0` and no molecules), and returns
`RX_NO_RX` exactly when `test_bimolecular` does unless `U * scaling` equals
`cum_probs[n_pathways - 1]` and is below `scaling`; and for a reaction whose
`n_pathways` is at most `RX_SPECIAL`, `test_intersect` returns `n_pathways`. -/
theorem test_intersect_matches_test_bimolecular (lookup : Nat → abstract_molecule → ℚ → ℚ)
    (rx : rxn_probs) (scaling : ℚ) (rng : rng_state)
    (hn : 1 ≤ rx.n_pathways) (hrates : rx.rates = none)
    (hmin : rx.min_noreaction_p = array_get rx.cum_probs (rx.n_pathways - 1))
    (hs : 0 < scaling) (hU : (rng_dbl rng).1 ≤ 1) :
    (test_intersect rx scaling rng).rx.n_skipped =
      (test_bimolecular lookup rx scaling 0 none none rng).rx.n_skipped ∧
    (¬ ((rng_dbl rng).1 * scaling = array_get rx.cum_probs (rx.n_pathways - 1) ∧
          array_get rx.cum_probs (rx.n_pathways - 1) < scaling) →
      ((test_intersect rx scaling rng).outcome = RX_NO_RX ↔
        (test_bimolecular lookup rx scaling 0 none none rng).outcome = RX_NO_RX)) ∧
    (∀ (tagged : rxn_probs) (s : ℚ) (g : rng_state), tagged.n_pathways ≤ RX_SPECIAL →
      (test_intersect tagged s g).outcome = tagged.n_pathways) := by
  have hsearch : ∀ m : ℚ, binary_search_double rx.cum_probs m (rx.n_pathways - 1) 1 ≠
      RX_NO_RX := by
    intro m
    have := (binary_search_double_range rx.cum_probs m 1 (rx.n_pathways - 1) (by omega)).1
    unfold RX_NO_RX
    omega
  have hspecial : ¬ rx.n_pathways ≤ RX_SPECIAL := by unfold RX_SPECIAL; omega
  refine ⟨?_, ?_, ?_⟩
  · rw [test_bimolecular_fixed lookup rx scaling 0 none none rng hrates (le_refl _)]
    unfold test_intersect test_intersect_pick
    rw [if_neg hspecial, hmin]
    rcases lt_trichotomy (array_get rx.cum_probs (rx.n_pathways - 1)) scaling with h | h | h
    · rw [if_neg (not_lt.2 (le_of_lt h)), if_pos h]
      split_ifs <;> rfl
    · rw [if_neg (not_lt.2 (le_of_eq h)), if_neg (not_lt.2 (le_of_eq h.symm)),
        if_pos (le_of_eq h.symm)]
      have e : rx.n_skipped = rx.n_skipped +
          (array_get rx.cum_probs (rx.n_pathways - 1) / scaling - 1) := by
        rw [h, div_self (ne_of_gt hs)]
        ring
      simp only [if_neg (ne_of_gt hs)]
      split_ifs <;> exact e
    · rw [if_pos h, if_neg (not_lt.2 (le_of_lt h)), if_pos (le_of_lt h)]
      simp only [if_neg (ne_of_gt hs), if_neg (not_le.2 hs)]
      split_ifs <;> rfl
  · intro hb
    rw [test_bimolecular_fixed lookup rx scaling 0 none none rng hrates (le_refl _)]
    unfold test_intersect test_intersect_pick
    rw [if_neg hspecial, hmin]
    rcases lt_trichotomy (array_get rx.cum_probs (rx.n_pathways - 1)) scaling with h | h | h
    · rw [if_neg (not_lt.2 (le_of_lt h)), if_pos h]
      by_cases hp : (rng_dbl rng).1 * scaling > array_get rx.cum_probs (rx.n_pathways - 1)
      · rw [if_pos hp, if_pos (le_of_lt hp)]
      · rw [if_neg hp, if_neg hp]
        have hp2 : ¬ (rng_dbl rng).1 * scaling ≥
            array_get rx.cum_probs (rx.n_pathways - 1) := by
          intro hge
          exact hb ⟨le_antisymm (not_lt.1 hp) hge, h⟩
        rw [if_neg hp2]
        constructor
        · intro h1
          exact absurd h1 (hsearch _)
        · intro h1
          exact absurd h1 (hsearch _)
    · have hp : ¬ (rng_dbl rng).1 * scaling > array_get rx.cum_probs (rx.n_pathways - 1) := by
        rw [h]
        have : (rng_dbl rng).1 * scaling ≤ 1 * scaling :=
          mul_le_mul_of_nonneg_right hU (le_of_lt hs)
        rw [one_mul] at this
        exact not_lt.2 this
      rw [if_neg (not_lt.2 (le_of_eq h)), if_neg (not_lt.2 (le_of_eq h.symm)),
        if_pos (le_of_eq h.symm), if_neg hp, if_neg hp]
      constructor
      · intro h1
        exact absurd h1 (hsearch _)
      · intro h1
        exact absurd h1 (hsearch _)
    · have hpos : 0 < array_get rx.cum_probs (rx.n_pathways - 1) := lt_trans hs h
      have hp : ¬ (rng_dbl rng).1 * array_get rx.cum_probs (rx.n_pathways - 1) >
          array_get rx.cum_probs (rx.n_pathways - 1) := by
        have : (rng_dbl rng).1 * array_get rx.cum_probs (rx.n_pathways - 1) ≤
            1 * array_get rx.cum_probs (rx.n_pathways - 1) :=
          mul_le_mul_of_nonneg_right hU (le_of_lt hpos)
        rw [one_mul] at this
        exact not_lt.2 this
      rw [if_pos h, if_neg (not_lt.2 (le_of_lt h)), if_pos (le_of_lt h)]
      simp only [if_neg hp]
      constructor
      · intro h1
        exact absurd h1 (hsearch _)
      · intro h1
        exact absurd h1 (hsearch _)
  · intro tagged s g ht
    unfold test_intersect
    rw [if_pos ht]

/-- Witness for C18 (amended) on `cum_probs = [0.25, 0.5]`, `scaling = 1` and the
draws 0.125, 1: both selectors leave the same `n_skipped`. -/
theorem test_intersect_matches_test_bimolecular_witness :
    (test_intersect (sample_rxn_probs [1 / 4, 1 / 2] []) 1 (sample_rng [1 / 8, 1])).rx.n_skipped =
      (test_bimolecular sample_lookup (sample_rxn_probs [1 / 4, 1 / 2] []) 1 0 none none
        (sample_rng [1 / 8, 1])).rx.n_skipped :=
  (test_intersect_matches_test_bimolecular sample_lookup (sample_rxn_probs [1 / 4, 1 / 2] []) 1
    (sample_rng [1 / 8, 1]) (by decide) rfl
    (by norm_num [sample_rxn_probs, array_get]) (by norm_num)
    (by norm_num [sample_rng, rng_dbl])).1

/-! ## Arrays of doubles -/

/-- An array whose adjacent cells are in order is nondecreasing. -/
theorem array_get_mono_of_adjacent (A : List ℚ) (n : Int)
    (h : ∀ i : Int, 0 ≤ i → i + 1 < n → array_get A i ≤ array_get A (i + 1)) :
    ∀ i j : Int, 0 ≤ i → i ≤ j → j < n → array_get A i ≤ array_get A j := by
  intro i j hi hij hj
  obtain ⟨d, rfl⟩ : ∃ d : Nat, j = i + d := ⟨(j - i).toNat, by omega⟩
  clear hij
  induction d with
  | zero => simp
  | succ m ih =>
    have h1 := ih (by omega)
    have h2 := h (i + m) (by omega) (by push_cast at hj; omega)
    have e : i + ((m + 1 : Nat) : Int) = i + m + 1 := by push_cast; ring
    rw [e]
    exact le_trans h1 h2

/-! ## Rounding to a double -/

/-- The spacing of the doubles around a value whose magnitude lies between
`2 ^ (e + 52)` and `2 ^ (e + 53)`. -/
theorem double_ulp_eval (q : ℚ) (e : Int) (he : -1074 ≤ e)
    (h1 : (2 : ℚ) ^ (e + 52) ≤ |q|) (h2 : |q| < (2 : ℚ) ^ (e + 53)) :
    double_ulp q = 2 ^ e := by
  have hpos : 0 < |q| := lt_of_lt_of_le (zpow_pos (by norm_num) _) h1
  have hlog : Int.log 2 |q| = e + 52 := by
    apply le_antisymm
    · have h := (Int.lt_zpow_iff_log_lt (by norm_num : 1 < 2) hpos).1
        (by push_cast; exact h2)
      omega
    · exact (Int.zpow_le_iff_le_log (by norm_num : 1 < 2) hpos).1 (by push_cast; exact h1)
  unfold double_ulp
  rw [hlog]
  congr 1
  omega

/-- The value of `round_double` from the binary exponent `e` of the spacing and
the integer `f` just below the scaled value. -/
theorem round_double_eval (q : ℚ) (e f : Int) (r : ℚ) (he : -1074 ≤ e)
    (h1 : (2 : ℚ) ^ (e + 52) ≤ |q|) (h2 : |q| < (2 : ℚ) ^ (e + 53))
    (h3 : (f : ℚ) ≤ q / 2 ^ e) (h4 : q / 2 ^ e < f + 1)
    (hr : (((if q / 2 ^ e - f < 1 / 2 then f
      else if q / 2 ^ e - f > 1 / 2 then f + 1
      else if f % 2 = 0 then f else f + 1 : Int) : ℚ)) * 2 ^ e = r) :
    round_double q = r := by
  have hf : ⌊q / (2 : ℚ) ^ e⌋ = f := Int.floor_eq_iff.2 ⟨h3, h4⟩
  unfold round_double round_half_even
  rw [double_ulp_eval q e he h1 h2, hf]
  exact hr

/-- The decimal 0.1 rounds to `double_0_1`. -/
theorem round_double_0_1 : round_double (1 / 10) = double_0_1 := by
  unfold double_0_1
  refine round_double_eval _ (-56) 7205759403792793 _ (by norm_num) ?_ ?_ ?_ ?_ ?_ <;>
    norm_num [abs_of_pos]

/-- The decimal 0.3 rounds to `double_0_3`. -/
theorem round_double_0_3 : round_double (3 / 10) = double_0_3 := by
  unfold double_0_3
  refine round_double_eval _ (-54) 5404319552844595 _ (by norm_num) ?_ ?_ ?_ ?_ ?_ <;>
    norm_num [abs_of_pos]

/-- The decimal 0.7 rounds to `double_0_7`. -/
theorem round_double_0_7 : round_double (7 / 10) = double_0_7 := by
  unfold double_0_7
  refine round_double_eval _ (-53) 6305039478318694 _ (by norm_num) ?_ ?_ ?_ ?_ ?_ <;>
    norm_num [abs_of_pos]

/-- The doubles 1/4, 1/2, 3/4, 7/4 and 2 are fixed by `round_double`, as are -1
and 1. -/
theorem round_double_dyadic :
    round_double (1 / 4) = 1 / 4 ∧ round_double (1 / 2) = 1 / 2 ∧
    round_double (3 / 4) = 3 / 4 ∧ round_double (7 / 4) = 7 / 4 ∧ round_double 2 = 2 ∧
    round_double (-1) = -1 ∧ round_double 1 = 1 := by
  refine ⟨?_, ?_, ?_, ?_, ?_, ?_, ?_⟩
  · refine round_double_eval _ (-54) 4503599627370496 _ (by norm_num) ?_ ?_ ?_ ?_ ?_ <;>
      norm_num [abs_of_pos]
  · refine round_double_eval _ (-53) 4503599627370496 _ (by norm_num) ?_ ?_ ?_ ?_ ?_ <;>
      norm_num [abs_of_pos]
  · refine round_double_eval _ (-53) 6755399441055744 _ (by norm_num) ?_ ?_ ?_ ?_ ?_ <;>
      norm_num [abs_of_pos]
  · refine round_double_eval _ (-52) 7881299347898368 _ (by norm_num) ?_ ?_ ?_ ?_ ?_ <;>
      norm_num [abs_of_pos]
  · refine round_double_eval _ (-51) 4503599627370496 _ (by norm_num) ?_ ?_ ?_ ?_ ?_ <;>
      norm_num [abs_of_pos]
  · refine round_double_eval _ (-52) (-4503599627370496) _ (by norm_num) ?_ ?_ ?_ ?_ ?_ <;>
      norm_num
  · refine round_double_eval _ (-52) 4503599627370496 _ (by norm_num) ?_ ?_ ?_ ?_ ?_ <;>
      norm_num

/-- The three roundings of `update_probs` on the doubles of 0.1, 0.3 and 0.7: the
difference 0.3 - 0.1 is a double, the difference of 0.7 and that double rounds up
to 1/2, and the sum of 0.3 and 1/2 rounds up to the double of 0.8. -/
theorem round_double_steps :
    round_double (double_0_3 - double_0_1) = 7205759403792793 / 36028797018963968 ∧
    round_double (double_0_7 - 7205759403792793 / 36028797018963968) = 1 / 2 ∧
    round_double (double_0_3 + 1 / 2) = 3602879701896397 / 4503599627370496 ∧
    round_double (3602879701896397 / 4503599627370496 - double_0_1) =
      6305039478318695 / 9007199254740992 := by
  unfold double_0_1 double_0_3 double_0_7
  refine ⟨?_, ?_, ?_, ?_⟩
  · refine round_double_eval _ (-55) 7205759403792793 _ (by norm_num) ?_ ?_ ?_ ?_ ?_ <;>
      norm_num [abs_of_pos]
  · refine round_double_eval _ (-54) 9007199254740991 _ (by norm_num) ?_ ?_ ?_ ?_ ?_ <;>
      norm_num [abs_of_pos]
  · refine round_double_eval _ (-53) 7205759403792793 _ (by norm_num) ?_ ?_ ?_ ?_ ?_ <;>
      norm_num [abs_of_pos]
  · refine round_double_eval _ (-53) 6305039478318694 _ (by norm_num) ?_ ?_ ?_ ?_ ?_ <;>
      norm_num [abs_of_pos]

/-- A cell of the array after `add_dprob`. -/
theorem getD_add_dprob (round : ℚ → ℚ) (j n : Int) (d : ℚ) (A : List ℚ) :
    ∀ (k0 m : Nat), (add_dprob round j n d k0 A).getD m 0 =
      if m < A.length ∧ j ≤ ((m + k0 : Nat) : Int) ∧ ((m + k0 : Nat) : Int) < n then
        round (A.getD m 0 + d)
      else A.getD m 0 := by
  induction A with
  | nil => intro k0 m; simp [add_dprob]
  | cons x xs ih =>
    intro k0 m
    cases m with
    | zero =>
      simp only [add_dprob, List.getD_cons_zero, List.length_cons, Nat.zero_add]
      by_cases h : j ≤ (k0 : Int) ∧ (k0 : Int) < n
      · rw [if_pos h, if_pos ⟨Nat.succ_pos _, h⟩]
      · rw [if_neg h, if_neg (fun hh => h hh.2)]
    | succ m =>
      simp only [add_dprob, List.getD_cons_succ, List.length_cons]
      rw [ih (k0 + 1) m]
      have e : m + (k0 + 1) = m + 1 + k0 := by omega
      rw [e]
      by_cases h : m < xs.length ∧ j ≤ ((m + 1 + k0 : Nat) : Int) ∧
          ((m + 1 + k0 : Nat) : Int) < n
      · rw [if_pos h, if_pos ⟨by omega, h.2⟩]
      · rw [if_neg h, if_neg (fun hh => h ⟨by omega, hh.2⟩)]

/-- The read of a cell after the statement `cum_probs[k] += dprob` for `k` from
`j` to `n_pathways - 1`. -/
theorem array_get_add_dprob (round : ℚ → ℚ) (j n : Int) (d : ℚ) (A : List ℚ) (i : Int) :
    array_get (add_dprob round j n d 0 A) i =
      if 0 ≤ i ∧ i < A.length ∧ j ≤ i ∧ i < n then round (array_get A i + d)
      else array_get A i := by
  unfold array_get
  by_cases hi : i < 0
  · rw [if_pos hi, if_pos hi, if_neg (fun h => by omega)]
  · rw [if_neg hi, if_neg hi, getD_add_dprob]
    have e : ((i.toNat + 0 : Nat) : Int) = i := by
      rw [Nat.add_zero, Int.toNat_of_nonneg (by omega)]
    rw [e]
    by_cases h : i.toNat < A.length ∧ j ≤ i ∧ i < n
    · rw [if_pos h, if_pos ⟨by omega, by omega, h.2⟩]
    · rw [if_neg h, if_neg (fun hh => h ⟨by omega, hh.2.2⟩)]

/-- The reaction after one round of the loop of `update_probs`. -/
theorem update_probs_entry_rx (round : ℚ → ℚ) (t : ℚ) (tv : t_func) (next : Option t_func)
    (st : update_state) :
    (update_probs_entry round t tv next st).rx =
      { st.rx with
        cum_probs := add_dprob round tv.path st.rx.n_pathways
          (update_probs_dprob round tv st.rx) 0 st.rx.cum_probs
        max_fixed_p := round (st.rx.max_fixed_p + update_probs_dprob round tv st.rx)
        min_noreaction_p :=
          round (st.rx.min_noreaction_p + update_probs_dprob round tv st.rx) } := by
  unfold update_probs_entry
  cases next with
  | none => split_ifs <;> simp [update_probs_limit] <;> split_ifs <;> rfl
  | some nx => split_ifs <;> simp [update_probs_limit] <;> split_ifs <;> rfl

/-- The value of `dprob` when neither of its two subtractions rounds: the value
of the entry minus the old probability of its pathway. -/
theorem update_probs_dprob_exact (round : ℚ → ℚ) (tv : t_func) (rx : rxn_probs)
    (h1 : tv.path ≠ 0 →
      round (array_get rx.cum_probs tv.path - array_get rx.cum_probs (tv.path - 1)) =
        array_get rx.cum_probs tv.path - array_get rx.cum_probs (tv.path - 1))
    (h2 : round (tv.value - pathway_prob rx.cum_probs tv.path) =
      tv.value - pathway_prob rx.cum_probs tv.path) :
    update_probs_dprob round tv rx = tv.value - pathway_prob rx.cum_probs tv.path := by
  unfold update_probs_dprob
  unfold pathway_prob at h2 ⊢
  by_cases h0 : tv.path = 0
  · simp only [if_pos h0] at h2 ⊢
    exact h2
  · simp only [if_neg h0] at h2 ⊢
    rw [h1 h0, h2]

/-- In `update_probs` the reaction keeps the fields of the loop's final state and
gets the exit value of `tv` as `prob_t`. -/
theorem update_probs_rx (round : ℚ → ℚ) (world : volume) (rx : rxn_probs) (t : ℚ) :
    (update_probs round world rx t).rx =
      { (update_probs_loop round t rx.prob_t
          { rx := rx, world := world, new_prob := 0, did_something := 0 }).1.rx with
        prob_t := (update_probs_loop round t rx.prob_t
          { rx := rx, world := world, new_prob := 0, did_something := 0 }).2 } := by
  unfold update_probs
  simp only
  split_ifs <;> rfl


/-- The loop of `update_probs` stops at once when the first entry is not due. -/
theorem update_probs_loop_stop (round : ℚ → ℚ) (t : ℚ) (l : List t_func) (st : update_state)
    (h : ∀ nx, l.head? = some nx → ¬ nx.time < t) :
    update_probs_loop round t l st = (st, l) := by
  cases l with
  | nil => rfl
  | cons tv rest =>
    simp only [update_probs_loop]
    rw [if_neg (h tv rfl)]

/-- The reaction that `update_probs` leaves when the first entry of `prob_t` is
the only one that is due. -/
theorem update_probs_single_rx (round : ℚ → ℚ) (world : volume) (rx : rxn_probs) (t : ℚ)
    (tv : t_func) (rest : List t_func)
    (hp : rx.prob_t = tv :: rest) (ht : tv.time < t)
    (hrest : ∀ nx, rest.head? = some nx → ¬ nx.time < t) :
    (update_probs round world rx t).rx =
      { rx with
        cum_probs := add_dprob round tv.path rx.n_pathways
          (update_probs_dprob round tv rx) 0 rx.cum_probs
        max_fixed_p := round (rx.max_fixed_p + update_probs_dprob round tv rx)
        min_noreaction_p := round (rx.min_noreaction_p + update_probs_dprob round tv rx)
        prob_t := rest } := by
  rw [update_probs_rx, hp]
  simp only [update_probs_loop]
  rw [if_pos ht, update_probs_loop_stop round t rest _ hrest, update_probs_entry_rx]

/-- C19 (as stated): in doubles, for `cum_probs = [0.1, 0.3]` and the single entry
(time 1, value 0.7, pathway 1) at `t = 1.5`, `update_probs` computes the old
probability 0.19999999999999998 of pathway 1, the delta 0.5 and the new
`cum_probs[1] = 0.8`, and leaves `cum_probs[0]` as it is; the probability of
pathway 1 is then not the value 0.7 of the entry: the difference
`cum_probs[1] - cum_probs[0]` exceeds it by `3 / 2 ^ 55`, and as a double it is
0.7000000000000001, the double next above 0.7. -/
theorem update_probs_single_entry_rounded :
    (update_probs round_double sample_volume
        (sample_rxn_probs [double_0_1, double_0_3] [⟨1, double_0_7, 1⟩]) (3 / 2)).rx.cum_probs =
      [double_0_1, 3602879701896397 / 4503599627370496] ∧
    pathway_prob (update_probs round_double sample_volume
        (sample_rxn_probs [double_0_1, double_0_3] [⟨1, double_0_7, 1⟩])
        (3 / 2)).rx.cum_probs 1 = double_0_7 + 3 / 2 ^ 55 ∧
    round_double (pathway_prob (update_probs round_double sample_volume
        (sample_rxn_probs [double_0_1, double_0_3] [⟨1, double_0_7, 1⟩])
        (3 / 2)).rx.cum_probs 1) = double_0_7 + 1 / 2 ^ 53 ∧
    pathway_prob (update_probs round_double sample_volume
        (sample_rxn_probs [double_0_1, double_0_3] [⟨1, double_0_7, 1⟩])
        (3 / 2)).rx.cum_probs 1 ≠ double_0_7 := by
  obtain ⟨s1, s2, s3, s4⟩ := round_double_steps
  have hcum : (update_probs round_double sample_volume
      (sample_rxn_probs [double_0_1, double_0_3] [⟨1, double_0_7, 1⟩]) (3 / 2)).rx.cum_probs =
      [double_0_1, 3602879701896397 / 4503599627370496] := by
    rw [update_probs_single_rx round_double sample_volume _ (3 / 2) ⟨1, double_0_7, 1⟩ [] rfl
      (by norm_num) (by intro nx h; cases h)]
    have hd : update_probs_dprob round_double ⟨1, double_0_7, 1⟩
        (sample_rxn_probs [double_0_1, double_0_3] [⟨1, double_0_7, 1⟩]) = 1 / 2 := by
      have e1 : array_get [double_0_1, double_0_3] 1 = double_0_3 := by
        simp [array_get]
      have e0 : array_get [double_0_1, double_0_3] (1 - 1) = double_0_1 := by
        simp [array_get]
      simp only [update_probs_dprob, sample_rxn_probs, e1, e0, s1, s2]
      norm_num
    simp only [hd]
    simp only [sample_rxn_probs, add_dprob]
    norm_num
    exact s3
  rw [hcum]
  have hp : pathway_prob [double_0_1, 3602879701896397 / 4503599627370496] 1 =
      3602879701896397 / 4503599627370496 - double_0_1 := by
    simp [pathway_prob, array_get]
  rw [hp]
  refine ⟨rfl, ?_, ?_, ?_⟩
  · unfold double_0_1 double_0_7
    norm_num
  · rw [s4]
    unfold double_0_7
    norm_num
  · unfold double_0_1 double_0_7
    norm_num

/-- C19 (amended): when the first entry of `prob_t` (time below `t`, pathway `j`
in `[0, n_pathways - 1]`, value `v`) is the only one that is due and `cum_probs`
has `n_pathways` cells, then after `update_probs` the cell `cum_probs[k]` is
unchanged for `k < j`; with `dprob` the double that the code computes for the
entry, `cum_probs[k]` for `k` from `j` on, `max_fixed_p` and `min_noreaction_p`
are each the rounded sum of the old value and `dprob`; and when none of these
operations rounds (the two subtractions for `dprob` and the additions to the
cells), `dprob` is `v` minus the old per-pathway probability of `j`, the
per-pathway probability of `j` is `v`, the per-pathway probability of every other
pathway is unchanged, and `max_fixed_p` and `min_noreaction_p` have each grown by
`dprob` when their additions do not round either. -/
theorem update_probs_single_entry (round : ℚ → ℚ) (world : volume) (rx : rxn_probs) (t : ℚ)
    (tv : t_func) (rest : List t_func)
    (hp : rx.prob_t = tv :: rest) (ht : tv.time < t)
    (hrest : ∀ nx, rest.head? = some nx → ¬ nx.time < t)
    (hj0 : 0 ≤ tv.path) (hjn : tv.path < rx.n_pathways)
    (hlen : (rx.cum_probs.length : Int) = rx.n_pathways) :
    (∀ k : Int, 0 ≤ k → k < tv.path →
      array_get (update_probs round world rx t).rx.cum_probs k = array_get rx.cum_probs k) ∧
    (∀ k : Int, tv.path ≤ k → k < rx.n_pathways →
      array_get (update_probs round world rx t).rx.cum_probs k =
        round (array_get rx.cum_probs k + update_probs_dprob round tv rx)) ∧
    (update_probs round world rx t).rx.max_fixed_p =
      round (rx.max_fixed_p + update_probs_dprob round tv rx) ∧
    (update_probs round world rx t).rx.min_noreaction_p =
      round (rx.min_noreaction_p + update_probs_dprob round tv rx) ∧
    ((tv.path ≠ 0 →
        round (array_get rx.cum_probs tv.path - array_get rx.cum_probs (tv.path - 1)) =
          array_get rx.cum_probs tv.path - array_get rx.cum_probs (tv.path - 1)) →
      round (tv.value - pathway_prob rx.cum_probs tv.path) =
        tv.value - pathway_prob rx.cum_probs tv.path →
      (∀ k : Int, tv.path ≤ k → k < rx.n_pathways →
        round (array_get rx.cum_probs k + (tv.value - pathway_prob rx.cum_probs tv.path)) =
          array_get rx.cum_probs k + (tv.value - pathway_prob rx.cum_probs tv.path)) →
      update_probs_dprob round tv rx = tv.value - pathway_prob rx.cum_probs tv.path ∧
      pathway_prob (update_probs round world rx t).rx.cum_probs tv.path = tv.value ∧
      (∀ k : Int, 0 ≤ k → k < rx.n_pathways → k ≠ tv.path →
        pathway_prob (update_probs round world rx t).rx.cum_probs k =
          pathway_prob rx.cum_probs k) ∧
      (round (rx.max_fixed_p + (tv.value - pathway_prob rx.cum_probs tv.path)) =
          rx.max_fixed_p + (tv.value - pathway_prob rx.cum_probs tv.path) →
        (update_probs round world rx t).rx.max_fixed_p =
          rx.max_fixed_p + (tv.value - pathway_prob rx.cum_probs tv.path)) ∧
      (round (rx.min_noreaction_p + (tv.value - pathway_prob rx.cum_probs tv.path)) =
          rx.min_noreaction_p + (tv.value - pathway_prob rx.cum_probs tv.path) →
        (update_probs round world rx t).rx.min_noreaction_p =
          rx.min_noreaction_p + (tv.value - pathway_prob rx.cum_probs tv.path))) := by
  have hrx := update_probs_single_rx round world rx t tv rest hp ht hrest
  have hcum := congrArg rxn_probs.cum_probs hrx
  have hmax := congrArg rxn_probs.max_fixed_p hrx
  have hmin := congrArg rxn_probs.min_noreaction_p hrx
  simp only at hcum hmax hmin
  have hlow : ∀ k : Int, k < tv.path →
      array_get (update_probs round world rx t).rx.cum_probs k = array_get rx.cum_probs k := by
    intro k hkj
    rw [hcum, array_get_add_dprob, if_neg (fun h => by omega)]
  have hhigh : ∀ k : Int, tv.path ≤ k → k < rx.n_pathways →
      array_get (update_probs round world rx t).rx.cum_probs k =
        round (array_get rx.cum_probs k + update_probs_dprob round tv rx) := by
    intro k hjk hkn
    rw [hcum, array_get_add_dprob, if_pos ⟨by omega, by omega, hjk, hkn⟩]
  refine ⟨fun k _ hkj => hlow k hkj, hhigh, hmax, hmin, ?_⟩
  intro h1 h2 h3
  have hd := update_probs_dprob_exact round tv rx h1 h2
  have hx : ∀ k : Int, tv.path ≤ k → k < rx.n_pathways →
      array_get (update_probs round world rx t).rx.cum_probs k =
        array_get rx.cum_probs k + (tv.value - pathway_prob rx.cum_probs tv.path) := by
    intro k hjk hkn
    rw [hhigh k hjk hkn, hd, h3 k hjk hkn]
  refine ⟨hd, ?_, ?_, ?_, ?_⟩
  · unfold pathway_prob
    by_cases h0 : tv.path = 0
    · rw [if_pos h0, ← h0, hx tv.path (le_refl _) hjn]
      unfold pathway_prob
      rw [if_pos h0, ← h0]
      ring
    · rw [if_neg h0, hx tv.path (le_refl _) hjn, hlow (tv.path - 1) (by omega)]
      unfold pathway_prob
      rw [if_neg h0]
      ring
  · intro k hk0 hkn hkj
    by_cases hlt : k < tv.path
    · unfold pathway_prob
      rw [hlow k hlt, hlow (k - 1) (by omega), hlow 0 (by omega)]
    · have hk1 : k ≠ 0 := by omega
      unfold pathway_prob
      rw [if_neg hk1, if_neg hk1, hx k (by omega) hkn, hx (k - 1) (by omega) (by omega)]
      ring
  · intro h4
    rw [hmax, hd, h4]
  · intro h5
    rw [hmin, hd, h5]

/-- Witness for C19 (amended) in doubles, on `cum_probs = [1/4, 1/2]` and the
entries (time 1, value 1/2, pathway 1) and (time 2, value 1, pathway 0) at
`t = 1.5`: no operation rounds, and the probability of pathway 1 becomes 1/2. -/
theorem update_probs_single_entry_witness :
    pathway_prob
        (update_probs round_double sample_volume
          (sample_rxn_probs [1 / 4, 1 / 2] [⟨1, 1 / 2, 1⟩, ⟨2, 1, 0⟩])
          (3 / 2)).rx.cum_probs 1 = 1 / 2 := by
  obtain ⟨d1, d2, d3, _⟩ := round_double_dyadic
  have e1 : array_get [(1 : ℚ) / 4, 1 / 2] 1 = 1 / 2 := by simp [array_get]
  have e0 : array_get [(1 : ℚ) / 4, 1 / 2] (1 - 1) = 1 / 4 := by simp [array_get]
  have ep : pathway_prob [(1 : ℚ) / 4, 1 / 2] 1 = 1 / 4 := by
    simp only [pathway_prob, e1, e0]
    norm_num
  exact ((update_probs_single_entry round_double sample_volume
    (sample_rxn_probs [1 / 4, 1 / 2] [⟨1, 1 / 2, 1⟩, ⟨2, 1, 0⟩]) (3 / 2) ⟨1, 1 / 2, 1⟩
    [⟨2, 1, 0⟩] rfl (by norm_num) (by intro nx h; cases h; norm_num) (by decide) (by decide)
    rfl).2.2.2.2
    (by
      intro _
      simp only [sample_rxn_probs, e1, e0]
      norm_num
      exact d1)
    (by
      simp only [sample_rxn_probs, ep]
      norm_num
      exact d1)
    (by
      intro k hk1 hk2
      have hk : k = 1 := by
        have : k < 2 := hk2
        have : (1 : Int) ≤ k := hk1
        omega
      subst hk
      simp only [sample_rxn_probs, ep, e1]
      norm_num
      exact d3)).2.1

/-- A next entry that is not due has the same effect on a round of the loop as no
next entry. -/
theorem update_probs_entry_next (round : ℚ → ℚ) (t : ℚ) (tv : t_func) (next : Option t_func)
    (st : update_state) (h : ∀ nx, next = some nx → ¬ nx.time < t) :
    update_probs_entry round t tv next st = update_probs_entry round t tv none st := by
  cases next with
  | none => rfl
  | some nx =>
    have hnx := h nx rfl
    unfold update_probs_entry
    simp only [hnx, and_false, if_false]

/-- On a list sorted by time the loop of `update_probs` exits with the entries
whose time is not below `t`. -/
theorem update_probs_loop_rest (round : ℚ → ℚ) (t : ℚ) (l : List t_func)
    (hs : List.Sorted (fun a b : t_func => a.time ≤ b.time) l) :
    ∀ st : update_state,
      (update_probs_loop round t l st).2 = l.filter (fun e => decide (t ≤ e.time)) ∧
      l = l.filter (fun e => decide (e.time < t)) ++ (update_probs_loop round t l st).2 ∧
      update_probs_loop round t (l.filter (fun e => decide (e.time < t))) st =
        ((update_probs_loop round t l st).1, []) := by
  induction l with
  | nil => intro st; simp [update_probs_loop]
  | cons tv rest ih =>
    intro st
    have hs1 := List.sorted_cons.1 hs
    by_cases ht : tv.time < t
    · have ih1 := ih hs1.2
      have hnext : update_probs_entry round t tv
          (rest.filter (fun e => decide (e.time < t))).head? st =
          update_probs_entry round t tv rest.head? st := by
        cases rest with
        | nil => rfl
        | cons nx rest1 =>
          by_cases hnx : nx.time < t
          · simp [List.filter, hnx]
          · have hall : ∀ e ∈ nx :: rest1, ¬ e.time < t := by
              intro e he
              rcases List.mem_cons.1 he with rfl | he1
              · exact hnx
              · have := (List.sorted_cons.1 hs1.2).1 e he1
                exact not_lt.2 (le_trans (not_lt.1 hnx) this)
            have hnil : (nx :: rest1).filter (fun e => decide (e.time < t)) = [] := by
              rw [List.filter_eq_nil_iff]
              intro e he
              simpa using hall e he
            rw [hnil]
            simp only [List.head?_nil, List.head?_cons]
            exact (update_probs_entry_next round t tv (some nx) st
              (fun n hn => by cases hn; exact hnx)).symm
      simp only [update_probs_loop, if_pos ht, List.filter_cons, decide_eq_true ht, if_true,
        decide_eq_false (not_le.2 ht), Bool.false_eq_true, if_false]
      obtain ⟨a1, a2, a3⟩ := ih1 (update_probs_entry round t tv rest.head? st)
      refine ⟨a1, ?_, ?_⟩
      · rw [List.cons_append, ← a2]
      · rw [hnext]
        exact a3
    · have hall : ∀ e ∈ tv :: rest, ¬ e.time < t := by
        intro e he
        rcases List.mem_cons.1 he with rfl | he1
        · exact ht
        · exact not_lt.2 (le_trans (not_lt.1 ht) (hs1.1 e he1))
      have hnil : (tv :: rest).filter (fun e => decide (e.time < t)) = [] := by
        rw [List.filter_eq_nil_iff]
        intro e he
        simpa using hall e he
      have hfull : (tv :: rest).filter (fun e => decide (t ≤ e.time)) = tv :: rest := by
        rw [List.filter_eq_self]
        intro e he
        simpa using not_lt.1 (hall e he)
      rw [hnil, hfull]
      simp only [update_probs_loop, if_neg ht, List.nil_append, and_self]

/-- A round of the loop of `update_probs` neither reads nor writes `prob_t`. -/
theorem update_probs_entry_prob_t (round : ℚ → ℚ) (t : ℚ) (tv : t_func) (next : Option t_func)
    (st : update_state) (l : List t_func) :
    update_probs_entry round t tv next { st with rx := { st.rx with prob_t := l } } =
      { update_probs_entry round t tv next st with
        rx := { (update_probs_entry round t tv next st).rx with prob_t := l } } := by
  unfold update_probs_entry update_probs_limit update_probs_dprob
  cases next with
  | none => simp only; split_ifs <;> rfl
  | some nx => simp only; split_ifs <;> rfl

/-- The loop of `update_probs` neither reads nor writes the field `prob_t` of the
reaction it updates. -/
theorem update_probs_loop_prob_t (round : ℚ → ℚ) (t : ℚ) (l0 : List t_func) :
    ∀ (l : List t_func) (st : update_state),
      update_probs_loop round t l { st with rx := { st.rx with prob_t := l0 } } =
        ({ (update_probs_loop round t l st).1 with
            rx := { (update_probs_loop round t l st).1.rx with prob_t := l0 } },
          (update_probs_loop round t l st).2) := by
  intro l
  induction l with
  | nil => intro st; rfl
  | cons tv rest ih =>
    intro st
    simp only [update_probs_loop]
    by_cases ht : tv.time < t
    · rw [if_pos ht, if_pos ht, update_probs_entry_prob_t, ih]
    · rw [if_neg ht, if_neg ht]

/-- The entries that are not yet due at `1.5 / u`, of an entry at `1 / u` followed
by one at `2 / u`. -/
theorem filter_two_due (u t : ℚ) (e1 e2 : t_func) (hu : 0 < u)
    (h1 : e1.time = 1 / u) (h2 : e2.time = 2 / u) (ht : t = 3 / 2 / u) :
    [e1, e2].filter (fun e => decide (t ≤ e.time)) = [e2] := by
  have a1 : ¬ t ≤ e1.time := by
    rw [h1, ht, not_le]
    exact div_lt_div_of_pos_right (by norm_num) hu
  have a2 : t ≤ e2.time := by
    rw [h2, ht]
    exact div_le_div_of_nonneg_right (by norm_num) (le_of_lt hu)
  simp [List.filter, a1, a2]

/-- C20: for a reaction whose `prob_t` is sorted by ascending time and for every
time `t`, `update_probs` leaves in `prob_t` exactly the entries with `time ≥ t`,
which form the suffix of the old list behind the entries with `time < t`; the
reaction it leaves is the one obtained by folding the entries with `time < t`
alone, which are then all consumed; and of two entries at `1 / u` and `2 / u`
with `u > 0` and `t = 1.5 / u` only the second remains. -/
theorem update_probs_consumes_due_entries (round : ℚ → ℚ) (world : volume)
    (rx : rxn_probs) (t : ℚ)
    (hs : List.Sorted (fun a b : t_func => a.time ≤ b.time) rx.prob_t) :
    (update_probs round world rx t).rx.prob_t = rx.prob_t.filter (fun e => decide (t ≤ e.time)) ∧
    (∀ e ∈ (update_probs round world rx t).rx.prob_t, t ≤ e.time) ∧
    rx.prob_t =
      rx.prob_t.filter (fun e => decide (e.time < t)) ++ (update_probs round world rx t).rx.prob_t ∧
    (update_probs round world
        { rx with prob_t := rx.prob_t.filter (fun e => decide (e.time < t)) } t).rx.prob_t =
      [] ∧
    (update_probs round world rx t).rx =
      { (update_probs round world
          { rx with prob_t := rx.prob_t.filter (fun e => decide (e.time < t)) } t).rx with
        prob_t := rx.prob_t.filter (fun e => decide (t ≤ e.time)) } ∧
    (∀ (u : ℚ) (e1 e2 : t_func), 0 < u → e1.time = 1 / u → e2.time = 2 / u →
      t = 3 / 2 / u → rx.prob_t = [e1, e2] →
      (update_probs round world rx t).rx.prob_t = [e2]) := by
  obtain ⟨a1, a2, a3⟩ := update_probs_loop_rest round t rx.prob_t hs
    { rx := rx, world := world, new_prob := 0, did_something := 0 }
  have hp : (update_probs round world rx t).rx.prob_t =
      rx.prob_t.filter (fun e => decide (t ≤ e.time)) := by
    rw [update_probs_rx]
    exact a1
  have hloop := update_probs_loop_prob_t round t (rx.prob_t.filter (fun e => decide (e.time < t)))
    (rx.prob_t.filter (fun e => decide (e.time < t)))
    { rx := rx, world := world, new_prob := 0, did_something := 0 }
  rw [a3] at hloop
  simp only at hloop
  refine ⟨hp, ?_, ?_, ?_, ?_, ?_⟩
  · intro e he
    rw [hp] at he
    simpa using (List.mem_filter.1 he).2
  · rw [update_probs_rx]
    exact a2
  · rw [update_probs_rx]
    simp only [hloop]
  · rw [update_probs_rx, update_probs_rx]
    simp only [hloop, a1]
  · intro u e1 e2 hu h1 h2 ht hl
    rw [hp, hl]
    exact filter_two_due u t e1 e2 hu h1 h2 ht

/-- Witness for C20 on the entries at times 1 and 2 and `t = 1.5`: the second
entry is what remains in `prob_t`. -/
theorem update_probs_consumes_due_entries_witness :
    (update_probs round_double sample_volume
        (sample_rxn_probs [1 / 10] [⟨1, 1 / 2, 0⟩, ⟨2, 1, 0⟩]) (3 / 2)).rx.prob_t =
      [⟨2, 1, 0⟩] := by
  have h := (update_probs_consumes_due_entries round_double sample_volume
    (sample_rxn_probs [1 / 10] [⟨1, 1 / 2, 0⟩, ⟨2, 1, 0⟩]) (3 / 2)
    (by simp [sample_rxn_probs, List.Sorted])).1
  rw [h]
  simp [sample_rxn_probs, List.filter]
  norm_num

/-! ## `update_probs`: order of `cum_probs` and the limit flag -/

/-- Below the notification level `NOTIFY_FULL` a round of the loop of
`update_probs` leaves `new_prob` at 0 and the world as it is. -/
theorem update_probs_entry_quiet (round : ℚ → ℚ) (t : ℚ) (tv : t_func) (next : Option t_func)
    (st : update_state)
    (h : st.world.notify.time_varying_reactions ≠ notify_level.NOTIFY_FULL)
    (hnew : st.new_prob = 0) :
    (update_probs_entry round t tv next st).world = st.world ∧
      (update_probs_entry round t tv next st).new_prob = 0 := by
  unfold update_probs_entry
  simp only [h, false_and, if_false, update_probs_limit, hnew]
  norm_num

/-- Below the notification level `NOTIFY_FULL` the loop of `update_probs` leaves
`new_prob` at 0 and the world as it is. -/
theorem update_probs_loop_quiet (round : ℚ → ℚ) (t : ℚ) (l : List t_func) :
    ∀ st : update_state,
      st.world.notify.time_varying_reactions ≠ notify_level.NOTIFY_FULL →
      st.new_prob = 0 →
      (update_probs_loop round t l st).1.world = st.world ∧
        (update_probs_loop round t l st).1.new_prob = 0 := by
  induction l with
  | nil => intro st _ hnew; exact ⟨rfl, hnew⟩
  | cons tv rest ih =>
    intro st h hnew
    simp only [update_probs_loop]
    by_cases ht : tv.time < t
    · rw [if_pos ht]
      obtain ⟨a1, a2⟩ := update_probs_entry_quiet round t tv rest.head? st h hnew
      obtain ⟨b1, b2⟩ := ih (update_probs_entry round t tv rest.head? st) (by rw [a1]; exact h) a2
      exact ⟨by rw [b1, a1], b2⟩
    · rw [if_neg ht]
      exact ⟨rfl, hnew⟩

/-- C21: when the notification level for time-varying reactions is not
`NOTIFY_FULL`, `update_probs` leaves the world, and with it
`reaction_prob_limit_flag`, as it was, whatever probabilities the consumed
entries set: `new_prob` is assigned inside the notification branch only. -/
theorem update_probs_limit_flag_not_latched (round : ℚ → ℚ) (world : volume) (rx : rxn_probs) (t : ℚ)
    (h : world.notify.time_varying_reactions ≠ notify_level.NOTIFY_FULL) :
    (update_probs round world rx t).world = world := by
  obtain ⟨a1, _⟩ := update_probs_loop_quiet round t rx.prob_t
    { rx := rx, world := world, new_prob := 0, did_something := 0 } h rfl
  unfold update_probs
  simp only
  split_ifs <;> exact a1

/-- Witness for C21: with the notifications off, the entry that sets the
probability of pathway 0 to 2 is consumed and the flag is still 0. -/
theorem update_probs_limit_flag_not_latched_witness :
    pathway_prob (update_probs round_double sample_volume
        (sample_rxn_probs [1 / 4] [⟨1, 2, 0⟩]) (3 / 2)).rx.cum_probs 0 = 2 ∧
    (update_probs round_double sample_volume
        (sample_rxn_probs [1 / 4] [⟨1, 2, 0⟩]) (3 / 2)).rx.prob_t = [] ∧
    (update_probs round_double sample_volume
        (sample_rxn_probs [1 / 4] [⟨1, 2, 0⟩]) (3 / 2)).world.reaction_prob_limit_flag = 0 := by
  obtain ⟨_, _, _, d4, d5, _⟩ := round_double_dyadic
  have hrx := update_probs_single_rx round_double sample_volume
    (sample_rxn_probs [1 / 4] [⟨1, 2, 0⟩]) (3 / 2) ⟨1, 2, 0⟩ [] rfl
    (by norm_num) (by intro nx h; cases h)
  have hd : update_probs_dprob round_double ⟨1, 2, 0⟩
      (sample_rxn_probs [1 / 4] [⟨1, 2, 0⟩]) = 7 / 4 := by
    have e0 : array_get [(1 : ℚ) / 4] 0 = 1 / 4 := by simp [array_get]
    simp only [update_probs_dprob, sample_rxn_probs, e0]
    norm_num
    exact d4
  refine ⟨?_, ?_, ?_⟩
  · rw [hrx, hd]
    simp only [sample_rxn_probs, add_dprob]
    norm_num [pathway_prob, array_get]
    exact d5
  · rw [hrx]
  · rw [update_probs_limit_flag_not_latched round_double sample_volume _ _ (by decide)]
    rfl

/-! ## `load_rate_file` -/

/-- C29: for a reaction whose `prob_t` holds the entry (5, 1/2, path 0) and a rate
file with the records (1, 1/10) and (2, 1/5), in sequence, loaded for path 1,
`load_rate_file` returns 0 and `prob_t` holds the two new entries only: the
earlier entry is lost.  With the first record alone the earlier entry is kept. -/
theorem load_rate_file_drops_earlier_entries :
    (load_rate_file sample_state { sample_rxn_build 1 [] with prob_t := [⟨5, 1 / 2, 0⟩] }
        (some [some (1, 1 / 10), some (2, 1 / 5)]) 1).1 = 0 ∧
    (load_rate_file sample_state { sample_rxn_build 1 [] with prob_t := [⟨5, 1 / 2, 0⟩] }
        (some [some (1, 1 / 10), some (2, 1 / 5)]) 1).2.prob_t =
      [⟨1, 1 / 10, 1⟩, ⟨2, 1 / 5, 1⟩] ∧
    (load_rate_file sample_state { sample_rxn_build 1 [] with prob_t := [⟨5, 1 / 2, 0⟩] }
        (some [some (1, 1 / 10)]) 1).2.prob_t =
      [⟨1, 1 / 10, 1⟩, ⟨5, 1 / 2, 0⟩] := by
  have hne : ¬ warn_level.WARN_WARN = warn_level.WARN_ERROR := by decide
  refine ⟨?_, ?_, ?_⟩ <;>
  norm_num [load_rate_file, load_rate_file_lines, load_rate_file_insert, sample_state,
    sample_rxn_build, hne]

/-- Every node of the list after an insertion is the new node or a node of the
list before. -/
theorem load_rate_file_insert_mem (c : rate_cursor) (tp e : t_func)
    (he : e ∈ (load_rate_file_insert c tp).front ++ (load_rate_file_insert c tp).back) :
    e = tp ∨ e ∈ c.front ++ c.back := by
  unfold load_rate_file_insert at he
  by_cases h3 : c.front = [] ∧ c.back = []
  · rw [if_pos h3] at he
    simp only [List.append_nil, List.mem_singleton] at he
    exact Or.inl he
  · rw [if_neg h3] at he
    cases hl : c.front.getLast? with
    | none =>
      rw [hl] at he
      simp only [List.singleton_append, List.mem_cons] at he
      rcases he with he | he
      · exact Or.inl he
      · exact Or.inr (List.mem_append_right _ he)
    | some tp2 =>
      rw [hl] at he
      simp only [List.mem_append, List.mem_singleton] at he
      rcases he with (he | he) | he
      · exact Or.inr (List.mem_append_left _ he)
      · exact Or.inl he
      · by_cases ht : tp.time < tp2.time
        · rw [if_pos ht] at he
          exact Or.inr (List.mem_append_right _ he)
        · rw [if_neg ht] at he
          simp at he

/-- The return value of the loop of `load_rate_file`. -/
theorem load_rate_file_lines_status (state : mcell_state) (path : Int) :
    ∀ (lines : List (Option (ℚ × ℚ))) (c : rate_cursor),
      ((load_rate_file_lines state path lines c).1 = 0 ∨
        (load_rate_file_lines state path lines c).1 = 1) ∧
      ((load_rate_file_lines state path lines c).1 = 1 ↔
        (state.neg_reaction = warn_level.WARN_ERROR ∧
          ∃ t rate, some (t, rate) ∈ lines ∧ rate < 0)) := by
  intro lines
  induction lines with
  | nil => intro c; simp [load_rate_file_lines]
  | cons l rest ih =>
    intro c
    cases l with
    | none =>
      simp only [load_rate_file_lines]
      obtain ⟨a1, a2⟩ := ih c
      refine ⟨a1, ?_⟩
      rw [a2]
      simp
    | some tr =>
      obtain ⟨t, rate⟩ := tr
      simp only [load_rate_file_lines]
      by_cases h1 : rate < 0 ∧ state.neg_reaction = warn_level.WARN_ERROR
      · rw [if_pos h1]
        refine ⟨Or.inr rfl, ?_⟩
        simp only [true_iff]
        exact ⟨h1.2, t, rate, List.mem_cons_self _ _, h1.1⟩
      · rw [if_neg h1]
        obtain ⟨a1, a2⟩ := ih (load_rate_file_insert c
          { time := t / state.time_unit
            value := if rate < 0 ∧ state.neg_reaction = warn_level.WARN_WARN then 0 else rate
            path := path })
        refine ⟨a1, ?_⟩
        rw [a2]
        constructor
        · rintro ⟨hp, t1, r1, hm, hr⟩
          exact ⟨hp, t1, r1, List.mem_cons_of_mem _ hm, hr⟩
        · rintro ⟨hp, t1, r1, hm, hr⟩
          refine ⟨hp, t1, r1, ?_, hr⟩
          rcases List.mem_cons.1 hm with he | hm1
          · exfalso
            have he2 : (t1, r1) = (t, rate) := Option.some.inj he
            have he3 : r1 = rate := congrArg Prod.snd he2
            rw [he3] at hr
            exact h1 ⟨hr, hp⟩
          · exact hm1

/-- C30: a record with the negative rate -1, in a file loaded into a reaction
with an empty `prob_t`, is stored with the rate -1 under the policy `WARN_COPE`,
and `load_rate_file` returns 0: the rate is neither rejected nor set to 0.  Under
`WARN_WARN` the same record is stored with the rate 0, and under `WARN_ERROR` the
call returns 1 and stores nothing. -/
theorem load_rate_file_keeps_negative_rate :
    (load_rate_file { sample_state with neg_reaction := warn_level.WARN_COPE }
        (sample_rxn_build 1 []) (some [some (1, -1)]) 0).1 = 0 ∧
    (load_rate_file { sample_state with neg_reaction := warn_level.WARN_COPE }
        (sample_rxn_build 1 []) (some [some (1, -1)]) 0).2.prob_t = [⟨1, -1, 0⟩] ∧
    (load_rate_file { sample_state with neg_reaction := warn_level.WARN_WARN }
        (sample_rxn_build 1 []) (some [some (1, -1)]) 0).2.prob_t = [⟨1, 0, 0⟩] ∧
    (load_rate_file { sample_state with neg_reaction := warn_level.WARN_ERROR }
        (sample_rxn_build 1 []) (some [some (1, -1)]) 0) = (1, sample_rxn_build 1 []) := by
  have hne : ¬ warn_level.WARN_COPE = warn_level.WARN_ERROR := by decide
  have hne2 : ¬ warn_level.WARN_COPE = warn_level.WARN_WARN := by decide
  have hne3 : ¬ warn_level.WARN_WARN = warn_level.WARN_ERROR := by decide
  refine ⟨?_, ?_, ?_, ?_⟩ <;>
  norm_num [load_rate_file, load_rate_file_lines, load_rate_file_insert, sample_state,
    sample_rxn_build, hne, hne2, hne3]

/-! ## The concentration clamp in `finalize_reaction` -/

/-- C28 (as stated): a clamp pathway with the rate 0 gets the rate `GIGANTIC` and
no record; and for the orientations 2 and 1 and the rate 1 the record has
`orient = -1`, while the sign of the product 2 * 1 is 1. -/
theorem finalize_reaction_pathway_clamp_not_claimed :
    (finalize_reaction_pathway 0
        (sample_pathway_km (sample_surface_pathway 1 1 PATHW_CLAMP_CONC) 0)
        (sample_assembly (sample_rxn_build 2 []))).1.state.clamp_list = [] ∧
    (finalize_reaction_pathway 0
        (sample_pathway_km (sample_surface_pathway 1 1 PATHW_CLAMP_CONC) 0)
        (sample_assembly (sample_rxn_build 2 []))).2.km = GIGANTIC ∧
    (finalize_reaction_pathway 0
        (sample_pathway_km (sample_surface_pathway 2 1 PATHW_CLAMP_CONC) 1)
        (sample_assembly (sample_rxn_build 2 []))).1.state.clamp_list =
      [{ surf_class := some (sample_surface 9 "S"), mol := some (sample_molecule 1 "A")
         concentration := 1, orient := -1 }] ∧
    Int.sign (2 * 1) = 1 := by
  have h1 : reactant2_is_surface (sample_surface_pathway 1 1 PATHW_CLAMP_CONC) = true := by
    decide
  have h2 : reactant2_is_surface (sample_surface_pathway 2 1 PATHW_CLAMP_CONC) = true := by
    decide
  have h3 : (sample_surface_pathway 1 1 PATHW_CLAMP_CONC).flags &&& PATHW_CLAMP_CONC ≠ 0 := by
    decide
  have h4 : (sample_surface_pathway 2 1 PATHW_CLAMP_CONC).flags &&& PATHW_CLAMP_CONC ≠ 0 := by
    decide
  refine ⟨?_, ?_, ?_, by decide⟩
  · simp [finalize_reaction_pathway, finalize_reaction_special, sample_pathway_km, h1, h3]
    simp [sample_surface_pathway, sample_assembly, sample_state]
  · simp [finalize_reaction_pathway, finalize_reaction_special, sample_pathway_km, h1, h3]
    simp [sample_surface_pathway]
  · simp [finalize_reaction_pathway, finalize_reaction_special, sample_pathway_km, h2, h4]
    simp [sample_surface_pathway, sample_assembly, sample_state]

/-- C28 (amended): for a concentration-clamp pathway (reactant 2 a surface class,
rate not negative, no products, flag `PATHW_CLAMP_CONC`) the body of the first
loop of `finalize_reaction` overwrites the rate with `GIGANTIC`; for a positive
rate it puts a record in front of the clamp list, whose `orient` is 0 if an
orientation is 0, 1 if the two orientations are equal and -1 otherwise; for the
rate 0 the list is unchanged; and `orient` is the sign of `O1 * O2` when the two
orientations have the same absolute value. -/
theorem finalize_reaction_pathway_clamp (n_pathway : Nat) (p : pathway_km) (a : assembly)
    (s : species) (h2 : p.path.reactant2 = some s) (hs : s.flags &&& IS_SURFACE ≠ 0)
    (hkm : 0 ≤ p.km) (hprod : p.path.product_head = [])
    (hflag : p.path.flags &&& PATHW_CLAMP_CONC ≠ 0) :
    (finalize_reaction_pathway n_pathway p a).2.km = GIGANTIC ∧
    (0 < p.km →
      (finalize_reaction_pathway n_pathway p a).1.state.clamp_list =
        { surf_class := some s, mol := p.path.reactant1, concentration := p.km
          orient :=
            if p.path.orientation1 * p.path.orientation2 = 0 then 0
            else if p.path.orientation1 = p.path.orientation2 then 1 else -1 } ::
          a.state.clamp_list) ∧
    (p.km = 0 →
      (finalize_reaction_pathway n_pathway p a).1.state.clamp_list = a.state.clamp_list) ∧
    (c_abs p.path.orientation1 = c_abs p.path.orientation2 →
      (if p.path.orientation1 * p.path.orientation2 = 0 then (0 : Int)
        else if p.path.orientation1 = p.path.orientation2 then 1 else -1) =
        Int.sign (p.path.orientation1 * p.path.orientation2)) := by
  have hsurf : reactant2_is_surface p.path = true := by
    unfold reactant2_is_surface
    rw [h2]
    simpa using hs
  have hc : reactant2_is_surface p.path = true ∧ p.km ≥ 0 ∧ p.path.product_head = [] ∧
      p.path.flags &&& PATHW_CLAMP_CONC ≠ 0 := ⟨hsurf, hkm, hprod, hflag⟩
  refine ⟨?_, ?_, ?_, ?_⟩
  · unfold finalize_reaction_pathway finalize_reaction_special
    simp only [if_pos hc]
    split_ifs <;> rfl
  · intro hpos
    unfold finalize_reaction_pathway finalize_reaction_special
    simp only [if_pos hc, if_pos hpos, h2]
  · intro h0
    have hn : ¬ p.km > 0 := by rw [h0]; exact lt_irrefl _
    unfold finalize_reaction_pathway finalize_reaction_special
    simp only [if_pos hc, if_neg hn]
  · intro habs
    unfold c_abs at habs
    by_cases h0 : p.path.orientation1 * p.path.orientation2 = 0
    · rw [if_pos h0, h0]
      rfl
    · rw [if_neg h0]
      have h1 : p.path.orientation1 ≠ 0 := left_ne_zero_of_mul h0
      have h2 : p.path.orientation2 ≠ 0 := right_ne_zero_of_mul h0
      by_cases he : p.path.orientation1 = p.path.orientation2
      · rw [if_pos he, he]
        rw [Int.sign_mul]
        rcases lt_or_gt_of_ne h2 with hlt | hgt
        · rw [Int.sign_eq_neg_one_of_neg hlt]; rfl
        · rw [Int.sign_eq_one_of_pos hgt]; rfl
      · rw [if_neg he]
        have hneg : p.path.orientation1 = - p.path.orientation2 := by
          split_ifs at habs <;> omega
        rw [hneg, Int.sign_mul, Int.sign_neg]
        rcases lt_or_gt_of_ne h2 with hlt | hgt
        · rw [Int.sign_eq_neg_one_of_neg hlt]; rfl
        · rw [Int.sign_eq_one_of_pos hgt]; rfl

/-- Witness for C28 (amended) on the clamp pathway with the orientations 1 and -1
and the rate 3. -/
theorem finalize_reaction_pathway_clamp_witness :
    (finalize_reaction_pathway 0
        (sample_pathway_km (sample_surface_pathway 1 (-1) PATHW_CLAMP_CONC) 3)
        (sample_assembly (sample_rxn_build 2 []))).2.km = GIGANTIC ∧
    (finalize_reaction_pathway 0
        (sample_pathway_km (sample_surface_pathway 1 (-1) PATHW_CLAMP_CONC) 3)
        (sample_assembly (sample_rxn_build 2 []))).1.state.clamp_list =
      [{ surf_class := some (sample_surface 9 "S"), mol := some (sample_molecule 1 "A")
         concentration := 3, orient := -1 }] := by
  have h := finalize_reaction_pathway_clamp 0
    (sample_pathway_km (sample_surface_pathway 1 (-1) PATHW_CLAMP_CONC) 3)
    (sample_assembly (sample_rxn_build 2 [])) (sample_surface 9 "S") rfl (by decide)
    (by norm_num [sample_pathway_km]) rfl (by decide)
  refine ⟨h.1, ?_⟩
  rw [h.2.1 (by norm_num [sample_pathway_km])]
  simp [sample_pathway_km, sample_surface_pathway, sample_assembly, sample_state]

/-! ## The geometry codes of `set_product_geometries` -/

/-- The test `(x + y) * (x - y) == 0 && x * y != 0` of `set_product_geometries`
holds exactly when `x` and `y` have the same absolute value and are not 0. -/
theorem orientation_class_test (x y : Int) :
    ((x + y) * (x - y) = 0 ∧ x * y ≠ 0) ↔ (c_abs x = c_abs y ∧ y ≠ 0) := by
  unfold c_abs
  constructor
  · rintro ⟨h1, h2⟩
    have hx : x ≠ 0 := left_ne_zero_of_mul h2
    have hy : y ≠ 0 := right_ne_zero_of_mul h2
    rcases mul_eq_zero.1 h1 with h | h <;> refine ⟨?_, hy⟩ <;> split_ifs <;> omega
  · rintro ⟨h1, h2⟩
    have hxy : x = y ∨ x = -y := by split_ifs at h1 <;> omega
    have hx : x ≠ 0 := by rcases hxy with h | h <;> omega
    refine ⟨?_, mul_ne_zero hx h2⟩
    rcases hxy with h | h
    · rw [h]; simp
    · rw [h]; simp

/-- The scan of the earlier products returns the code it was started with when
that code is not 0. -/
theorem set_product_geometries_scan_stop (n_reactants : Nat) (path : pathway) (prod : product)
    (earlier : List product) (geom k2 : Int) (r1 r2 r3 : Nat) (h : geom ≠ 0) :
    (set_product_geometries_scan n_reactants path prod earlier geom k2 r1 r2 r3).geom = geom := by
  cases earlier with
  | nil => rfl
  | cons p2 rest => simp [set_product_geometries_scan, h]

/-- The scan of the earlier products returns 0 exactly when none of them has the
class of the product. -/
theorem set_product_geometries_scan_zero (n_reactants : Nat) (path : pathway) (prod : product) :
    ∀ (earlier : List product) (k2 : Int) (r1 r2 r3 : Nat), 0 < k2 →
      ((set_product_geometries_scan n_reactants path prod earlier 0 k2 r1 r2 r3).geom = 0 ↔
        ∀ p2 ∈ earlier, ¬ (c_abs p2.orientation = c_abs prod.orientation ∧
          prod.orientation ≠ 0)) := by
  intro earlier
  induction earlier with
  | nil => intro k2 r1 r2 r3 _; simp [set_product_geometries_scan]
  | cons p2 rest ih =>
    intro k2 r1 r2 r3 hk
    have hn : (0 : Int) < (n_reactants : Int) + 1 := by omega
    have hn2 : (0 : Int) < (n_reactants : Int) + 2 := by omega
    have hn3 : (0 : Int) < (n_reactants : Int) + 3 := by omega
    by_cases hm : (p2.orientation + prod.orientation) * (p2.orientation - prod.orientation) = 0 ∧
        prod.orientation * p2.orientation ≠ 0
    · -- the product `p2` has the class: the code is not 0
      have hcls : c_abs p2.orientation = c_abs prod.orientation ∧ prod.orientation ≠ 0 := by
        have := (orientation_class_test p2.orientation prod.orientation).1
          ⟨hm.1, by rw [mul_comm]; exact hm.2⟩
        exact this
      have hg : (if p2.orientation = prod.orientation then (1 : Int) else -1) ≠ 0 := by
        split_ifs <;> decide
      have hright : ¬ ∀ q ∈ p2 :: rest, ¬ (c_abs q.orientation = c_abs prod.orientation ∧
          prod.orientation ≠ 0) := by
        intro hall
        exact hall p2 (List.mem_cons_self _ _) hcls
      have key : ∀ (x k : Int) (a b c : Nat), x ≠ 0 →
          (set_product_geometries_scan n_reactants path prod rest x k a b c).geom ≠ 0 := by
        intro x k a b c hx
        rw [set_product_geometries_scan_stop _ _ _ _ _ _ _ _ _ hx]
        exact hx
      simp only [set_product_geometries_scan, ne_eq, not_true_eq_false, if_false, if_pos hm]
      generalize (if p2.orientation = prod.orientation then (1 : Int) else -1) = g1 at hg ⊢
      refine ⟨fun h => ?_, fun h => absurd h hright⟩
      exfalso
      split_ifs at h <;>
        first
        | exact key _ _ _ _ _ hg h
        | exact key _ _ _ _ _ (mul_ne_zero hg (ne_of_gt hn)) h
        | exact key _ _ _ _ _ (mul_ne_zero hg (ne_of_gt hn2)) h
        | exact key _ _ _ _ _ (mul_ne_zero hg (ne_of_gt hn3)) h
        | exact key _ _ _ _ _ (mul_ne_zero hg (ne_of_gt hk)) h
    · have hcls : ¬ (c_abs p2.orientation = c_abs prod.orientation ∧ prod.orientation ≠ 0) := by
        intro hc
        apply hm
        have := (orientation_class_test p2.orientation prod.orientation).2 hc
        exact ⟨this.1, by rw [mul_comm]; exact this.2⟩
      have hiff : (∀ q ∈ p2 :: rest, ¬ (c_abs q.orientation = c_abs prod.orientation ∧
          prod.orientation ≠ 0)) ↔ (∀ q ∈ rest, ¬ (c_abs q.orientation = c_abs prod.orientation ∧
          prod.orientation ≠ 0)) := by
        constructor
        · intro h q hq
          exact h q (List.mem_cons_of_mem _ hq)
        · intro h q hq
          rcases List.mem_cons.1 hq with rfl | hq1
          · exact hcls
          · exact h q hq1
      rw [hiff]
      simp only [set_product_geometries_scan, ne_eq, not_true_eq_false, if_false, if_neg hm,
        zero_mul]
      split_ifs <;> first | exact ih k2 _ _ _ hk | exact ih (k2 + 1) _ _ _ (by omega)

/-- One round of the loop over the products: `set_product_geometries` stores one
code `g` in the cell chosen for a product of orientation `o` behind the products
`earlier`: 1 or -1 (1 when `o = O1`) when `|o| = |O1|` and `O1` is not 0;
else 2 or -2 when there is a second reactant, `|o| = |O2|` and `O2` is not 0;
else 3 or -3 when there is a third reactant, `|o| = |O3|` and `O3` is not 0; and
`g` is 0 exactly when `o` is 0 or `|o|` matches neither such a reactant nor an
earlier product of the pathway. -/
theorem set_product_geometries_product_code (n_reactants base : Nat) (path : pathway)
    (earlier : List product) (prod : product) (st : geometry_state) :
    ∃ g : Int,
      (set_product_geometries_product n_reactants base path earlier prod st).geometries =
        st.geometries.set (set_product_geometries_slot base path prod st).1 (some g) ∧
      ((c_abs prod.orientation = c_abs path.orientation1 ∧ path.orientation1 ≠ 0) →
        g = if prod.orientation = path.orientation1 then 1 else -1) ∧
      (¬ (c_abs prod.orientation = c_abs path.orientation1 ∧ path.orientation1 ≠ 0) →
        (n_reactants > 1 ∧ c_abs prod.orientation = c_abs path.orientation2 ∧
          path.orientation2 ≠ 0) →
        g = if prod.orientation = path.orientation2 then 2 else -2) ∧
      (¬ (c_abs prod.orientation = c_abs path.orientation1 ∧ path.orientation1 ≠ 0) →
        ¬ (n_reactants > 1 ∧ c_abs prod.orientation = c_abs path.orientation2 ∧
          path.orientation2 ≠ 0) →
        (n_reactants > 2 ∧ c_abs prod.orientation = c_abs path.orientation3 ∧
          path.orientation3 ≠ 0) →
        g = if prod.orientation = path.orientation3 then 3 else -3) ∧
      (g = 0 ↔
        (prod.orientation = 0 ∨
          (¬ (c_abs prod.orientation = c_abs path.orientation1 ∧ path.orientation1 ≠ 0) ∧
            ¬ (n_reactants > 1 ∧ c_abs prod.orientation = c_abs path.orientation2 ∧
              path.orientation2 ≠ 0) ∧
            ¬ (n_reactants > 2 ∧ c_abs prod.orientation = c_abs path.orientation3 ∧
              path.orientation3 ≠ 0) ∧
            ∀ p2 ∈ earlier, c_abs p2.orientation ≠ c_abs prod.orientation))) := by
  refine ⟨(set_product_geometries_code n_reactants path earlier prod
    (set_product_geometries_slot base path prod st).2).1, ?_, ?_⟩
  · have hg : (set_product_geometries_slot base path prod st).2.geometries = st.geometries := by
      unfold set_product_geometries_slot
      split_ifs <;> rfl
    unfold set_product_geometries_product
    simp only [hg]
  · have t1 := orientation_class_test prod.orientation path.orientation1
    have t2 := orientation_class_test prod.orientation path.orientation2
    have t3 := orientation_class_test prod.orientation path.orientation3
    have hscan := set_product_geometries_scan_zero n_reactants path prod earlier
      (2 * (n_reactants : Int) + 1)
      (set_product_geometries_slot base path prod st).2.recycled1
      (set_product_geometries_slot base path prod st).2.recycled2
      (set_product_geometries_slot base path prod st).2.recycled3 (by omega)
    have hzero : ∀ y : Int, prod.orientation = 0 →
        ¬ (c_abs prod.orientation = c_abs y ∧ y ≠ 0) := by
      intro y h0 hc
      rw [h0] at hc
      unfold c_abs at hc
      obtain ⟨hc1, hc2⟩ := hc
      split_ifs at hc1 <;> omega
    unfold set_product_geometries_code
    by_cases c1 : c_abs prod.orientation = c_abs path.orientation1 ∧ path.orientation1 ≠ 0
    · rw [if_pos (t1.2 c1)]
      refine ⟨fun _ => rfl, fun h => absurd c1 h, fun h => absurd c1 h, ?_⟩
      constructor
      · intro h
        exfalso
        simp only at h
        split_ifs at h
        all_goals omega
      · rintro (h | h)
        · exact absurd c1 (hzero _ h)
        · exact absurd c1 h.1
    · rw [if_neg (fun h => c1 (t1.1 h))]
      by_cases c2 : n_reactants > 1 ∧ c_abs prod.orientation = c_abs path.orientation2 ∧
          path.orientation2 ≠ 0
      · rw [if_pos ⟨c2.1, t2.2 c2.2⟩]
        refine ⟨fun h => absurd h c1, fun _ _ => rfl, fun _ h => absurd c2 h, ?_⟩
        constructor
        · intro h
          exfalso
          simp only at h
          split_ifs at h
          all_goals omega
        · rintro (h | h)
          · exact absurd c2.2 (hzero _ h)
          · exact absurd c2 h.2.1
      · rw [if_neg (fun h => c2 ⟨h.1, t2.1 h.2⟩)]
        by_cases c3 : n_reactants > 2 ∧ c_abs prod.orientation = c_abs path.orientation3 ∧
            path.orientation3 ≠ 0
        · rw [if_pos ⟨c3.1, t3.2 c3.2⟩]
          refine ⟨fun h => absurd h c1, fun _ h => absurd h c2, fun _ _ _ => rfl, ?_⟩
          constructor
          · intro h
            exfalso
            simp only at h
            split_ifs at h
            all_goals omega
          · rintro (h | h)
            · exact absurd c3.2 (hzero _ h)
            · exact absurd c3 h.2.2.1
        · rw [if_neg (fun h => c3 ⟨h.1, t3.1 h.2⟩)]
          refine ⟨fun h => absurd h c1, fun _ h => absurd h c2, fun _ _ h => absurd h c3, ?_⟩
          simp only
          rw [hscan]
          constructor
          · intro h
            by_cases h0 : prod.orientation = 0
            · exact Or.inl h0
            · exact Or.inr ⟨c1, c2, c3, fun p2 hp2 heq => h p2 hp2 ⟨heq, h0⟩⟩
          · rintro (h | h)
            · intro p2 _ hc
              exact hc.2 h
            · intro p2 hp2 hc
              exact h.2.2.2 p2 hp2 hc.1

/-! ## The reactant cells of a pathway in `set_product_geometries` -/

/-- The scan of the earlier products changes a flag only from 1 to 2: a flag is 0
after the scan exactly when it was 0 before. -/
theorem set_product_geometries_scan_flags (n_reactants : Nat) (path : pathway) (prod : product) :
    ∀ (earlier : List product) (geom k2 : Int) (r1 r2 r3 : Nat),
      ((set_product_geometries_scan n_reactants path prod earlier geom k2 r1 r2 r3).recycled1 = 0 ↔
          r1 = 0) ∧
      ((set_product_geometries_scan n_reactants path prod earlier geom k2 r1 r2 r3).recycled2 = 0 ↔
          r2 = 0) ∧
      ((set_product_geometries_scan n_reactants path prod earlier geom k2 r1 r2 r3).recycled3 = 0 ↔
          r3 = 0) := by
  intro earlier
  induction earlier with
  | nil => intro geom k2 r1 r2 r3; simp [set_product_geometries_scan]
  | cons p2 rest ih =>
    intro geom k2 r1 r2 r3
    simp only [set_product_geometries_scan]
    generalize (if (p2.orientation + prod.orientation) * (p2.orientation - prod.orientation) = 0 ∧
        prod.orientation * p2.orientation ≠ 0 then
      (if p2.orientation = prod.orientation then (1 : Int) else -1) else 0) = g1
    split_ifs with h0 h1 h2 h3 h4 h5 h6
    · simp
    · obtain ⟨a1, a2, a3⟩ := ih (g1 * ((n_reactants : Int) + 1)) k2 2 r2 r3
      exact ⟨by rw [a1]; omega, a2, a3⟩
    · exact ih _ _ _ _ _
    · obtain ⟨a1, a2, a3⟩ := ih (g1 * ((n_reactants : Int) + 2)) k2 r1 2 r3
      exact ⟨a1, by rw [a2]; omega, a3⟩
    · exact ih _ _ _ _ _
    · obtain ⟨a1, a2, a3⟩ := ih (g1 * ((n_reactants : Int) + 3)) k2 r1 r2 2
      exact ⟨a1, a2, by rw [a3]; omega⟩
    · exact ih _ _ _ _ _
    · exact ih _ _ _ _ _

/-- The computation of the geometry code leaves `k` and the arrays as they are
and keeps a flag that is 0 at 0 and one that is not 0 away from 0. -/
theorem set_product_geometries_code_frame (n_reactants : Nat) (path : pathway)
    (earlier : List product) (prod : product) (st : geometry_state) :
    (set_product_geometries_code n_reactants path earlier prod st).2.k = st.k ∧
    (set_product_geometries_code n_reactants path earlier prod st).2.players = st.players ∧
    ((set_product_geometries_code n_reactants path earlier prod st).2.recycled1 = 0 ↔
      st.recycled1 = 0) ∧
    ((set_product_geometries_code n_reactants path earlier prod st).2.recycled2 = 0 ↔
      st.recycled2 = 0) ∧
    ((set_product_geometries_code n_reactants path earlier prod st).2.recycled3 = 0 ↔
      st.recycled3 = 0) := by
  obtain ⟨a1, a2, a3⟩ := set_product_geometries_scan_flags n_reactants path prod earlier 0
    (2 * (n_reactants : Int) + 1) st.recycled1 st.recycled2 st.recycled3
  unfold set_product_geometries_code
  split_ifs <;> first | exact ⟨rfl, rfl, Iff.rfl, Iff.rfl, Iff.rfl⟩ | exact ⟨rfl, rfl, a1, a2, a3⟩

/-- What the body of the product loop does to `players`, `k` and the flags, in
terms of the chosen cell. -/
theorem set_product_geometries_product_frame (n_reactants base : Nat) (path : pathway)
    (earlier : List product) (prod : product) (st : geometry_state) :
    (set_product_geometries_product n_reactants base path earlier prod st).players =
      st.players.set (set_product_geometries_slot base path prod st).1 (some (some prod.prod)) ∧
    (set_product_geometries_product n_reactants base path earlier prod st).k =
      (set_product_geometries_slot base path prod st).2.k ∧
    ((set_product_geometries_product n_reactants base path earlier prod st).recycled1 = 0 ↔
      (set_product_geometries_slot base path prod st).2.recycled1 = 0) ∧
    ((set_product_geometries_product n_reactants base path earlier prod st).recycled2 = 0 ↔
      (set_product_geometries_slot base path prod st).2.recycled2 = 0) ∧
    ((set_product_geometries_product n_reactants base path earlier prod st).recycled3 = 0 ↔
      (set_product_geometries_slot base path prod st).2.recycled3 = 0) := by
  obtain ⟨a1, a2, a3, a4, a5⟩ := set_product_geometries_code_frame n_reactants path earlier prod
    (set_product_geometries_slot base path prod st).2
  have hp : (set_product_geometries_slot base path prod st).2.players = st.players := by
    unfold set_product_geometries_slot
    split_ifs <;> rfl
  unfold set_product_geometries_product
  simp only
  exact ⟨by rw [hp], a1, a3, a4, a5⟩

/-- The body of the product loop keeps the invariant `recycled_cells`. -/
theorem set_product_geometries_product_cells (n_reactants base : Nat) (path : pathway)
    (start : List (Option (Option species))) (earlier : List product) (prod : product)
    (st : geometry_state)
    (h2 : n_reactants ≤ 1 → path.reactant2 = none)
    (h3 : n_reactants ≤ 2 → path.reactant3 = none)
    (hn : 1 ≤ n_reactants)
    (hb : base + n_reactants ≤ start.length)
    (hinv : recycled_cells n_reactants base path start st) :
    recycled_cells n_reactants base path start
      (set_product_geometries_product n_reactants base path earlier prod st) := by
  unfold recycled_cells at hinv ⊢
  obtain ⟨i1, i2, i3, i4, i5, i6⟩ := hinv
  obtain ⟨f1, f2, f3, f4, f5⟩ :=
    set_product_geometries_product_frame n_reactants base path earlier prod st
  by_cases c1 : st.recycled1 = 0 ∧ some prod.prod = path.reactant1
  · have hslot : set_product_geometries_slot base path prod st =
        (base + 0, { st with recycled1 := 1 }) := by
      unfold set_product_geometries_slot
      rw [if_pos c1]
    rw [hslot] at f1 f2 f3 f4 f5
    simp only [Nat.add_zero, one_ne_zero, iff_false] at f1 f2 f3 f4 f5
    rw [f1, f2]
    simp only [f3, f4, f5, if_false]
    have hlt : base < st.players.length := by omega
    refine ⟨by simp [i1], i2, ?_, ?_, ?_, ?_⟩
    · intro j hj
      rw [List.getElem?_set_ne (by omega)]
      exact i3 j hj
    · rw [List.getElem?_set_self hlt, c1.2]
    · intro h
      rw [List.getElem?_set_ne (by omega)]
      exact i5 h
    · intro h
      rw [List.getElem?_set_ne (by omega)]
      exact i6 h
  by_cases c2 : st.recycled2 = 0 ∧ some prod.prod = path.reactant2
  · have hslot : set_product_geometries_slot base path prod st =
        (base + 1, { st with recycled2 := 1 }) := by
      unfold set_product_geometries_slot
      rw [if_neg c1, if_pos c2]
    rw [hslot] at f1 f2 f3 f4 f5
    simp only [one_ne_zero, iff_false] at f1 f2 f3 f4 f5
    rw [f1, f2]
    simp only [f3, f4, f5, if_false]
    have hn2 : 1 < n_reactants := by
      by_contra hc
      have := h2 (by omega)
      rw [this] at c2
      exact absurd c2.2 (by simp)
    have hlt : base + 1 < st.players.length := by omega
    refine ⟨by simp [i1], i2, ?_, ?_, ?_, ?_⟩
    · intro j hj
      rw [List.getElem?_set_ne (by omega)]
      exact i3 j hj
    · rw [List.getElem?_set_ne (by omega)]
      exact i4
    · intro _
      rw [List.getElem?_set_self hlt, c2.2]
    · intro h
      rw [List.getElem?_set_ne (by omega)]
      exact i6 h
  by_cases c3 : st.recycled3 = 0 ∧ some prod.prod = path.reactant3
  · have hslot : set_product_geometries_slot base path prod st =
        (base + 2, { st with recycled3 := 1 }) := by
      unfold set_product_geometries_slot
      rw [if_neg c1, if_neg c2, if_pos c3]
    rw [hslot] at f1 f2 f3 f4 f5
    simp only [one_ne_zero, iff_false] at f1 f2 f3 f4 f5
    rw [f1, f2]
    simp only [f3, f4, f5, if_false]
    have hn3 : 2 < n_reactants := by
      by_contra hc
      have := h3 (by omega)
      rw [this] at c3
      exact absurd c3.2 (by simp)
    have hlt : base + 2 < st.players.length := by omega
    refine ⟨by simp [i1], i2, ?_, ?_, ?_, ?_⟩
    · intro j hj
      rw [List.getElem?_set_ne (by omega)]
      exact i3 j hj
    · rw [List.getElem?_set_ne (by omega)]
      exact i4
    · intro h
      rw [List.getElem?_set_ne (by omega)]
      exact i5 h
    · intro _
      rw [List.getElem?_set_self hlt, c3.2]
  · have hslot : set_product_geometries_slot base path prod st =
        (st.k, { st with k := st.k + 1 }) := by
      unfold set_product_geometries_slot
      rw [if_neg c1, if_neg c2, if_neg c3]
    rw [hslot] at f1 f2 f3 f4 f5
    simp only at f1 f2 f3 f4 f5
    rw [f1, f2]
    simp only [f3, f4, f5]
    refine ⟨by simp [i1], by omega, ?_, ?_, ?_, ?_⟩
    · intro j hj
      rw [List.getElem?_set_ne (by omega)]
      exact i3 j (by omega)
    · rw [List.getElem?_set_ne (by omega)]
      exact i4
    · intro h
      rw [List.getElem?_set_ne (by omega)]
      exact i5 h
    · intro h
      rw [List.getElem?_set_ne (by omega)]
      exact i6 h

/-- The loop over the products keeps the invariant `recycled_cells`. -/
theorem set_product_geometries_products_cells (n_reactants base : Nat) (path : pathway)
    (start : List (Option (Option species)))
    (h2 : n_reactants ≤ 1 → path.reactant2 = none)
    (h3 : n_reactants ≤ 2 → path.reactant3 = none)
    (hn : 1 ≤ n_reactants)
    (hb : base + n_reactants ≤ start.length) :
    ∀ (prods earlier : List product) (st : geometry_state),
      recycled_cells n_reactants base path start st →
      recycled_cells n_reactants base path start
        (set_product_geometries_products n_reactants base path earlier prods st) := by
  intro prods
  induction prods with
  | nil => intro earlier st h; exact h
  | cons prod rest ih =>
    intro earlier st h
    simp only [set_product_geometries_products]
    exact ih _ _ (set_product_geometries_product_cells n_reactants base path start earlier prod
      st h2 h3 hn hb h)

/-- The loop over the products in `set_product_geometries` and the counting loop
of `finalize_reaction` agree: `k` advances by the count of `finalize_reaction`,
and every product is counted or sets a flag. -/
theorem set_product_geometries_products_count (n_reactants base : Nat) (path : pathway) :
    ∀ (prods earlier : List product) (st : geometry_state) (r1 r2 r3 c : Nat),
      (st.recycled1 = 0 ↔ r1 = 0) → (st.recycled2 = 0 ↔ r2 = 0) →
      (st.recycled3 = 0 ↔ r3 = 0) →
      (set_product_geometries_products n_reactants base path earlier prods st).k + c =
          st.k + finalize_reaction_count path prods r1 r2 r3 c ∧
      finalize_reaction_count path prods r1 r2 r3 c +
          recycled_count (set_product_geometries_products n_reactants base path earlier prods st) =
        c + recycled_count st + prods.length := by
  intro prods
  induction prods with
  | nil =>
    intro earlier st r1 r2 r3 c _ _ _
    simp [set_product_geometries_products, finalize_reaction_count]
  | cons prod rest ih =>
    intro earlier st r1 r2 r3 c e1 e2 e3
    obtain ⟨_, f2, f3, f4, f5⟩ :=
      set_product_geometries_product_frame n_reactants base path earlier prod st
    simp only [set_product_geometries_products, finalize_reaction_count, List.length_cons]
    by_cases c1 : st.recycled1 = 0 ∧ some prod.prod = path.reactant1
    · have hslot : set_product_geometries_slot base path prod st =
          (base + 0, { st with recycled1 := 1 }) := by
        unfold set_product_geometries_slot
        rw [if_pos c1]
      rw [hslot] at f2 f3 f4 f5
      simp only at f2 f3 f4 f5
      have d1 : r1 = 0 ∧ some prod.prod = path.reactant1 := ⟨e1.1 c1.1, c1.2⟩
      rw [if_pos d1]
      obtain ⟨a1, a2⟩ := ih (earlier ++ [prod])
        (set_product_geometries_product n_reactants base path earlier prod st) 1 r2 r3 c
        f3 (f4.trans e2) (f5.trans e3)
      refine ⟨by omega, ?_⟩
      have hc : recycled_count
          (set_product_geometries_product n_reactants base path earlier prod st) =
          recycled_count st + 1 := by
        unfold recycled_count
        simp only [f3, f4, f5, c1.1, one_ne_zero, if_true, if_false]
        omega
      omega
    by_cases c2 : st.recycled2 = 0 ∧ some prod.prod = path.reactant2
    · have hslot : set_product_geometries_slot base path prod st =
          (base + 1, { st with recycled2 := 1 }) := by
        unfold set_product_geometries_slot
        rw [if_neg c1, if_pos c2]
      rw [hslot] at f2 f3 f4 f5
      simp only at f2 f3 f4 f5
      have d1 : ¬ (r1 = 0 ∧ some prod.prod = path.reactant1) := fun h => c1 ⟨e1.2 h.1, h.2⟩
      have d2 : r2 = 0 ∧ some prod.prod = path.reactant2 := ⟨e2.1 c2.1, c2.2⟩
      rw [if_neg d1, if_pos d2]
      obtain ⟨a1, a2⟩ := ih (earlier ++ [prod])
        (set_product_geometries_product n_reactants base path earlier prod st) r1 1 r3 c
        (f3.trans e1) f4 (f5.trans e3)
      refine ⟨by omega, ?_⟩
      have hc : recycled_count
          (set_product_geometries_product n_reactants base path earlier prod st) =
          recycled_count st + 1 := by
        unfold recycled_count
        simp only [f3, f4, f5, c2.1, one_ne_zero, if_true, if_false]
        omega
      omega
    by_cases c3 : st.recycled3 = 0 ∧ some prod.prod = path.reactant3
    · have hslot : set_product_geometries_slot base path prod st =
          (base + 2, { st with recycled3 := 1 }) := by
        unfold set_product_geometries_slot
        rw [if_neg c1, if_neg c2, if_pos c3]
      rw [hslot] at f2 f3 f4 f5
      simp only at f2 f3 f4 f5
      have d1 : ¬ (r1 = 0 ∧ some prod.prod = path.reactant1) := fun h => c1 ⟨e1.2 h.1, h.2⟩
      have d2 : ¬ (r2 = 0 ∧ some prod.prod = path.reactant2) := fun h => c2 ⟨e2.2 h.1, h.2⟩
      have d3 : r3 = 0 ∧ some prod.prod = path.reactant3 := ⟨e3.1 c3.1, c3.2⟩
      rw [if_neg d1, if_neg d2, if_pos d3]
      obtain ⟨a1, a2⟩ := ih (earlier ++ [prod])
        (set_product_geometries_product n_reactants base path earlier prod st) r1 r2 1 c
        (f3.trans e1) (f4.trans e2) f5
      refine ⟨by omega, ?_⟩
      have hc : recycled_count
          (set_product_geometries_product n_reactants base path earlier prod st) =
          recycled_count st + 1 := by
        unfold recycled_count
        simp only [f3, f4, f5, c3.1, one_ne_zero, if_true, if_false]
      omega
    · have hslot : set_product_geometries_slot base path prod st =
          (st.k, { st with k := st.k + 1 }) := by
        unfold set_product_geometries_slot
        rw [if_neg c1, if_neg c2, if_neg c3]
      rw [hslot] at f2 f3 f4 f5
      simp only at f2 f3 f4 f5
      have d1 : ¬ (r1 = 0 ∧ some prod.prod = path.reactant1) := fun h => c1 ⟨e1.2 h.1, h.2⟩
      have d2 : ¬ (r2 = 0 ∧ some prod.prod = path.reactant2) := fun h => c2 ⟨e2.2 h.1, h.2⟩
      have d3 : ¬ (r3 = 0 ∧ some prod.prod = path.reactant3) := fun h => c3 ⟨e3.2 h.1, h.2⟩
      rw [if_neg d1, if_neg d2, if_neg d3]
      obtain ⟨a1, a2⟩ := ih (earlier ++ [prod])
        (set_product_geometries_product n_reactants base path earlier prod st) r1 r2 r3 (c + 1)
        (f3.trans e1) (f4.trans e2) (f5.trans e3)
      refine ⟨by omega, ?_⟩
      have hc : recycled_count
          (set_product_geometries_product n_reactants base path earlier prod st) =
          recycled_count st := by
        unfold recycled_count
        simp only [f3, f4, f5]
      omega

/-- After the loop over the products the flag of reactant 1 is unset exactly when
it was unset and no product is reactant 1; the same holds for a later reactant
that differs from the reactants before it. -/
theorem set_product_geometries_products_flags (n_reactants base : Nat) (path : pathway) :
    ∀ (prods earlier : List product) (st : geometry_state),
      ((set_product_geometries_products n_reactants base path earlier prods st).recycled1 = 0 ↔
        (st.recycled1 = 0 ∧ ∀ p ∈ prods, some p.prod ≠ path.reactant1)) ∧
      (path.reactant2 ≠ path.reactant1 →
        ((set_product_geometries_products n_reactants base path earlier prods st).recycled2 = 0 ↔
          (st.recycled2 = 0 ∧ ∀ p ∈ prods, some p.prod ≠ path.reactant2))) ∧
      (path.reactant3 ≠ path.reactant1 → path.reactant3 ≠ path.reactant2 →
        ((set_product_geometries_products n_reactants base path earlier prods st).recycled3 = 0 ↔
          (st.recycled3 = 0 ∧ ∀ p ∈ prods, some p.prod ≠ path.reactant3))) := by
  intro prods
  induction prods with
  | nil => intro earlier st; simp [set_product_geometries_products]
  | cons prod rest ih =>
    intro earlier st
    obtain ⟨_, _, f3, f4, f5⟩ :=
      set_product_geometries_product_frame n_reactants base path earlier prod st
    obtain ⟨a1, a2, a3⟩ := ih (earlier ++ [prod])
      (set_product_geometries_product n_reactants base path earlier prod st)
    simp only [set_product_geometries_products, List.forall_mem_cons]
    by_cases c1 : st.recycled1 = 0 ∧ some prod.prod = path.reactant1
    · have hslot : set_product_geometries_slot base path prod st =
          (base + 0, { st with recycled1 := 1 }) := by
        unfold set_product_geometries_slot
        rw [if_pos c1]
      rw [hslot] at f3 f4 f5
      simp only [one_ne_zero, iff_false] at f3 f4 f5
      refine ⟨?_, ?_, ?_⟩
      · rw [a1]
        constructor
        · intro h; exact absurd h.1 f3
        · intro h; exact absurd c1.2 h.2.1
      · intro d
        rw [a2 d, f4]
        have hq : some prod.prod ≠ path.reactant2 := by rw [c1.2]; exact fun h => d h.symm
        exact ⟨fun h => ⟨h.1, hq, h.2⟩, fun h => ⟨h.1, h.2.2⟩⟩
      · intro d d2
        rw [a3 d d2, f5]
        have hq : some prod.prod ≠ path.reactant3 := by rw [c1.2]; exact fun h => d h.symm
        exact ⟨fun h => ⟨h.1, hq, h.2⟩, fun h => ⟨h.1, h.2.2⟩⟩
    by_cases c2 : st.recycled2 = 0 ∧ some prod.prod = path.reactant2
    · have hslot : set_product_geometries_slot base path prod st =
          (base + 1, { st with recycled2 := 1 }) := by
        unfold set_product_geometries_slot
        rw [if_neg c1, if_pos c2]
      rw [hslot] at f3 f4 f5
      simp only [one_ne_zero, iff_false] at f3 f4 f5
      refine ⟨?_, ?_, ?_⟩
      · rw [a1, f3]
        exact ⟨fun h => ⟨h.1, fun e => c1 ⟨h.1, e⟩, h.2⟩, fun h => ⟨h.1, h.2.2⟩⟩
      · intro d
        rw [a2 d]
        constructor
        · intro h; exact absurd h.1 f4
        · intro h; exact absurd c2.2 h.2.1
      · intro d d2
        rw [a3 d d2, f5]
        have hq : some prod.prod ≠ path.reactant3 := by rw [c2.2]; exact fun h => d2 h.symm
        exact ⟨fun h => ⟨h.1, hq, h.2⟩, fun h => ⟨h.1, h.2.2⟩⟩
    by_cases c3 : st.recycled3 = 0 ∧ some prod.prod = path.reactant3
    · have hslot : set_product_geometries_slot base path prod st =
          (base + 2, { st with recycled3 := 1 }) := by
        unfold set_product_geometries_slot
        rw [if_neg c1, if_neg c2, if_pos c3]
      rw [hslot] at f3 f4 f5
      simp only [one_ne_zero, iff_false] at f3 f4 f5
      refine ⟨?_, ?_, ?_⟩
      · rw [a1, f3]
        exact ⟨fun h => ⟨h.1, fun e => c1 ⟨h.1, e⟩, h.2⟩, fun h => ⟨h.1, h.2.2⟩⟩
      · intro d
        rw [a2 d, f4]
        exact ⟨fun h => ⟨h.1, fun e => c2 ⟨h.1, e⟩, h.2⟩, fun h => ⟨h.1, h.2.2⟩⟩
      · intro d d2
        rw [a3 d d2]
        constructor
        · intro h; exact absurd h.1 f5
        · intro h; exact absurd c3.2 h.2.1
    · have hslot : set_product_geometries_slot base path prod st =
          (st.k, { st with k := st.k + 1 }) := by
        unfold set_product_geometries_slot
        rw [if_neg c1, if_neg c2, if_neg c3]
      rw [hslot] at f3 f4 f5
      simp only at f3 f4 f5
      refine ⟨?_, ?_, ?_⟩
      · rw [a1, f3]
        exact ⟨fun h => ⟨h.1, fun e => c1 ⟨h.1, e⟩, h.2⟩, fun h => ⟨h.1, h.2.2⟩⟩
      · intro d
        rw [a2 d, f4]
        exact ⟨fun h => ⟨h.1, fun e => c2 ⟨h.1, e⟩, h.2⟩, fun h => ⟨h.1, h.2.2⟩⟩
      · intro d d2
        rw [a3 d d2, f5]
        exact ⟨fun h => ⟨h.1, fun e => c3 ⟨h.1, e⟩, h.2⟩, fun h => ⟨h.1, h.2.2⟩⟩

/-- A flag whose reactant is `NULL` stays unset in the loop over the products. -/
theorem set_product_geometries_products_flag_none (n_reactants base : Nat) (path : pathway) :
    ∀ (prods earlier : List product) (st : geometry_state),
      (path.reactant2 = none →
        ((set_product_geometries_products n_reactants base path earlier prods st).recycled2 = 0 ↔
          st.recycled2 = 0)) ∧
      (path.reactant3 = none →
        ((set_product_geometries_products n_reactants base path earlier prods st).recycled3 = 0 ↔
          st.recycled3 = 0)) := by
  intro prods
  induction prods with
  | nil => intro earlier st; simp [set_product_geometries_products]
  | cons prod rest ih =>
    intro earlier st
    obtain ⟨_, _, f3, f4, f5⟩ :=
      set_product_geometries_product_frame n_reactants base path earlier prod st
    obtain ⟨a2, a3⟩ := ih (earlier ++ [prod])
      (set_product_geometries_product n_reactants base path earlier prod st)
    simp only [set_product_geometries_products]
    have hs2 : path.reactant2 = none →
        ((set_product_geometries_slot base path prod st).2.recycled2 = 0 ↔ st.recycled2 = 0) := by
      intro hnone
      unfold set_product_geometries_slot
      rw [hnone]
      split_ifs with c1 c2 c3
      · exact Iff.rfl
      · exact absurd c2.2 (by simp)
      · exact Iff.rfl
      · exact Iff.rfl
    have hs3 : path.reactant3 = none →
        ((set_product_geometries_slot base path prod st).2.recycled3 = 0 ↔ st.recycled3 = 0) := by
      intro hnone
      unfold set_product_geometries_slot
      rw [hnone]
      split_ifs with c1 c2 c3
      · exact Iff.rfl
      · exact Iff.rfl
      · exact absurd c3.2 (by simp)
      · exact Iff.rfl
    exact ⟨fun h => (a2 h).trans (f4.trans (hs2 h)), fun h => (a3 h).trans (f5.trans (hs3 h))⟩

/-- What one round of the loop of `set_product_geometries` over the pathways
leaves in `players`: the length is kept; `k` ends behind the new products, whose
number is the count of `finalize_reaction`; the cells before `base` and from `k`
on are untouched; and the cell of a reactant holds the reactant when its flag is
set and `NULL` otherwise. -/
theorem set_product_geometries_pathway_players (n_reactants base : Nat) (path : pathway)
    (max_num : Nat) (start : List (Option (Option species))) (geometries : List (Option Int))
    (h2 : n_reactants ≤ 1 → path.reactant2 = none)
    (h3 : n_reactants ≤ 2 → path.reactant3 = none)
    (hn : 1 ≤ n_reactants)
    (hb : base + n_reactants ≤ start.length) :
    (set_product_geometries_pathway n_reactants base path max_num start geometries).players.length =
      start.length ∧
    (set_product_geometries_pathway n_reactants base path max_num start geometries).k =
      base + n_reactants + finalize_reaction_count path path.product_head 0 0 0 0 ∧
    (∀ j : Nat, j < base ∨
        (set_product_geometries_pathway n_reactants base path max_num start geometries).k ≤ j →
      (set_product_geometries_pathway n_reactants base path max_num start geometries).players[j]? =
        start[j]?) ∧
    ((set_product_geometries_pathway n_reactants base path max_num start geometries).players[base]? =
      some (some
        (if (set_product_geometries_pathway n_reactants base path max_num start
            geometries).recycled1 = 0 then none else path.reactant1))) ∧
    (1 < n_reactants →
      (set_product_geometries_pathway n_reactants base path max_num start
          geometries).players[base + 1]? =
        some (some
          (if (set_product_geometries_pathway n_reactants base path max_num start
              geometries).recycled2 = 0 then none else path.reactant2))) ∧
    (2 < n_reactants →
      (set_product_geometries_pathway n_reactants base path max_num start
          geometries).players[base + 2]? =
        some (some
          (if (set_product_geometries_pathway n_reactants base path max_num start
              geometries).recycled3 = 0 then none else path.reactant3))) ∧
    finalize_reaction_count path path.product_head 0 0 0 0 +
        recycled_count
          (set_product_geometries_pathway n_reactants base path max_num start geometries) =
      path.product_head.length := by
  obtain ⟨st0, hst0⟩ : ∃ st0 : geometry_state, st0 =
      { recycled1 := 0, recycled2 := 0, recycled3 := 0
        k := base + n_reactants
        num_surf_products_per_pathway := 0
        max_num_surf_products := max_num
        players := start, geometries := geometries } := ⟨_, rfl⟩
  have hinv0 : recycled_cells n_reactants base path start st0 := by
    unfold recycled_cells
    rw [hst0]
    simp
  have hinv := set_product_geometries_products_cells n_reactants base path start h2 h3 hn hb
    path.product_head [] st0 hinv0
  obtain ⟨c1, c2⟩ := set_product_geometries_products_count n_reactants base path
    path.product_head [] st0 0 0 0 0 (by rw [hst0]) (by rw [hst0]) (by rw [hst0])
  have hrc0 : recycled_count st0 = 0 := by rw [hst0]; rfl
  have hk0 : st0.k = base + n_reactants := by rw [hst0]
  obtain ⟨st, hst⟩ : ∃ st : geometry_state, st =
      set_product_geometries_products n_reactants base path [] path.product_head st0 := ⟨_, rfl⟩
  rw [← hst] at hinv c1 c2
  unfold recycled_cells at hinv
  obtain ⟨i1, i2, i3, i4, i5, i6⟩ := hinv
  have hl0 : base < st.players.length := by omega
  obtain ⟨p1, hp1⟩ : ∃ p1 : List (Option (Option species)), p1 =
      if st.recycled1 = 0 then st.players.set base (some none) else st.players := ⟨_, rfl⟩
  obtain ⟨p2, hp2⟩ : ∃ p2 : List (Option (Option species)), p2 =
      if st.recycled2 = 0 ∧ n_reactants > 1 then p1.set (base + 1) (some none) else p1 :=
    ⟨_, rfl⟩
  obtain ⟨p3, hp3⟩ : ∃ p3 : List (Option (Option species)), p3 =
      if st.recycled3 = 0 ∧ n_reactants > 2 then p2.set (base + 2) (some none) else p2 :=
    ⟨_, rfl⟩
  have hp : set_product_geometries_pathway n_reactants base path max_num start geometries =
      { st with players := p3 } := by
    rw [hp3, hp2, hp1, hst, hst0]
    rfl
  have l1 : p1.length = st.players.length := by
    rw [hp1]; split_ifs <;> simp
  have l2 : p2.length = st.players.length := by
    rw [hp2]; split_ifs <;> simp [l1]
  have l3 : p3.length = st.players.length := by
    rw [hp3]; split_ifs <;> simp [l2]
  have g1 : ∀ j : Nat, j ≠ base → p1[j]? = st.players[j]? := by
    intro j hj
    rw [hp1]
    split_ifs
    · rw [List.getElem?_set_ne (fun h => hj h.symm)]
    · rfl
  have g2 : ∀ j : Nat, j ≠ base + 1 ∨ n_reactants ≤ 1 → p2[j]? = p1[j]? := by
    intro j hj
    rw [hp2]
    split_ifs with hc
    · rw [List.getElem?_set_ne (by omega)]
    · rfl
  have g3 : ∀ j : Nat, j ≠ base + 2 ∨ n_reactants ≤ 2 → p3[j]? = p2[j]? := by
    intro j hj
    rw [hp3]
    split_ifs with hc
    · rw [List.getElem?_set_ne (by omega)]
    · rfl
  rw [hp]
  have hrc : recycled_count { st with players := p3 } = recycled_count st := rfl
  rw [hrc]
  simp only
  refine ⟨by rw [l3, i1], by omega, ?_, ?_, ?_, ?_, by omega⟩
  · intro j hj
    have hj1 : j ≠ base := by omega
    have hj2 : j ≠ base + 1 ∨ n_reactants ≤ 1 := by omega
    have hj3 : j ≠ base + 2 ∨ n_reactants ≤ 2 := by omega
    rw [g3 j hj3, g2 j hj2, g1 j hj1]
    exact i3 j hj
  · rw [g3 base (by omega), g2 base (by omega), hp1]
    by_cases f1 : st.recycled1 = 0
    · rw [if_pos f1, if_pos f1, List.getElem?_set_self hl0]
    · rw [if_neg f1, if_neg f1, i4, if_neg f1]
  · intro h
    have i5 := i5 h
    rw [g3 (base + 1) (by omega), hp2]
    by_cases f2 : st.recycled2 = 0
    · rw [if_pos ⟨f2, h⟩, if_pos f2, List.getElem?_set_self (by rw [l1]; omega)]
    · rw [if_neg (fun hh => f2 hh.1), if_neg f2, g1 (base + 1) (by omega), i5, if_neg f2]
  · intro h
    have i6 := i6 h
    rw [hp3]
    by_cases f3 : st.recycled3 = 0
    · rw [if_pos ⟨f3, h⟩, if_pos f3, List.getElem?_set_self (by rw [l2]; omega)]
    · rw [if_neg (fun hh => f3 hh.1), if_neg f3, g2 (base + 2) (by omega),
        g1 (base + 2) (by omega), i6, if_neg f3]

/-- One round of the loop of `set_product_geometries` over the pathways leaves
the block of the pathway as `recycled_block` describes. -/
theorem set_product_geometries_pathway_block (n_reactants base : Nat) (path : pathway)
    (max_num : Nat) (start : List (Option (Option species))) (geometries : List (Option Int))
    (h2 : n_reactants ≤ 1 → path.reactant2 = none)
    (h3 : n_reactants ≤ 2 → path.reactant3 = none)
    (hn : 1 ≤ n_reactants)
    (hb : base + n_reactants ≤ start.length) :
    recycled_block n_reactants base path
      (set_product_geometries_pathway n_reactants base path max_num start geometries).players
      (set_product_geometries_pathway n_reactants base path max_num start geometries) := by
  obtain ⟨_, _, _, a4, a5, a6, a7⟩ := set_product_geometries_pathway_players n_reactants base
    path max_num start geometries h2 h3 hn hb
  obtain ⟨b1, b2, b3⟩ := set_product_geometries_products_flags n_reactants base path
    path.product_head []
    { recycled1 := 0, recycled2 := 0, recycled3 := 0
      k := base + n_reactants
      num_surf_products_per_pathway := 0
      max_num_surf_products := max_num
      players := start, geometries := geometries }
  obtain ⟨c2, c3⟩ := set_product_geometries_products_flag_none n_reactants base path
    path.product_head []
    { recycled1 := 0, recycled2 := 0, recycled3 := 0
      k := base + n_reactants
      num_surf_products_per_pathway := 0
      max_num_surf_products := max_num
      players := start, geometries := geometries }
  simp only [true_and] at b1 b2 b3
  simp only [iff_true] at c2 c3
  exact ⟨a4, a5, a6, a7, b1, b2, b3, c2, c3⟩

/-- The loop of `set_product_geometries` over the pathways, when the cells of the
pathways lie one block behind the other inside `players`: the length is kept, the
cells before the first block and behind the last one are untouched, and every
block is left as `recycled_block` describes. -/
theorem set_product_geometries_loop_players (n_reactants : Nat) (product_idx : List Nat)
    (hn : 1 ≤ n_reactants) :
    ∀ (paths : List pathway_km) (m max_num : Nat) (start : List (Option (Option species)))
      (geometries : List (Option Int)),
      (∀ p ∈ paths, (n_reactants ≤ 1 → p.path.reactant2 = none) ∧
        (n_reactants ≤ 2 → p.path.reactant3 = none)) →
      (∀ k : Nat, k < paths.length →
        product_idx.getD (m + k + 1) 0 =
          product_idx.getD (m + k) 0 + n_reactants +
            (paths.map (fun p => new_products p.path)).getD k 0) →
      product_idx.getD (m + paths.length) 0 ≤ start.length →
      (set_product_geometries_loop n_reactants product_idx m paths max_num start
          geometries).2.1.length = start.length ∧
      (∀ j : Nat, j < product_idx.getD m 0 ∨ product_idx.getD (m + paths.length) 0 ≤ j →
        (set_product_geometries_loop n_reactants product_idx m paths max_num start
          geometries).2.1[j]? = start[j]?) ∧
      (∀ k : Nat, k < paths.length → ∀ p : pathway_km, paths[k]? = some p →
        ∃ st : geometry_state,
          recycled_block n_reactants (product_idx.getD (m + k) 0) p.path
            (set_product_geometries_loop n_reactants product_idx m paths max_num start
              geometries).2.1 st) := by
  intro paths
  induction paths with
  | nil =>
    intro m max_num start geometries _ _ _
    simp [set_product_geometries_loop]
  | cons p rest ih =>
    intro m max_num start geometries hnone hidx hbound
    -- the offsets do not decrease
    have hmono : ∀ k : Nat, k ≤ rest.length →
        product_idx.getD (m + 1) 0 ≤ product_idx.getD (m + 1 + k) 0 := by
      intro k
      induction k with
      | zero => intro _; exact le_refl _
      | succ k ihk =>
        intro hk
        have h1 := ihk (by omega)
        have h2 := hidx (k + 1) (by simp; omega)
        have e1 : m + (k + 1) + 1 = m + 1 + (k + 1) := by omega
        have e2 : m + (k + 1) = m + 1 + k := by omega
        rw [e1, e2] at h2
        omega
    have h0 := hidx 0 (by simp)
    simp only [Nat.add_zero, List.map_cons, List.getD_cons_zero] at h0
    have hlen : m + (p :: rest).length = m + 1 + rest.length := by simp; omega
    rw [hlen] at hbound
    have hb1 : product_idx.getD (m + 1) 0 ≤ start.length :=
      le_trans (hmono rest.length (le_refl _)) hbound
    obtain ⟨hp2, hp3⟩ := hnone p (List.mem_cons_self _ _)
    have hb : product_idx.getD m 0 + n_reactants ≤ start.length := by omega
    obtain ⟨a1, a2, a3, _⟩ := set_product_geometries_pathway_players n_reactants
      (product_idx.getD m 0) p.path max_num start geometries hp2 hp3 hn hb
    have ablock := set_product_geometries_pathway_block n_reactants
      (product_idx.getD m 0) p.path max_num start geometries hp2 hp3 hn hb
    have hk : (set_product_geometries_pathway n_reactants (product_idx.getD m 0) p.path max_num
        start geometries).k = product_idx.getD (m + 1) 0 := by
      rw [a2, h0]
      rfl
    obtain ⟨st, hst⟩ : ∃ st : geometry_state, st =
        set_product_geometries_pathway n_reactants (product_idx.getD m 0) p.path max_num
          start geometries := ⟨_, rfl⟩
    rw [← hst] at a1 a2 a3 ablock hk
    obtain ⟨b1, b2, b3⟩ := ih (m + 1) st.max_num_surf_products st.players st.geometries
      (fun q hq => hnone q (List.mem_cons_of_mem _ hq))
      (by
        intro k hk1
        have := hidx (k + 1) (by simp; omega)
        simp only [List.map_cons, List.getD_cons_succ] at this
        have e1 : m + (k + 1) + 1 = m + 1 + k + 1 := by omega
        have e2 : m + (k + 1) = m + 1 + k := by omega
        rw [e1, e2] at this
        exact this)
      (by rw [a1]; exact hbound)
    have hloop : set_product_geometries_loop n_reactants product_idx m (p :: rest) max_num start
        geometries = set_product_geometries_loop n_reactants product_idx (m + 1) rest
          st.max_num_surf_products st.players st.geometries := by
      rw [hst]
      rfl
    rw [hloop, hlen]
    refine ⟨by rw [b1, a1], ?_, ?_⟩
    · intro j hj
      have hle : product_idx.getD m 0 ≤ product_idx.getD (m + 1) 0 := by omega
      rw [b2 j (by omega)]
      exact a3 j (by
        rw [hk]
        have := hmono rest.length (le_refl _)
        omega)
    · intro k hk1 q hq
      cases k with
      | zero =>
        simp only [List.getElem?_cons_zero, Option.some.injEq] at hq
        subst hq
        refine ⟨st, ?_⟩
        rw [Nat.add_zero]
        unfold recycled_block at ablock ⊢
        obtain ⟨c1, c2, c3, c4⟩ := ablock
        have e0 : ∀ i : Nat, i < n_reactants →
            (set_product_geometries_loop n_reactants product_idx (m + 1) rest
              st.max_num_surf_products st.players st.geometries).2.1[product_idx.getD m 0 + i]? =
            st.players[product_idx.getD m 0 + i]? := by
          intro i hi
          exact b2 _ (Or.inl (by omega))
        refine ⟨?_, ?_, ?_, c4⟩
        · rw [b2 (product_idx.getD m 0) (Or.inl (by omega))]
          exact c1
        · intro h
          rw [e0 1 h]
          exact c2 h
        · intro h
          rw [e0 2 h]
          exact c3 h
      | succ k =>
        simp only [List.getElem?_cons_succ] at hq
        have e1 : m + (k + 1) = m + 1 + k := by omega
        rw [e1]
        exact b3 k (by simp at hk1; omega) q hq

/-! ## The layout of `players` in `finalize_reaction` -/

/-- Reading a cell of an array after a write. -/
theorem getD_set_nat (l : List Nat) (i j a : Nat) :
    (l.set i a).getD j 0 = if i = j ∧ i < l.length then a else l.getD j 0 := by
  simp only [List.getD_eq_getElem?_getD, List.getElem?_set]
  by_cases h : i = j
  · subst h
    by_cases h2 : i < l.length
    · simp [h2]
    · simp [h2, List.getElem?_eq_none (not_lt.1 h2)]
  · simp [h]

/-- The loop of `finalize_reaction` that turns counts into offsets: the cells
outside the rounds are kept, the first cell gets `num_players`, every later cell
is the one before plus the count of that pathway and the number of reactants, and
so is the final `num_players`. -/
theorem finalize_reaction_index_spec (n_reactants : Nat) :
    ∀ (rounds n0 : Nat) (idx : List Nat) (num : Nat), n0 + rounds ≤ idx.length →
      (finalize_reaction_index n_reactants rounds n0 idx num).1.length = idx.length ∧
      (∀ j : Nat, j < n0 ∨ n0 + rounds ≤ j →
        (finalize_reaction_index n_reactants rounds n0 idx num).1.getD j 0 = idx.getD j 0) ∧
      (0 < rounds → (finalize_reaction_index n_reactants rounds n0 idx num).1.getD n0 0 = num) ∧
      (∀ k : Nat, k + 1 < rounds →
        (finalize_reaction_index n_reactants rounds n0 idx num).1.getD (n0 + k + 1) 0 =
          (finalize_reaction_index n_reactants rounds n0 idx num).1.getD (n0 + k) 0 +
            (idx.getD (n0 + k) 0 + n_reactants)) ∧
      (finalize_reaction_index n_reactants rounds n0 idx num).2 =
        if rounds = 0 then num
        else (finalize_reaction_index n_reactants rounds n0 idx num).1.getD (n0 + rounds - 1) 0 +
          (idx.getD (n0 + rounds - 1) 0 + n_reactants) := by
  intro rounds
  induction rounds with
  | zero =>
    intro n0 idx num _
    simp [finalize_reaction_index]
  | succ rounds ih =>
    intro n0 idx num hlen
    obtain ⟨a, b, c, d, e⟩ := ih (n0 + 1) (idx.set n0 num)
      (num + (idx.getD n0 0 + n_reactants)) (by rw [List.length_set]; omega)
    simp only [finalize_reaction_index]
    rw [List.length_set] at a
    have hset : ∀ j : Nat, j ≠ n0 → (idx.set n0 num).getD j 0 = idx.getD j 0 := by
      intro j hj
      rw [getD_set_nat, if_neg (fun h => hj h.1.symm)]
    have h3 : (finalize_reaction_index n_reactants rounds (n0 + 1) (idx.set n0 num)
        (num + (idx.getD n0 0 + n_reactants))).1.getD n0 0 = num := by
      rw [b n0 (Or.inl (by omega)), getD_set_nat, if_pos ⟨rfl, by omega⟩]
    refine ⟨a, ?_, fun _ => h3, ?_, ?_⟩
    · intro j hj
      rw [b j (by omega), hset j (by omega)]
    · intro k hk
      cases k with
      | zero =>
        simp only [Nat.add_zero]
        rw [h3, c (by omega)]
      | succ k =>
        have := d k (by omega)
        have e1 : n0 + 1 + k + 1 = n0 + (k + 1) + 1 := by omega
        have e2 : n0 + 1 + k = n0 + (k + 1) := by omega
        rw [e1, e2, hset _ (by omega)] at this
        exact this
    · rw [if_neg (by omega)]
      by_cases hr : rounds = 0
      · subst hr
        rw [e]
        simp only [if_true, finalize_reaction_index, Nat.add_zero, Nat.add_sub_cancel]
        rw [getD_set_nat, if_pos ⟨rfl, by omega⟩]
      · rw [e, if_neg hr]
        have e1 : n0 + 1 + rounds - 1 = n0 + (rounds + 1) - 1 := by omega
        rw [e1, hset _ (by omega)]

/-- Recording `CAN_REGION_BORDER` leaves the reaction as it is. -/
theorem set_can_region_border_rx (path : pathway) (a : assembly) :
    (set_can_region_border path a).rx = a.rx := by
  unfold set_can_region_border
  cases path.reactant1 <;> rfl

/-- The chain of tests at the start of the first loop of `finalize_reaction`
changes no field of the reaction but `n_pathways`, and not that one either for a
pathway without the flags `PATHW_TRANSP`, `PATHW_REFLEC` and `PATHW_ABSORP`. -/
theorem finalize_reaction_special_frame (p : pathway_km) (a : assembly) :
    (finalize_reaction_special p a).1.rx.n_reactants = a.rx.n_reactants ∧
    (finalize_reaction_special p a).1.rx.product_idx = a.rx.product_idx ∧
    ((p.path.flags &&& PATHW_TRANSP = 0 ∧ p.path.flags &&& PATHW_REFLEC = 0 ∧
        p.path.flags &&& PATHW_ABSORP = 0) →
      (finalize_reaction_special p a).1.rx.n_pathways = a.rx.n_pathways) := by
  unfold finalize_reaction_special
  refine ⟨?_, ?_, ?_⟩
  · split_ifs <;> simp only [set_can_region_border_rx]
  · split_ifs <;> simp only [set_can_region_border_rx]
  · rintro ⟨h1, h2, h3⟩
    split_ifs <;> first | rfl | (exfalso; simp_all)

/-- The body of the first loop of `finalize_reaction` stores the count of the new
products of the pathway in `product_idx[n_pathway]` and keeps the pathway but for
its `km`. -/
theorem finalize_reaction_pathway_frame (n_pathway : Nat) (p : pathway_km) (a : assembly) :
    (finalize_reaction_pathway n_pathway p a).2.path = p.path ∧
    (finalize_reaction_pathway n_pathway p a).1.rx.n_reactants = a.rx.n_reactants ∧
    (finalize_reaction_pathway n_pathway p a).1.rx.product_idx =
      a.rx.product_idx.set n_pathway (new_products p.path) ∧
    ((p.path.flags &&& PATHW_TRANSP = 0 ∧ p.path.flags &&& PATHW_REFLEC = 0 ∧
        p.path.flags &&& PATHW_ABSORP = 0) →
      (finalize_reaction_pathway n_pathway p a).1.rx.n_pathways = a.rx.n_pathways) := by
  obtain ⟨a1, a2, a3⟩ := finalize_reaction_special_frame p a
  unfold finalize_reaction_pathway new_products
  simp only
  exact ⟨trivial, a1, by rw [a2], a3⟩

/-- The first loop of `finalize_reaction` over the pathways from index `n0` on:
the pathways are kept but for their `km`; the cells of `product_idx` at the
indices of the pathways get the counts of their new products and the other cells
are kept; and `n_pathways` is kept when no pathway has one of the flags
`PATHW_TRANSP`, `PATHW_REFLEC` and `PATHW_ABSORP`. -/
theorem finalize_reaction_pathways_frame :
    ∀ (paths : List pathway_km) (n0 : Nat) (a : assembly),
      (finalize_reaction_pathways n0 paths a).2.map (fun p => p.path) =
        paths.map (fun p => p.path) ∧
      (finalize_reaction_pathways n0 paths a).1.rx.n_reactants = a.rx.n_reactants ∧
      (finalize_reaction_pathways n0 paths a).1.rx.product_idx.length =
        a.rx.product_idx.length ∧
      (∀ j : Nat, j < n0 ∨ n0 + paths.length ≤ j →
        (finalize_reaction_pathways n0 paths a).1.rx.product_idx.getD j 0 =
          a.rx.product_idx.getD j 0) ∧
      (∀ k : Nat, k < paths.length → n0 + k < a.rx.product_idx.length →
        (finalize_reaction_pathways n0 paths a).1.rx.product_idx.getD (n0 + k) 0 =
          (paths.map (fun p => new_products p.path)).getD k 0) ∧
      ((∀ p ∈ paths, p.path.flags &&& PATHW_TRANSP = 0 ∧ p.path.flags &&& PATHW_REFLEC = 0 ∧
          p.path.flags &&& PATHW_ABSORP = 0) →
        (finalize_reaction_pathways n0 paths a).1.rx.n_pathways = a.rx.n_pathways) := by
  intro paths
  induction paths with
  | nil =>
    intro n0 a
    simp [finalize_reaction_pathways]
  | cons p rest ih =>
    intro n0 a
    obtain ⟨f1, f2, f3, f4⟩ := finalize_reaction_pathway_frame n0 p a
    obtain ⟨b1, b2, b3, b4, b5, b6⟩ := ih (n0 + 1) (finalize_reaction_pathway n0 p a).1
    simp only [finalize_reaction_pathways, List.map_cons, List.length_cons]
    rw [f3, List.length_set] at b3
    refine ⟨by rw [b1, f1], by rw [b2, f2], b3, ?_, ?_, ?_⟩
    · intro j hj
      rw [b4 j (by omega), f3, getD_set_nat, if_neg (by omega)]
    · intro k hk hlen
      cases k with
      | zero =>
        show (finalize_reaction_pathways (n0 + 1) rest
          (finalize_reaction_pathway n0 p a).1).1.rx.product_idx.getD n0 0 = _
        rw [b4 n0 (Or.inl (by omega)), f3, getD_set_nat, if_pos ⟨rfl, by omega⟩]
        rfl
      | succ k =>
        have := b5 k (by omega) (by rw [f3, List.length_set]; omega)
        have e1 : n0 + 1 + k = n0 + (k + 1) := by omega
        rw [e1] at this
        rw [this]
        rfl
    · intro h
      rw [b6 (fun q hq => h q (List.mem_cons_of_mem _ hq)), f4 (h p (List.mem_cons_self _ _))]

/-- The function `load_rate_file` changes no field of the reaction but `prob_t`. -/
theorem load_rate_file_frame (state : mcell_state) (rx : rxn_build)
    (file : Option (List (Option (ℚ × ℚ)))) (path : Int) :
    { (load_rate_file state rx file path).2 with prob_t := [] } = { rx with prob_t := [] } := by
  unfold load_rate_file
  cases file <;> rfl

/-- The loop that loads the rate files changes no field of the reaction but
`prob_t`. -/
theorem finalize_reaction_load_frame (state : mcell_state)
    (files : String → Option (List (Option (ℚ × ℚ)))) :
    ∀ (paths : List pathway_km) (n0 : Nat) (rx rx1 : rxn_build),
      finalize_reaction_load state files n0 paths rx = some rx1 →
      { rx1 with prob_t := [] } = { rx with prob_t := [] } := by
  intro paths
  induction paths with
  | nil =>
    intro n0 rx rx1 h
    simp only [finalize_reaction_load, Option.some.injEq] at h
    rw [h]
  | cons p rest ih =>
    intro n0 rx rx1 h
    simp only [finalize_reaction_load] at h
    cases hf : p.km_filename with
    | none =>
      rw [hf] at h
      exact ih _ _ _ h
    | some fname =>
      rw [hf] at h
      simp only at h
      split_ifs at h with hc
      rw [ih _ _ _ h]
      exact load_rate_file_frame state rx (files fname) n0

/-- The step of `finalize_reaction` that loads the time-varying rates changes no
field of the reaction but `prob_t` and `cum_probs`. -/
theorem finalize_reaction_rates_frame (files : String → Option (List (Option (ℚ × ℚ))))
    (ae_list_sort : List t_func → List t_func) (a a1 : assembly)
    (h : finalize_reaction_rates files ae_list_sort a = some a1) :
    a1.rx.n_reactants = a.rx.n_reactants ∧ a1.rx.n_pathways = a.rx.n_pathways ∧
    a1.rx.pathway_head = a.rx.pathway_head ∧ a1.rx.product_idx = a.rx.product_idx ∧
    a1.rx.players = a.rx.players ∧ a1.rx.geometries = a.rx.geometries := by
  unfold finalize_reaction_rates at h
  split_ifs at h with hc
  · cases hl : finalize_reaction_load a.state files 0 a.rx.pathway_head a.rx with
    | none => rw [hl] at h; simp at h
    | some rx1 =>
      rw [hl] at h
      simp only [Option.some.injEq] at h
      have hf := finalize_reaction_load_frame a.state files _ _ _ _ hl
      rw [← h]
      simp only
      simp only [rxn_build.mk.injEq, and_true] at hf
      exact ⟨hf.1, hf.2.1, hf.2.2.1, hf.2.2.2.1, hf.2.2.2.2.2.1, hf.2.2.2.2.2.2⟩
  · simp only [Option.some.injEq] at h
    rw [← h]
    exact ⟨rfl, rfl, rfl, rfl, rfl, rfl⟩

/-- The step of `finalize_reaction` that stores the reactants: the length of
`players` is kept, the cells from `n_reactants` on are kept, and the first cells
hold the reactants of the first pathway. -/
theorem finalize_reaction_reactants_players (rx : rxn_build) (p : pathway_km)
    (rest : List pathway_km) (hp : rx.pathway_head = p :: rest)
    (hn : 1 ≤ rx.n_reactants) (hlen : rx.n_reactants ≤ rx.players.length) :
    (finalize_reaction_reactants rx).players.length = rx.players.length ∧
    (∀ j : Nat, rx.n_reactants ≤ j → 3 ≤ j →
      (finalize_reaction_reactants rx).players[j]? = rx.players[j]?) ∧
    (finalize_reaction_reactants rx).players[0]? = some (some p.path.reactant1) ∧
    (1 < rx.n_reactants →
      (finalize_reaction_reactants rx).players[1]? = some (some p.path.reactant2)) ∧
    (2 < rx.n_reactants →
      (finalize_reaction_reactants rx).players[2]? = some (some p.path.reactant3)) ∧
    (finalize_reaction_reactants rx).n_reactants = rx.n_reactants ∧
    (finalize_reaction_reactants rx).product_idx = rx.product_idx ∧
    (finalize_reaction_reactants rx).pathway_head = rx.pathway_head ∧
    (finalize_reaction_reactants rx).n_pathways = rx.n_pathways := by
  unfold finalize_reaction_reactants
  rw [hp]
  simp only
  split_ifs with h1 h2
  · simp only [List.length_set]
    refine ⟨trivial, ?_, ?_, ?_, ?_, trivial, trivial, trivial, trivial⟩
    · intro j _ hj
      rw [List.getElem?_set_ne (by omega), List.getElem?_set_ne (by omega),
        List.getElem?_set_ne (by omega)]
    · rw [List.getElem?_set_ne (by omega), List.getElem?_set_ne (by omega),
        List.getElem?_set_self (by omega)]
    · intro _
      rw [List.getElem?_set_ne (by omega), List.getElem?_set_self (by simp; omega)]
    · intro _
      rw [List.getElem?_set_self (by simp; omega)]
  · simp only [List.length_set]
    refine ⟨trivial, ?_, ?_, ?_, ?_, trivial, trivial, trivial, trivial⟩
    · intro j _ hj
      rw [List.getElem?_set_ne (by omega), List.getElem?_set_ne (by omega)]
    · rw [List.getElem?_set_ne (by omega), List.getElem?_set_self (by omega)]
    · intro _
      rw [List.getElem?_set_self (by simp; omega)]
    · intro h
      exact absurd h h2
  · simp only [List.length_set]
    refine ⟨trivial, ?_, ?_, ?_, ?_, trivial, trivial, trivial, trivial⟩
    · intro j _ hj
      rw [List.getElem?_set_ne (by omega)]
    · rw [List.getElem?_set_self (by omega)]
    · intro h
      exact absurd h h1
    · intro h
      omega

/-- The layout step of `finalize_reaction` for a reaction set with `N` pathways
whose counts of new products are in `product_idx`: the first offset is the number
of reactants, every later offset is the one before plus the number of reactants
and the count of that pathway, and `players` and `geometries` get as many unset
cells as the last offset says. -/
theorem finalize_reaction_layout_spec (rx : rxn_build) (N : Nat)
    (hN : rx.n_pathways = (N : Int)) (hlen : rx.product_idx.length = N + 1) :
    (finalize_reaction_layout rx).n_reactants = rx.n_reactants ∧
    (finalize_reaction_layout rx).n_pathways = rx.n_pathways ∧
    (finalize_reaction_layout rx).pathway_head = rx.pathway_head ∧
    (finalize_reaction_layout rx).product_idx.getD 0 0 = rx.n_reactants ∧
    (∀ k : Nat, k < N →
      (finalize_reaction_layout rx).product_idx.getD (k + 1) 0 =
        (finalize_reaction_layout rx).product_idx.getD k 0 + rx.n_reactants +
          rx.product_idx.getD k 0) ∧
    (finalize_reaction_layout rx).players =
      List.replicate ((finalize_reaction_layout rx).product_idx.getD N 0) none ∧
    (finalize_reaction_layout rx).geometries =
      List.replicate ((finalize_reaction_layout rx).product_idx.getD N 0) none := by
  obtain ⟨r1, r2, r3, r4, r5⟩ := finalize_reaction_index_spec rx.n_reactants N 0
    rx.product_idx rx.n_reactants (by omega)
  have hkk : (if rx.n_pathways ≤ RX_SPECIAL then (1 : Int) else rx.n_pathways) = (N : Int) := by
    rw [if_neg (by rw [hN]; unfold RX_SPECIAL; omega), hN]
  unfold finalize_reaction_layout
  simp only [hkk, Int.toNat_ofNat]
  obtain ⟨r, hr⟩ : ∃ r, r = finalize_reaction_index rx.n_reactants N 0 rx.product_idx
    rx.n_reactants := ⟨_, rfl⟩
  rw [← hr] at r1 r2 r3 r4 r5 ⊢
  rw [if_neg (by omega)]
  have hget : ∀ j : Nat, (r.1.set N r.2).getD j 0 = if N = j then r.2 else r.1.getD j 0 := by
    intro j
    rw [getD_set_nat]
    by_cases h : N = j
    · rw [if_pos ⟨h, by omega⟩, if_pos h]
    · rw [if_neg (fun c => h c.1), if_neg h]
  have hlast : (r.1.set N r.2).getD N 0 = r.2 := by rw [hget, if_pos rfl]
  refine ⟨trivial, trivial, trivial, ?_, ?_, by rw [hlast], by rw [hlast]⟩
  · rw [hget]
    by_cases h : N = 0
    · rw [if_pos h, r5, if_pos h]
    · rw [if_neg h]
      exact r3 (by omega)
  · intro k hk
    rw [hget (k + 1), hget k, if_neg (show ¬ N = k by omega)]
    by_cases h : N = k + 1
    · rw [if_pos h, r5, if_neg (by omega)]
      have e : 0 + N - 1 = k := by omega
      rw [e]
      omega
    · rw [if_neg h]
      have := r4 k (by omega)
      simp only [Nat.zero_add] at this
      rw [this]
      omega

/-- The step of `finalize_reaction` that stores the reactants changes `players`
and `geometries` only, keeps the length of `players` and keeps its cells from
`n_reactants` on. -/
theorem finalize_reaction_reactants_frame (rx : rxn_build) (hn : 1 ≤ rx.n_reactants) :
    (finalize_reaction_reactants rx).players.length = rx.players.length ∧
    (∀ j : Nat, rx.n_reactants ≤ j →
      (finalize_reaction_reactants rx).players[j]? = rx.players[j]?) ∧
    (finalize_reaction_reactants rx).n_reactants = rx.n_reactants ∧
    (finalize_reaction_reactants rx).product_idx = rx.product_idx ∧
    (finalize_reaction_reactants rx).pathway_head = rx.pathway_head ∧
    (finalize_reaction_reactants rx).n_pathways = rx.n_pathways := by
  unfold finalize_reaction_reactants
  split
  · exact ⟨rfl, fun _ _ => rfl, rfl, rfl, rfl, rfl⟩
  · split_ifs with h1 h2
    · simp only [List.length_set]
      refine ⟨trivial, ?_, trivial, trivial, trivial, trivial⟩
      intro j hj
      rw [List.getElem?_set_ne (by omega), List.getElem?_set_ne (by omega),
        List.getElem?_set_ne (by omega)]
    · simp only [List.length_set]
      refine ⟨trivial, ?_, trivial, trivial, trivial, trivial⟩
      intro j hj
      rw [List.getElem?_set_ne (by omega), List.getElem?_set_ne (by omega)]
    · simp only [List.length_set]
      refine ⟨trivial, ?_, trivial, trivial, trivial, trivial⟩
      intro j hj
      rw [List.getElem?_set_ne (by omega)]

/-- Offsets that grow by the recurrence of the layout step do not decrease. -/
theorem product_idx_monotone (idx counts : List Nat) (n N : Nat)
    (hrec : ∀ k : Nat, k < N → idx.getD (k + 1) 0 = idx.getD k 0 + n + counts.getD k 0) :
    ∀ k : Nat, k ≤ N → idx.getD 0 0 ≤ idx.getD k 0 := by
  intro k
  induction k with
  | zero => intro _; exact le_refl _
  | succ k ih =>
    intro hk
    have h1 := ih (by omega)
    have h2 := hrec k (by omega)
    omega

/-- The layout that `finalize_reaction` gives to a reaction set without special
pathways: the offsets in `product_idx` start at the number of reactants and grow,
per pathway, by the number of reactants plus the number of new products; `players`
is as long as the last offset says; its first cells hold the reactants of the
first pathway; and the cells of every pathway are left as `recycled_block`
describes. -/
theorem finalize_reaction_rx_layout (files : String → Option (List (Option (ℚ × ℚ))))
    (ae_list_sort : List t_func → List t_func) (state : mcell_state) (rx : rxn_build)
    (a : assembly)
    (h : finalize_reaction_rx files ae_list_sort state rx = some a)
    (hN : rx.n_pathways = (rx.pathway_head.length : Int))
    (hflags : ∀ p ∈ rx.pathway_head, p.path.flags &&& PATHW_TRANSP = 0 ∧
      p.path.flags &&& PATHW_REFLEC = 0 ∧ p.path.flags &&& PATHW_ABSORP = 0)
    (hn : 1 ≤ rx.n_reactants)
    (hnone : ∀ p ∈ rx.pathway_head, (rx.n_reactants ≤ 1 → p.path.reactant2 = none) ∧
      (rx.n_reactants ≤ 2 → p.path.reactant3 = none)) :
    a.rx.n_reactants = rx.n_reactants ∧
    a.rx.n_pathways = rx.n_pathways ∧
    a.rx.pathway_head.map (fun p => p.path) = rx.pathway_head.map (fun p => p.path) ∧
    a.rx.product_idx.getD 0 0 = rx.n_reactants ∧
    (∀ k : Nat, k < rx.pathway_head.length →
      a.rx.product_idx.getD (k + 1) 0 =
        a.rx.product_idx.getD k 0 + rx.n_reactants +
          (rx.pathway_head.map (fun p => new_products p.path)).getD k 0) ∧
    a.rx.players.length = a.rx.product_idx.getD rx.pathway_head.length 0 ∧
    (∀ (p : pathway_km) (rest : List pathway_km), rx.pathway_head = p :: rest →
      a.rx.players[0]? = some (some p.path.reactant1) ∧
      (1 < rx.n_reactants → a.rx.players[1]? = some (some p.path.reactant2)) ∧
      (2 < rx.n_reactants → a.rx.players[2]? = some (some p.path.reactant3))) ∧
    (∀ (k : Nat) (p : pathway_km), rx.pathway_head[k]? = some p →
      ∃ st : geometry_state,
        recycled_block rx.n_reactants (a.rx.product_idx.getD k 0) p.path a.rx.players st) := by
  unfold finalize_reaction_rx at h
  simp only at h
  obtain ⟨a0, ha0⟩ : ∃ a0 : assembly, a0 =
      { rx := { rx with
                product_idx := List.replicate (rx.n_pathways + 1).toNat 0
                cum_probs := List.replicate rx.n_pathways.toNat 0 }
        state := state, n_prob_t_rxns := 0, region_border := [] } := ⟨_, rfl⟩
  rw [← ha0] at h
  obtain ⟨f1, f2, f3, f4, f5, f6⟩ := finalize_reaction_pathways_frame rx.pathway_head 0 a0
  obtain ⟨r, hr⟩ : ∃ r, r = finalize_reaction_pathways 0 rx.pathway_head a0 := ⟨_, rfl⟩
  rw [← hr] at h f1 f2 f3 f4 f5 f6
  have ha0n : a0.rx.n_reactants = rx.n_reactants := by rw [ha0]
  have ha0p : a0.rx.n_pathways = rx.n_pathways := by rw [ha0]
  have ha0l : a0.rx.product_idx.length = rx.pathway_head.length + 1 := by
    rw [ha0]
    simp only [List.length_replicate]
    rw [hN]
    omega
  have hlenr : r.2.length = rx.pathway_head.length := by
    have := congrArg List.length f1
    simpa using this
  obtain ⟨l1, l2, l3, l4, l5, l6, l7⟩ := finalize_reaction_layout_spec
    { r.1.rx with pathway_head := r.2 } rx.pathway_head.length
    (by
      show r.1.rx.n_pathways = _
      rw [f6 hflags, ha0p, hN])
    (by
      show r.1.rx.product_idx.length = _
      rw [f3, ha0l])
  obtain ⟨L, hL⟩ : ∃ L, L = finalize_reaction_layout { r.1.rx with pathway_head := r.2 } :=
    ⟨_, rfl⟩
  rw [← hL] at h l1 l2 l3 l4 l5 l6 l7
  simp only at l1 l2 l3 l4 l5
  -- the recurrence in terms of the counts of new products
  have hrec : ∀ k : Nat, k < rx.pathway_head.length →
      L.product_idx.getD (k + 1) 0 = L.product_idx.getD k 0 + rx.n_reactants +
        (rx.pathway_head.map (fun p => new_products p.path)).getD k 0 := by
    intro k hk
    have h5 := f5 k hk (by omega)
    rw [Nat.zero_add] at h5
    rw [l5 k hk, h5, f2, ha0n]
  rw [f2, ha0n] at l1 l4
  cases hrates : finalize_reaction_rates files ae_list_sort { r.1 with rx := L } with
  | none => rw [hrates] at h; simp at h
  | some a1 =>
    rw [hrates] at h
    simp only [Option.some.injEq] at h
    obtain ⟨g1, g2, g3, g4, g5, _⟩ := finalize_reaction_rates_frame files ae_list_sort _ _ hrates
    simp only at g1 g2 g3 g4 g5
    have hmono := product_idx_monotone L.product_idx
      (rx.pathway_head.map (fun p => new_products p.path)) rx.n_reactants
      rx.pathway_head.length hrec
    have hplen : a1.rx.players.length = L.product_idx.getD rx.pathway_head.length 0 := by
      rw [g5, l6, List.length_replicate]
    have hnle : a1.rx.n_reactants ≤ a1.rx.players.length := by
      rw [hplen, g1, l1]
      have := hmono rx.pathway_head.length (le_refl _)
      omega
    obtain ⟨q1, q2, q3, q4, q5, q6⟩ := finalize_reaction_reactants_frame a1.rx
      (by rw [g1, l1]; exact hn)
    obtain ⟨R, hR⟩ : ∃ R, R = finalize_reaction_reactants a1.rx := ⟨_, rfl⟩
    have hpathsR : R.pathway_head = r.2 := by rw [hR, q5, g3, l3]
    have hmapnew : r.2.map (fun p => new_products p.path) =
        rx.pathway_head.map (fun p => new_products p.path) := by
      have := congrArg (List.map new_products) f1
      simpa [List.map_map, Function.comp] using this
    obtain ⟨s1, s2, s3⟩ := set_product_geometries_loop_players rx.n_reactants L.product_idx hn
      r.2 0 0 R.players R.geometries
      (by
        intro q hq
        have hq2 : q.path ∈ r.2.map (fun p => p.path) := List.mem_map_of_mem _ hq
        rw [f1] at hq2
        obtain ⟨p, hp, hpq⟩ := List.mem_map.1 hq2
        rw [← hpq]
        exact hnone p hp)
      (by
        intro k hk
        rw [hlenr] at hk
        rw [Nat.zero_add, hmapnew]
        exact hrec k hk)
      (by
        rw [Nat.zero_add, hlenr, hR, q1, hplen])
    have hfinal : a.rx = (set_product_geometries R).2 := by rw [← h, hR]
    have hplayers : a.rx.players = (set_product_geometries_loop rx.n_reactants L.product_idx 0 r.2
        0 R.players R.geometries).2.1 := by
      rw [hfinal]
      unfold set_product_geometries
      simp only
      rw [hpathsR, hR, q3, q4, g1, g4, l1]
    have hidx : a.rx.product_idx = L.product_idx := by
      rw [hfinal]
      unfold set_product_geometries
      simp only
      rw [hR, q4, g4]
    rw [hidx, hplayers]
    refine ⟨?_, ?_, ?_, l4, hrec, ?_, ?_, ?_⟩
    · rw [hfinal]
      unfold set_product_geometries
      simp only
      rw [hR, q3, g1, l1]
    · rw [hfinal]
      unfold set_product_geometries
      simp only
      rw [hR, q6, g2, l2]
      show r.1.rx.n_pathways = _
      rw [f6 hflags, ha0p]
    · rw [hfinal]
      unfold set_product_geometries
      simp only
      rw [hpathsR, f1]
    · rw [s1, hR, q1, hplen]
    · intro p rest hp
      have hr2 : ∃ q rest2, r.2 = q :: rest2 ∧ q.path = p.path := by
        rw [hp] at f1
        cases hr2 : r.2 with
        | nil => rw [hr2] at f1; simp at f1
        | cons q rest2 =>
          rw [hr2] at f1
          simp only [List.map_cons, List.cons.injEq] at f1
          exact ⟨q, rest2, rfl, f1.1⟩
      obtain ⟨q, rest2, hq, hqp⟩ := hr2
      obtain ⟨t1, t2, t3, t4, t5, _⟩ := finalize_reaction_reactants_players a1.rx q rest2
        (by rw [g3, l3, hq]) (by rw [g1, l1]; exact hn) hnle
      rw [← hR] at t1 t2 t3 t4 t5
      rw [g1, l1] at t4 t5
      rw [hqp] at t3 t4 t5
      refine ⟨?_, ?_, ?_⟩
      · rw [s2 0 (Or.inl (by rw [l4]; omega)), t3]
      · intro h1
        rw [s2 1 (Or.inl (by rw [l4]; omega)), t4 h1]
      · intro h2
        rw [s2 2 (Or.inl (by rw [l4]; omega)), t5 h2]
    · intro k p hp
      have hk : k < rx.pathway_head.length := by
        by_contra hc
        rw [List.getElem?_eq_none (not_lt.1 hc)] at hp
        exact Option.noConfusion hp
      have hq : ∃ q, r.2[k]? = some q ∧ q.path = p.path := by
        have := congrArg (fun l => l[k]?) f1
        simp only [List.getElem?_map, hp, Option.map_some'] at this
        cases hq : r.2[k]? with
        | none => rw [hq] at this; simp at this
        | some q =>
          rw [hq] at this
          simp only [Option.map_some', Option.some.injEq] at this
          exact ⟨q, rfl, this⟩
      obtain ⟨q, hq, hqp⟩ := hq
      obtain ⟨st, hst⟩ := s3 k (by rw [hlenr]; exact hk) q hq
      rw [Nat.zero_add, hqp] at hst
      exact ⟨st, hst⟩

/-- The chain of tests at the start of the first loop of `finalize_reaction` does
not count rate files. -/
theorem finalize_reaction_special_n_prob_t_rxns (p : pathway_km) (a : assembly) :
    (finalize_reaction_special p a).1.n_prob_t_rxns = a.n_prob_t_rxns := by
  have hs : ∀ b : assembly, (set_can_region_border p.path b).n_prob_t_rxns = b.n_prob_t_rxns := by
    intro b
    unfold set_can_region_border
    cases p.path.reactant1 <;> rfl
  unfold finalize_reaction_special
  split_ifs <;> simp only [hs]

/-- The first loop of `finalize_reaction` counts no rate file when no pathway has
one. -/
theorem finalize_reaction_pathways_n_prob_t_rxns :
    ∀ (paths : List pathway_km) (n0 : Nat) (a : assembly),
      (∀ p ∈ paths, p.km_filename = none) →
      (finalize_reaction_pathways n0 paths a).1.n_prob_t_rxns = a.n_prob_t_rxns := by
  intro paths
  induction paths with
  | nil => intro n0 a _; rfl
  | cons p rest ih =>
    intro n0 a h
    simp only [finalize_reaction_pathways]
    rw [ih _ _ (fun q hq => h q (List.mem_cons_of_mem _ hq))]
    unfold finalize_reaction_pathway
    simp only [h p (List.mem_cons_self _ _)]
    exact finalize_reaction_special_n_prob_t_rxns p a

/-- The assembly of a reaction set none of whose pathways has a rate file does
not fail. -/
theorem finalize_reaction_rx_succeeds (files : String → Option (List (Option (ℚ × ℚ))))
    (ae_list_sort : List t_func → List t_func) (state : mcell_state) (rx : rxn_build)
    (h : ∀ p ∈ rx.pathway_head, p.km_filename = none) :
    (finalize_reaction_rx files ae_list_sort state rx).isSome = true := by
  unfold finalize_reaction_rx finalize_reaction_rates
  simp only
  rw [finalize_reaction_pathways_n_prob_t_rxns _ _ _ h]
  simp

/-- The reactant cells of a pathway that hold a species are those whose flag is
set at the end of the pathway. -/
theorem recycled_block_populated (n_reactants base : Nat) (path : pathway)
    (players : List (Option (Option species))) (st : geometry_state)
    (hb : recycled_block n_reactants base path players st) :
    is_populated players[base]? = decide (st.recycled1 ≠ 0) ∧
    (1 < n_reactants → is_populated players[base + 1]? = decide (st.recycled2 ≠ 0)) ∧
    (2 < n_reactants → is_populated players[base + 2]? = decide (st.recycled3 ≠ 0)) := by
  obtain ⟨c1, c2, c3, _, f1, _, _, e2, e3⟩ := hb
  refine ⟨?_, ?_, ?_⟩
  · rw [c1]
    by_cases h : st.recycled1 = 0
    · simp [h, is_populated]
    · have hex : ∃ p ∈ path.product_head, some p.prod = path.reactant1 := by
        by_contra hc
        push_neg at hc
        exact h (f1.2 hc)
      obtain ⟨p, _, hp⟩ := hex
      rw [← hp]
      simp [h, is_populated]
  · intro hn
    rw [c2 hn]
    by_cases h : st.recycled2 = 0
    · simp [h, is_populated]
    · cases hr : path.reactant2 with
      | none => exact absurd (e2 hr) h
      | some s => simp [h, is_populated]
  · intro hn
    rw [c3 hn]
    by_cases h : st.recycled3 = 0
    · simp [h, is_populated]
    · cases hr : path.reactant3 with
      | none => exact absurd (e3 hr) h
      | some s => simp [h, is_populated]

/-- The number of reactant cells of a pathway that hold a species is the number
of flags set at the end of the pathway. -/
theorem recycled_slots_eq_count (n_reactants base : Nat) (path : pathway)
    (players : List (Option (Option species))) (st : geometry_state)
    (hn : 1 ≤ n_reactants) (hn3 : n_reactants ≤ 3)
    (h2 : n_reactants ≤ 1 → path.reactant2 = none)
    (h3 : n_reactants ≤ 2 → path.reactant3 = none)
    (hb : recycled_block n_reactants base path players st) :
    recycled_slots players base n_reactants = recycled_count st := by
  obtain ⟨p1, p2, p3⟩ := recycled_block_populated n_reactants base path players st hb
  obtain ⟨_, _, _, _, _, _, _, e2, e3⟩ := hb
  unfold recycled_slots recycled_count
  have hc : n_reactants = 1 ∨ n_reactants = 2 ∨ n_reactants = 3 := by omega
  rcases hc with hc | hc | hc
  · subst hc
    have r2 := e2 (h2 (by omega))
    have r3 := e3 (h3 (by omega))
    simp only [List.range_succ, List.range_zero, List.nil_append, List.filter_cons,
      List.filter_nil, Nat.add_zero, p1, r2, r3]
    by_cases a1 : st.recycled1 = 0 <;> simp [a1]
  · subst hc
    have r3 := e3 (h3 (by omega))
    have q2 := p2 (by omega)
    simp only [List.range_succ, List.range_zero, List.nil_append, List.singleton_append,
      List.filter_cons, List.filter_nil, Nat.add_zero, p1, q2, r3]
    by_cases a1 : st.recycled1 = 0 <;> by_cases a2 : st.recycled2 = 0 <;> simp [a1, a2]
  · subst hc
    have q2 := p2 (by omega)
    have q3 := p3 (by omega)
    simp only [List.range_succ, List.range_zero, List.nil_append, List.singleton_append,
      List.cons_append, List.filter_cons, List.filter_nil, Nat.add_zero, p1, q2, q3]
    by_cases a1 : st.recycled1 = 0 <;> by_cases a2 : st.recycled2 = 0 <;>
      by_cases a3 : st.recycled3 = 0 <;> simp [a1, a2, a3]

/-- C23: for a reaction set without special pathways (`n_pathways` counts the
pathway list, one to three reactants, absent reactants `NULL`), the assembly
succeeds when no pathway has a rate file, and whenever it succeeds every pathway
`k` has as many products as reactant cells of its block that hold a species, at
most one per cell, plus `product_idx[k+1] - product_idx[k] - n_reactants`; and
`product_idx[n_pathways]` is the length of `players`. -/
theorem finalize_reaction_product_count (files : String → Option (List (Option (ℚ × ℚ))))
    (ae_list_sort : List t_func → List t_func) (state : mcell_state) (rx : rxn_build)
    (hN : rx.n_pathways = (rx.pathway_head.length : Int))
    (hflags : ∀ p ∈ rx.pathway_head, p.path.flags &&& PATHW_TRANSP = 0 ∧
      p.path.flags &&& PATHW_REFLEC = 0 ∧ p.path.flags &&& PATHW_ABSORP = 0)
    (hn : 1 ≤ rx.n_reactants) (hn3 : rx.n_reactants ≤ 3)
    (hnone : ∀ p ∈ rx.pathway_head, (rx.n_reactants ≤ 1 → p.path.reactant2 = none) ∧
      (rx.n_reactants ≤ 2 → p.path.reactant3 = none)) :
    ((∀ p ∈ rx.pathway_head, p.km_filename = none) →
      (finalize_reaction_rx files ae_list_sort state rx).isSome = true) ∧
    ∀ a : assembly, finalize_reaction_rx files ae_list_sort state rx = some a →
      (∀ (k : Nat) (p : pathway_km), rx.pathway_head[k]? = some p →
        recycled_slots a.rx.players (a.rx.product_idx.getD k 0) rx.n_reactants ≤
          rx.n_reactants ∧
        p.path.product_head.length =
          recycled_slots a.rx.players (a.rx.product_idx.getD k 0) rx.n_reactants +
            (a.rx.product_idx.getD (k + 1) 0 - a.rx.product_idx.getD k 0 - rx.n_reactants)) ∧
      a.rx.product_idx.getD a.rx.n_pathways.toNat 0 = a.rx.players.length := by
  refine ⟨finalize_reaction_rx_succeeds files ae_list_sort state rx, ?_⟩
  intro a h
  obtain ⟨_, l2, _, _, l5, l6, _, l8⟩ :=
    finalize_reaction_rx_layout files ae_list_sort state rx a h hN hflags hn hnone
  refine ⟨?_, ?_⟩
  · intro k p hp
    have hk : k < rx.pathway_head.length := by
      by_contra hc
      rw [List.getElem?_eq_none (not_lt.1 hc)] at hp
      exact Option.noConfusion hp
    obtain ⟨st, hst⟩ := l8 k p hp
    have hmem : p ∈ rx.pathway_head := List.mem_iff_getElem?.2 ⟨k, hp⟩
    have hslots := recycled_slots_eq_count rx.n_reactants (a.rx.product_idx.getD k 0) p.path
      a.rx.players st hn hn3 (hnone p hmem).1 (hnone p hmem).2 hst
    have hnew : (rx.pathway_head.map (fun p => new_products p.path)).getD k 0 =
        new_products p.path := by
      rw [List.getD_eq_getElem?_getD, List.getElem?_map, hp]
      rfl
    have hrec := l5 k hk
    rw [hnew] at hrec
    have hcount := hst.2.2.2.1
    refine ⟨?_, ?_⟩
    · unfold recycled_slots
      exact le_trans (List.length_filter_le _ _) (by rw [List.length_range])
    · rw [hslots, hrec]
      omega
  · rw [l2, hN, Int.toNat_ofNat, l6]

/-- Witness for C23 on the reaction `A + B -> A + C`: two products, one of them
recycled into a reactant cell. -/
theorem finalize_reaction_product_count_witness :
    ∃ a : assembly, finalize_reaction_rx sample_files id sample_state
        (sample_reaction 2 (sample_molecule 1 "A") 0 (some (sample_molecule 2 "B")) 0
          [sample_product 1 "A", sample_product 3 "C"]) = some a ∧
      2 = recycled_slots a.rx.players (a.rx.product_idx.getD 0 0) 2 +
        (a.rx.product_idx.getD 1 0 - a.rx.product_idx.getD 0 0 - 2) ∧
      a.rx.product_idx.getD a.rx.n_pathways.toNat 0 = a.rx.players.length := by
  have h := finalize_reaction_product_count sample_files id sample_state
    (sample_reaction 2 (sample_molecule 1 "A") 0 (some (sample_molecule 2 "B")) 0
      [sample_product 1 "A", sample_product 3 "C"]) rfl (by decide) (by decide) (by decide)
    (by decide)
  obtain ⟨a, ha⟩ := Option.isSome_iff_exists.1 (h.1 (by decide))
  exact ⟨a, ha, ((h.2 a ha).1 0 _ rfl).2, (h.2 a ha).2⟩

/-- C24 (as stated): for the reaction `A + B -> C` with all orientations 0 and a
constant rate, `finalize_reaction` gives `n_pathways = 1`, `product_idx = [2, 5]`,
`players = [A, B, NULL, NULL, C]` and the geometries 0, 0, unset, unset, 0: the
offsets start behind the reactants of the reaction, and the block of the pathway
has its own two reactant cells before the product. -/
theorem finalize_reaction_rx_offsets_behind_reactants :
    (finalize_reaction_rx sample_files id sample_state
      (sample_reaction 2 (sample_molecule 1 "A") 0 (some (sample_molecule 2 "B")) 0
        [sample_product 3 "C"])).map (fun a => a.rx.n_pathways) = some 1 ∧
    (finalize_reaction_rx sample_files id sample_state
      (sample_reaction 2 (sample_molecule 1 "A") 0 (some (sample_molecule 2 "B")) 0
        [sample_product 3 "C"])).map (fun a => a.rx.product_idx) = some [2, 5] ∧
    (finalize_reaction_rx sample_files id sample_state
      (sample_reaction 2 (sample_molecule 1 "A") 0 (some (sample_molecule 2 "B")) 0
        [sample_product 3 "C"])).map (fun a => a.rx.players) =
      some [some (some (sample_molecule 1 "A")), some (some (sample_molecule 2 "B")),
        some none, some none, some (some (sample_molecule 3 "C"))] ∧
    (finalize_reaction_rx sample_files id sample_state
      (sample_reaction 2 (sample_molecule 1 "A") 0 (some (sample_molecule 2 "B")) 0
        [sample_product 3 "C"])).map (fun a => a.rx.geometries) =
      some [some 0, some 0, none, none, some 0] := by
  refine ⟨by decide, by decide, by decide, by decide⟩

/-- C24 (amended): for a reaction set without special pathways the assembly
succeeds when no pathway has a rate file, and whenever it succeeds
`product_idx[0]` is `n_reactants`, the cells of `players` before it hold the
reactants of the first pathway, and the block of pathway `k` begins at
`product_idx[k]` with `n_reactants` cells, each holding its reactant or `NULL`,
followed by the cells of the new products up to `product_idx[k+1]`. -/
theorem finalize_reaction_rx_blocks (files : String → Option (List (Option (ℚ × ℚ))))
    (ae_list_sort : List t_func → List t_func) (state : mcell_state) (rx : rxn_build)
    (hN : rx.n_pathways = (rx.pathway_head.length : Int))
    (hflags : ∀ p ∈ rx.pathway_head, p.path.flags &&& PATHW_TRANSP = 0 ∧
      p.path.flags &&& PATHW_REFLEC = 0 ∧ p.path.flags &&& PATHW_ABSORP = 0)
    (hn : 1 ≤ rx.n_reactants)
    (hnone : ∀ p ∈ rx.pathway_head, (rx.n_reactants ≤ 1 → p.path.reactant2 = none) ∧
      (rx.n_reactants ≤ 2 → p.path.reactant3 = none)) :
    ((∀ p ∈ rx.pathway_head, p.km_filename = none) →
      (finalize_reaction_rx files ae_list_sort state rx).isSome = true) ∧
    ∀ a : assembly, finalize_reaction_rx files ae_list_sort state rx = some a →
      a.rx.product_idx.getD 0 0 = rx.n_reactants ∧
      (∀ (p : pathway_km) (rest : List pathway_km), rx.pathway_head = p :: rest →
        a.rx.players[0]? = some (some p.path.reactant1) ∧
        (1 < rx.n_reactants → a.rx.players[1]? = some (some p.path.reactant2)) ∧
        (2 < rx.n_reactants → a.rx.players[2]? = some (some p.path.reactant3))) ∧
      (∀ (k : Nat) (p : pathway_km), rx.pathway_head[k]? = some p →
        a.rx.product_idx.getD (k + 1) 0 =
          a.rx.product_idx.getD k 0 + rx.n_reactants + new_products p.path ∧
        (a.rx.players[a.rx.product_idx.getD k 0]? = some (some p.path.reactant1) ∨
          a.rx.players[a.rx.product_idx.getD k 0]? = some (some none)) ∧
        (1 < rx.n_reactants →
          a.rx.players[a.rx.product_idx.getD k 0 + 1]? = some (some p.path.reactant2) ∨
          a.rx.players[a.rx.product_idx.getD k 0 + 1]? = some (some none)) ∧
        (2 < rx.n_reactants →
          a.rx.players[a.rx.product_idx.getD k 0 + 2]? = some (some p.path.reactant3) ∨
          a.rx.players[a.rx.product_idx.getD k 0 + 2]? = some (some none))) := by
  refine ⟨finalize_reaction_rx_succeeds files ae_list_sort state rx, ?_⟩
  intro a h
  obtain ⟨_, _, _, l4, l5, _, l7, l8⟩ :=
    finalize_reaction_rx_layout files ae_list_sort state rx a h hN hflags hn hnone
  refine ⟨l4, l7, ?_⟩
  intro k p hp
  have hk : k < rx.pathway_head.length := by
    by_contra hc
    rw [List.getElem?_eq_none (not_lt.1 hc)] at hp
    exact Option.noConfusion hp
  obtain ⟨st, c1, c2, c3, _⟩ := l8 k p hp
  have hnew : (rx.pathway_head.map (fun p => new_products p.path)).getD k 0 =
      new_products p.path := by
    rw [List.getD_eq_getElem?_getD, List.getElem?_map, hp]
    rfl
  have hrec := l5 k hk
  rw [hnew] at hrec
  refine ⟨hrec, ?_, ?_, ?_⟩
  · rw [c1]
    by_cases h1 : st.recycled1 = 0
    · rw [if_pos h1]; exact Or.inr rfl
    · rw [if_neg h1]; exact Or.inl rfl
  · intro hn1
    rw [c2 hn1]
    by_cases h1 : st.recycled2 = 0
    · rw [if_pos h1]; exact Or.inr rfl
    · rw [if_neg h1]; exact Or.inl rfl
  · intro hn1
    rw [c3 hn1]
    by_cases h1 : st.recycled3 = 0
    · rw [if_pos h1]; exact Or.inr rfl
    · rw [if_neg h1]; exact Or.inl rfl

/-- Witness for C24 (amended) on the reaction `A + B -> C`. -/
theorem finalize_reaction_rx_blocks_witness :
    ∃ a : assembly, finalize_reaction_rx sample_files id sample_state
        (sample_reaction 2 (sample_molecule 1 "A") 0 (some (sample_molecule 2 "B")) 0
          [sample_product 3 "C"]) = some a ∧
      a.rx.product_idx.getD 0 0 = 2 ∧
      a.rx.players[0]? = some (some (some (sample_molecule 1 "A"))) ∧
      a.rx.players[1]? = some (some (some (sample_molecule 2 "B"))) ∧
      a.rx.product_idx.getD 1 0 = a.rx.product_idx.getD 0 0 + 2 + 1 := by
  have h := finalize_reaction_rx_blocks sample_files id sample_state
    (sample_reaction 2 (sample_molecule 1 "A") 0 (some (sample_molecule 2 "B")) 0
      [sample_product 3 "C"]) rfl (by decide) (by decide) (by decide)
  obtain ⟨a, ha⟩ := Option.isSome_iff_exists.1 (h.1 (by decide))
  exact ⟨a, ha, (h.2 a ha).1, ((h.2 a ha).2.1 _ _ rfl).1,
    ((h.2 a ha).2.1 _ _ rfl).2.1 (by decide), ((h.2 a ha).2.2 0 _ rfl).1⟩

/-- C25 (as stated): in the reaction `A + A -> A` the product equals the second
reactant, and the second reactant cell of the pathway is `NULL`: the one product
is recycled into the first cell only.  The offsets are `[2, 4]` and `players` is
`[A, A, A, NULL]`. -/
theorem set_product_geometries_recycles_once :
    (finalize_reaction_rx sample_files id sample_state
      (sample_reaction 2 (sample_molecule 1 "A") 0 (some (sample_molecule 1 "A")) 0
        [sample_product 1 "A"])).map (fun a => a.rx.product_idx) = some [2, 4] ∧
    (finalize_reaction_rx sample_files id sample_state
      (sample_reaction 2 (sample_molecule 1 "A") 0 (some (sample_molecule 1 "A")) 0
        [sample_product 1 "A"])).map (fun a => a.rx.players) =
      some [some (some (sample_molecule 1 "A")), some (some (sample_molecule 1 "A")),
        some (some (sample_molecule 1 "A")), some none] := by
  refine ⟨by decide, by decide⟩

/-- C25 (amended): for a reaction set without special pathways the assembly
succeeds when no pathway has a rate file, and whenever it succeeds the first
reactant cell of every pathway holds reactant 1 if some product of the pathway is
reactant 1 and is `NULL` otherwise; the same holds for the cell of a later
reactant that differs from the reactants before it. -/
theorem set_product_geometries_recycled_slots
    (files : String → Option (List (Option (ℚ × ℚ))))
    (ae_list_sort : List t_func → List t_func) (state : mcell_state) (rx : rxn_build)
    (hN : rx.n_pathways = (rx.pathway_head.length : Int))
    (hflags : ∀ p ∈ rx.pathway_head, p.path.flags &&& PATHW_TRANSP = 0 ∧
      p.path.flags &&& PATHW_REFLEC = 0 ∧ p.path.flags &&& PATHW_ABSORP = 0)
    (hn : 1 ≤ rx.n_reactants)
    (hnone : ∀ p ∈ rx.pathway_head, (rx.n_reactants ≤ 1 → p.path.reactant2 = none) ∧
      (rx.n_reactants ≤ 2 → p.path.reactant3 = none)) :
    ((∀ p ∈ rx.pathway_head, p.km_filename = none) →
      (finalize_reaction_rx files ae_list_sort state rx).isSome = true) ∧
    ∀ a : assembly, finalize_reaction_rx files ae_list_sort state rx = some a →
      ∀ (k : Nat) (p : pathway_km), rx.pathway_head[k]? = some p →
        ((∃ q ∈ p.path.product_head, some q.prod = p.path.reactant1) →
          a.rx.players[a.rx.product_idx.getD k 0]? = some (some p.path.reactant1)) ∧
        ((∀ q ∈ p.path.product_head, some q.prod ≠ p.path.reactant1) →
          a.rx.players[a.rx.product_idx.getD k 0]? = some (some none)) ∧
        (1 < rx.n_reactants → p.path.reactant2 ≠ p.path.reactant1 →
          ((∃ q ∈ p.path.product_head, some q.prod = p.path.reactant2) →
            a.rx.players[a.rx.product_idx.getD k 0 + 1]? = some (some p.path.reactant2)) ∧
          ((∀ q ∈ p.path.product_head, some q.prod ≠ p.path.reactant2) →
            a.rx.players[a.rx.product_idx.getD k 0 + 1]? = some (some none))) ∧
        (2 < rx.n_reactants → p.path.reactant3 ≠ p.path.reactant1 →
          p.path.reactant3 ≠ p.path.reactant2 →
          ((∃ q ∈ p.path.product_head, some q.prod = p.path.reactant3) →
            a.rx.players[a.rx.product_idx.getD k 0 + 2]? = some (some p.path.reactant3)) ∧
          ((∀ q ∈ p.path.product_head, some q.prod ≠ p.path.reactant3) →
            a.rx.players[a.rx.product_idx.getD k 0 + 2]? = some (some none))) := by
  refine ⟨finalize_reaction_rx_succeeds files ae_list_sort state rx, ?_⟩
  intro a h k p hp
  obtain ⟨_, _, _, _, _, _, _, l8⟩ :=
    finalize_reaction_rx_layout files ae_list_sort state rx a h hN hflags hn hnone
  obtain ⟨st, c1, c2, c3, _, f1, f2, f3, _, _⟩ := l8 k p hp
  refine ⟨?_, ?_, ?_, ?_⟩
  · rintro ⟨q, hq, hqe⟩
    rw [c1, if_neg (fun h0 => f1.1 h0 q hq hqe)]
  · intro hall
    rw [c1, if_pos (f1.2 hall)]
  · intro hn1 hne
    refine ⟨?_, ?_⟩
    · rintro ⟨q, hq, hqe⟩
      rw [c2 hn1, if_neg (fun h0 => (f2 hne).1 h0 q hq hqe)]
    · intro hall
      rw [c2 hn1, if_pos ((f2 hne).2 hall)]
  · intro hn1 hne1 hne2
    refine ⟨?_, ?_⟩
    · rintro ⟨q, hq, hqe⟩
      rw [c3 hn1, if_neg (fun h0 => (f3 hne1 hne2).1 h0 q hq hqe)]
    · intro hall
      rw [c3 hn1, if_pos ((f3 hne1 hne2).2 hall)]

/-- Witness for C25 (amended) on the reaction `A + B -> A + C`: the first reactant
cell of the pathway holds `A` and the second one is `NULL`. -/
theorem set_product_geometries_recycled_slots_witness :
    ∃ a : assembly, finalize_reaction_rx sample_files id sample_state
        (sample_reaction 2 (sample_molecule 1 "A") 0 (some (sample_molecule 2 "B")) 0
          [sample_product 1 "A", sample_product 3 "C"]) = some a ∧
      a.rx.players[a.rx.product_idx.getD 0 0]? = some (some (some (sample_molecule 1 "A"))) ∧
      a.rx.players[a.rx.product_idx.getD 0 0 + 1]? = some (some none) := by
  have h := set_product_geometries_recycled_slots sample_files id sample_state
    (sample_reaction 2 (sample_molecule 1 "A") 0 (some (sample_molecule 2 "B")) 0
      [sample_product 1 "A", sample_product 3 "C"]) rfl (by decide) (by decide) (by decide)
  obtain ⟨a, ha⟩ := Option.isSome_iff_exists.1 (h.1 (by decide))
  exact ⟨a, ha, (h.2 a ha 0 _ rfl).1 ⟨sample_product 1 "A", by decide, rfl⟩,
    ((h.2 a ha 0 _ rfl).2.2.1 (by decide) (by decide)).2 (by decide)⟩

/-! ## The cells and codes of the products in `set_product_geometries` -/

/-- The body of the product loop stores in `geometries`, at the chosen cell, a
code that `product_code` describes. -/
theorem set_product_geometries_product_geometries (n_reactants base : Nat) (path : pathway)
    (earlier : List product) (prod : product) (st : geometry_state) :
    ∃ g : Int,
      (set_product_geometries_product n_reactants base path earlier prod st).geometries =
        st.geometries.set (set_product_geometries_slot base path prod st).1 (some g) ∧
      product_code n_reactants path earlier prod g := by
  obtain ⟨g, h1, h2⟩ := set_product_geometries_product_code n_reactants base path earlier prod st
  exact ⟨g, h1, h2⟩

/-- The four cases of the choice of a cell in `set_product_geometries`: the cell
of a reactant whose flag was 0 and becomes 1, or the next new cell. -/
theorem set_product_geometries_slot_cases (n_reactants base : Nat) (path : pathway)
    (prod : product) (st : geometry_state)
    (h2 : n_reactants ≤ 1 → path.reactant2 = none)
    (h3 : n_reactants ≤ 2 → path.reactant3 = none) :
    ((set_product_geometries_slot base path prod st).1 = base ∧ st.recycled1 = 0 ∧
      (set_product_geometries_slot base path prod st).2.recycled1 = 1 ∧
      (set_product_geometries_slot base path prod st).2.recycled2 = st.recycled2 ∧
      (set_product_geometries_slot base path prod st).2.recycled3 = st.recycled3 ∧
      (set_product_geometries_slot base path prod st).2.k = st.k) ∨
    ((set_product_geometries_slot base path prod st).1 = base + 1 ∧ 1 < n_reactants ∧
      st.recycled2 = 0 ∧
      (set_product_geometries_slot base path prod st).2.recycled1 = st.recycled1 ∧
      (set_product_geometries_slot base path prod st).2.recycled2 = 1 ∧
      (set_product_geometries_slot base path prod st).2.recycled3 = st.recycled3 ∧
      (set_product_geometries_slot base path prod st).2.k = st.k) ∨
    ((set_product_geometries_slot base path prod st).1 = base + 2 ∧ 2 < n_reactants ∧
      st.recycled3 = 0 ∧
      (set_product_geometries_slot base path prod st).2.recycled1 = st.recycled1 ∧
      (set_product_geometries_slot base path prod st).2.recycled2 = st.recycled2 ∧
      (set_product_geometries_slot base path prod st).2.recycled3 = 1 ∧
      (set_product_geometries_slot base path prod st).2.k = st.k) ∨
    ((set_product_geometries_slot base path prod st).1 = st.k ∧
      (set_product_geometries_slot base path prod st).2.recycled1 = st.recycled1 ∧
      (set_product_geometries_slot base path prod st).2.recycled2 = st.recycled2 ∧
      (set_product_geometries_slot base path prod st).2.recycled3 = st.recycled3 ∧
      (set_product_geometries_slot base path prod st).2.k = st.k + 1) := by
  by_cases c1 : st.recycled1 = 0 ∧ some prod.prod = path.reactant1
  · have hslot : set_product_geometries_slot base path prod st =
        (base + 0, { st with recycled1 := 1 }) := by
      unfold set_product_geometries_slot
      rw [if_pos c1]
    rw [hslot]
    exact Or.inl ⟨rfl, c1.1, rfl, rfl, rfl, rfl⟩
  by_cases c2 : st.recycled2 = 0 ∧ some prod.prod = path.reactant2
  · have hslot : set_product_geometries_slot base path prod st =
        (base + 1, { st with recycled2 := 1 }) := by
      unfold set_product_geometries_slot
      rw [if_neg c1, if_pos c2]
    have hn2 : 1 < n_reactants := by
      by_contra hc
      have := h2 (by omega)
      rw [this] at c2
      exact absurd c2.2 (by simp)
    rw [hslot]
    exact Or.inr (Or.inl ⟨rfl, hn2, c2.1, rfl, rfl, rfl, rfl⟩)
  by_cases c3 : st.recycled3 = 0 ∧ some prod.prod = path.reactant3
  · have hslot : set_product_geometries_slot base path prod st =
        (base + 2, { st with recycled3 := 1 }) := by
      unfold set_product_geometries_slot
      rw [if_neg c1, if_neg c2, if_pos c3]
    have hn3 : 2 < n_reactants := by
      by_contra hc
      have := h3 (by omega)
      rw [this] at c3
      exact absurd c3.2 (by simp)
    rw [hslot]
    exact Or.inr (Or.inr (Or.inl ⟨rfl, hn3, c3.1, rfl, rfl, rfl, rfl⟩))
  · have hslot : set_product_geometries_slot base path prod st =
        (st.k, { st with k := st.k + 1 }) := by
      unfold set_product_geometries_slot
      rw [if_neg c1, if_neg c2, if_neg c3]
    rw [hslot]
    exact Or.inr (Or.inr (Or.inr ⟨rfl, rfl, rfl, rfl, rfl⟩))

/-- The cell that `set_product_geometries` chooses for a product is not taken by
an earlier product, is taken afterwards, and the cells taken before stay taken. -/
theorem set_product_geometries_slot_cell (n_reactants base : Nat) (path : pathway)
    (prod : product) (st : geometry_state)
    (h2 : n_reactants ≤ 1 → path.reactant2 = none)
    (h3 : n_reactants ≤ 2 → path.reactant3 = none)
    (hn : 1 ≤ n_reactants) (hk : base + n_reactants ≤ st.k) :
    ¬ product_cell n_reactants base st (set_product_geometries_slot base path prod st).1 ∧
    product_cell n_reactants base (set_product_geometries_slot base path prod st).2
      (set_product_geometries_slot base path prod st).1 ∧
    (∀ c : Nat, product_cell n_reactants base st c →
      product_cell n_reactants base (set_product_geometries_slot base path prod st).2 c) ∧
    st.k ≤ (set_product_geometries_slot base path prod st).2.k ∧
    (∀ j : Nat, (set_product_geometries_slot base path prod st).2.k ≤ j → st.k ≤ j) := by
  have hc := set_product_geometries_slot_cases n_reactants base path prod st h2 h3
  generalize (set_product_geometries_slot base path prod st).1 = kk at hc ⊢
  generalize (set_product_geometries_slot base path prod st).2 = st1 at hc ⊢
  unfold product_cell
  rcases hc with ⟨e1, e2, e3, e4, e5, e6⟩ | ⟨e1, e0, e2, e3, e4, e5, e6⟩ |
    ⟨e1, e0, e2, e3, e4, e5, e6⟩ | ⟨e1, e3, e4, e5, e6⟩
  · refine ⟨fun h => h.2.2.1 e1 e2, ⟨by omega, by omega, fun _ => by omega,
      fun h => by omega, fun h => by omega⟩, ?_, by omega, fun j hj => by omega⟩
    rintro c ⟨a1, a2, a3, a4, a5⟩
    exact ⟨a1, by omega, fun _ => by omega, fun h hh => by have := a4 h hh; omega,
      fun h hh => by have := a5 h hh; omega⟩
  · refine ⟨fun h => h.2.2.2.1 e1 e0 e2, ⟨by omega, by omega, fun h => by omega,
      fun _ _ => by omega, fun h => by omega⟩, ?_, by omega, fun j hj => by omega⟩
    rintro c ⟨a1, a2, a3, a4, a5⟩
    exact ⟨a1, by omega, fun h => by have := a3 h; omega, fun _ _ => by omega,
      fun h hh => by have := a5 h hh; omega⟩
  · refine ⟨fun h => h.2.2.2.2 e1 e0 e2, ⟨by omega, by omega, fun h => by omega,
      fun h => by omega, fun _ _ => by omega⟩, ?_, by omega, fun j hj => by omega⟩
    rintro c ⟨a1, a2, a3, a4, a5⟩
    exact ⟨a1, by omega, fun h => by have := a3 h; omega,
      fun h hh => by have := a4 h hh; omega, fun _ _ => by omega⟩
  · refine ⟨fun h => by omega, ⟨by omega, by omega, fun h => by omega,
      fun h _ => by omega, fun h _ => by omega⟩, ?_, by omega, fun j hj => by omega⟩
    rintro c ⟨a1, a2, a3, a4, a5⟩
    exact ⟨a1, by omega, fun h => by have := a3 h; omega,
      fun h hh => by have := a4 h hh; omega, fun h hh => by have := a5 h hh; omega⟩

/-- The body of the product loop keeps the invariant `coded_cells`, when the
chosen cell lies inside both arrays. -/
theorem set_product_geometries_product_coded (n_reactants base : Nat) (path : pathway)
    (start : List (Option Int)) (done : List product) (prod : product) (st : geometry_state)
    (h2 : n_reactants ≤ 1 → path.reactant2 = none)
    (h3 : n_reactants ≤ 2 → path.reactant3 = none)
    (hn : 1 ≤ n_reactants) (hk : base + n_reactants ≤ st.k)
    (hlenp : (set_product_geometries_product n_reactants base path done prod st).k ≤
      st.players.length)
    (hleng : (set_product_geometries_product n_reactants base path done prod st).k ≤
      start.length)
    (hinv : coded_cells n_reactants base path start done st) :
    coded_cells n_reactants base path start (done ++ [prod])
      (set_product_geometries_product n_reactants base path done prod st) := by
  obtain ⟨i1, i2, i3⟩ := hinv
  obtain ⟨f1, f2, f3, f4, f5⟩ :=
    set_product_geometries_product_frame n_reactants base path done prod st
  obtain ⟨s1, s2, s3, s4, s5⟩ :=
    set_product_geometries_slot_cell n_reactants base path prod st h2 h3 hn hk
  obtain ⟨g, hg, hcode⟩ :=
    set_product_geometries_product_geometries n_reactants base path done prod st
  generalize set_product_geometries_product n_reactants base path done prod st = st2
    at f1 f2 f3 f4 f5 hg hlenp hleng ⊢
  generalize (set_product_geometries_slot base path prod st).1 = kk at f1 hg s1 s2
  generalize (set_product_geometries_slot base path prod st).2 = st1 at f2 f3 f4 f5 s2 s3 s4 s5
  -- a cell taken in the state after the choice is taken in the state after the body
  have htr : ∀ c : Nat, product_cell n_reactants base st1 c →
      product_cell n_reactants base st2 c := by
    rintro c ⟨a1, a2, a3, a4, a5⟩
    exact ⟨a1, by rw [f2]; exact a2, fun h => fun h0 => a3 h (f3.1 h0),
      fun h hh => fun h0 => a4 h hh (f4.1 h0), fun h hh => fun h0 => a5 h hh (f5.1 h0)⟩
  have hkk2 : kk < st2.k := by rw [f2]; exact s2.2.1
  refine ⟨by rw [hg, List.length_set, i1], ?_, ?_⟩
  · intro j hj
    have hj2 : j < base ∨ st1.k ≤ j := by rw [← f2]; exact hj
    have hne : kk ≠ j := by
      have := s2.1
      rcases hj2 with h | h
      · omega
      · have := s2.2.1
        omega
    rw [hg, List.getElem?_set_ne hne]
    exact i2 j (hj2.elim Or.inl (fun h => Or.inr (s5 j h)))
  · intro i p hp
    by_cases hi : i < done.length
    · rw [List.getElem?_append_left hi] at hp
      obtain ⟨c, g0, b1, b2, b3, b4⟩ := i3 i p hp
      have hne : kk ≠ c := fun h => s1 (h ▸ b1)
      refine ⟨c, g0, htr c (s3 c b1), ?_, ?_, ?_⟩
      · rw [f1, List.getElem?_set_ne hne]
        exact b2
      · rw [hg, List.getElem?_set_ne hne]
        exact b3
      · rw [List.take_append_of_le_length (le_of_lt hi)]
        exact b4
    · have hi2 : i = done.length := by
        by_contra hc
        rw [List.getElem?_eq_none (by simp; omega)] at hp
        exact Option.noConfusion hp
      subst hi2
      rw [List.getElem?_append_right (le_refl _)] at hp
      simp only [Nat.sub_self, List.getElem?_cons_zero, Option.some.injEq] at hp
      subst hp
      refine ⟨kk, g, htr kk s2, ?_, ?_, ?_⟩
      · rw [f1, List.getElem?_set_self (by omega)]
      · rw [hg, List.getElem?_set_self (by omega)]
      · rw [List.take_left']
        · exact hcode
        · rfl

/-- The loop over the products does not lower `k` and keeps the length of
`players`. -/
theorem set_product_geometries_products_k (n_reactants base : Nat) (path : pathway) :
    ∀ (prods earlier : List product) (st : geometry_state),
      st.k ≤ (set_product_geometries_products n_reactants base path earlier prods st).k ∧
      (set_product_geometries_products n_reactants base path earlier prods st).players.length =
        st.players.length := by
  intro prods
  induction prods with
  | nil => intro earlier st; exact ⟨le_refl _, rfl⟩
  | cons prod rest ih =>
    intro earlier st
    simp only [set_product_geometries_products]
    obtain ⟨a1, a2⟩ := ih (earlier ++ [prod])
      (set_product_geometries_product n_reactants base path earlier prod st)
    obtain ⟨f1, f2, _⟩ :=
      set_product_geometries_product_frame n_reactants base path earlier prod st
    have hs : st.k ≤ (set_product_geometries_slot base path prod st).2.k := by
      unfold set_product_geometries_slot
      split_ifs <;> simp
    refine ⟨by rw [f2] at a1; omega, ?_⟩
    rw [a2, f1, List.length_set]

/-- The loop over the products keeps the invariant `coded_cells`, when `k` ends
inside both arrays. -/
theorem set_product_geometries_products_coded (n_reactants base : Nat) (path : pathway)
    (start : List (Option Int))
    (h2 : n_reactants ≤ 1 → path.reactant2 = none)
    (h3 : n_reactants ≤ 2 → path.reactant3 = none)
    (hn : 1 ≤ n_reactants) :
    ∀ (prods done : List product) (st : geometry_state),
      base + n_reactants ≤ st.k →
      (set_product_geometries_products n_reactants base path done prods st).k ≤
        st.players.length →
      (set_product_geometries_products n_reactants base path done prods st).k ≤
        start.length →
      coded_cells n_reactants base path start done st →
      coded_cells n_reactants base path start (done ++ prods)
        (set_product_geometries_products n_reactants base path done prods st) := by
  intro prods
  induction prods with
  | nil =>
    intro done st _ _ _ h
    rw [List.append_nil]
    exact h
  | cons prod rest ih =>
    intro done st hk hlp hlg h
    simp only [set_product_geometries_products] at hlp hlg ⊢
    obtain ⟨k1, k2⟩ := set_product_geometries_products_k n_reactants base path rest
      (done ++ [prod]) (set_product_geometries_product n_reactants base path done prod st)
    obtain ⟨f1, f2, _⟩ :=
      set_product_geometries_product_frame n_reactants base path done prod st
    have hs : st.k ≤ (set_product_geometries_slot base path prod st).2.k := by
      unfold set_product_geometries_slot
      split_ifs <;> simp
    have hpl : (set_product_geometries_product n_reactants base path done prod st).players.length =
        st.players.length := by rw [f1, List.length_set]
    have e : done ++ prod :: rest = done ++ [prod] ++ rest := by simp
    rw [e]
    exact ih (done ++ [prod]) _ (by rw [f2]; omega) (by rw [hpl]; exact hlp) hlg
      (set_product_geometries_product_coded n_reactants base path start done prod st h2 h3 hn hk
        (by omega) (by omega) h)

/-- What one round of the loop of `set_product_geometries` over the pathways
leaves in `geometries` and for the products of the pathway, when the block of the
pathway lies inside both arrays: the length of `geometries` is kept, its cells
before `base` and behind the block are untouched, and every product of the
pathway has a cell of the block that holds its species in `players` and a code in
`geometries` as `product_code` describes, with respect to the products before it
in the list. -/
theorem set_product_geometries_pathway_coded (n_reactants base : Nat) (path : pathway)
    (max_num : Nat) (players : List (Option (Option species))) (start : List (Option Int))
    (h2 : n_reactants ≤ 1 → path.reactant2 = none)
    (h3 : n_reactants ≤ 2 → path.reactant3 = none)
    (hn : 1 ≤ n_reactants)
    (hbp : base + n_reactants + new_products path ≤ players.length)
    (hbg : base + n_reactants + new_products path ≤ start.length) :
    (set_product_geometries_pathway n_reactants base path max_num players start).geometries.length =
      start.length ∧
    (∀ j : Nat, j < base ∨ base + n_reactants + new_products path ≤ j →
      (set_product_geometries_pathway n_reactants base path max_num players start).geometries[j]? =
        start[j]?) ∧
    (∀ (i : Nat) (prod : product), path.product_head[i]? = some prod →
      ∃ (c : Nat) (g : Int), base ≤ c ∧ c < base + n_reactants + new_products path ∧
        (set_product_geometries_pathway n_reactants base path max_num players start).players[c]? =
          some (some (some prod.prod)) ∧
        (set_product_geometries_pathway n_reactants base path max_num players
          start).geometries[c]? = some (some g) ∧
        product_code n_reactants path (path.product_head.take i) prod g) := by
  obtain ⟨_, a2, _⟩ := set_product_geometries_pathway_players n_reactants base path max_num
    players start h2 h3 hn (by omega)
  obtain ⟨st0, hst0⟩ : ∃ st0 : geometry_state, st0 =
      { recycled1 := 0, recycled2 := 0, recycled3 := 0
        k := base + n_reactants
        num_surf_products_per_pathway := 0
        max_num_surf_products := max_num
        players := players, geometries := start } := ⟨_, rfl⟩
  obtain ⟨st, hst⟩ : ∃ st : geometry_state, st =
      set_product_geometries_products n_reactants base path [] path.product_head st0 := ⟨_, rfl⟩
  obtain ⟨p1, hp1⟩ : ∃ p1 : List (Option (Option species)), p1 =
      if st.recycled1 = 0 then st.players.set base (some none) else st.players := ⟨_, rfl⟩
  obtain ⟨p2, hp2⟩ : ∃ p2 : List (Option (Option species)), p2 =
      if st.recycled2 = 0 ∧ n_reactants > 1 then p1.set (base + 1) (some none) else p1 :=
    ⟨_, rfl⟩
  obtain ⟨p3, hp3⟩ : ∃ p3 : List (Option (Option species)), p3 =
      if st.recycled3 = 0 ∧ n_reactants > 2 then p2.set (base + 2) (some none) else p2 :=
    ⟨_, rfl⟩
  have hp : set_product_geometries_pathway n_reactants base path max_num players start =
      { st with players := p3 } := by
    rw [hp3, hp2, hp1, hst, hst0]
    rfl
  rw [hp] at a2 ⊢
  simp only at a2 ⊢
  have hk : st.k = base + n_reactants + new_products path := a2
  have hinv0 : coded_cells n_reactants base path start [] st0 := by
    unfold coded_cells
    rw [hst0]
    refine ⟨rfl, fun _ _ => rfl, ?_⟩
    intro i prod hi
    simp at hi
  have hinv := set_product_geometries_products_coded n_reactants base path start h2 h3 hn
    path.product_head [] st0 (by rw [hst0]) (by rw [← hst, hk, hst0]; exact hbp)
    (by rw [← hst, hk]; exact hbg) hinv0
  rw [← hst, List.nil_append] at hinv
  obtain ⟨i1, i2, i3⟩ := hinv
  have g1 : ∀ j : Nat, j ≠ base ∨ st.recycled1 ≠ 0 → p1[j]? = st.players[j]? := by
    intro j hj
    rw [hp1]
    split_ifs with hc
    · rw [List.getElem?_set_ne (by omega)]
    · rfl
  have g2 : ∀ j : Nat, j ≠ base + 1 ∨ n_reactants ≤ 1 ∨ st.recycled2 ≠ 0 → p2[j]? = p1[j]? := by
    intro j hj
    rw [hp2]
    split_ifs with hc
    · rw [List.getElem?_set_ne (by omega)]
    · rfl
  have g3 : ∀ j : Nat, j ≠ base + 2 ∨ n_reactants ≤ 2 ∨ st.recycled3 ≠ 0 → p3[j]? = p2[j]? := by
    intro j hj
    rw [hp3]
    split_ifs with hc
    · rw [List.getElem?_set_ne (by omega)]
    · rfl
  refine ⟨i1, ?_, ?_⟩
  · intro j hj
    exact i2 j (by rw [hk]; exact hj)
  · intro i prod hi
    obtain ⟨c, g, ⟨b1, b2, b3, b4, b5⟩, c2, c3, c4⟩ := i3 i prod hi
    refine ⟨c, g, b1, by rw [← hk]; exact b2, ?_, c3, c4⟩
    have e1 : c ≠ base ∨ st.recycled1 ≠ 0 := by
      by_cases h : c = base
      · exact Or.inr (b3 h)
      · exact Or.inl h
    have e2 : c ≠ base + 1 ∨ n_reactants ≤ 1 ∨ st.recycled2 ≠ 0 := by
      by_cases h : c = base + 1
      · by_cases hh : 1 < n_reactants
        · exact Or.inr (Or.inr (b4 h hh))
        · exact Or.inr (Or.inl (by omega))
      · exact Or.inl h
    have e3 : c ≠ base + 2 ∨ n_reactants ≤ 2 ∨ st.recycled3 ≠ 0 := by
      by_cases h : c = base + 2
      · by_cases hh : 2 < n_reactants
        · exact Or.inr (Or.inr (b5 h hh))
        · exact Or.inr (Or.inl (by omega))
      · exact Or.inl h
    rw [g3 c e3, g2 c e2, g1 c e1]
    exact c2

/-- The loop of `set_product_geometries` over the pathways, when the cells of the
pathways lie one block behind the other inside `players` and `geometries`: the
length of `geometries` is kept, its cells before the first block and behind the
last one are untouched, and every product of every pathway has a cell in the
block of its pathway that holds its species in `players` and a code in
`geometries` as `product_code` describes. -/
theorem set_product_geometries_loop_coded (n_reactants : Nat) (product_idx : List Nat)
    (hn : 1 ≤ n_reactants) :
    ∀ (paths : List pathway_km) (m max_num : Nat) (players : List (Option (Option species)))
      (start : List (Option Int)),
      (∀ p ∈ paths, (n_reactants ≤ 1 → p.path.reactant2 = none) ∧
        (n_reactants ≤ 2 → p.path.reactant3 = none)) →
      (∀ k : Nat, k < paths.length →
        product_idx.getD (m + k + 1) 0 =
          product_idx.getD (m + k) 0 + n_reactants +
            (paths.map (fun p => new_products p.path)).getD k 0) →
      product_idx.getD (m + paths.length) 0 ≤ players.length →
      product_idx.getD (m + paths.length) 0 ≤ start.length →
      (set_product_geometries_loop n_reactants product_idx m paths max_num players
          start).2.2.length = start.length ∧
      (∀ j : Nat, j < product_idx.getD m 0 ∨ product_idx.getD (m + paths.length) 0 ≤ j →
        (set_product_geometries_loop n_reactants product_idx m paths max_num players
          start).2.2[j]? = start[j]?) ∧
      (∀ (k : Nat) (p : pathway_km), paths[k]? = some p →
        ∀ (i : Nat) (prod : product), p.path.product_head[i]? = some prod →
          ∃ (c : Nat) (g : Int), product_idx.getD (m + k) 0 ≤ c ∧
            c < product_idx.getD (m + k + 1) 0 ∧
            (set_product_geometries_loop n_reactants product_idx m paths max_num players
              start).2.1[c]? = some (some (some prod.prod)) ∧
            (set_product_geometries_loop n_reactants product_idx m paths max_num players
              start).2.2[c]? = some (some g) ∧
            product_code n_reactants p.path (p.path.product_head.take i) prod g) := by
  intro paths
  induction paths with
  | nil =>
    intro m max_num players start _ _ _ _
    simp [set_product_geometries_loop]
  | cons p rest ih =>
    intro m max_num players start hnone hidx hbp hbg
    have hmono : ∀ k : Nat, k ≤ rest.length →
        product_idx.getD (m + 1) 0 ≤ product_idx.getD (m + 1 + k) 0 := by
      intro k
      induction k with
      | zero => intro _; exact le_refl _
      | succ k ihk =>
        intro hk
        have h1 := ihk (by omega)
        have h2 := hidx (k + 1) (by simp; omega)
        have e1 : m + (k + 1) + 1 = m + 1 + (k + 1) := by omega
        have e2 : m + (k + 1) = m + 1 + k := by omega
        rw [e1, e2] at h2
        omega
    have h0 := hidx 0 (by simp)
    simp only [Nat.add_zero, List.map_cons, List.getD_cons_zero] at h0
    have hlen : m + (p :: rest).length = m + 1 + rest.length := by simp; omega
    rw [hlen] at hbp hbg
    have hlast := hmono rest.length (le_refl _)
    obtain ⟨hp2, hp3⟩ := hnone p (List.mem_cons_self _ _)
    obtain ⟨a1, _, a3, _⟩ := set_product_geometries_pathway_players n_reactants
      (product_idx.getD m 0) p.path max_num players start hp2 hp3 hn (by omega)
    obtain ⟨c1, c2, c3⟩ := set_product_geometries_pathway_coded n_reactants
      (product_idx.getD m 0) p.path max_num players start hp2 hp3 hn (by omega) (by omega)
    rw [← h0] at c2 c3
    obtain ⟨st, hst⟩ : ∃ st : geometry_state, st =
        set_product_geometries_pathway n_reactants (product_idx.getD m 0) p.path max_num
          players start := ⟨_, rfl⟩
    rw [← hst] at a1 c1 c2 c3
    have hidx1 : ∀ k : Nat, k < rest.length →
        product_idx.getD (m + 1 + k + 1) 0 =
          product_idx.getD (m + 1 + k) 0 + n_reactants +
            (rest.map (fun p => new_products p.path)).getD k 0 := by
      intro k hk1
      have := hidx (k + 1) (by simp; omega)
      simp only [List.map_cons, List.getD_cons_succ] at this
      have e1 : m + (k + 1) + 1 = m + 1 + k + 1 := by omega
      have e2 : m + (k + 1) = m + 1 + k := by omega
      rw [e1, e2] at this
      exact this
    obtain ⟨_, s2, _⟩ := set_product_geometries_loop_players n_reactants product_idx hn rest
      (m + 1) st.max_num_surf_products st.players st.geometries
      (fun q hq => hnone q (List.mem_cons_of_mem _ hq)) hidx1 (by rw [a1]; exact hbp)
    obtain ⟨b1, b2, b3⟩ := ih (m + 1) st.max_num_surf_products st.players st.geometries
      (fun q hq => hnone q (List.mem_cons_of_mem _ hq)) hidx1 (by rw [a1]; exact hbp)
      (by rw [c1]; exact hbg)
    have hloop : set_product_geometries_loop n_reactants product_idx m (p :: rest) max_num players
        start = set_product_geometries_loop n_reactants product_idx (m + 1) rest
          st.max_num_surf_products st.players st.geometries := by
      rw [hst]
      rfl
    rw [hloop, hlen]
    refine ⟨by rw [b1, c1], ?_, ?_⟩
    · intro j hj
      rw [b2 j (by omega)]
      exact c2 j (by omega)
    · intro k q hq i prod hi
      cases k with
      | zero =>
        simp only [List.getElem?_cons_zero, Option.some.injEq] at hq
        subst hq
        obtain ⟨c, g, d1, d2, d3, d4, d5⟩ := c3 i prod hi
        rw [Nat.add_zero]
        refine ⟨c, g, d1, d2, ?_, ?_, d5⟩
        · rw [s2 c (Or.inl d2)]
          exact d3
        · rw [b2 c (Or.inl d2)]
          exact d4
      | succ k =>
        simp only [List.getElem?_cons_succ] at hq
        have e1 : m + (k + 1) = m + 1 + k := by omega
        rw [e1]
        exact b3 k q hq i prod hi

/-- The step of `finalize_reaction` that stores the reactants keeps the length of
`geometries`. -/
theorem finalize_reaction_reactants_geometries (rx : rxn_build) :
    (finalize_reaction_reactants rx).geometries.length = rx.geometries.length := by
  unfold finalize_reaction_reactants
  split
  · rfl
  · split_ifs <;> simp only [List.length_set]

/-- The cells of the products after `finalize_reaction`: for a reaction set
without special pathways, every product of every pathway has a cell in the block
of its pathway that holds its species in `players` and, in `geometries`, a code as
`product_code` describes with respect to the products before it in the list of
the pathway. -/
theorem finalize_reaction_rx_coded (files : String → Option (List (Option (ℚ × ℚ))))
    (ae_list_sort : List t_func → List t_func) (state : mcell_state) (rx : rxn_build)
    (a : assembly)
    (h : finalize_reaction_rx files ae_list_sort state rx = some a)
    (hN : rx.n_pathways = (rx.pathway_head.length : Int))
    (hflags : ∀ p ∈ rx.pathway_head, p.path.flags &&& PATHW_TRANSP = 0 ∧
      p.path.flags &&& PATHW_REFLEC = 0 ∧ p.path.flags &&& PATHW_ABSORP = 0)
    (hn : 1 ≤ rx.n_reactants)
    (hnone : ∀ p ∈ rx.pathway_head, (rx.n_reactants ≤ 1 → p.path.reactant2 = none) ∧
      (rx.n_reactants ≤ 2 → p.path.reactant3 = none)) :
    ∀ (k : Nat) (p : pathway_km), rx.pathway_head[k]? = some p →
      ∀ (i : Nat) (prod : product), p.path.product_head[i]? = some prod →
        ∃ (c : Nat) (g : Int), a.rx.product_idx.getD k 0 ≤ c ∧
          c < a.rx.product_idx.getD (k + 1) 0 ∧
          a.rx.players[c]? = some (some (some prod.prod)) ∧
          a.rx.geometries[c]? = some (some g) ∧
          product_code rx.n_reactants p.path (p.path.product_head.take i) prod g := by
  unfold finalize_reaction_rx at h
  simp only at h
  obtain ⟨a0, ha0⟩ : ∃ a0 : assembly, a0 =
      { rx := { rx with
                product_idx := List.replicate (rx.n_pathways + 1).toNat 0
                cum_probs := List.replicate rx.n_pathways.toNat 0 }
        state := state, n_prob_t_rxns := 0, region_border := [] } := ⟨_, rfl⟩
  rw [← ha0] at h
  obtain ⟨f1, f2, f3, f4, f5, f6⟩ := finalize_reaction_pathways_frame rx.pathway_head 0 a0
  obtain ⟨r, hr⟩ : ∃ r, r = finalize_reaction_pathways 0 rx.pathway_head a0 := ⟨_, rfl⟩
  rw [← hr] at h f1 f2 f3 f4 f5 f6
  have ha0n : a0.rx.n_reactants = rx.n_reactants := by rw [ha0]
  have ha0p : a0.rx.n_pathways = rx.n_pathways := by rw [ha0]
  have ha0l : a0.rx.product_idx.length = rx.pathway_head.length + 1 := by
    rw [ha0]
    simp only [List.length_replicate]
    rw [hN]
    omega
  have hlenr : r.2.length = rx.pathway_head.length := by
    have := congrArg List.length f1
    simpa using this
  obtain ⟨l1, l2, l3, l4, l5, l6, l7⟩ := finalize_reaction_layout_spec
    { r.1.rx with pathway_head := r.2 } rx.pathway_head.length
    (by
      show r.1.rx.n_pathways = _
      rw [f6 hflags, ha0p, hN])
    (by
      show r.1.rx.product_idx.length = _
      rw [f3, ha0l])
  obtain ⟨L, hL⟩ : ∃ L, L = finalize_reaction_layout { r.1.rx with pathway_head := r.2 } :=
    ⟨_, rfl⟩
  rw [← hL] at h l1 l2 l3 l4 l5 l6 l7
  simp only at l1 l2 l3 l4 l5
  have hrec : ∀ k : Nat, k < rx.pathway_head.length →
      L.product_idx.getD (k + 1) 0 = L.product_idx.getD k 0 + rx.n_reactants +
        (rx.pathway_head.map (fun p => new_products p.path)).getD k 0 := by
    intro k hk
    have h5 := f5 k hk (by omega)
    rw [Nat.zero_add] at h5
    rw [l5 k hk, h5, f2, ha0n]
  rw [f2, ha0n] at l1 l4
  cases hrates : finalize_reaction_rates files ae_list_sort { r.1 with rx := L } with
  | none => rw [hrates] at h; simp at h
  | some a1 =>
    rw [hrates] at h
    simp only [Option.some.injEq] at h
    obtain ⟨g1, g2, g3, g4, g5, g6⟩ := finalize_reaction_rates_frame files ae_list_sort _ _ hrates
    simp only at g1 g2 g3 g4 g5 g6
    have hplen : a1.rx.players.length = L.product_idx.getD rx.pathway_head.length 0 := by
      rw [g5, l6, List.length_replicate]
    have hglen : a1.rx.geometries.length = L.product_idx.getD rx.pathway_head.length 0 := by
      rw [g6, l7, List.length_replicate]
    obtain ⟨q1, q2, q3, q4, q5, q6⟩ := finalize_reaction_reactants_frame a1.rx
      (by rw [g1, l1]; exact hn)
    have q7 := finalize_reaction_reactants_geometries a1.rx
    obtain ⟨R, hR⟩ : ∃ R, R = finalize_reaction_reactants a1.rx := ⟨_, rfl⟩
    rw [← hR] at q1 q3 q4 q5 q6 q7
    have hpathsR : R.pathway_head = r.2 := by rw [q5, g3, l3]
    have hmapnew : r.2.map (fun p => new_products p.path) =
        rx.pathway_head.map (fun p => new_products p.path) := by
      have := congrArg (List.map new_products) f1
      simpa [List.map_map, Function.comp] using this
    obtain ⟨_, _, s3⟩ := set_product_geometries_loop_coded rx.n_reactants L.product_idx hn
      r.2 0 0 R.players R.geometries
      (by
        intro q hq
        have hq2 : q.path ∈ r.2.map (fun p => p.path) := List.mem_map_of_mem _ hq
        rw [f1] at hq2
        obtain ⟨p, hp, hpq⟩ := List.mem_map.1 hq2
        rw [← hpq]
        exact hnone p hp)
      (by
        intro k hk
        rw [hlenr] at hk
        rw [Nat.zero_add, hmapnew]
        exact hrec k hk)
      (by rw [Nat.zero_add, hlenr, q1, hplen])
      (by rw [Nat.zero_add, hlenr, q7, hglen])
    have hfinal : a.rx = (set_product_geometries R).2 := by rw [← h, hR]
    have hplayers : a.rx.players = (set_product_geometries_loop rx.n_reactants L.product_idx 0 r.2
        0 R.players R.geometries).2.1 := by
      rw [hfinal]
      unfold set_product_geometries
      simp only
      rw [hpathsR, q3, q4, g1, g4, l1]
    have hgeoms : a.rx.geometries = (set_product_geometries_loop rx.n_reactants L.product_idx 0
        r.2 0 R.players R.geometries).2.2 := by
      rw [hfinal]
      unfold set_product_geometries
      simp only
      rw [hpathsR, q3, q4, g1, g4, l1]
    have hidx : a.rx.product_idx = L.product_idx := by
      rw [hfinal]
      unfold set_product_geometries
      simp only
      rw [q4, g4]
    rw [hidx, hplayers, hgeoms]
    intro k p hp i prod hi
    have hq : ∃ q, r.2[k]? = some q ∧ q.path = p.path := by
      have := congrArg (fun l => l[k]?) f1
      simp only [List.getElem?_map, hp, Option.map_some'] at this
      cases hq : r.2[k]? with
      | none => rw [hq] at this; simp at this
      | some q =>
        rw [hq] at this
        simp only [Option.map_some', Option.some.injEq] at this
        exact ⟨q, rfl, this⟩
    obtain ⟨q, hq, hqp⟩ := hq
    have hres := s3 k q hq i prod (by rw [hqp]; exact hi)
    rw [Nat.zero_add, hqp] at hres
    exact hres

/-- C26: for a reaction set without special pathways the assembly succeeds when
no pathway has a rate file, and whenever it succeeds every product `prod` of
every pathway, of orientation `o` and behind the products `earlier` in the list
of the pathway, has a cell in the block of its pathway where `players` holds its
species and `geometries` holds a code `g` that `set_product_geometries` stored:
1 or -1 (1 when `o = O1`) when `|o| = |O1|` and `O1` is not 0; else 2 or -2 when
there is a second reactant, `|o| = |O2|` and `O2` is not 0; else 3 or -3 when
there is a third reactant, `|o| = |O3|` and `O3` is not 0; and `g` is 0 exactly
when `o` is 0 or `|o|` matches neither such a reactant nor an earlier product of
the pathway. -/
theorem set_product_geometries_stored_codes
    (files : String → Option (List (Option (ℚ × ℚ))))
    (ae_list_sort : List t_func → List t_func) (state : mcell_state) (rx : rxn_build)
    (hN : rx.n_pathways = (rx.pathway_head.length : Int))
    (hflags : ∀ p ∈ rx.pathway_head, p.path.flags &&& PATHW_TRANSP = 0 ∧
      p.path.flags &&& PATHW_REFLEC = 0 ∧ p.path.flags &&& PATHW_ABSORP = 0)
    (hn : 1 ≤ rx.n_reactants)
    (hnone : ∀ p ∈ rx.pathway_head, (rx.n_reactants ≤ 1 → p.path.reactant2 = none) ∧
      (rx.n_reactants ≤ 2 → p.path.reactant3 = none)) :
    ((∀ p ∈ rx.pathway_head, p.km_filename = none) →
      (finalize_reaction_rx files ae_list_sort state rx).isSome = true) ∧
    ∀ a : assembly, finalize_reaction_rx files ae_list_sort state rx = some a →
      ∀ (k : Nat) (p : pathway_km), rx.pathway_head[k]? = some p →
        ∀ (earlier : List product) (prod : product) (later : List product),
          p.path.product_head = earlier ++ prod :: later →
          ∃ (c : Nat) (g : Int),
            a.rx.product_idx.getD k 0 ≤ c ∧ c < a.rx.product_idx.getD (k + 1) 0 ∧
            a.rx.players[c]? = some (some (some prod.prod)) ∧
            a.rx.geometries[c]? = some (some g) ∧
            ((c_abs prod.orientation = c_abs p.path.orientation1 ∧ p.path.orientation1 ≠ 0) →
              g = if prod.orientation = p.path.orientation1 then 1 else -1) ∧
            (¬ (c_abs prod.orientation = c_abs p.path.orientation1 ∧
                p.path.orientation1 ≠ 0) →
              (rx.n_reactants > 1 ∧ c_abs prod.orientation = c_abs p.path.orientation2 ∧
                p.path.orientation2 ≠ 0) →
              g = if prod.orientation = p.path.orientation2 then 2 else -2) ∧
            (¬ (c_abs prod.orientation = c_abs p.path.orientation1 ∧
                p.path.orientation1 ≠ 0) →
              ¬ (rx.n_reactants > 1 ∧ c_abs prod.orientation = c_abs p.path.orientation2 ∧
                p.path.orientation2 ≠ 0) →
              (rx.n_reactants > 2 ∧ c_abs prod.orientation = c_abs p.path.orientation3 ∧
                p.path.orientation3 ≠ 0) →
              g = if prod.orientation = p.path.orientation3 then 3 else -3) ∧
            (g = 0 ↔
              (prod.orientation = 0 ∨
                (¬ (c_abs prod.orientation = c_abs p.path.orientation1 ∧
                    p.path.orientation1 ≠ 0) ∧
                  ¬ (rx.n_reactants > 1 ∧
                    c_abs prod.orientation = c_abs p.path.orientation2 ∧
                    p.path.orientation2 ≠ 0) ∧
                  ¬ (rx.n_reactants > 2 ∧
                    c_abs prod.orientation = c_abs p.path.orientation3 ∧
                    p.path.orientation3 ≠ 0) ∧
                  ∀ p2 ∈ earlier, c_abs p2.orientation ≠ c_abs prod.orientation))) := by
  refine ⟨finalize_reaction_rx_succeeds files ae_list_sort state rx, ?_⟩
  intro a h k p hp earlier prod later hsplit
  have hi : p.path.product_head[earlier.length]? = some prod := by
    rw [hsplit, List.getElem?_append_right (le_refl _)]
    simp
  have htake : p.path.product_head.take earlier.length = earlier := by
    rw [hsplit, List.take_left']
    rfl
  obtain ⟨c, g, d1, d2, d3, d4, d5⟩ := finalize_reaction_rx_coded files ae_list_sort state rx a
    h hN hflags hn hnone k p hp earlier.length prod hi
  rw [htake] at d5
  exact ⟨c, g, d1, d2, d3, d4, d5⟩

/-- Witness for C26 on the reaction `A' + B' -> A' + C''` (orientations 1, 1 for
the reactants and 1, 2 for the products): the cell of the product `A` holds the
code 1, and the cell of the product `C`, whose class is that of no reactant and
of no earlier product, holds the code 0. -/
theorem set_product_geometries_stored_codes_witness :
    ∃ a : assembly, finalize_reaction_rx sample_files id sample_state
        (sample_reaction 2 (sample_molecule 1 "A") 1 (some (sample_molecule 2 "B")) 1
          [sample_oriented 1 "A" 1, sample_oriented 3 "C" 2]) = some a ∧
      (∃ c : Nat, a.rx.players[c]? = some (some (some (sample_molecule 1 "A"))) ∧
        a.rx.geometries[c]? = some (some 1)) ∧
      (∃ c : Nat, a.rx.players[c]? = some (some (some (sample_molecule 3 "C"))) ∧
        a.rx.geometries[c]? = some (some 0)) := by
  have h := set_product_geometries_stored_codes sample_files id sample_state
    (sample_reaction 2 (sample_molecule 1 "A") 1 (some (sample_molecule 2 "B")) 1
      [sample_oriented 1 "A" 1, sample_oriented 3 "C" 2]) rfl (by decide) (by decide) (by decide)
  obtain ⟨a, ha⟩ := Option.isSome_iff_exists.1 (h.1 (by decide))
  refine ⟨a, ha, ?_, ?_⟩
  · obtain ⟨c, g, _, _, d3, d4, d5, _⟩ := h.2 a ha 0 _ rfl [] (sample_oriented 1 "A" 1)
      [sample_oriented 3 "C" 2] rfl
    have hg : g = 1 := d5 (by decide)
    rw [hg] at d4
    exact ⟨c, d3, d4⟩
  · obtain ⟨c, g, _, _, d3, d4, _, _, _, d8⟩ := h.2 a ha 0 _ rfl [sample_oriented 1 "A" 1]
      (sample_oriented 3 "C" 2) [] rfl
    have hg : g = 0 := d8.2 (Or.inr (by decide))
    rw [hg] at d4
    exact ⟨c, d3, d4⟩

/-- C27: two reactions whose stored geometry codes do not name an earlier
participant of the same orientation class.  In `A' + B' -> A' + C'' + D''` the
product `D` gets the code 6, its own index among the participants (reactants 1
and 2, reactant cells 3 and 4, new products `C` = 5 and `D` = 6), and not the
index 5 of the earlier product `C` it matches.  In `A' -> X'' + A''` the recycled
product `A` of orientation 2 gets the code 1, the index of the reactant `A` of
orientation 1, and not the index 3 of the earlier product `X` it matches. -/
theorem set_product_geometries_code_after_recycling :
    (finalize_reaction_rx sample_files id sample_state
      (sample_reaction 2 (sample_molecule 1 "A") 1 (some (sample_molecule 2 "B")) 1
        [sample_oriented 1 "A" 1, sample_oriented 3 "C" 2, sample_oriented 4 "D" 2])).map
        (fun a => a.rx.product_idx) = some [2, 6] ∧
    (finalize_reaction_rx sample_files id sample_state
      (sample_reaction 2 (sample_molecule 1 "A") 1 (some (sample_molecule 2 "B")) 1
        [sample_oriented 1 "A" 1, sample_oriented 3 "C" 2, sample_oriented 4 "D" 2])).map
        (fun a => a.rx.players) =
      some [some (some (sample_molecule 1 "A")), some (some (sample_molecule 2 "B")),
        some (some (sample_molecule 1 "A")), some none,
        some (some (sample_molecule 3 "C")), some (some (sample_molecule 4 "D"))] ∧
    (finalize_reaction_rx sample_files id sample_state
      (sample_reaction 2 (sample_molecule 1 "A") 1 (some (sample_molecule 2 "B")) 1
        [sample_oriented 1 "A" 1, sample_oriented 3 "C" 2, sample_oriented 4 "D" 2])).map
        (fun a => a.rx.geometries) =
      some [some 1, some 1, some 1, none, some 0, some 6] ∧
    (finalize_reaction_rx sample_files id sample_state
      (sample_reaction 1 (sample_molecule 1 "A") 1 none 0
        [sample_oriented 5 "X" 2, sample_oriented 1 "A" 2])).map
        (fun a => a.rx.players) =
      some [some (some (sample_molecule 1 "A")), some (some (sample_molecule 1 "A")),
        some (some (sample_molecule 5 "X"))] ∧
    (finalize_reaction_rx sample_files id sample_state
      (sample_reaction 1 (sample_molecule 1 "A") 1 none 0
        [sample_oriented 5 "X" 2, sample_oriented 1 "A" 2])).map
        (fun a => a.rx.geometries) =
      some [some 1, some 1, some 0] := by
  refine ⟨by decide, by decide, by decide, by decide, by decide⟩

/-! ## Reading a reaction -/

/-- C32: `extract_surface` leaves every cell of the memory of the counters as it
was, also when it succeeds: with `*num_reactants` 1 or 2 it returns
`MCELL_SUCCESS` and stores the surface class and its orientation in the slot of
reactant 2 or 3, and the statements `num_reactants++`, `num_surfaces++` and
`oriented_count++` have moved the three pointers.  For the counters 1, 0, 0 at the
addresses 1, 2, 3 and an oriented surface class the counters are 1, 0, 0 after
the call. -/
theorem extract_surface_counters_unchanged (path : pathway) (surf_class : species_opt_orient)
    (memory : Nat → Int) (num_reactants num_surfaces oriented_count : Nat) :
    (extract_surface path surf_class memory num_reactants num_surfaces
      oriented_count).memory = memory ∧
    (memory num_reactants = 1 →
      (extract_surface path surf_class memory num_reactants num_surfaces
        oriented_count).status = MCELL_STATUS.MCELL_SUCCESS ∧
      (extract_surface path surf_class memory num_reactants num_surfaces
        oriented_count).path =
        { path with
          reactant2 := surf_class.mol_type
          orientation2 := if surf_class.orient_set ≠ 0 then surf_class.orient else 0 } ∧
      (extract_surface path surf_class memory num_reactants num_surfaces
        oriented_count).num_reactants = num_reactants + 1 ∧
      (extract_surface path surf_class memory num_reactants num_surfaces
        oriented_count).num_surfaces = num_surfaces + 1) ∧
    (memory num_reactants = 2 →
      (extract_surface path surf_class memory num_reactants num_surfaces
        oriented_count).status = MCELL_STATUS.MCELL_SUCCESS ∧
      (extract_surface path surf_class memory num_reactants num_surfaces
        oriented_count).path =
        { path with
          reactant3 := surf_class.mol_type
          orientation3 := if surf_class.orient_set ≠ 0 then surf_class.orient else 0 } ∧
      (extract_surface path surf_class memory num_reactants num_surfaces
        oriented_count).num_reactants = num_reactants + 1 ∧
      (extract_surface path surf_class memory num_reactants num_surfaces
        oriented_count).num_surfaces = num_surfaces + 1) ∧
    ((memory num_reactants ≤ 0 ∨ 3 ≤ memory num_reactants) →
      (extract_surface path surf_class memory num_reactants num_surfaces
        oriented_count).status = MCELL_STATUS.MCELL_FAIL ∧
      (extract_surface path surf_class memory num_reactants num_surfaces
        oriented_count).path = path) ∧
    (extract_surface (sample_pathway2 0 0 0)
      { mol_type := some (sample_surface 9 "S"), orient_set := 1, orient := 1 }
      (sample_memory [1, 0, 0]) 1 2 3).status = MCELL_STATUS.MCELL_SUCCESS ∧
    (extract_surface (sample_pathway2 0 0 0)
      { mol_type := some (sample_surface 9 "S"), orient_set := 1, orient := 1 }
      (sample_memory [1, 0, 0]) 1 2 3).memory 1 = 1 ∧
    (extract_surface (sample_pathway2 0 0 0)
      { mol_type := some (sample_surface 9 "S"), orient_set := 1, orient := 1 }
      (sample_memory [1, 0, 0]) 1 2 3).memory 2 = 0 ∧
    (extract_surface (sample_pathway2 0 0 0)
      { mol_type := some (sample_surface 9 "S"), orient_set := 1, orient := 1 }
      (sample_memory [1, 0, 0]) 1 2 3).memory 3 = 0 := by
  refine ⟨?_, ?_, ?_, ?_, by decide, by decide, by decide, by decide⟩
  · unfold extract_surface
    simp only
    split_ifs <;> rfl
  · intro h
    have h0 : ¬ memory num_reactants = 0 := by omega
    unfold extract_surface
    simp only [if_neg h0, if_pos h]
    exact ⟨trivial, trivial, trivial, trivial⟩
  · intro h
    have h0 : ¬ memory num_reactants = 0 := by omega
    have h1 : ¬ memory num_reactants = 1 := by omega
    unfold extract_surface
    simp only [if_neg h0, if_neg h1, if_pos h]
    exact ⟨trivial, trivial, trivial, trivial⟩
  · intro h
    have h1 : ¬ memory num_reactants = 1 := by omega
    have h2 : ¬ memory num_reactants = 2 := by omega
    unfold extract_surface
    by_cases c0 : memory num_reactants = 0
    · simp only [if_pos c0]
      exact ⟨trivial, trivial⟩
    · simp only [if_neg c0, if_neg h1, if_neg h2]
      exact ⟨trivial, trivial⟩

/-- C33: for a valid pointer `all_3d`, whatever it points to, `extract_products`
fails on every list that holds a product which is not a surface class and has an
orientation set, and succeeds on every list of products that are free molecules
without an orientation: the test `all_3d == 0` compares the pointer. -/
theorem extract_products_ignores_all_3d (memory : Nat → Int) (bidirectional all_3d : Nat)
    (hp : all_3d ≠ 0) (products : List species_opt_orient) (path : pathway)
    (num_surf_products : Nat) :
    ((∃ cp ∈ products, ∃ s : species, cp.mol_type = some s ∧ s.flags &&& IS_SURFACE = 0 ∧
        cp.orient_set ≠ 0) →
      (extract_products memory bidirectional all_3d products path num_surf_products).status =
        MCELL_STATUS.MCELL_FAIL) ∧
    ((∀ cp ∈ products, ∀ s : species, cp.mol_type = some s →
        s.flags &&& IS_SURFACE = 0 ∧ s.flags &&& NOT_FREE = 0 ∧ cp.orient_set = 0) →
      (extract_products memory bidirectional all_3d products path num_surf_products).status =
        MCELL_STATUS.MCELL_SUCCESS) := by
  induction products generalizing path num_surf_products with
  | nil =>
    refine ⟨?_, fun _ => rfl⟩
    rintro ⟨cp, hcp, _⟩
    exact absurd hcp (List.not_mem_nil _)
  | cons c rest ih =>
    refine ⟨?_, ?_⟩
    · rintro ⟨cp, hcp, s, hs, hsurf, hset⟩
      unfold extract_products
      cases hc : c.mol_type with
      | none =>
        simp only
        rcases List.mem_cons.1 hcp with he | hr
        · rw [he, hc] at hs
          exact Option.noConfusion hs
        · exact (ih path num_surf_products).1 ⟨cp, hr, s, hs, hsurf, hset⟩
      | some t =>
        simp only
        by_cases a1 : memory bidirectional = 0 ∧ t.flags &&& IS_SURFACE ≠ 0
        · rw [if_pos a1]
        · rw [if_neg a1]
          by_cases a2 : t.flags &&& IS_SURFACE = 0
          · rw [if_pos a2, if_neg (fun h => hp h.1)]
            by_cases a4 : t.flags &&& NOT_FREE ≠ 0
            · rw [if_pos a4]
            · rw [if_neg a4]
              by_cases a5 : c.orient_set ≠ 0
              · rw [if_pos a5]
              · rw [if_neg a5]
                rcases List.mem_cons.1 hcp with he | hr
                · rw [he] at hset
                  exact absurd hset a5
                · exact (ih _ _).1 ⟨cp, hr, s, hs, hsurf, hset⟩
          · rw [if_neg a2]
            rcases List.mem_cons.1 hcp with he | hr
            · rw [he, hc] at hs
              rw [← Option.some.inj hs] at hsurf
              exact absurd hsurf a2
            · exact (ih _ _).1 ⟨cp, hr, s, hs, hsurf, hset⟩
    · intro hall
      have hrest : ∀ cp ∈ rest, ∀ s : species, cp.mol_type = some s →
          s.flags &&& IS_SURFACE = 0 ∧ s.flags &&& NOT_FREE = 0 ∧ cp.orient_set = 0 :=
        fun cp hcp => hall cp (List.mem_cons_of_mem _ hcp)
      unfold extract_products
      cases hc : c.mol_type with
      | none =>
        simp only
        exact (ih path num_surf_products).2 hrest
      | some t =>
        obtain ⟨b1, b2, b3⟩ := hall c (List.mem_cons_self _ _) t hc
        simp only
        rw [if_neg (fun h => h.2 b1), if_pos b1, if_neg (fun h => hp h.1),
          if_neg (not_not.2 b2), if_neg (not_not.2 b3)]
        exact (ih _ _).2 hrest

/-- Witness for C33: with `*bidirectional = 0` and `*all_3d = 0` at the addresses
1 and 2, the volume molecule `A` as a product with the orientation 1 makes
`extract_products` fail. -/
theorem extract_products_ignores_all_3d_witness :
    sample_memory [0, 0] 2 = 0 ∧
    (extract_products (sample_memory [0, 0]) 1 2
      [{ mol_type := some (sample_molecule 1 "A"), orient_set := 1, orient := 1 }]
      (sample_pathway2 0 0 0) 3).status = MCELL_STATUS.MCELL_FAIL :=
  ⟨by decide,
    (extract_products_ignores_all_3d (sample_memory [0, 0]) 1 2 (by decide)
      [{ mol_type := some (sample_molecule 1 "A"), orient_set := 1, orient := 1 }]
      (sample_pathway2 0 0 0) 3).1
      ⟨_, List.mem_cons_self _ _, sample_molecule 1 "A", rfl, by decide, by decide⟩⟩

/-- C34: `grid_space_available_for_surface_products` fails exactly when the
vacancy search distance is 0, there are more surface products than grid
molecules, and the case is not that of one volume molecule and no grid molecule
giving one surface product; in every other case it succeeds. -/
theorem grid_space_available_for_surface_products_iff (vacancy_search_dist2 : ℚ)
    (num_grid_mols num_vol_mols num_surf_products : Int) :
    (grid_space_available_for_surface_products vacancy_search_dist2 num_grid_mols
        num_vol_mols num_surf_products = MCELL_STATUS.MCELL_FAIL ↔
      (vacancy_search_dist2 = 0 ∧ num_surf_products > num_grid_mols ∧
        ¬ (num_grid_mols = 0 ∧ num_vol_mols = 1 ∧ num_surf_products = 1))) ∧
    (¬ (vacancy_search_dist2 = 0 ∧ num_surf_products > num_grid_mols ∧
        ¬ (num_grid_mols = 0 ∧ num_vol_mols = 1 ∧ num_surf_products = 1)) →
      grid_space_available_for_surface_products vacancy_search_dist2 num_grid_mols
        num_vol_mols num_surf_products = MCELL_STATUS.MCELL_SUCCESS) := by
  unfold grid_space_available_for_surface_products
  refine ⟨?_, ?_⟩
  · split_ifs with h1 h2
    · exact ⟨fun h => h.elim, fun h => absurd h2 h.2.2⟩
    · exact ⟨fun _ => ⟨h1.1, h1.2, h2⟩, fun _ => rfl⟩
    · exact ⟨fun h => h.elim, fun h => absurd ⟨h.1, h.2.1⟩ h1⟩
  · intro h
    split_ifs with h1 h2
    · rfl
    · exact absurd ⟨h1.1, h1.2, h2⟩ h
    · rfl

/-! ## The folding loop of `finalize_reaction` -/

/-- The folding loop of `finalize_reaction` keeps the length of `cum_probs`. -/
theorem finalize_reaction_fold_length :
    ∀ (l : List t_func) (cum_probs : List ℚ),
      (finalize_reaction_fold l cum_probs).2.length = cum_probs.length := by
  intro l
  induction l with
  | nil => intro cum_probs; rfl
  | cons tp rest ih =>
    intro cum_probs
    unfold finalize_reaction_fold
    split_ifs
    · rw [ih]
    · rw [ih, List.length_set]
    · rfl

/-- C31: for a list `prob_t` in ascending order of time, the folding loop of
`finalize_reaction` leaves exactly the entries with a time above 0, in their
order; and a cell `k` of `cum_probs` ends with the value of the last entry for the
path `k` with a time of at most 0, and is unchanged when there is none. -/
theorem finalize_reaction_fold_sorted (l : List t_func) (cum_probs : List ℚ)
    (hsorted : l.Pairwise (fun a b => a.time ≤ b.time)) :
    (finalize_reaction_fold l cum_probs).1 = l.filter (fun e => decide (0 < e.time)) ∧
    (∀ e ∈ (finalize_reaction_fold l cum_probs).1, 0 < e.time) ∧
    (finalize_reaction_fold l cum_probs).2.length = cum_probs.length ∧
    (∀ k : Nat, k < cum_probs.length →
      (finalize_reaction_fold l cum_probs).2.getD k 0 =
        match (l.filter (fun e => decide (e.time ≤ 0 ∧ e.path = (k : Int)))).getLast? with
        | some e => e.value
        | none => cum_probs.getD k 0) := by
  have key : ∀ (l : List t_func) (cum_probs : List ℚ),
      l.Pairwise (fun a b => a.time ≤ b.time) →
      (finalize_reaction_fold l cum_probs).1 = l.filter (fun e => decide (0 < e.time)) ∧
      (∀ k : Nat, k < cum_probs.length →
        (finalize_reaction_fold l cum_probs).2.getD k 0 =
          match (l.filter (fun e => decide (e.time ≤ 0 ∧ e.path = (k : Int)))).getLast? with
          | some e => e.value
          | none => cum_probs.getD k 0) := by
    intro l
    induction l with
    | nil =>
      intro cum_probs _
      exact ⟨rfl, fun k _ => rfl⟩
    | cons tp rest ih =>
      intro cum_probs hs
      obtain ⟨hhead, htail⟩ := List.pairwise_cons.1 hs
      by_cases ht : tp.time ≤ 0
      · have hnot : ¬ 0 < tp.time := not_lt.2 ht
        have hfold : finalize_reaction_fold (tp :: rest) cum_probs =
            finalize_reaction_fold rest
              (if tp.path < 0 then cum_probs else cum_probs.set tp.path.toNat tp.value) := by
          rw [finalize_reaction_fold, if_pos ht]
        rw [hfold]
        obtain ⟨i1, i2⟩ := ih
          (if tp.path < 0 then cum_probs else cum_probs.set tp.path.toNat tp.value) htail
        refine ⟨?_, ?_⟩
        · rw [i1, List.filter_cons_of_neg (by simpa using hnot)]
        · intro k hk
          have hlen : (if tp.path < 0 then cum_probs
              else cum_probs.set tp.path.toNat tp.value).length = cum_probs.length := by
            split_ifs
            · rfl
            · rw [List.length_set]
          rw [i2 k (by rw [hlen]; exact hk)]
          by_cases hpk : tp.path = (k : Int)
          · rw [List.filter_cons_of_pos (by simpa using ⟨ht, hpk⟩)]
            cases hr : (rest.filter
                (fun e => decide (e.time ≤ 0 ∧ e.path = (k : Int)))).getLast? with
            | none =>
              have hnil : rest.filter (fun e => decide (e.time ≤ 0 ∧ e.path = (k : Int))) = [] :=
                List.getLast?_eq_none_iff.1 hr
              rw [hnil]
              simp only [List.getLast?_singleton]
              rw [if_neg (by rw [hpk]; omega), hpk, Int.toNat_ofNat,
                List.getD_eq_getElem?_getD, List.getElem?_set_self hk]
              rfl
            | some e =>
              have hne : rest.filter (fun e => decide (e.time ≤ 0 ∧ e.path = (k : Int))) ≠ [] := by
                intro hnil
                rw [hnil] at hr
                simp at hr
              obtain ⟨b, l2, hbl⟩ := List.exists_cons_of_ne_nil hne
              rw [hbl] at hr
              rw [hbl, List.getLast?_cons_cons, hr]
          · rw [List.filter_cons_of_neg (by simpa using fun _ => hpk)]
            cases hr : (rest.filter
                (fun e => decide (e.time ≤ 0 ∧ e.path = (k : Int)))).getLast? with
            | some e => rfl
            | none =>
              simp only
              split_ifs with hneg
              · rfl
              · rw [List.getD_eq_getElem?_getD, List.getD_eq_getElem?_getD,
                  List.getElem?_set_ne]
                intro he
                apply hpk
                rw [← he]
                exact (Int.toNat_of_nonneg (not_lt.1 hneg)).symm
      · have hpos : 0 < tp.time := not_le.1 ht
        have hfold : finalize_reaction_fold (tp :: rest) cum_probs = (tp :: rest, cum_probs) := by
          rw [finalize_reaction_fold, if_neg ht]
        rw [hfold]
        have hall : ∀ e ∈ rest, 0 < e.time := fun e he => lt_of_lt_of_le hpos (hhead e he)
        refine ⟨?_, ?_⟩
        · rw [List.filter_cons_of_pos (by simpa using hpos)]
          show tp :: rest = _
          rw [List.filter_eq_self.2 (fun e he => decide_eq_true (hall e he))]
        · intro k _
          have hnil : (tp :: rest).filter (fun e => decide (e.time ≤ 0 ∧ e.path = (k : Int))) =
              [] := by
            rw [List.filter_eq_nil_iff]
            intro e he
            have hpe : 0 < e.time := by
              rcases List.mem_cons.1 he with h1 | h1
              · rw [h1]; exact hpos
              · exact hall e h1
            simp only [decide_eq_true_eq, not_and]
            intro hle
            exact absurd hle (not_le.2 hpe)
          rw [hnil]
          rfl
  obtain ⟨k1, k2⟩ := key l cum_probs hsorted
  refine ⟨k1, ?_, finalize_reaction_fold_length l cum_probs, k2⟩
  intro e he
  rw [k1] at he
  simpa using (List.mem_filter.1 he).2

/-- Witness for C31: the entries (-1, 1/10, path 0), (0, 1/5, path 0) and
(1, 1/2, path 1) on `cum_probs = [0, 0]`: the last entry stays and cell 0 gets
1/5. -/
theorem finalize_reaction_fold_sorted_witness :
    (finalize_reaction_fold [⟨-1, 1 / 10, 0⟩, ⟨0, 1 / 5, 0⟩, ⟨1, 1 / 2, 1⟩] [0, 0]).1 =
      [⟨1, 1 / 2, 1⟩] ∧
    (finalize_reaction_fold [⟨-1, 1 / 10, 0⟩, ⟨0, 1 / 5, 0⟩, ⟨1, 1 / 2, 1⟩] [0, 0]).2.getD 0 0 =
      1 / 5 := by
  have h := finalize_reaction_fold_sorted [⟨-1, 1 / 10, 0⟩, ⟨0, 1 / 5, 0⟩, ⟨1, 1 / 2, 1⟩] [0, 0]
    (by norm_num [List.pairwise_cons])
  refine ⟨?_, ?_⟩
  · rw [h.1]
    norm_num [List.filter]
  · rw [h.2.2.2 0 (by simp)]
    norm_num [List.filter]

/-! ## `equivalent_geometry` for two identical reactants -/

/-- On the same orientations twice, the branch of `equivalent_geometry` for two
identical reactants returns 1. -/
theorem equivalent_geometry_identical_refl (a b c : Int) :
    equivalent_geometry_identical a b c a b c = 1 := by
  unfold equivalent_geometry_identical SHRT_MIN
  simp only
  split_ifs <;> omega

set_option maxHeartbeats 4000000 in
/-- The branch of `equivalent_geometry` for two identical reactants returns 1
exactly when the two pathways have the same class. -/
theorem equivalent_geometry_identical_eq (a b c x y z : Int) :
    equivalent_geometry_identical a b c x y z =
      if identical_class a b c = identical_class x y z then 1 else 0 := by
  unfold equivalent_geometry_identical identical_class SHRT_MIN
  by_cases h1 : c_abs a = c_abs b ∧ c_abs a = c_abs c
  · simp only [if_pos h1]
    split_ifs <;> omega
  · simp only [if_neg h1]
    by_cases h2 : c_abs a = c_abs c ∨ c_abs b = c_abs c
    · simp only [if_pos h2]
      split_ifs <;> omega
    · simp only [if_neg h2]
      by_cases h3 : c_abs a = c_abs b ∧ c_abs a ≠ c_abs c
      · simp only [if_pos h3]
        split_ifs <;> omega
      · simp only [if_neg h3]
        split_ifs <;> omega

/-- The class of a pathway with two identical reactants does not change when the
orientations of the two identical reactants are exchanged. -/
theorem identical_class_swap (a b c : Int) : identical_class b a c = identical_class a b c := by
  unfold identical_class
  split_ifs <;> omega

/-- C39: for three reactants of which the first two are the same species in both
pathways, and equal `is_complex` arrays, `equivalent_geometry` returns 1 on a
pathway and itself, returns the same value when its two pathways are exchanged,
and returns the same value when the orientations of the two identical reactants
are exchanged in the first or in the second pathway. -/
theorem equivalent_geometry_identical_relation (p1 p2 : pathway)
    (h1 : p1.reactant1 = p1.reactant2) (h2 : p2.reactant1 = p2.reactant2)
    (hc : memcmp_is_complex p1 p2 = 0) :
    equivalent_geometry p1 p1 3 = 1 ∧
    equivalent_geometry p2 p2 3 = 1 ∧
    equivalent_geometry p1 p2 3 = equivalent_geometry p2 p1 3 ∧
    equivalent_geometry
        { p1 with orientation1 := p1.orientation2, orientation2 := p1.orientation1 } p2 3 =
      equivalent_geometry p1 p2 3 ∧
    equivalent_geometry p1
        { p2 with orientation1 := p2.orientation2, orientation2 := p2.orientation1 } 3 =
      equivalent_geometry p1 p2 3 := by
  have hself : ∀ p : pathway, memcmp_is_complex p p = 0 := by
    intro p
    unfold memcmp_is_complex
    rw [if_pos ⟨rfl, rfl, rfl⟩]
  have hcs : memcmp_is_complex p2 p1 = 0 := by
    unfold memcmp_is_complex at hc ⊢
    split_ifs at hc with h
    · rw [if_pos ⟨h.1.symm, h.2.1.symm, h.2.2.symm⟩]
    · exact absurd hc (by decide)
  have hval : ∀ q1 q2 : pathway, memcmp_is_complex q1 q2 = 0 → q1.reactant1 = q1.reactant2 →
      q2.reactant1 = q2.reactant2 →
      equivalent_geometry q1 q2 3 =
        equivalent_geometry_identical q1.orientation1 q1.orientation2 q1.orientation3
          q2.orientation1 q2.orientation2 q2.orientation3 := by
    intro q1 q2 hm hq1 hq2
    unfold equivalent_geometry
    rw [if_neg (by rw [hm]; decide), if_neg (by decide), if_neg (by decide), if_pos (by decide),
      if_pos ⟨hq1, hq2⟩]
  refine ⟨?_, ?_, ?_, ?_, ?_⟩
  · rw [hval p1 p1 (hself p1) h1 h1]
    exact equivalent_geometry_identical_refl _ _ _
  · rw [hval p2 p2 (hself p2) h2 h2]
    exact equivalent_geometry_identical_refl _ _ _
  · rw [hval p1 p2 hc h1 h2, hval p2 p1 hcs h2 h1, equivalent_geometry_identical_eq,
      equivalent_geometry_identical_eq]
    by_cases he : identical_class p1.orientation1 p1.orientation2 p1.orientation3 =
        identical_class p2.orientation1 p2.orientation2 p2.orientation3
    · rw [if_pos he, if_pos he.symm]
    · rw [if_neg he, if_neg (fun h => he h.symm)]
  · rw [hval { p1 with orientation1 := p1.orientation2, orientation2 := p1.orientation1 } p2
      hc h1 h2, hval p1 p2 hc h1 h2]
    simp only
    rw [equivalent_geometry_identical_eq, equivalent_geometry_identical_eq,
      identical_class_swap]
  · rw [hval p1 { p2 with orientation1 := p2.orientation2, orientation2 := p2.orientation1 }
      hc h1 h2, hval p1 p2 hc h1 h2]
    simp only
    rw [equivalent_geometry_identical_eq, equivalent_geometry_identical_eq,
      identical_class_swap p2.orientation1 p2.orientation2 p2.orientation3]

/-- Witness for C39 on the pathways `A' + A, @ S'` and `A, + A' @ S'`. -/
theorem equivalent_geometry_identical_relation_witness :
    equivalent_geometry
        (sample_pathway3 (sample_molecule 1 "A") (sample_molecule 1 "A") (sample_surface 9 "S")
          1 (-1) 1)
        (sample_pathway3 (sample_molecule 1 "A") (sample_molecule 1 "A") (sample_surface 9 "S")
          1 (-1) 1) 3 = 1 ∧
    equivalent_geometry
        (sample_pathway3 (sample_molecule 1 "A") (sample_molecule 1 "A") (sample_surface 9 "S")
          1 (-1) 1)
        (sample_pathway3 (sample_molecule 1 "A") (sample_molecule 1 "A") (sample_surface 9 "S")
          (-1) 1 1) 3 =
      equivalent_geometry
        (sample_pathway3 (sample_molecule 1 "A") (sample_molecule 1 "A") (sample_surface 9 "S")
          (-1) 1 1)
        (sample_pathway3 (sample_molecule 1 "A") (sample_molecule 1 "A") (sample_surface 9 "S")
          1 (-1) 1) 3 :=
  have h := equivalent_geometry_identical_relation
    (sample_pathway3 (sample_molecule 1 "A") (sample_molecule 1 "A") (sample_surface 9 "S")
      1 (-1) 1)
    (sample_pathway3 (sample_molecule 1 "A") (sample_molecule 1 "A") (sample_surface 9 "S")
      (-1) 1 1) rfl rfl (by decide)
  ⟨h.1, h.2.2.1⟩

/-! ## `split_reaction` as a partition -/

/-- Attaching a pathway to one of the reaction sets built so far keeps what holds
of every set (`n_pathways` counts the pathways, there is a pathway, `n_reactants`
and `sym` are those of `rx`) and adds the pathway to the pathways of the sets. -/
theorem split_reaction_place_spec (rx : rxn) (to_place : pathway) :
    ∀ l l1 : List rxn, split_reaction_place to_place l = some l1 →
      (∀ r ∈ l, r.n_pathways = (r.pathway_head.length : Int) ∧ r.pathway_head ≠ [] ∧
        r.n_reactants = rx.n_reactants ∧ r.sym = rx.sym) →
      (∀ r ∈ l1, r.n_pathways = (r.pathway_head.length : Int) ∧ r.pathway_head ≠ [] ∧
        r.n_reactants = rx.n_reactants ∧ r.sym = rx.sym) ∧
      List.Perm (l1.flatMap (fun r => r.pathway_head))
        (to_place :: l.flatMap (fun r => r.pathway_head)) := by
  intro l
  induction l with
  | nil =>
    intro l1 h _
    simp [split_reaction_place] at h
  | cons curr rest ih =>
    intro l1 h hgood
    have hrest : ∀ r ∈ rest, r.n_pathways = (r.pathway_head.length : Int) ∧
        r.pathway_head ≠ [] ∧ r.n_reactants = rx.n_reactants ∧ r.sym = rx.sym :=
      fun r hr => hgood r (List.mem_cons_of_mem _ hr)
    have hcurr := hgood curr (List.mem_cons_self _ _)
    -- the case where the search goes on behind `curr`
    have hskip : ∀ l1 : List rxn,
        (split_reaction_place to_place rest).map (fun l => curr :: l) = some l1 →
        (∀ r ∈ l1, r.n_pathways = (r.pathway_head.length : Int) ∧ r.pathway_head ≠ [] ∧
          r.n_reactants = rx.n_reactants ∧ r.sym = rx.sym) ∧
        List.Perm (l1.flatMap (fun r => r.pathway_head))
          (to_place :: (curr :: rest).flatMap (fun r => r.pathway_head)) := by
      intro l1 h
      cases hp : split_reaction_place to_place rest with
      | none => rw [hp] at h; simp at h
      | some l2 =>
        rw [hp] at h
        simp only [Option.map_some', Option.some.injEq] at h
        obtain ⟨g1, g2⟩ := ih l2 hp hrest
        rw [← h]
        refine ⟨?_, ?_⟩
        · intro r hr
          rcases List.mem_cons.1 hr with he | hm
          · rw [he]; exact hcurr
          · exact g1 r hm
        · simp only [List.flatMap_cons]
          exact (List.Perm.append_left _ g2).trans List.perm_middle
    unfold split_reaction_place at h
    cases hph : curr.pathway_head with
    | nil => exact absurd hph hcurr.2.1
    | cons head tail =>
      rw [hph] at h
      simp only at h
      split_ifs at h with c1 c2
      · exact hskip l1 h
      · simp only [Option.some.injEq] at h
        rw [← h]
        refine ⟨?_, ?_⟩
        · intro r hr
          rcases List.mem_cons.1 hr with he | hm
          · rw [he]
            refine ⟨?_, by simp, hcurr.2.2.1, hcurr.2.2.2⟩
            simp only [List.length_cons]
            rw [hcurr.1, hph]
            simp
          · exact hrest r hm
        · simp only [List.flatMap_cons, hph, List.cons_append]
          exact List.Perm.refl _
      · exact hskip l1 h

/-- The loop of `split_reaction` keeps what holds of every set and puts every
pathway still to place into the sets. -/
theorem split_reaction_loop_spec (rx : rxn) :
    ∀ (paths : List pathway) (rxns : List rxn),
      (∀ r ∈ rxns, r.n_pathways = (r.pathway_head.length : Int) ∧ r.pathway_head ≠ [] ∧
        r.n_reactants = rx.n_reactants ∧ r.sym = rx.sym) →
      (∀ r ∈ split_reaction_loop rx paths rxns,
        r.n_pathways = (r.pathway_head.length : Int) ∧ r.pathway_head ≠ [] ∧
        r.n_reactants = rx.n_reactants ∧ r.sym = rx.sym) ∧
      List.Perm ((split_reaction_loop rx paths rxns).flatMap (fun r => r.pathway_head))
        (rxns.flatMap (fun r => r.pathway_head) ++ paths) := by
  intro paths
  induction paths with
  | nil =>
    intro rxns hgood
    simp only [split_reaction_loop, List.append_nil]
    exact ⟨hgood, List.Perm.refl _⟩
  | cons to_place rest ih =>
    intro rxns hgood
    -- a new set for `to_place`
    have hnew : ∀ r ∈ rxns ++ [{ create_sibling_reaction rx with
          pathway_head := [to_place]
          n_pathways := (create_sibling_reaction rx).n_pathways + 1 }],
        r.n_pathways = (r.pathway_head.length : Int) ∧ r.pathway_head ≠ [] ∧
          r.n_reactants = rx.n_reactants ∧ r.sym = rx.sym := by
      intro r hr
      rcases List.mem_append.1 hr with h1 | h1
      · exact hgood r h1
      · rw [List.mem_singleton.1 h1]
        exact ⟨rfl, by simp, rfl, rfl⟩
    have hperm : List.Perm
        ((rxns ++ [{ create_sibling_reaction rx with
          pathway_head := [to_place]
          n_pathways := (create_sibling_reaction rx).n_pathways + 1 }]).flatMap
            (fun r => r.pathway_head) ++ rest)
        (rxns.flatMap (fun r => r.pathway_head) ++ to_place :: rest) := by
      simp [List.flatMap_append]
    unfold split_reaction_loop
    split_ifs with c1
    · obtain ⟨g1, g2⟩ := ih _ hnew
      exact ⟨g1, g2.trans hperm⟩
    · cases hp : split_reaction_place to_place rxns with
      | none =>
        simp only
        obtain ⟨g1, g2⟩ := ih _ hnew
        exact ⟨g1, g2.trans hperm⟩
      | some rxns1 =>
        simp only
        obtain ⟨p1, p2⟩ := split_reaction_place_spec rx to_place rxns rxns1 hp hgood
        obtain ⟨g1, g2⟩ := ih rxns1 p1
        refine ⟨g1, g2.trans ?_⟩
        exact (List.Perm.append_right _ p2).trans (by
          simp only [List.cons_append]
          exact List.perm_middle.symm)

/-- The sum of the pathway counts of sets whose counts are right is the number of
their pathways. -/
theorem sum_n_pathways (l : List rxn)
    (h : ∀ r ∈ l, r.n_pathways = (r.pathway_head.length : Int)) :
    (l.map (fun r => r.n_pathways)).sum =
      ((l.flatMap (fun r => r.pathway_head)).length : Int) := by
  induction l with
  | nil => rfl
  | cons r rest ih =>
    simp only [List.map_cons, List.sum_cons, List.flatMap_cons, List.length_append]
    rw [ih (fun q hq => h q (List.mem_cons_of_mem _ hq)), h r (List.mem_cons_self _ _)]
    push_cast
    rfl

/-- C40: for a reaction with at least one pathway, `split_reaction` returns a
list of reaction sets whose pathways, taken together, are the pathways of the
input, each as often as in the input; every set holds at least one pathway, its
`n_pathways` is the length of its pathway list, and its `n_reactants` and `sym`
are those of the input; and the values of `n_pathways` sum to the number of
pathways of the input. -/
theorem split_reaction_partition (rx : rxn) (h : rx.pathway_head ≠ []) :
    ∃ l : List rxn, split_reaction rx = some l ∧
      List.Perm (l.flatMap (fun r => r.pathway_head)) rx.pathway_head ∧
      (∀ r ∈ l, r.n_pathways = (r.pathway_head.length : Int) ∧ r.pathway_head ≠ [] ∧
        r.n_reactants = rx.n_reactants ∧ r.sym = rx.sym) ∧
      (l.map (fun r => r.n_pathways)).sum = (rx.pathway_head.length : Int) := by
  cases hph : rx.pathway_head with
  | nil => exact absurd hph h
  | cons first to_place =>
    obtain ⟨g1, g2⟩ := split_reaction_loop_spec rx to_place
      [{ rx with pathway_head := [first], n_pathways := 1 }]
      (by
        intro r hr
        rw [List.mem_singleton.1 hr]
        exact ⟨rfl, by simp, rfl, rfl⟩)
    refine ⟨split_reaction_loop rx to_place
      [{ rx with pathway_head := [first], n_pathways := 1 }], ?_, ?_, g1, ?_⟩
    · unfold split_reaction
      rw [hph]
    · simpa using g2
    · rw [sum_n_pathways _ (fun r hr => (g1 r hr).1), g2.length_eq]
      simp

/-- Witness for C40 on a reaction with the pathways `A' + B'` and `A' + B,`, which
end in two sets. -/
theorem split_reaction_partition_witness :
    ∃ l : List rxn,
      split_reaction
        { n_reactants := 2, n_pathways := 2
          pathway_head := [sample_pathway2 1 1 0, sample_pathway2 1 (-1) 0], sym := 5 } =
        some l ∧
      List.Perm (l.flatMap (fun r => r.pathway_head))
        [sample_pathway2 1 1 0, sample_pathway2 1 (-1) 0] ∧
      (l.map (fun r => r.n_pathways)).sum = 2 := by
  obtain ⟨l, h1, h2, _, h4⟩ := split_reaction_partition
    { n_reactants := 2, n_pathways := 2
      pathway_head := [sample_pathway2 1 1 0, sample_pathway2 1 (-1) 0], sym := 5 } (by simp)
  exact ⟨l, h1, h2, h4⟩

/-! ## Selection among several reactions -/

/-- The loop that fills `rxp` writes one cell per reaction. -/
theorem test_many_intersect_rxp_length (scaling : ℚ) :
    ∀ (rx : List rxn_probs) (prev : ℚ),
      (test_many_intersect_rxp scaling rx prev).length = rx.length := by
  intro rx
  induction rx with
  | nil => intro prev; rfl
  | cons r rest ih =>
    intro prev
    simp only [test_many_intersect_rxp, List.length_cons, ih]

/-- The array `rxp` of `test_many_intersect` is filled as by the loop started
behind a cell with the value 0. -/
theorem test_many_intersect_array_eq (rx : List rxn_probs) (scaling : ℚ) :
    test_many_intersect_array rx scaling = test_many_intersect_rxp scaling rx 0 := by
  cases rx with
  | nil => rfl
  | cons r rest => simp only [test_many_intersect_array, test_many_intersect_rxp, zero_add]

/-- Every cell of `rxp` is the cell before it plus `max_fixed_p / scaling` of its
reaction. -/
theorem test_many_intersect_rxp_step (scaling : ℚ) :
    ∀ (rx : List rxn_probs) (prev : ℚ) (i : Nat), i < rx.length →
      (test_many_intersect_rxp scaling rx prev).getD i 0 =
        (if i = 0 then prev else (test_many_intersect_rxp scaling rx prev).getD (i - 1) 0) +
          (rx.map (fun r => r.max_fixed_p)).getD i 0 / scaling := by
  intro rx
  induction rx with
  | nil => intro prev i hi; simp at hi
  | cons r rest ih =>
    intro prev i hi
    cases i with
    | zero => simp [test_many_intersect_rxp]
    | succ i =>
      have hi2 : i < rest.length := by simpa using hi
      have := ih (prev + r.max_fixed_p / scaling) i hi2
      simp only [test_many_intersect_rxp, List.getD_cons_succ, List.map_cons, Nat.add_sub_cancel]
      rw [this]
      cases i with
      | zero => simp
      | succ i => simp

/-- The last cell of `rxp` is the first value plus the sum of `max_fixed_p` over
the reactions, divided by `scaling`. -/
theorem test_many_intersect_rxp_last (scaling : ℚ) :
    ∀ (rx : List rxn_probs) (prev : ℚ), rx ≠ [] →
      (test_many_intersect_rxp scaling rx prev).getD (rx.length - 1) 0 =
        prev + (rx.map (fun r => r.max_fixed_p)).sum / scaling := by
  intro rx
  induction rx with
  | nil => intro prev h; exact absurd rfl h
  | cons r rest ih =>
    intro prev _
    cases rest with
    | nil => simp [test_many_intersect_rxp]
    | cons r2 rest2 =>
      have := ih (prev + r.max_fixed_p / scaling) (by simp)
      simp only [List.length_cons, Nat.add_sub_cancel] at this ⊢
      simp only [test_many_intersect_rxp, List.getD_cons_succ] at this ⊢
      rw [this]
      simp only [List.map_cons, List.sum_cons]
      ring

/-- The end of `test_many_intersect` returns an index into the array of
reactions, leaves the reactions and the generator as they are, and stores a
pathway index of the reaction it returns. -/
theorem test_many_intersect_pick_spec (rx : List rxn_probs) (rxp : List ℚ) (scaling p : ℚ)
    (rng : rng_state) (hn : 1 ≤ rx.length) :
    ∃ res : many_selection, test_many_intersect_pick rx rxp scaling p rng = some res ∧
      res.rx = rx ∧ res.rng = rng ∧
      res.outcome = binary_search_double rxp p ((rx.length : Int) - 1) 1 ∧
      0 ≤ res.outcome ∧ res.outcome < (rx.length : Int) ∧
      ∀ my_rx : rxn_probs, rx[res.outcome.toNat]? = some my_rx → 1 ≤ my_rx.n_pathways →
        0 ≤ res.chosen_pathway ∧ res.chosen_pathway ≤ my_rx.n_pathways - 1 := by
  obtain ⟨b1, b2⟩ := binary_search_double_range rxp p 1 ((rx.length : Int) - 1) (by omega)
  obtain ⟨i, hi⟩ : ∃ i : Int, i = binary_search_double rxp p ((rx.length : Int) - 1) 1 :=
    ⟨_, rfl⟩
  rw [← hi] at b1 b2
  have hlt : i.toNat < rx.length := by omega
  obtain ⟨my_rx, hmy⟩ : ∃ my_rx, rx[i.toNat]? = some my_rx :=
    ⟨rx[i.toNat], List.getElem?_eq_getElem hlt⟩
  unfold test_many_intersect_pick
  simp only
  rw [← hi, if_neg (by omega), hmy]
  refine ⟨_, rfl, rfl, rfl, rfl, b1, (by show i < (rx.length : Int); omega), ?_⟩
  intro r hr hp
  simp only at hr ⊢
  rw [hmy] at hr
  obtain rfl : my_rx = r := Option.some.inj hr
  exact binary_search_double_range _ _ _ _ (by omega)

/-- C35: with one reaction in the array, `test_many_intersect` returns what
`test_intersect` returns and leaves `*chosen_pathway` as it was.  For the reaction
with `cum_probs = [0.3, 0.6]`, `scaling = 1` and the draws 0.5 and 0.9 it returns
1, the index of the pathway, which is no index into the array of one reaction,
and the cell `*chosen_pathway`, -7 at the call, still holds -7.  For a reaction
whose `n_pathways` is `RX_TRANSP` it returns `RX_TRANSP`. -/
theorem test_many_intersect_single_returns_pathway :
    (∀ (r : rxn_probs) (scaling : ℚ) (chosen_pathway : Int) (rng : rng_state),
      (test_many_intersect [r] scaling chosen_pathway rng).map (fun s => s.outcome) =
        some (test_intersect r scaling rng).outcome ∧
      (test_many_intersect [r] scaling chosen_pathway rng).map (fun s => s.chosen_pathway) =
        some chosen_pathway) ∧
    (test_many_intersect [sample_rxn_probs [3 / 10, 3 / 5] []] 1 (-7)
      (sample_rng [1 / 2, 9 / 10])).map (fun s => s.outcome) = some 1 ∧
    (test_many_intersect [sample_rxn_probs [3 / 10, 3 / 5] []] 1 (-7)
      (sample_rng [1 / 2, 9 / 10])).map (fun s => s.chosen_pathway) = some (-7) ∧
    (test_many_intersect [{ sample_rxn_probs [] [] with n_pathways := RX_TRANSP }] 1 (-7)
      (sample_rng [1 / 2, 9 / 10])).map (fun s => s.outcome) = some RX_TRANSP := by
  refine ⟨fun r scaling chosen_pathway rng => ⟨rfl, rfl⟩, ?_, rfl, ?_⟩
  · simp only [test_many_intersect, Option.map_some', Option.some.injEq]
    norm_num [test_intersect, test_intersect_pick, sample_rxn_probs, sample_rng, rng_dbl,
      RX_SPECIAL, array_get, binary_search_double, binary_search_double_loop]
  · simp only [test_many_intersect, Option.map_some', Option.some.injEq]
    simp [test_intersect, RX_SPECIAL, RX_TRANSP, sample_rxn_probs]

/-- With two or more reactions in the array, `test_many_intersect` returns
`RX_NO_RX`, leaving `*chosen_pathway` as it was, or an index into the array, in
which case `*chosen_pathway` holds a pathway index of that reaction. -/
theorem test_many_intersect_several (rx : List rxn_probs) (scaling : ℚ) (chosen_pathway : Int)
    (rng : rng_state) (hn : 2 ≤ rx.length) :
    ∃ res : many_selection, test_many_intersect rx scaling chosen_pathway rng = some res ∧
      res.rx.length = rx.length ∧
      ((res.outcome = RX_NO_RX ∧ res.chosen_pathway = chosen_pathway) ∨
        (0 ≤ res.outcome ∧ res.outcome < (rx.length : Int) ∧
          ∀ my_rx : rxn_probs, rx[res.outcome.toNat]? = some my_rx → 1 ≤ my_rx.n_pathways →
            0 ≤ res.chosen_pathway ∧ res.chosen_pathway ≤ my_rx.n_pathways - 1)) := by
  obtain ⟨r0, r1, rest, rfl⟩ : ∃ r0 r1 rest, rx = r0 :: r1 :: rest := by
    match rx, hn with
    | r0 :: r1 :: rest, _ => exact ⟨r0, r1, rest, rfl⟩
  simp only [test_many_intersect]
  split_ifs with h1 h2
  · obtain ⟨res, e1, e2, e3, e4, e5, e6, e7⟩ := test_many_intersect_pick_spec
      ((r0 :: r1 :: rest).map (fun r =>
        { r with
          n_skipped :=
            r.n_skipped +
              (array_get (test_many_intersect_array (r0 :: r1 :: rest) scaling)
                (((r0 :: r1 :: rest).length : Int) - 1) - 1) *
                array_get r.cum_probs (r.n_pathways - 1) /
              array_get (test_many_intersect_array (r0 :: r1 :: rest) scaling)
                (((r0 :: r1 :: rest).length : Int) - 1) }))
      (test_many_intersect_array (r0 :: r1 :: rest) scaling) scaling
      ((rng_dbl rng).1 * array_get (test_many_intersect_array (r0 :: r1 :: rest) scaling)
        (((r0 :: r1 :: rest).length : Int) - 1)) (rng_dbl rng).2 (by simp)
    simp only [List.length_map] at e4 e6
    refine ⟨res, e1, by rw [e2, List.length_map], Or.inr ⟨e5, e6, ?_⟩⟩
    intro my_rx hmy hp
    refine e7 { my_rx with
      n_skipped :=
        my_rx.n_skipped +
          (array_get (test_many_intersect_array (r0 :: r1 :: rest) scaling)
            (((r0 :: r1 :: rest).length : Int) - 1) - 1) *
            array_get my_rx.cum_probs (my_rx.n_pathways - 1) /
          array_get (test_many_intersect_array (r0 :: r1 :: rest) scaling)
            (((r0 :: r1 :: rest).length : Int) - 1) } ?_ hp
    rw [List.getElem?_map, hmy]
    rfl
  · exact ⟨_, rfl, rfl, Or.inl ⟨rfl, rfl⟩⟩
  · obtain ⟨res, e1, e2, e3, e4, e5, e6, e7⟩ := test_many_intersect_pick_spec
      (r0 :: r1 :: rest) (test_many_intersect_array (r0 :: r1 :: rest) scaling) scaling
      (rng_dbl rng).1 (rng_dbl rng).2 (by simp)
    exact ⟨res, e1, by rw [e2], Or.inr ⟨e5, e6, e7⟩⟩

/-- The sum of a list after a pointwise change. -/
theorem sum_map_add (l : List rxn_probs) (f g : rxn_probs → ℚ) :
    (l.map (fun r => f r + g r)).sum = (l.map f).sum + (l.map g).sum := by
  induction l with
  | nil => simp
  | cons r rest ih =>
    simp only [List.map_cons, List.sum_cons, ih]
    ring

/-- The sum of a list whose entries are scaled. -/
theorem sum_map_scaled (l : List rxn_probs) (f : rxn_probs → ℚ) (c d : ℚ) :
    (l.map (fun r => c * f r / d)).sum = c * (l.map f).sum / d := by
  induction l with
  | nil => simp
  | cons r rest ih =>
    simp only [List.map_cons, List.sum_cons, ih]
    ring

/-- C36: for two or more reactions with `max_fixed_p = cum_probs[n_pathways - 1]`
and `scaling > 0`, `test_many_intersect` returns a result; when `rxp[n-1] > 1` it
adds to the `n_skipped` of reaction `i` the value
`(rxp[n-1] - 1) * cum_probs[last] / rxp[n-1]`, which is `scaling` times the share
`(rxp[n-1] - 1) * (rxp[i] - rxp[i-1]) / rxp[n-1]`, so that the increments sum to
`scaling * (rxp[n-1] - 1)`; and when `rxp[n-1] ≤ 1` the reactions are left as they
are. -/
theorem test_many_intersect_n_skipped (rx : List rxn_probs) (scaling : ℚ)
    (chosen_pathway : Int) (rng : rng_state) (hn : 2 ≤ rx.length) (hs : 0 < scaling)
    (hfix : ∀ r ∈ rx, r.max_fixed_p = array_get r.cum_probs (r.n_pathways - 1)) :
    ∃ res : many_selection, test_many_intersect rx scaling chosen_pathway rng = some res ∧
      (array_get (test_many_intersect_array rx scaling) ((rx.length : Int) - 1) > 1 →
        res.rx.length = rx.length ∧
        (∀ i : Nat, i < rx.length →
          (res.rx.map (fun r => r.n_skipped)).getD i 0 =
            (rx.map (fun r => r.n_skipped)).getD i 0 +
              scaling * skipped_share (test_many_intersect_array rx scaling) (i : Int)) ∧
        (res.rx.map (fun r => r.n_skipped)).sum - (rx.map (fun r => r.n_skipped)).sum =
          scaling *
            (array_get (test_many_intersect_array rx scaling) ((rx.length : Int) - 1) - 1)) ∧
      (array_get (test_many_intersect_array rx scaling) ((rx.length : Int) - 1) ≤ 1 →
        res.rx = rx) := by
  obtain ⟨r0, r1, rest, hrx⟩ : ∃ r0 r1 rest, rx = r0 :: r1 :: rest := by
    match rx, hn with
    | r0 :: r1 :: rest, _ => exact ⟨r0, r1, rest, rfl⟩
  have hne : rx ≠ [] := by rw [hrx]; simp
  have hlenA : (test_many_intersect_array rx scaling).length = rx.length := by
    rw [test_many_intersect_array_eq, test_many_intersect_rxp_length]
  obtain ⟨last, hlast⟩ : ∃ last : ℚ,
      last = array_get (test_many_intersect_array rx scaling) ((rx.length : Int) - 1) :=
    ⟨_, rfl⟩
  have hlast_sum : last = (rx.map (fun r => r.max_fixed_p)).sum / scaling := by
    rw [hlast, test_many_intersect_array_eq]
    unfold array_get
    rw [if_neg (by omega)]
    have e : ((rx.length : Int) - 1).toNat = rx.length - 1 := by omega
    rw [e, test_many_intersect_rxp_last scaling rx 0 hne, zero_add]
  have hshare : ∀ i : Nat, i < rx.length →
      pathway_prob (test_many_intersect_array rx scaling) (i : Int) =
        (rx.map (fun r => r.max_fixed_p)).getD i 0 / scaling := by
    intro i hi
    have hstep := test_many_intersect_rxp_step scaling rx 0 i hi
    rw [test_many_intersect_array_eq]
    unfold pathway_prob array_get
    cases i with
    | zero =>
      simp only [CharP.cast_eq_zero, if_true, lt_self_iff_false, if_false, Int.toNat_zero]
      rw [hstep]
      simp
    | succ i =>
      have e1 : ¬ ((i + 1 : Nat) : Int) = 0 := by omega
      have e2 : ¬ ((i + 1 : Nat) : Int) < 0 := by omega
      have e3 : ¬ ((i + 1 : Nat) : Int) - 1 < 0 := by omega
      have e4 : (((i + 1 : Nat) : Int) - 1).toNat = i := by omega
      have e5 : (((i + 1 : Nat) : Int)).toNat = i + 1 := by omega
      rw [if_neg e1, if_neg e2, if_neg e3, e4, e5, hstep]
      simp
  obtain ⟨res, e1, e2, e3⟩ := test_many_intersect_several rx scaling chosen_pathway rng hn
  refine ⟨res, e1, ?_, ?_⟩
  · intro hgt
    rw [← hlast] at hgt
    have hl0 : last ≠ 0 := by
      intro h0
      rw [h0] at hgt
      exact absurd hgt (by norm_num)
    -- the reactions after the call
    have hres : res.rx = rx.map (fun r =>
        { r with
          n_skipped :=
            r.n_skipped + (last - 1) * array_get r.cum_probs (r.n_pathways - 1) / last }) := by
      rw [hrx] at e1 hlast
      simp only [test_many_intersect] at e1
      rw [← hlast, if_pos hgt] at e1
      obtain ⟨res2, f1, f2, _⟩ := test_many_intersect_pick_spec
        ((r0 :: r1 :: rest).map (fun r =>
          { r with
            n_skipped :=
              r.n_skipped + (last - 1) * array_get r.cum_probs (r.n_pathways - 1) / last }))
        (test_many_intersect_array (r0 :: r1 :: rest) scaling) scaling
        ((rng_dbl rng).1 * last) (rng_dbl rng).2 (by simp)
      rw [f1] at e1
      rw [← Option.some.inj e1, f2, hrx]
    have hskip : res.rx.map (fun r => r.n_skipped) =
        rx.map (fun r => r.n_skipped + (last - 1) * r.max_fixed_p / last) := by
      rw [hres, List.map_map]
      apply List.map_congr_left
      intro r hr
      simp only [Function.comp]
      rw [hfix r hr]
    refine ⟨e2, ?_, ?_⟩
    · intro i hi
      rw [hskip]
      unfold skipped_share
      rw [hlenA, ← hlast, hshare i hi]
      rw [List.getD_eq_getElem?_getD, List.getD_eq_getElem?_getD, List.getD_eq_getElem?_getD,
        List.getElem?_map, List.getElem?_map, List.getElem?_map,
        List.getElem?_eq_getElem hi]
      simp only [Option.map_some', Option.getD_some]
      field_simp
      ring
    · have hS : (rx.map (fun r => r.max_fixed_p)).sum = last * scaling := by
        rw [hlast_sum]
        field_simp
      rw [← hlast, hskip, sum_map_add, sum_map_scaled, hS]
      field_simp
      ring
  · intro hle
    rw [← hlast] at hle
    rw [hrx] at e1 hlast
    simp only [test_many_intersect] at e1
    rw [← hlast, if_neg (not_lt.2 hle)] at e1
    split_ifs at e1 with h2
    · rw [← Option.some.inj e1, hrx]
    · obtain ⟨res2, f1, f2, _⟩ := test_many_intersect_pick_spec
        (r0 :: r1 :: rest) (test_many_intersect_array (r0 :: r1 :: rest) scaling) scaling
        (rng_dbl rng).1 (rng_dbl rng).2 (by simp)
      rw [f1] at e1
      rw [← Option.some.inj e1, f2, hrx]

/-- Witness for C36 on two reactions with `cum_probs = [3]` and `scaling = 2`, where
`rxp = [1.5, 3]`: the `n_skipped` of the first reaction grows by 2, twice its
share 1 of the 2 failed reactions. -/
theorem test_many_intersect_n_skipped_witness :
    ∃ res : many_selection,
      test_many_intersect [sample_rxn_probs [3] [], sample_rxn_probs [3] []] 2 0
        (sample_rng [1 / 2]) = some res ∧
      (res.rx.map (fun r => r.n_skipped)).getD 0 0 = 2 ∧
      skipped_share (test_many_intersect_array
        [sample_rxn_probs [3] [], sample_rxn_probs [3] []] 2) 0 = 1 ∧
      (res.rx.map (fun r => r.n_skipped)).sum = 4 ∧
      array_get (test_many_intersect_array
        [sample_rxn_probs [3] [], sample_rxn_probs [3] []] 2) 1 - 1 = 2 := by
  obtain ⟨res, h1, h2, _⟩ := test_many_intersect_n_skipped
    [sample_rxn_probs [3] [], sample_rxn_probs [3] []] 2 0 (sample_rng [1 / 2])
    (by simp) (by norm_num)
    (by
      intro r hr
      simp only [List.mem_cons, List.mem_singleton, List.not_mem_nil, or_false, or_self] at hr
      rw [hr]
      rfl)
  have hlast : array_get (test_many_intersect_array
      [sample_rxn_probs [3] [], sample_rxn_probs [3] []] 2) 1 = 3 := by
    norm_num [test_many_intersect_array, test_many_intersect_rxp, sample_rxn_probs, array_get]
  have hshare : skipped_share (test_many_intersect_array
      [sample_rxn_probs [3] [], sample_rxn_probs [3] []] 2) 0 = 1 := by
    norm_num [skipped_share, pathway_prob, test_many_intersect_array, test_many_intersect_rxp,
      sample_rxn_probs, array_get]
  obtain ⟨_, g2, g3⟩ := h2 (by
    show array_get _ 1 > 1
    rw [hlast]
    norm_num)
  refine ⟨res, h1, ?_, hshare, ?_, by rw [hlast]; norm_num⟩
  · have := g2 0 (by simp)
    rw [this]
    simp only [CharP.cast_eq_zero]
    rw [hshare]
    norm_num [sample_rxn_probs]
  · have e : array_get (test_many_intersect_array
        [sample_rxn_probs [3] [], sample_rxn_probs [3] []] 2)
        (([sample_rxn_probs [3] [], sample_rxn_probs [3] []].length : Int) - 1) = 3 := hlast
    rw [e] at g3
    have hz : ([sample_rxn_probs [3] [], sample_rxn_probs [3] []].map
        (fun r => r.n_skipped)).sum = 0 := by
      norm_num [sample_rxn_probs]
    rw [hz] at g3
    linarith

/-- In the loop over the cooperative pathways, `timeof_unimolecular` adds what
`test_many_unimol` adds, and the rate of pathway 0 as well when that pathway and
all pathways behind it are cooperative. -/
theorem timeof_unimolecular_loop_eq (lookup : Nat → abstract_molecule → ℚ → ℚ)
    (rx : rxn_probs) (rates : List (Option Nat)) (a : abstract_molecule) :
    ∀ (n : Nat) (k : ℚ),
      timeof_unimolecular_loop lookup rx rates a (n + 1) k =
        if ∀ i : Nat, 1 ≤ i → i ≤ n → rates.getD i none ≠ none then
          match rates.getD 0 none with
          | none => test_many_unimol_loop lookup rx rates a (n + 1) k
          | some r => test_many_unimol_loop lookup rx rates a (n + 1) k + lookup r a rx.pb_factor
        else test_many_unimol_loop lookup rx rates a (n + 1) k := by
  have ht : ∀ (m : Nat) (k : ℚ), timeof_unimolecular_loop lookup rx rates a (m + 1) k =
      match rates.getD m none with
      | none => k
      | some r => timeof_unimolecular_loop lookup rx rates a m (k + lookup r a rx.pb_factor) :=
    fun _ _ => rfl
  have hm : ∀ (m : Nat) (k : ℚ), test_many_unimol_loop lookup rx rates a (m + 2) k =
      match rates.getD (m + 1) none with
      | none => k
      | some r => test_many_unimol_loop lookup rx rates a (m + 1) (k + lookup r a rx.pb_factor) :=
    fun _ _ => rfl
  intro n
  induction n with
  | zero =>
    intro k
    rw [if_pos (by intro i h1 h2; omega), ht 0 k]
    cases rates.getD 0 none <;> rfl
  | succ n ih =>
    intro k
    rw [ht (n + 1) k, hm n k]
    cases hr : rates.getD (n + 1) none with
    | none =>
      simp only
      rw [if_neg]
      intro hall
      exact hall (n + 1) (by omega) (le_refl _) hr
    | some r =>
      simp only
      rw [ih]
      have hiff : (∀ i : Nat, 1 ≤ i → i ≤ n + 1 → rates.getD i none ≠ none) ↔
          (∀ i : Nat, 1 ≤ i → i ≤ n → rates.getD i none ≠ none) := by
        constructor
        · intro h i h1 h2
          exact h i h1 (by omega)
        · intro h i h1 h2
          by_cases he : i = n + 1
          · rw [he, hr]
            exact Option.noConfusion
          · exact h i h1 (by omega)
      by_cases hc : ∀ i : Nat, 1 ≤ i → i ≤ n → rates.getD i none ≠ none
      · rw [if_pos hc, if_pos (hiff.2 hc)]
      · rw [if_neg hc, if_neg (fun h => hc (hiff.1 h))]

/-- C38: for the reaction with one pathway, which is cooperative, a lookup that
gives the rate 1/2 and two such reactions in the array, `timeof_unimolecular`
computes `k_tot = 1/2` and `test_many_unimol` gives each reaction the weight 0:
its loop `--path_idx != 0` stops before pathway 0, the loop `path_idx-- != 0` of
`timeof_unimolecular` does not.  For a reaction whose pathways are all
cooperative the two differ by the rate of pathway 0. -/
theorem test_many_unimol_skips_pathway_zero :
    timeof_unimolecular_k_tot (fun _ _ _ => 1 / 2) sample_cooperative sample_subunit = 1 / 2 ∧
    test_many_unimol_weight (fun _ _ _ => 1 / 2) [sample_cooperative, sample_cooperative]
      sample_subunit 0 = 0 ∧
    test_many_unimol_weight (fun _ _ _ => 1 / 2) [sample_cooperative, sample_cooperative]
      sample_subunit 1 = 0 ∧
    (∀ (lookup : Nat → abstract_molecule → ℚ → ℚ) (rx : rxn_probs) (rates : List (Option Nat))
        (a : abstract_molecule) (r0 : Nat),
      rx.rates = some rates → 1 ≤ rx.n_pathways → rates.getD 0 none = some r0 →
      (∀ i : Nat, 1 ≤ i → (i : Int) < rx.n_pathways → rates.getD i none ≠ none) →
      timeof_unimolecular_k_tot lookup rx a =
        test_many_unimol_cell lookup rx a rx.max_fixed_p + lookup r0 a rx.pb_factor) := by
  refine ⟨?_, ?_, ?_, ?_⟩
  · norm_num [timeof_unimolecular_k_tot, timeof_unimolecular_loop, sample_cooperative]
  · norm_num [test_many_unimol_weight, pathway_prob, test_many_unimol_array,
      test_many_unimol_rxp, test_many_unimol_cell, test_many_unimol_loop, sample_cooperative,
      array_get]
  · norm_num [test_many_unimol_weight, pathway_prob, test_many_unimol_array,
      test_many_unimol_rxp, test_many_unimol_cell, test_many_unimol_loop, sample_cooperative,
      array_get]
  · intro lookup rx rates a r0 hrates hn h0 hall
    obtain ⟨m, hm⟩ : ∃ m : Nat, rx.n_pathways.toNat = m + 1 := ⟨rx.n_pathways.toNat - 1, by omega⟩
    unfold timeof_unimolecular_k_tot test_many_unimol_cell
    rw [hrates]
    simp only
    rw [hm, timeof_unimolecular_loop_eq, if_pos, h0]
    intro i h1 h2
    exact hall i h1 (by omega)

/-- With the scaling 0 and a positive local probability factor, `test_bimolecular`
on a reaction without cooperative rates whose probabilities are not negative adds
`GIGANTIC` to `n_skipped` and always returns a pathway. -/
theorem test_bimolecular_unscaled (lookup : Nat → abstract_molecule → ℚ → ℚ)
    (rx : rxn_probs) (local_prob_factor : ℚ) (a1 a2 : Option abstract_molecule)
    (rng : rng_state) (hrates : rx.rates = none) (hl : 0 < local_prob_factor)
    (hmin : 0 ≤ rx.min_noreaction_p)
    (hmax : 0 ≤ array_get rx.cum_probs (rx.n_pathways - 1)) :
    test_bimolecular lookup rx 0 local_prob_factor a1 a2 rng =
      { outcome :=
          binary_search_double rx.cum_probs
            ((rng_dbl rng).1 *
              (array_get rx.cum_probs (rx.n_pathways - 1) * local_prob_factor))
            (rx.n_pathways - 1) local_prob_factor
        rx := { rx with n_skipped := rx.n_skipped + GIGANTIC }
        rng := (rng_dbl rng).2 } := by
  have hl2 : local_prob_factor > 0 := hl
  have h1 : ¬ rx.min_noreaction_p * local_prob_factor < 0 :=
    not_lt.2 (mul_nonneg hmin hl.le)
  have h2 : array_get rx.cum_probs (rx.n_pathways - 1) * local_prob_factor ≥ 0 :=
    mul_nonneg hmax hl.le
  unfold test_bimolecular
  simp only [hrates, hl2, if_true, test_bimolecular_pick, h1, if_false, h2]

/-- C37: with one reaction in the array and `all_neighbors_flag = 0`,
`test_many_bimolecular` returns what `test_bimolecular` returns for the scaling 0
and the local probability factor `scaling[0]`.  For the reaction with
`cum_probs = [0.5]`, `scaling[0] = 1` and the draw 0.75 it returns pathway 0 and
adds `GIGANTIC` to `n_skipped`, whereas `test_bimolecular` with the scaling 1 and
the local probability factor 0 returns `RX_NO_RX` and leaves `n_skipped` at 0. -/
theorem test_many_bimolecular_single_swaps_arguments :
    (∀ (lookup : Nat → abstract_molecule → ℚ → ℚ) (r : rxn_probs) (s local_prob_factor : ℚ)
        (chosen_pathway : Int) (complexes : List (Option abstract_molecule)) (rng : rng_state),
      (test_many_bimolecular lookup [r] [s] local_prob_factor chosen_pathway complexes rng
          0).map (fun x => x.outcome) =
        some (test_bimolecular lookup r 0 s (complexes.getD 0 none) none rng).outcome ∧
      (test_many_bimolecular lookup [r] [s] local_prob_factor chosen_pathway complexes rng
          0).map (fun x => x.rx) =
        some [(test_bimolecular lookup r 0 s (complexes.getD 0 none) none rng).rx]) ∧
    (test_many_bimolecular sample_lookup [sample_rxn_probs [1 / 2] []] [1] 0 0 [none]
      (sample_rng [3 / 4]) 0).map (fun x => x.outcome) = some 0 ∧
    (test_many_bimolecular sample_lookup [sample_rxn_probs [1 / 2] []] [1] 0 0 [none]
      (sample_rng [3 / 4]) 0).map (fun x => x.rx.map (fun r => r.n_skipped)) =
      some [GIGANTIC] ∧
    (test_bimolecular sample_lookup (sample_rxn_probs [1 / 2] []) 1 0 none none
      (sample_rng [3 / 4])).outcome = RX_NO_RX ∧
    (test_bimolecular sample_lookup (sample_rxn_probs [1 / 2] []) 1 0 none none
      (sample_rng [3 / 4])).rx.n_skipped = 0 := by
  have hgen : ∀ (lookup : Nat → abstract_molecule → ℚ → ℚ) (r : rxn_probs)
      (s local_prob_factor : ℚ) (chosen_pathway : Int)
      (complexes : List (Option abstract_molecule)) (rng : rng_state),
      test_many_bimolecular lookup [r] [s] local_prob_factor chosen_pathway complexes rng 0 =
        some
          { outcome := (test_bimolecular lookup r 0 s (complexes.getD 0 none) none rng).outcome
            rx := [(test_bimolecular lookup r 0 s (complexes.getD 0 none) none rng).rx]
            chosen_pathway := chosen_pathway
            rng := (test_bimolecular lookup r 0 s (complexes.getD 0 none) none rng).rng } := by
    intro lookup r s local_prob_factor chosen_pathway complexes rng
    have hs : array_get [s] 0 = s := by simp [array_get]
    unfold test_many_bimolecular
    rw [if_neg (fun h => h.1 rfl)]
    simp only [ne_eq, not_true_eq_false, if_false, hs]
  have hcall := test_bimolecular_unscaled sample_lookup (sample_rxn_probs [1 / 2] []) 1 none
    none (sample_rng [3 / 4]) rfl (by norm_num) (by norm_num [sample_rxn_probs, array_get])
    (by norm_num [sample_rxn_probs, array_get])
  have hcode : (test_bimolecular sample_lookup (sample_rxn_probs [1 / 2] []) 0 1 none none
      (sample_rng [3 / 4])).outcome = 0 ∧
      (test_bimolecular sample_lookup (sample_rxn_probs [1 / 2] []) 0 1 none none
        (sample_rng [3 / 4])).rx.n_skipped = GIGANTIC := by
    rw [hcall]
    refine ⟨?_, ?_⟩
    · norm_num [sample_rxn_probs, sample_rng, rng_dbl, array_get, binary_search_double,
        binary_search_double_loop]
    · simp [sample_rxn_probs]
  refine ⟨?_, ?_, ?_, ?_, ?_⟩
  · intro lookup r s local_prob_factor chosen_pathway complexes rng
    rw [hgen]
    exact ⟨rfl, rfl⟩
  · rw [hgen]
    simp only [Option.map_some', List.getD_cons_zero]
    rw [hcode.1]
  · rw [hgen]
    simp only [Option.map_some', List.getD_cons_zero, List.map_cons, List.map_nil]
    rw [hcode.2]
  · rw [test_bimolecular_fixed _ _ _ _ _ _ _ rfl (le_refl _)]
    norm_num [sample_rxn_probs, sample_rng, rng_dbl, array_get, RX_NO_RX]
  · rw [test_bimolecular_fixed _ _ _ _ _ _ _ rfl (le_refl _)]
    norm_num [sample_rxn_probs, sample_rng, rng_dbl, array_get]

/-- With two or more reactions whose `max_fixed_p` is not negative, `scaling > 0`
and a draw of at most 1, an index returned by `test_many_intersect` is the
smallest index whose cell of `rxp` is not below `p`, the draw (multiplied by
`rxp[n-1]` when that is above 1). -/
theorem test_many_intersect_smallest (rx : List rxn_probs) (scaling : ℚ)
    (chosen_pathway : Int) (rng : rng_state) (hn : 2 ≤ rx.length) (hs : 0 < scaling)
    (hpos : ∀ r ∈ rx, 0 ≤ r.max_fixed_p) (hU : (rng_dbl rng).1 ≤ 1)
    (res : many_selection) (hres : test_many_intersect rx scaling chosen_pathway rng = some res)
    (hrx : res.outcome ≠ RX_NO_RX) :
    ∃ p : ℚ,
      p = (if array_get (test_many_intersect_array rx scaling) ((rx.length : Int) - 1) > 1 then
            (rng_dbl rng).1 *
              array_get (test_many_intersect_array rx scaling) ((rx.length : Int) - 1)
          else (rng_dbl rng).1) ∧
      p ≤ array_get (test_many_intersect_array rx scaling) res.outcome ∧
      ∀ j : Int, 0 ≤ j → j < res.outcome →
        array_get (test_many_intersect_array rx scaling) j < p := by
  obtain ⟨r0, r1, rest, hrxe⟩ : ∃ r0 r1 rest, rx = r0 :: r1 :: rest := by
    match rx, hn with
    | r0 :: r1 :: rest, _ => exact ⟨r0, r1, rest, rfl⟩
  have hmono : ∀ i j : Int, 0 ≤ i → i ≤ j → j ≤ (rx.length : Int) - 1 →
      array_get (test_many_intersect_array rx scaling) i ≤
        array_get (test_many_intersect_array rx scaling) j := by
    intro i j hi hij hj
    refine array_get_mono_of_adjacent _ (rx.length : Int) ?_ i j hi hij (by omega)
    intro k hk0 hk1
    have hstep := test_many_intersect_rxp_step scaling rx 0 (k.toNat + 1) (by omega)
    rw [test_many_intersect_array_eq]
    unfold array_get
    have e1 : (k + 1).toNat = k.toNat + 1 := by omega
    rw [if_neg (by omega), if_neg (by omega), e1, hstep, if_neg (by omega), Nat.add_sub_cancel]
    have hnn : 0 ≤ (rx.map (fun r => r.max_fixed_p)).getD (k.toNat + 1) 0 / scaling := by
      apply div_nonneg _ hs.le
      rw [List.getD_eq_getElem?_getD, List.getElem?_map]
      cases hg : rx[k.toNat + 1]? with
      | none => simp
      | some r =>
        simp only [Option.map_some', Option.getD_some]
        exact hpos r (List.mem_iff_getElem?.2 ⟨_, hg⟩)
    linarith
  obtain ⟨last, hlast⟩ : ∃ last : ℚ,
      last = array_get (test_many_intersect_array rx scaling) ((rx.length : Int) - 1) :=
    ⟨_, rfl⟩
  rw [← hlast]
  have hres2 := hres
  rw [hrxe] at hres2 hlast
  simp only [test_many_intersect] at hres2
  rw [← hlast] at hres2
  rw [← hrxe] at hres2
  by_cases h1 : last > 1
  · rw [if_pos h1] at hres2 ⊢
    obtain ⟨res2, f1, _, _, f4, _⟩ := test_many_intersect_pick_spec
      (rx.map (fun r =>
        { r with
          n_skipped :=
            r.n_skipped + (last - 1) * array_get r.cum_probs (r.n_pathways - 1) / last }))
      (test_many_intersect_array rx scaling) scaling
      ((rng_dbl rng).1 * last) (rng_dbl rng).2 (by rw [List.length_map]; omega)
    rw [f1] at hres2
    rw [← Option.some.inj hres2, f4, List.length_map]
    obtain ⟨_, _, c3, c4⟩ := binary_search_double_one (test_many_intersect_array rx scaling)
      ((rng_dbl rng).1 * last) ((rx.length : Int) - 1) (by omega) hmono
      (by
        rw [hrxe, ← hlast]
        have : 0 ≤ last := by linarith
        nlinarith)
    exact ⟨_, rfl, c3, c4⟩
  · rw [if_neg h1] at hres2 ⊢
    by_cases h2 : (rng_dbl rng).1 > last
    · rw [if_pos h2] at hres2
      rw [← Option.some.inj hres2] at hrx
      exact absurd rfl hrx
    · rw [if_neg h2] at hres2
      obtain ⟨res2, f1, _, _, f4, _⟩ := test_many_intersect_pick_spec rx
        (test_many_intersect_array rx scaling) scaling (rng_dbl rng).1 (rng_dbl rng).2
        (by omega)
      rw [f1] at hres2
      rw [← Option.some.inj hres2, f4]
      obtain ⟨_, _, c3, c4⟩ := binary_search_double_one (test_many_intersect_array rx scaling)
        (rng_dbl rng).1 ((rx.length : Int) - 1) (by omega) hmono
        (by rw [hrxe, ← hlast]; exact not_lt.1 h2)
      exact ⟨_, rfl, c3, c4⟩

end MCell
